import Mathlib

/-!
# Gated data association (multi_object_tracker): embedding and properties

Shallow embedding of `data_association.cpp` (class `DataAssociation` and the helper
functions of its anonymous namespace), of the functions `isOnRight` and `concatParentIds` of
the avoidance module (`utils.cpp`), and of the struct `Buffer` of the path selector
(`node.hpp`).

Two embeddings of `data_association.cpp`

* The first embedding computes in exact arithmetic: a C++ `double` is a rational number and
  every value is finite. Decimal literals of the source (`0.01`, `3.035`, `1e-2`, the `M_PI`
  literal of `<math.h>`) denote the decimal they spell. Where the C++ execution leaves that
  domain the embedding stops with a `Fault`: `Fault.outOfRange` for a coefficient access
  outside the bounds of an Eigen matrix (undefined behaviour in C++), `Fault.divByZero` for
  a division by zero (which in C++ yields an infinity or a NaN). A `Fault` is not an error
  the C++ code reports: it marks the inputs on which the embedding says nothing.
* The second embedding (namespace `Binary64`) computes with the values of IEEE 754 binary64
  (`Double`): finite numbers, signed zeros, infinities and NaN, every operation rounded to
  nearest, ties to even; a literal of the source denotes the `double` nearest to the decimal
  it spells. No arithmetic operation stops it; a comparison with NaN is false. It stops
  only at a coefficient access outside the bounds of an Eigen matrix, or when a `while`
  loop is still running after the number of tests of its condition that the caller allows
  (`fuel`), and the loops of `getFormedYawAngle` are shown to end within three tests. The
  properties that depend on rounding or on NaN are stated over this embedding.

Conventions of both

* `std::unordered_map<int, int>` is the list of its entries in iteration order.
* Functions of other packages (`calcDistance2d`, `get2dIoU`, `std::sqrt`, `normalizeRadian`)
  are parameters, collected in `Externals`; the solver behind `gnn_solver_ptr_` is a
  parameter of type `GnnSolverInterface`, and where its result matters it enters through
  its contract `IsMaxAssignment`. The body of the solver `MuSSP` is not part of the sources:
  `muSSP` models it from section 4.3 of the specification, and meets that contract. -/

namespace Autoware

/-! ## Faults, Eigen matrices, maps -/

/-- Executions that the exact-arithmetic embedding does not follow. -/
inductive Fault where
  /-- Coefficient access outside the bounds of a matrix. -/
  | outOfRange
  /-- Division by zero: the `double` result is not a finite number. -/
  | divByZero
  deriving DecidableEq, Repr

/-- Dynamic-size Eigen matrix (`Eigen::MatrixXd`, `Eigen::MatrixXi`): its two dimensions and
its coefficients. Only coefficients with `i < rows` and `j < cols` belong to the matrix. -/
structure MatrixX (α : Type) where
  rows : Nat
  cols : Nat
  coeffs : Nat → Nat → α

/-- The index pair `(i, j)` is within the bounds of `m`. -/
abbrev MatrixX.InRange {α : Type} (m : MatrixX α) (i j : ℤ) : Prop :=
  0 ≤ i ∧ i < m.rows ∧ 0 ≤ j ∧ j < m.cols

/-- Read access `m(i, j)` with signed indices, as `Eigen::Index`. -/
def MatrixX.coeff {α : Type} (m : MatrixX α) (i j : ℤ) : Except Fault α :=
  if m.InRange i j then .ok (m.coeffs i.toNat j.toNat)
  else .error .outOfRange

/-- Write access `m(i, j) = v`. -/
def MatrixX.assignCoeff {α : Type} (m : MatrixX α) (i j : ℤ) (v : α) :
    Except Fault (MatrixX α) :=
  if m.InRange i j then
    .ok ⟨m.rows, m.cols, fun a b => if a = i.toNat ∧ b = j.toNat then v else m.coeffs a b⟩
  else .error .outOfRange

/-- The matrix `Eigen::MatrixXd::Zero(rows, cols)`. -/
def MatrixX.Zero {α : Type} [Zero α] (rows cols : Nat) : MatrixX α :=
  ⟨rows, cols, fun _ _ => 0⟩

/-- The view `Eigen::Map<Matrix>(v.data(), rows, cols)` of a flat buffer: Eigen's default
storage order is column-major, so coefficient `(i, j)` is `v[i + j * rows]`. The buffer must
hold `rows * cols` elements. -/
def MatrixX.Map {α : Type} [Inhabited α] (v : List α) (rows cols : Nat)
    (_h : rows * cols ≤ v.length) : MatrixX α :=
  ⟨rows, cols, fun i j => v.getD (i + j * rows) default⟩

/-- The transposed matrix `m.transpose()`. -/
def MatrixX.transpose {α : Type} (m : MatrixX α) : MatrixX α :=
  ⟨m.cols, m.rows, fun i j => m.coeffs j i⟩

abbrev MatrixXd := MatrixX ℚ

abbrev MatrixXi := MatrixX ℤ

/-- A `std::unordered_map<int, int>`: its entries `(key, value)` in iteration order. -/
abbrev UnorderedMap := List (ℤ × ℤ)

/-- The abstract solver `gnn_solver::GnnSolverInterface`: `maximizeLinearAssignment` reads the
score table and updates the two maps it is handed. -/
structure GnnSolverInterface where
  maximizeLinearAssignment :
    List (List ℚ) → UnorderedMap → UnorderedMap → UnorderedMap × UnorderedMap

/-! ## The engine: configuration, constructor, `assign` -/

/-- The data members of `class DataAssociation`. -/
structure DataAssociation where
  can_assign_matrix_ : MatrixXi
  max_dist_matrix_ : MatrixXd
  max_area_matrix_ : MatrixXd
  min_area_matrix_ : MatrixXd
  max_rad_matrix_ : MatrixXd
  min_iou_matrix_ : MatrixXd
  score_threshold_ : ℚ
  gnn_solver_ptr_ : GnnSolverInterface

/-- One block of the constructor: `label_num = static_cast<int>(std::sqrt(v.size()))`, then
`Eigen::Map<Matrix>(v.data(), label_num, label_num).transpose()`. -/
def reshapeConfig {α : Type} [Inhabited α] (v : List α) : MatrixX α :=
  (MatrixX.Map v (Nat.sqrt v.length) (Nat.sqrt v.length) (Nat.sqrt_le v.length)).transpose

/-- The constructor `DataAssociation::DataAssociation`; `mussp` is the solver object that
`std::make_unique<gnn_solver::MuSSP>()` creates. -/
def DataAssociation.create (mussp : GnnSolverInterface)
    (can_assign_vector : List ℤ) (max_dist_vector max_area_vector min_area_vector
      max_rad_vector min_iou_vector : List ℚ) : DataAssociation where
  score_threshold_ := 0.01
  can_assign_matrix_ := reshapeConfig can_assign_vector
  max_dist_matrix_ := reshapeConfig max_dist_vector
  max_area_matrix_ := reshapeConfig max_area_vector
  min_area_matrix_ := reshapeConfig min_area_vector
  max_rad_matrix_ := reshapeConfig max_rad_vector
  min_iou_matrix_ := reshapeConfig min_iou_vector
  gnn_solver_ptr_ := mussp

/-- The table `score` that `assign` copies out of `src` (rows `0 .. src.rows()-1`, columns
`0 .. src.cols()-1`; every access is within bounds by the loop conditions). -/
def scoreTable (src : MatrixXd) : List (List ℚ) :=
  (List.range src.rows).map fun row => (List.range src.cols).map fun col => src.coeffs row col

/-- First erase loop of `assign`: walk `direct_assignment` and erase each entry
`(first, second)` with `src(first, second) < score_threshold_`. -/
def eraseDirect (src : MatrixXd) (score_threshold : ℚ) :
    UnorderedMap → Except Fault UnorderedMap
  | [] => .ok []
  | itr :: rest => do
    let s ← src.coeff itr.1 itr.2
    let rest ← eraseDirect src score_threshold rest
    if s < score_threshold then pure rest else pure (itr :: rest)

/-- Second erase loop of `assign`: walk `reverse_assignment` and erase each entry
`(first, second)` with `src(second, first) < score_threshold_`. -/
def eraseReverse (src : MatrixXd) (score_threshold : ℚ) :
    UnorderedMap → Except Fault UnorderedMap
  | [] => .ok []
  | itr :: rest => do
    let s ← src.coeff itr.2 itr.1
    let rest ← eraseReverse src score_threshold rest
    if s < score_threshold then pure rest else pure (itr :: rest)

/-- The method `DataAssociation::assign`: the two maps are in/out arguments; the result is
their final content `(direct_assignment, reverse_assignment)`. -/
def DataAssociation.assign (da : DataAssociation) (src : MatrixXd)
    (direct_assignment reverse_assignment : UnorderedMap) :
    Except Fault (UnorderedMap × UnorderedMap) := do
  let solved := da.gnn_solver_ptr_.maximizeLinearAssignment (scoreTable src)
    direct_assignment reverse_assignment
  let direct ← eraseDirect src da.score_threshold_ solved.1
  let reverse ← eraseReverse src da.score_threshold_ solved.2
  pure (direct, reverse)

/-! ## Messages, trackers and the functions of other packages -/

/-- Message `geometry_msgs::msg::Point`. -/
structure Point where
  x : ℚ
  y : ℚ
  z : ℚ

/-- Message `geometry_msgs::msg::Quaternion`. -/
structure Quaternion where
  x : ℚ
  y : ℚ
  z : ℚ
  w : ℚ

/-- Message `geometry_msgs::msg::Pose`. -/
structure Pose where
  position : Point
  orientation : Quaternion

/-- Message `geometry_msgs::msg::PoseWithCovariance`; `covariance` is a `std::array<double, 36>`. -/
structure PoseWithCovariance where
  pose : Pose
  covariance : Fin 36 → ℚ

/-- Message `autoware_perception_msgs::msg::Shape`. -/
structure Shape where
  type : Nat
  footprint : List Point
  dimensions : Point

/-- Message `autoware_perception_msgs::msg::ObjectClassification`. -/
structure ObjectClassification where
  label : Nat
  probability : ℚ

/-- The fields of `autoware_perception_msgs::msg::DetectedObject` that the engine reads. -/
structure DetectedObject where
  classification : List ObjectClassification
  pose_with_covariance : PoseWithCovariance
  shape : Shape

/-- The fields of `autoware_perception_msgs::msg::TrackedObject` that the engine reads. -/
structure TrackedObject where
  pose_with_covariance : PoseWithCovariance
  shape : Shape

/-- Message `autoware_perception_msgs::msg::DetectedObjects`: the stamp of its header and the
objects. -/
structure DetectedObjects where
  stamp : ℤ
  objects : List DetectedObject

/-- The two methods of the abstract class `Tracker` that the engine calls. -/
structure Tracker where
  getHighestProbLabel : Nat
  getTrackedObject : ℤ → TrackedObject

/-- Functions of other packages that `data_association.cpp` calls. -/
structure Externals where
  /-- The function `autoware::universe_utils::calcDistance2d`. -/
  calcDistance2d : Point → Point → ℚ
  /-- The function `autoware::universe_utils::getArea`. -/
  getArea : Shape → ℚ
  /-- The function `object_recognition_utils::get2dIoU(source, target, min_union_area)`. -/
  get2dIoU : DetectedObject → TrackedObject → ℚ → ℚ
  /-- The function `object_recognition_utils::getHighestProbLabel`. -/
  getHighestProbLabel : List ObjectClassification → Nat
  /-- The function `tf2::getYaw`. -/
  getYaw : Quaternion → ℚ
  /-- The function `autoware::universe_utils::normalizeRadian`. -/
  normalizeRadian : ℚ → ℚ
  /-- The function `std::sqrt`. -/
  sqrt : ℚ → ℚ

/-! ## The anonymous namespace -/

/-- Fixed-size matrix `Eigen::Matrix2d`. -/
structure Matrix2d where
  m00 : ℚ
  m01 : ℚ
  m10 : ℚ
  m11 : ℚ

/-- The inverse `m.inverse()` of a 2 x 2 matrix: the adjugate divided by the determinant. -/
def Matrix2d.inverse (m : Matrix2d) : Except Fault Matrix2d :=
  let det := m.m00 * m.m11 - m.m01 * m.m10
  if det = 0 then .error .divByZero
  else .ok ⟨m.m11 / det, -m.m01 / det, -m.m10 / det, m.m00 / det⟩

/-- The function `getMahalanobisDistance`: `sqrt(d^T * covariance^-1 * d)` for the difference
`d` of the two planar positions. -/
def getMahalanobisDistance (ext : Externals) (measurement tracker : Point)
    (covariance : Matrix2d) : Except Fault ℚ := do
  let d0 := measurement.x - tracker.x
  let d1 := measurement.y - tracker.y
  let inv ← covariance.inverse
  let mahalanobis_squared :=
    (d0 * inv.m00 + d1 * inv.m10) * d0 + (d0 * inv.m01 + d1 * inv.m11) * d1
  pure (ext.sqrt mahalanobis_squared)

/-- The function `getXYCovariance`. -/
def getXYCovariance (pose_covariance : PoseWithCovariance) : Matrix2d :=
  ⟨pose_covariance.covariance 0, pose_covariance.covariance 1,
   pose_covariance.covariance 6, pose_covariance.covariance 7⟩

/-- The literal of the macro `M_PI` in `<math.h>`. -/
def M_PI : ℚ := 3.14159265358979323846

/-- The literal of the macro `M_PI_2` in `<math.h>`. -/
def M_PI_2 : ℚ := 1.57079632679489661923

/-- The local `angle_range` of `getFormedYawAngle`. -/
def angleRange (distinguish_front_or_back : Bool) : ℚ :=
  if distinguish_front_or_back then M_PI else M_PI_2

/-- The local `angle_step` of `getFormedYawAngle`. -/
def angleStep (distinguish_front_or_back : Bool) : ℚ :=
  if distinguish_front_or_back then 2.0 * M_PI else M_PI

/-- First loop of `getFormedYawAngle`:
`while (angle_range <= tracker_yaw - measurement_fixed_yaw) measurement_fixed_yaw += angle_step`. -/
def fixYawUp (dfb : Bool) (tracker_yaw : ℚ) (measurement_fixed_yaw : ℚ) : ℚ :=
  if angleRange dfb ≤ tracker_yaw - measurement_fixed_yaw then
    fixYawUp dfb tracker_yaw (measurement_fixed_yaw + angleStep dfb)
  else measurement_fixed_yaw
termination_by
  (⌊(tracker_yaw - measurement_fixed_yaw - angleRange dfb) / angleStep dfb⌋ + 1).toNat
decreasing_by
  rename_i hle
  have hstep : 0 < angleStep dfb := by
    cases dfb <;> norm_num [angleStep, M_PI]
  have hx : 0 ≤ (tracker_yaw - measurement_fixed_yaw - angleRange dfb) / angleStep dfb :=
    div_nonneg (by linarith) hstep.le
  have hfl : 0 ≤ ⌊(tracker_yaw - measurement_fixed_yaw - angleRange dfb) / angleStep dfb⌋ :=
    Int.floor_nonneg.mpr hx
  have hsub : (tracker_yaw - (measurement_fixed_yaw + angleStep dfb) - angleRange dfb)
      / angleStep dfb
      = (tracker_yaw - measurement_fixed_yaw - angleRange dfb) / angleStep dfb - 1 := by
    field_simp
    ring
  rw [hsub, Int.floor_sub_one]
  omega

/-- Second loop of `getFormedYawAngle`:
`while (angle_range <= measurement_fixed_yaw - tracker_yaw) measurement_fixed_yaw -= angle_step`. -/
def fixYawDown (dfb : Bool) (tracker_yaw : ℚ) (measurement_fixed_yaw : ℚ) : ℚ :=
  if angleRange dfb ≤ measurement_fixed_yaw - tracker_yaw then
    fixYawDown dfb tracker_yaw (measurement_fixed_yaw - angleStep dfb)
  else measurement_fixed_yaw
termination_by
  (⌊(measurement_fixed_yaw - tracker_yaw - angleRange dfb) / angleStep dfb⌋ + 1).toNat
decreasing_by
  rename_i hle
  have hstep : 0 < angleStep dfb := by
    cases dfb <;> norm_num [angleStep, M_PI]
  have hx : 0 ≤ (measurement_fixed_yaw - tracker_yaw - angleRange dfb) / angleStep dfb :=
    div_nonneg (by linarith) hstep.le
  have hfl : 0 ≤ ⌊(measurement_fixed_yaw - tracker_yaw - angleRange dfb) / angleStep dfb⌋ :=
    Int.floor_nonneg.mpr hx
  have hsub : (measurement_fixed_yaw - angleStep dfb - tracker_yaw - angleRange dfb)
      / angleStep dfb
      = (measurement_fixed_yaw - tracker_yaw - angleRange dfb) / angleStep dfb - 1 := by
    field_simp
    ring
  rw [hsub, Int.floor_sub_one]
  omega

/-- The function `getFormedYawAngle`. -/
def getFormedYawAngle (ext : Externals) (measurement_quat tracker_quat : Quaternion)
    (distinguish_front_or_back : Bool) : ℚ :=
  let measurement_yaw := ext.normalizeRadian (ext.getYaw measurement_quat)
  let tracker_yaw := ext.normalizeRadian (ext.getYaw tracker_quat)
  let measurement_fixed_yaw := measurement_yaw
  let measurement_fixed_yaw := fixYawUp distinguish_front_or_back tracker_yaw measurement_fixed_yaw
  let measurement_fixed_yaw :=
    fixYawDown distinguish_front_or_back tracker_yaw measurement_fixed_yaw
  |measurement_fixed_yaw - tracker_yaw|

/-! ## `calcScoreMatrix` -/

/-- The right-hand side of `score = (max_dist - std::min(dist, max_dist)) / max_dist`. -/
def rawScore (max_dist dist : ℚ) : Except Fault ℚ :=
  if max_dist = 0 then .error .divByZero
  else .ok ((max_dist - min dist max_dist) / max_dist)

/-- The block `// dist gate`: the value of `passed_gate` after it. -/
def distGate (max_dist dist : ℚ) (passed_gate : Bool) : Bool :=
  if passed_gate then
    if max_dist < dist then false else passed_gate
  else passed_gate

/-- The block `// area gate`: the value of `passed_gate` after it. -/
def DataAssociation.areaGate (da : DataAssociation) (ext : Externals)
    (tracker_label measurement_label : ℤ) (measurement_object : DetectedObject)
    (passed_gate : Bool) : Except Fault Bool :=
  if passed_gate then do
    let max_area ← da.max_area_matrix_.coeff tracker_label measurement_label
    let min_area ← da.min_area_matrix_.coeff tracker_label measurement_label
    let area := ext.getArea measurement_object.shape
    if area < min_area ∨ max_area < area then pure false else pure passed_gate
  else pure passed_gate

/-- The block `// angle gate`: the value of `passed_gate` after it. -/
def DataAssociation.angleGate (da : DataAssociation) (ext : Externals)
    (tracker_label measurement_label : ℤ) (measurement_object : DetectedObject)
    (tracked_object : TrackedObject) (passed_gate : Bool) : Except Fault Bool :=
  if passed_gate then do
    let max_rad ← da.max_rad_matrix_.coeff tracker_label measurement_label
    let angle := getFormedYawAngle ext
      measurement_object.pose_with_covariance.pose.orientation
      tracked_object.pose_with_covariance.pose.orientation false
    if |max_rad| < M_PI ∧ |max_rad| < |angle| then pure false else pure passed_gate
  else pure passed_gate

/-- The block `// mahalanobis dist gate`: the value of `passed_gate` after it. -/
def mahalanobisGate (ext : Externals) (measurement_object : DetectedObject)
    (tracked_object : TrackedObject) (passed_gate : Bool) : Except Fault Bool :=
  if passed_gate then do
    let mahalanobis_dist ← getMahalanobisDistance ext
      measurement_object.pose_with_covariance.pose.position
      tracked_object.pose_with_covariance.pose.position
      (getXYCovariance tracked_object.pose_with_covariance)
    if 3.035 ≤ mahalanobis_dist then pure false else pure passed_gate
  else pure passed_gate

/-- The block `// 2d iou gate`: the value of `passed_gate` after it. -/
def DataAssociation.iouGate (da : DataAssociation) (ext : Externals)
    (tracker_label measurement_label : ℤ) (measurement_object : DetectedObject)
    (tracked_object : TrackedObject) (passed_gate : Bool) : Except Fault Bool :=
  if passed_gate then do
    let min_iou ← da.min_iou_matrix_.coeff tracker_label measurement_label
    let min_union_iou_area : ℚ := 1e-2
    let iou := ext.get2dIoU measurement_object tracked_object min_union_iou_area
    if iou < min_iou then pure false else pure passed_gate
  else pure passed_gate

/-- The block `// all gate is passed`: the value of `score` after it. -/
def DataAssociation.gatedScore (da : DataAssociation) (max_dist dist : ℚ)
    (passed_gate : Bool) : Except Fault ℚ :=
  if passed_gate then do
    let score ← rawScore max_dist dist
    if score < da.score_threshold_ then pure 0.0 else pure score
  else pure 0.0

/-- The body of the inner loop of `calcScoreMatrix` up to the write into the matrix: the
value of the local `score` for one tracker and one measurement. The local `passed_gate` is
threaded through the five gate blocks in the order of the source. -/
def DataAssociation.calcScore (da : DataAssociation) (ext : Externals) (stamp : ℤ)
    (tracker : Tracker) (measurement_object : DetectedObject) : Except Fault ℚ := do
  let tracker_label : ℤ := tracker.getHighestProbLabel
  let measurement_label : ℤ := ext.getHighestProbLabel measurement_object.classification
  if (← da.can_assign_matrix_.coeff tracker_label measurement_label) ≠ 0 then
    let tracked_object := tracker.getTrackedObject stamp
    let max_dist ← da.max_dist_matrix_.coeff tracker_label measurement_label
    let dist := ext.calcDistance2d measurement_object.pose_with_covariance.pose.position
      tracked_object.pose_with_covariance.pose.position
    let passed_gate := true
    let passed_gate := distGate max_dist dist passed_gate
    let passed_gate ← da.areaGate ext tracker_label measurement_label measurement_object
      passed_gate
    let passed_gate ← da.angleGate ext tracker_label measurement_label measurement_object
      tracked_object passed_gate
    let passed_gate ← mahalanobisGate ext measurement_object tracked_object passed_gate
    let passed_gate ← da.iouGate ext tracker_label measurement_label measurement_object
      tracked_object passed_gate
    da.gatedScore max_dist dist passed_gate
  else
    pure 0.0

/-- The inner loop of `calcScoreMatrix`: for the measurements from index `measurement_idx`
on, compute the score and write it to `score_matrix(tracker_idx, measurement_idx)`. -/
def DataAssociation.measurementLoop (da : DataAssociation) (ext : Externals) (stamp : ℤ)
    (tracker : Tracker) (tracker_idx : Nat) :
    List DetectedObject → Nat → MatrixXd → Except Fault MatrixXd
  | [], _, score_matrix => .ok score_matrix
  | measurement_object :: rest, measurement_idx, score_matrix => do
    let score ← da.calcScore ext stamp tracker measurement_object
    let score_matrix ← score_matrix.assignCoeff tracker_idx measurement_idx score
    da.measurementLoop ext stamp tracker tracker_idx rest (measurement_idx + 1) score_matrix

/-- The outer loop of `calcScoreMatrix`: for the trackers from index `tracker_idx` on, run
the inner loop over all measurements. -/
def DataAssociation.trackerLoop (da : DataAssociation) (ext : Externals)
    (measurements : DetectedObjects) :
    List Tracker → Nat → MatrixXd → Except Fault MatrixXd
  | [], _, score_matrix => .ok score_matrix
  | tracker :: rest, tracker_idx, score_matrix => do
    let score_matrix ← da.measurementLoop ext measurements.stamp tracker tracker_idx
      measurements.objects 0 score_matrix
    da.trackerLoop ext measurements rest (tracker_idx + 1) score_matrix

/-- The method `DataAssociation::calcScoreMatrix`. -/
def DataAssociation.calcScoreMatrix (da : DataAssociation) (ext : Externals)
    (measurements : DetectedObjects) (trackers : List Tracker) : Except Fault MatrixXd :=
  let score_matrix : MatrixXd := MatrixX.Zero trackers.length measurements.objects.length
  da.trackerLoop ext measurements trackers 0 score_matrix

/-! ## The claim on a cell, in its own words -/

/-- The values that the body of the inner loop reads or computes for one pair. -/
structure PairReadings where
  can_assign : ℤ
  max_dist : ℚ
  max_area : ℚ
  min_area : ℚ
  max_rad : ℚ
  min_iou : ℚ
  dist : ℚ
  area : ℚ
  angle : ℚ
  mahalanobis_dist : ℚ
  iou : ℚ

/-- The readings `r` are those of tracker `tracker` and measurement `measurement_object`: the
six configuration entries at (tracker label, measurement label), and the distance, area,
formed angle, Mahalanobis distance and overlap of the pair. -/
def DataAssociation.Reads (da : DataAssociation) (ext : Externals) (stamp : ℤ)
    (tracker : Tracker) (measurement_object : DetectedObject) (r : PairReadings) : Prop :=
  da.can_assign_matrix_.coeff tracker.getHighestProbLabel
      (ext.getHighestProbLabel measurement_object.classification) = .ok r.can_assign
  ∧ da.max_dist_matrix_.coeff tracker.getHighestProbLabel
      (ext.getHighestProbLabel measurement_object.classification) = .ok r.max_dist
  ∧ da.max_area_matrix_.coeff tracker.getHighestProbLabel
      (ext.getHighestProbLabel measurement_object.classification) = .ok r.max_area
  ∧ da.min_area_matrix_.coeff tracker.getHighestProbLabel
      (ext.getHighestProbLabel measurement_object.classification) = .ok r.min_area
  ∧ da.max_rad_matrix_.coeff tracker.getHighestProbLabel
      (ext.getHighestProbLabel measurement_object.classification) = .ok r.max_rad
  ∧ da.min_iou_matrix_.coeff tracker.getHighestProbLabel
      (ext.getHighestProbLabel measurement_object.classification) = .ok r.min_iou
  ∧ r.dist = ext.calcDistance2d measurement_object.pose_with_covariance.pose.position
      (tracker.getTrackedObject stamp).pose_with_covariance.pose.position
  ∧ r.area = ext.getArea measurement_object.shape
  ∧ r.angle = getFormedYawAngle ext measurement_object.pose_with_covariance.pose.orientation
      (tracker.getTrackedObject stamp).pose_with_covariance.pose.orientation false
  ∧ getMahalanobisDistance ext measurement_object.pose_with_covariance.pose.position
      (tracker.getTrackedObject stamp).pose_with_covariance.pose.position
      (getXYCovariance (tracker.getTrackedObject stamp).pose_with_covariance)
        = .ok r.mahalanobis_dist
  ∧ r.iou = ext.get2dIoU measurement_object (tracker.getTrackedObject stamp) 1e-2

/-- The six conditions of the claim on a cell: class, distance, area, angle (as the source
tests it), Mahalanobis distance, overlap. -/
abbrev PairReadings.allGatesHold (r : PairReadings) : Prop :=
  r.can_assign ≠ 0
  ∧ r.dist ≤ r.max_dist
  ∧ (r.min_area ≤ r.area ∧ r.area ≤ r.max_area)
  ∧ ¬ (|r.max_rad| < M_PI ∧ |r.max_rad| < |r.angle|)
  ∧ r.mahalanobis_dist < 3.035
  ∧ r.min_iou ≤ r.iou

/-- The score `s` of the claim on a cell. -/
def PairReadings.claimedScore (r : PairReadings) : ℚ :=
  (r.max_dist - min r.dist r.max_dist) / r.max_dist

/-! ## Concrete data for the worked instances -/

/-- A solver object that hands back the two given maps, whatever it is given. -/
def fixedSolver (direct reverse : UnorderedMap) : GnnSolverInterface :=
  ⟨fun _ _ _ => (direct, reverse)⟩

/-- The matrix with the given rows (row-major list of lists, `cols` columns). -/
def matrixOfRows (rows : List (List ℚ)) (cols : Nat) : MatrixXd :=
  ⟨rows.length, cols, fun i j => (rows.getD i []).getD j 0⟩

/-- Square root that is exact on squares of rationals (floor of the root of numerator and
denominator otherwise). -/
def ratSqrt (q : ℚ) : ℚ := (Nat.sqrt q.num.toNat : ℚ) / (Nat.sqrt q.den : ℚ)

/-- Sample external functions for the worked instances: the Euclidean distance (exact when it
is rational), the area of the bounding box, overlap 1 for an object and a tracked object of
the same position and dimensions (0 otherwise), the label of the first classification
(0, `UNKNOWN`, when there is none), heading 0, which is the yaw of the rotation-free
quaternion (0, 0, 0, 1), and the identity for `normalizeRadian`, which is exact on
`[-pi, pi)`. -/
def sampleExternals : Externals where
  calcDistance2d := fun p q => ratSqrt ((p.x - q.x) ^ 2 + (p.y - q.y) ^ 2)
  getArea := fun s => s.dimensions.x * s.dimensions.y
  get2dIoU := fun m t _ =>
    if m.pose_with_covariance.pose.position.x = t.pose_with_covariance.pose.position.x
      ∧ m.pose_with_covariance.pose.position.y = t.pose_with_covariance.pose.position.y
      ∧ m.shape.dimensions.x = t.shape.dimensions.x
      ∧ m.shape.dimensions.y = t.shape.dimensions.y then 1 else 0
  getHighestProbLabel := fun c => (c.head?.map fun k => k.label).getD 0
  getYaw := fun _ => 0
  normalizeRadian := fun r => r
  sqrt := ratSqrt

/-- A pose at `(x, y)` without rotation, with the identity as planar position covariance. -/
def samplePose (x y : ℚ) : PoseWithCovariance :=
  ⟨⟨⟨x, y, 0⟩, ⟨0, 0, 0, 1⟩⟩, fun k => if k = 0 ∨ k = 7 then 1 else 0⟩

/-- A bounding box of 2 x 1 (area 2). -/
def sampleShape : Shape := ⟨0, [], ⟨2, 1, 1⟩⟩

/-- A detected object of label 0 at `(x, y)`. -/
def sampleMeasurement (x y : ℚ) : DetectedObject :=
  ⟨[⟨0, 1⟩], samplePose x y, sampleShape⟩

/-- A tracker of label 0 whose tracked object sits at `(x, y)` at every stamp. -/
def sampleTracker (x y : ℚ) : Tracker :=
  ⟨0, fun _ => ⟨samplePose x y, sampleShape⟩⟩

/-- An engine for one class: `can_assign = 1`, `max_dist = 10`, areas in `[0, 100]`,
`max_rad = 3.15`, `min_iou = 0`. -/
def sampleEngine : DataAssociation :=
  DataAssociation.create (fixedSolver [] []) [1] [10] [100] [0] [3.15] [0]

/-- Sample external functions with a heading: as `sampleExternals`, but the yaw of a
quaternion with `w = 0` is `M_PI` (exact for the half turn (0, 0, 1, 0) about the vertical
axis). -/
def halfTurnExternals : Externals :=
  { sampleExternals with getYaw := fun q => if q.w = 0 then M_PI else 0 }

/-- An engine built from vectors of length 2, which is not a square. -/
def truncatedEngine : DataAssociation :=
  DataAssociation.create (fixedSolver [] []) [1, 0] [10, 20] [100, 200] [0, 1] [3.15, 1] [0, 0.5]

/-- An engine for two classes, built from vectors of length 4. -/
def twoClassEngine : DataAssociation :=
  DataAssociation.create (fixedSolver [] []) [1, 0, 0, 1] [10, 20, 30, 40] [100, 200, 300, 400]
    [0, 1, 2, 3] [3.15, 1, 2, 3] [0, 0.1, 0.2, 0.3]

/-! ## The solver, by its contract -/

/-- Modelled from the spec: the score that an assignment selects in the table handed to the
solver, summed over its pairs (the objective of section 4.3; the body of
`MuSSP::maximizeLinearAssignment` is not part of the sources). -/
def totalScore (score : List (List ℚ)) (direct : UnorderedMap) : ℚ :=
  (direct.map fun p => (score.getD p.1.toNat []).getD p.2.toNat 0).sum

/-- Modelled from the spec: a one-to-one matching of rows to columns of the table (section
4.3: any subset of rows and columns may remain unmatched). -/
def IsMatching (score : List (List ℚ)) (direct : UnorderedMap) : Prop :=
  (∀ p ∈ direct, 0 ≤ p.1 ∧ p.1 < score.length ∧ 0 ≤ p.2 ∧ p.2 < (score.headD []).length)
  ∧ (direct.map Prod.fst).Nodup ∧ (direct.map Prod.snd).Nodup

/-- Modelled from the spec: the contract of `MuSSP::maximizeLinearAssignment` (section 4.3),
whose body is not part of the sources: `direct` is a one-to-one matching that maximises the
sum of the selected scores, and `reverse` is its inverse map. -/
def IsMaxAssignment (score : List (List ℚ)) (direct reverse : UnorderedMap) : Prop :=
  IsMatching score direct
  ∧ (∀ i j : ℤ, (i, j) ∈ direct ↔ (j, i) ∈ reverse)
  ∧ ∀ other, IsMatching score other → totalScore score other ≤ totalScore score direct

namespace MuSSP

/-- Modelled from the spec: nodes of the flow network: the source, one node for each tracker
(row), one node for each measurement (column), the sink. -/
inductive Node where
  | source
  | tracker (i : Nat)
  | measurement (j : Nat)
  | sink
  deriving DecidableEq

/-- Modelled from the spec: an arc of the residual network with its cost (every capacity is 1). -/
structure Arc where
  tail : Node
  head : Node
  cost : ℚ
  deriving DecidableEq

/-- Modelled from the spec: the flow, given by the tracker-to-measurement edges that carry one
unit: the edge from the source to tracker `i` carries a unit exactly when some pair has tracker
`i`, the edge from measurement `j` to the sink exactly when some pair has measurement `j`. -/
abbrev Flow := List (Nat × Nat)

/-- Modelled from the spec: entry `(i, j)` of the score table. -/
def score (cost : List (List ℚ)) (i j : Nat) : ℚ := (cost.getD i []).getD j 0

/-- Modelled from the spec: number of rows of the table. -/
def numTrackers (cost : List (List ℚ)) : Nat := cost.length

/-- Modelled from the spec: number of columns of the table (the length of its first row). -/
def numMeasurements (cost : List (List ℚ)) : Nat := (cost.headD []).length

/-- Modelled from the spec: the nodes of the network (at most `T + M + 2`). -/
def nodes (cost : List (List ℚ)) : List Node :=
  Node.source :: ((List.range (numTrackers cost)).map Node.tracker
    ++ ((List.range (numMeasurements cost)).map Node.measurement ++ [Node.sink]))

/-- Modelled from the spec: residual arcs between the source and the trackers: the edge itself
(cost 0) while it carries no flow, its reverse when it does. -/
def sourceArcs (cost : List (List ℚ)) (flow : Flow) : List Arc :=
  (List.range (numTrackers cost)).map fun i =>
    if i ∈ flow.map Prod.fst then ⟨.tracker i, .source, 0⟩ else ⟨.source, .tracker i, 0⟩

/-- Modelled from the spec: residual arc between tracker `i` and measurement `j`: the reverse
edge (cost `+score`) when the pair carries flow, else the edge of cost `-score` if the score is
not zero (edges of score 0 are left out of the network). -/
def pairArc (cost : List (List ℚ)) (flow : Flow) (i j : Nat) : Option Arc :=
  if (i, j) ∈ flow then some ⟨.measurement j, .tracker i, score cost i j⟩
  else if score cost i j ≠ 0 then some ⟨.tracker i, .measurement j, -score cost i j⟩
  else none

/-- Modelled from the spec: residual arcs between trackers and measurements. -/
def pairArcs (cost : List (List ℚ)) (flow : Flow) : List Arc :=
  (List.range (numTrackers cost)).flatMap fun i =>
    (List.range (numMeasurements cost)).filterMap fun j => pairArc cost flow i j

/-- Modelled from the spec: residual arcs between the measurements and the sink. -/
def sinkArcs (cost : List (List ℚ)) (flow : Flow) : List Arc :=
  (List.range (numMeasurements cost)).map fun j =>
    if j ∈ flow.map Prod.snd then ⟨.sink, .measurement j, 0⟩ else ⟨.measurement j, .sink, 0⟩

/-- Modelled from the spec: the residual network of a flow. -/
def residualArcs (cost : List (List ℚ)) (flow : Flow) : List Arc :=
  sourceArcs cost flow ++ (pairArcs cost flow ++ sinkArcs cost flow)

/-- Modelled from the spec: lookup in a table of node labels (newest entry first). -/
def lookup {α : Type} : List (Node × α) → Node → Option α
  | [], _ => none
  | (u, x) :: rest, v => if v = u then some x else lookup rest v

/-- Modelled from the spec: distance labels and potentials: a node without entry is not reached. -/
abbrev Dist := List (Node × ℚ)

/-- Modelled from the spec: the potential of a node (0 for a node without entry). -/
def potentialAt (potential : Dist) (v : Node) : ℚ := (lookup potential v).getD 0

/-- Modelled from the spec: Bellman-Ford relaxation of one arc. -/
def bfRelax (dist : Dist) (a : Arc) : Dist :=
  match lookup dist a.tail with
  | none => dist
  | some dt =>
    match lookup dist a.head with
    | none => (a.head, dt + a.cost) :: dist
    | some dh => if dt + a.cost < dh then (a.head, dt + a.cost) :: dist else dist

/-- Modelled from the spec: one Bellman-Ford round: relax every arc. -/
def bfRound (arcs : List Arc) (dist : Dist) : Dist := arcs.foldl bfRelax dist

/-- Modelled from the spec: Bellman-Ford from `start`: `|V| - 1` rounds. -/
def bellmanFord (nodes : List Node) (arcs : List Arc) (start : Node) : Dist :=
  (bfRound arcs)^[nodes.length - 1] [(start, 0)]

/-- Modelled from the spec: the initial potentials: the Bellman-Ford distances from the source
in the network without flow. -/
def initialPotential (cost : List (List ℚ)) : Dist :=
  bellmanFord (nodes cost) (residualArcs cost []) .source

/-- Modelled from the spec: labels of Dijkstra: tentative distance and the path that realises
it. -/
structure Labels where
  dist : Dist
  path : List (Node × List Arc)

/-- Modelled from the spec: the path stored for a node. -/
def pathAt (lab : Labels) (v : Node) : List Arc := (lookup lab.path v).getD []

/-- Modelled from the spec: the labelled node of least distance in the queue. -/
def pickMin (dist : Dist) : List Node → Option (Node × ℚ)
  | [] => none
  | v :: rest =>
    match lookup dist v, pickMin dist rest with
    | none, best => best
    | some dv, none => some (v, dv)
    | some dv, some (u, du) => if du < dv then some (u, du) else some (v, dv)

/-- Modelled from the spec: Dijkstra relaxation of one arc out of the node `u` that is being
settled. -/
def relaxArc (u : Node) (du : ℚ) (pu : List Arc) (lab : Labels) (a : Arc) : Labels :=
  if a.tail = u then
    match lookup lab.dist a.head with
    | none => ⟨(a.head, du + a.cost) :: lab.dist, (a.head, pu ++ [a]) :: lab.path⟩
    | some dh =>
      if du + a.cost < dh then
        ⟨(a.head, du + a.cost) :: lab.dist, (a.head, pu ++ [a]) :: lab.path⟩
      else lab
  else lab

/-- Modelled from the spec: Dijkstra: settle the unsettled node of least distance and relax its
arcs, until no labelled node is left in the queue. -/
def dijkstraLoop (arcs : List Arc) : Nat → List Node → Labels → Labels
  | 0, _, lab => lab
  | fuel + 1, queue, lab =>
    match pickMin lab.dist queue with
    | none => lab
    | some (u, du) =>
      dijkstraLoop arcs fuel (queue.erase u) (arcs.foldl (relaxArc u du (pathAt lab u)) lab)

/-- Modelled from the spec: Dijkstra from `start` over arcs of non-negative cost. -/
def dijkstra (nodes : List Node) (arcs : List Arc) (start : Node) : Labels :=
  dijkstraLoop arcs nodes.length nodes ⟨[(start, 0)], [(start, [])]⟩

/-- Modelled from the spec: the arcs with their reduced cost `cost + potential(tail) -
potential(head)`. -/
def reducedArcs (potential : Dist) (arcs : List Arc) : List Arc :=
  arcs.map fun a =>
    ⟨a.tail, a.head, a.cost + potentialAt potential a.tail - potentialAt potential a.head⟩

/-- Modelled from the spec: the pair `p` loses its unit: the path runs back from measurement
`p.2` to tracker `p.1`. -/
def cancels (path : List Arc) (p : Nat × Nat) : Bool :=
  path.any fun a => decide (a.tail = .measurement p.2 ∧ a.head = .tracker p.1)

/-- Modelled from the spec: the pair that gains a unit from a path arc running from a tracker to
a measurement. -/
def newPair (a : Arc) : Option (Nat × Nat) :=
  match a.tail, a.head with
  | .tracker i, .measurement j => some (i, j)
  | _, _ => none

/-- Modelled from the spec: push one unit of flow along the path. -/
def augment (flow : Flow) (path : List Arc) : Flow :=
  (flow.filter fun p => !cancels path p) ++ path.filterMap newPair

/-- Modelled from the spec: the distance of a node, capped (a node that is not reached gets the
cap). -/
def cappedDist (dist : Dist) (cap : ℚ) (v : Node) : ℚ :=
  match lookup dist v with
  | some d => min d cap
  | none => cap

/-- Modelled from the spec: update of the potentials by the distances of the last search, capped
at the distance of the sink. -/
def updatePotential (nodes : List Node) (potential : Dist) (dist : Dist) (cap : ℚ) : Dist :=
  nodes.map fun v => (v, potentialAt potential v + cappedDist dist cap v)

/-- Modelled from the spec: state of the successive-shortest-path loop. -/
structure State where
  flow : Flow
  potential : Dist

/-- Modelled from the spec: the loop: search the shortest augmenting path with Dijkstra on the
reduced costs; stop when the sink is not reached or the path has no negative cost; else push one
unit along it and update the potentials. -/
def sspLoop (cost : List (List ℚ)) : Nat → State → Flow
  | 0, st => st.flow
  | fuel + 1, st =>
    let lab := dijkstra (nodes cost) (reducedArcs st.potential (residualArcs cost st.flow))
      .source
    match lookup lab.dist .sink with
    | none => st.flow
    | some d =>
      if d + potentialAt st.potential .sink - potentialAt st.potential .source < 0 then
        sspLoop cost fuel
          ⟨augment st.flow (pathAt lab .sink),
            updatePotential (nodes cost) st.potential lab.dist d⟩
      else st.flow

/-- Modelled from the spec: the flow that the algorithm ends with (at most `T` augmentations
take place). -/
def solve (cost : List (List ℚ)) : Flow :=
  sspLoop cost (numTrackers cost + 1) ⟨[], initialPotential cost⟩

/-- Modelled from the spec: `MuSSP::maximizeLinearAssignment` (section 4.3; only the class
declaration is part of the sources). The matching that the successive-shortest-path
algorithm ends with is written to the two maps: `direct` takes `row -> column` for every
pair that carries flow, `reverse` takes `column -> row`. -/
def maximizeLinearAssignment (cost : List (List ℚ))
    (_direct_assignment _reverse_assignment : UnorderedMap) : UnorderedMap × UnorderedMap :=
  ((solve cost).map fun p => ((p.1 : ℤ), (p.2 : ℤ)),
    (solve cost).map fun p => ((p.2 : ℤ), (p.1 : ℤ)))

/-! ### Notions for the proof of optimality -/

/-- A flow is a one-to-one matching within the table. -/
def FlowOK (cost : List (List ℚ)) (flow : Flow) : Prop :=
  (∀ p ∈ flow, p.1 < numTrackers cost ∧ p.2 < numMeasurements cost)
  ∧ (flow.map Prod.fst).Nodup ∧ (flow.map Prod.snd).Nodup

/-- The total score of a flow. -/
def weight (cost : List (List ℚ)) (flow : Flow) : ℚ :=
  (flow.map fun p => score cost p.1 p.2).sum

/-- Potentials with non-negative reduced cost on every arc. -/
def Feasible (potential : Dist) (arcs : List Arc) : Prop :=
  ∀ a ∈ arcs, 0 ≤ a.cost + potentialAt potential a.tail - potentialAt potential a.head

/-- Every arc out of a labelled node has been relaxed. -/
def Relaxed (arcs : List Arc) (dist : Dist) : Prop :=
  ∀ a ∈ arcs, ∀ dt, lookup dist a.tail = some dt →
    ∃ dh, lookup dist a.head = some dh ∧ dh ≤ dt + a.cost

/-- The arcs `l` lead from `s` to `v`, each starting where the one before ends. -/
def Chain : Node → List Arc → Node → Prop
  | s, [], v => s = v
  | s, a :: l, v => a.tail = s ∧ Chain a.head l v

/-- What the path stored for a labelled node `v` satisfies while the nodes of `queue` are
unsettled. -/
structure PathOK (arcs : List Arc) (queue : List Node) (lab : Labels) (start v : Node) :
    Prop where
  chain : Chain start (pathAt lab v) v
  mem : ∀ a ∈ pathAt lab v, a ∈ arcs
  tails : ∀ a ∈ pathAt lab v, a.tail ∉ queue
  heads : ∀ a ∈ pathAt lab v, a.head = v ∨ a.head ∉ queue
  tight : ∀ a ∈ pathAt lab v, ∃ dt, lookup lab.dist a.tail = some dt
    ∧ lookup lab.dist a.head = some (dt + a.cost)
  nodup : ((pathAt lab v).map Arc.head).Nodup
  start_not_head : start ∉ (pathAt lab v).map Arc.head
  end_not_tail : v ∉ (pathAt lab v).map Arc.tail

/-- The invariant of Dijkstra between two settlings. -/
structure DijkstraInv (arcs : List Arc) (queue : List Node) (lab : Labels) (start : Node) :
    Prop where
  start_label : lookup lab.dist start = some 0
  nonneg : ∀ v d, lookup lab.dist v = some d → 0 ≤ d
  unlabelled : ∀ a ∈ arcs, lookup lab.dist a.head = none → a.head ∈ queue
  relaxed : ∀ a ∈ arcs, a.tail ∉ queue → ∀ dt, lookup lab.dist a.tail = some dt →
    ∃ dh, lookup lab.dist a.head = some dh ∧ dh ≤ dt + a.cost
  order : ∀ x v dx dv, x ∉ queue → v ∈ queue → lookup lab.dist x = some dx →
    lookup lab.dist v = some dv → dx ≤ dv
  paths : ∀ v dv, lookup lab.dist v = some dv → PathOK arcs queue lab start v

/-- The invariant while the arcs out of `u` are relaxed; `done` holds the arcs relaxed so
far. -/
structure RelaxInv (arcs : List Arc) (queue : List Node) (u : Node) (du : ℚ) (pu : List Arc)
    (done : List Arc) (lab : Labels) (start : Node) : Prop where
  u_label : lookup lab.dist u = some du
  u_path : pathAt lab u = pu
  u_settled : u ∉ queue
  start_label : lookup lab.dist start = some 0
  nonneg : ∀ v d, lookup lab.dist v = some d → 0 ≤ d
  unlabelled : ∀ a ∈ arcs, lookup lab.dist a.head = none → a.head ∈ queue
  relaxed : ∀ a ∈ arcs, a.tail ∉ queue → (a.tail ≠ u ∨ a ∈ done) →
    ∀ dt, lookup lab.dist a.tail = some dt →
    ∃ dh, lookup lab.dist a.head = some dh ∧ dh ≤ dt + a.cost
  order : ∀ x v dx dv, x ∉ queue → v ∈ queue → lookup lab.dist x = some dx →
    lookup lab.dist v = some dv → dx ≤ dv
  below_u : ∀ x dx, x ∉ queue → lookup lab.dist x = some dx → dx ≤ du
  paths : ∀ v dv, lookup lab.dist v = some dv → PathOK arcs queue lab start v

/-- What the labels of a finished search satisfy. -/
structure DijkstraDone (arcs : List Arc) (lab : Labels) (start : Node) : Prop where
  start_label : lookup lab.dist start = some 0
  nonneg : ∀ v d, lookup lab.dist v = some d → 0 ≤ d
  relaxed : Relaxed arcs lab.dist
  chain : ∀ v d, lookup lab.dist v = some d → Chain start (pathAt lab v) v
  mem : ∀ v d, lookup lab.dist v = some d → ∀ a ∈ pathAt lab v, a ∈ arcs
  tight : ∀ v d, lookup lab.dist v = some d → ∀ a ∈ pathAt lab v,
    ∃ dt, lookup lab.dist a.tail = some dt ∧ lookup lab.dist a.head = some (dt + a.cost)
  nodup : ∀ v d, lookup lab.dist v = some d → ((pathAt lab v).map Arc.head).Nodup
  start_not_head : ∀ v d, lookup lab.dist v = some d → start ∉ (pathAt lab v).map Arc.head
  end_not_tail : ∀ v d, lookup lab.dist v = some d → v ∉ (pathAt lab v).map Arc.tail

/-- Some arc of the path runs from `t` to `h`. -/
def Step (path : List Arc) (t h : Node) : Prop := ∃ b ∈ path, b.tail = t ∧ b.head = h

/-- The cost of a residual arc, by its end points. -/
def costOf (cost : List (List ℚ)) : Node → Node → ℚ
  | .tracker i, .measurement j => -score cost i j
  | .measurement j, .tracker i => score cost i j
  | _, _ => 0

/-- What the combinatorial part of an augmentation uses of the path: it leads from the
source to the sink along residual arcs and visits no node twice. -/
structure AugPath (cost : List (List ℚ)) (flow : Flow) (path : List Arc) : Prop where
  chain : Chain .source path .sink
  arcs : ∀ b ∈ path, ∃ a ∈ residualArcs cost flow, a.tail = b.tail ∧ a.head = b.head
  nodup : (path.map Arc.head).Nodup
  source_not_head : Node.source ∉ path.map Arc.head
  sink_not_tail : Node.sink ∉ path.map Arc.tail

/-- The invariant of the successive-shortest-path loop. -/
structure LoopInv (cost : List (List ℚ)) (st : State) : Prop where
  flow : FlowOK cost st.flow
  feasible : Feasible st.potential (residualArcs cost st.flow)
  sink_le : potentialAt st.potential .sink ≤ potentialAt st.potential .source

end MuSSP

/-- Modelled from the spec: the solver object `gnn_solver::MuSSP` that the constructor
creates (section 4.3). -/
def muSSP : GnnSolverInterface := ⟨MuSSP.maximizeLinearAssignment⟩

/-! ## Reference matrix and further sample engines -/

/-- An engine as `sampleEngine`, with `max_rad = 1.6` (between `M_PI_2` and `M_PI`). -/
def wideAngleEngine : DataAssociation :=
  DataAssociation.create (fixedSolver [] []) [1] [10] [100] [0] [1.6] [0]

/-! ## The gates, each on its own -/

/-- The six gates of `calcScoreMatrix`: the class gate `can_assign_matrix_` and the five
blocks that update `passed_gate`. -/
inductive Gate where
  | canAssign
  | dist
  | area
  | angle
  | mahalanobis
  | iou
  deriving DecidableEq

/-- The predicate of one gate for one pair, computed on its own (whatever the other gates
say): `true` when the pair passes the gate. Each case reads what the corresponding block of
`calcScoreMatrix` reads and negates the test that sets `passed_gate = false`. -/
def DataAssociation.gatePredicate (da : DataAssociation) (ext : Externals) (stamp : ℤ)
    (tracker : Tracker) (measurement_object : DetectedObject) : Gate → Except Fault Bool
  | .canAssign => do
    let can_assign ← da.can_assign_matrix_.coeff tracker.getHighestProbLabel
      (ext.getHighestProbLabel measurement_object.classification)
    pure (decide (can_assign ≠ 0))
  | .dist => do
    let max_dist ← da.max_dist_matrix_.coeff tracker.getHighestProbLabel
      (ext.getHighestProbLabel measurement_object.classification)
    let dist := ext.calcDistance2d measurement_object.pose_with_covariance.pose.position
      (tracker.getTrackedObject stamp).pose_with_covariance.pose.position
    pure (!decide (max_dist < dist))
  | .area => do
    let max_area ← da.max_area_matrix_.coeff tracker.getHighestProbLabel
      (ext.getHighestProbLabel measurement_object.classification)
    let min_area ← da.min_area_matrix_.coeff tracker.getHighestProbLabel
      (ext.getHighestProbLabel measurement_object.classification)
    let area := ext.getArea measurement_object.shape
    pure (!decide (area < min_area ∨ max_area < area))
  | .angle => do
    let max_rad ← da.max_rad_matrix_.coeff tracker.getHighestProbLabel
      (ext.getHighestProbLabel measurement_object.classification)
    let angle := getFormedYawAngle ext
      measurement_object.pose_with_covariance.pose.orientation
      (tracker.getTrackedObject stamp).pose_with_covariance.pose.orientation false
    pure (!decide (|max_rad| < M_PI ∧ |max_rad| < |angle|))
  | .mahalanobis => do
    let mahalanobis_dist ← getMahalanobisDistance ext
      measurement_object.pose_with_covariance.pose.position
      (tracker.getTrackedObject stamp).pose_with_covariance.pose.position
      (getXYCovariance (tracker.getTrackedObject stamp).pose_with_covariance)
    pure (!decide ((3.035 : ℚ) ≤ mahalanobis_dist))
  | .iou => do
    let min_iou ← da.min_iou_matrix_.coeff tracker.getHighestProbLabel
      (ext.getHighestProbLabel measurement_object.classification)
    let iou := ext.get2dIoU measurement_object (tracker.getTrackedObject stamp) 1e-2
    pure (!decide (iou < min_iou))

/-- Every gate of the list is computed, none is skipped, and the results are conjoined. -/
def DataAssociation.allGatePredicates (da : DataAssociation) (ext : Externals) (stamp : ℤ)
    (tracker : Tracker) (measurement_object : DetectedObject) : List Gate → Except Fault Bool
  | [] => pure true
  | gate :: rest => do
    let passed ← da.gatePredicate ext stamp tracker measurement_object gate
    let others ← da.allGatePredicates ext stamp tracker measurement_object rest
    pure (passed && others)

/-- The reference of the claim on the gate cascade: all gate predicates are computed
unconditionally, in the order `order`; the result is the thresholded distance score when
their conjunction holds and 0 otherwise. -/
def DataAssociation.calcScoreUnconditional (da : DataAssociation) (ext : Externals)
    (stamp : ℤ) (tracker : Tracker) (measurement_object : DetectedObject)
    (order : List Gate) : Except Fault ℚ := do
  let passed ← da.allGatePredicates ext stamp tracker measurement_object order
  if passed then
    let max_dist ← da.max_dist_matrix_.coeff tracker.getHighestProbLabel
      (ext.getHighestProbLabel measurement_object.classification)
    let dist := ext.calcDistance2d measurement_object.pose_with_covariance.pose.position
      (tracker.getTrackedObject stamp).pose_with_covariance.pose.position
    let score ← rawScore max_dist dist
    if score < da.score_threshold_ then pure 0.0 else pure score
  else
    pure 0.0

/-- The value of the predicate of one gate under the readings `r` of a pair. -/
def PairReadings.gatePasses (r : PairReadings) : Gate → Bool
  | .canAssign => decide (r.can_assign ≠ 0)
  | .dist => decide (r.dist ≤ r.max_dist)
  | .area => decide (r.min_area ≤ r.area ∧ r.area ≤ r.max_area)
  | .angle => decide (¬ (|r.max_rad| < M_PI ∧ |r.max_rad| < |r.angle|))
  | .mahalanobis => decide (r.mahalanobis_dist < 3.035)
  | .iou => decide (r.min_iou ≤ r.iou)

/-! ## The avoidance module: `isOnRight`, `concatParentIds` -/

/-- Exceptions that the embedded functions throw, with their message. -/
inductive Exception where
  | logic_error (what : String)
  deriving DecidableEq

/-- The field of `ObjectData` that `isOnRight` reads. The enumeration `Direction` is declared
in a header that is not part of the sources: it is a parameter. -/
structure ObjectData (Direction : Type) where
  direction : Direction

/-- The function `isOnRight`. The enumerators `Direction::NONE` and `Direction::RIGHT` of the
enumeration, which is declared outside the sources, are parameters. -/
def isOnRight {Direction : Type} [DecidableEq Direction] (NONE RIGHT : Direction)
    (obj : ObjectData Direction) : Except Exception Bool :=
  if obj.direction = NONE then
    throw (Exception.logic_error ("object direction is not initialized. something wrong."))
  else
    pure (decide (obj.direction = RIGHT))

/-- One pass of a loop of `concatParentIds`: `continue` when `std::any_of` finds the id in
`ret`, else `ret.push_back(id)`. -/
def pushBackIfNew {UUID : Type} [DecidableEq UUID] (ret : List UUID) (id : UUID) : List UUID :=
  if ret.any (fun exist_id => exist_id == id) then ret else ret ++ [id]

/-- The function `concatParentIds`: the loop over `ids1`, then the loop over `ids2`. -/
def concatParentIds {UUID : Type} [DecidableEq UUID] (ids1 ids2 : List UUID) : List UUID :=
  let ret : List UUID := []
  let ret := ids1.foldl pushBackIfNew ret
  let ret := ids2.foldl pushBackIfNew ret
  ret

/-! ## The path selector: `Buffer` -/

/-- The algorithm `std::remove_if` followed by `erase` of the tail it returns: the elements
for which the predicate is false are moved to the front in their order, the rest is erased. -/
def removeIfErase {T : Type} (pred : T → Bool) : List T → List T
  | [] => []
  | msg :: rest => if pred msg then removeIfErase pred rest else msg :: removeIfErase pred rest

/-- The algorithm `std::find_if` with the test `itr == msgs.end()` of its caller: the first
element for which the predicate is true, `none` when the iterator reaches the end. -/
def findIf {T : Type} (pred : T → Bool) : List T → Option T
  | [] => none
  | msg :: rest => if pred msg then some msg else findIf pred rest

/-- The struct `Buffer<T>`: the vector `msgs`. -/
structure Buffer (T : Type) where
  msgs : List T

/-- The method `Buffer::remove_old_data`; `nanoseconds msg` stands for
`rclcpp::Time(msg.header.stamp).nanoseconds()`, a 64-bit integer like `now`. -/
def Buffer.remove_old_data {T : Type} (nanoseconds : T → ℤ) (b : Buffer T) (now : ℤ) :
    Buffer T :=
  ⟨removeIfErase (fun msg => decide (nanoseconds msg < now)) b.msgs⟩

/-- The method `Buffer::get(now)`, returning `std::optional<T>`. -/
def Buffer.get {T : Type} (nanoseconds : T → ℤ) (b : Buffer T) (now : ℤ) : Option T :=
  findIf (fun msg => decide (nanoseconds msg > now)) b.msgs

/-- A sample enumeration with three enumerators for the worked instance of `isOnRight`. -/
inductive SampleDirection where
  | NONE
  | LEFT
  | RIGHT
  deriving DecidableEq

/-- The matrix `m` is the `L x L` matrix read row by row from the first `L * L` elements of
`v`, `L` being the integer square root of the length of `v`; no later element of `v` enters
it: every vector with the same `L` and the same first `L * L` elements is reshaped to the
same coefficients. -/
def IsLeadingSquareOf {α : Type} [Inhabited α] (m : MatrixX α) (v : List α) : Prop :=
  m.rows = Nat.sqrt v.length ∧ m.cols = Nat.sqrt v.length
  ∧ (∀ i j : Nat, i < Nat.sqrt v.length → j < Nat.sqrt v.length →
      i * Nat.sqrt v.length + j < Nat.sqrt v.length * Nat.sqrt v.length
      ∧ m.coeff i j = .ok ((v.take (Nat.sqrt v.length * Nat.sqrt v.length)).getD
          (i * Nat.sqrt v.length + j) default))
  ∧ (∀ w : List α, Nat.sqrt w.length = Nat.sqrt v.length →
      w.take (Nat.sqrt v.length * Nat.sqrt v.length)
        = v.take (Nat.sqrt v.length * Nat.sqrt v.length) →
      ∀ i j : ℤ, (reshapeConfig w).coeff i j = m.coeff i j)

/-- An engine built from vectors of length 5: two classes, the fifth element is beyond the
square. -/
def oversizedEngine : DataAssociation :=
  DataAssociation.create (fixedSolver [] []) [1, 0, 0, 1, 7] [10, 20, 30, 40, 50]
    [100, 200, 300, 400, 500] [0, 1, 2, 3, 4] [3.15, 1, 2, 3, 4] [0, 0.1, 0.2, 0.3, 0.4]

/-! ## IEEE 754 binary64

The second embedding of `data_association.cpp` computes with the values of a C++ `double`:
finite numbers, the two zeros, the two infinities and NaN, every arithmetic result rounded to
the nearest representable number, ties to the even mantissa. -/

/-- A C++ `double`. A finite value is given by the rational number it denotes; the values the
operations produce are representable in binary64, and a value that enters from outside is
meant to be (`Double.IsValid`). -/
inductive Double where
  /-- A finite number; `fin 0` is the zero of positive sign. -/
  | fin (q : ℚ)
  /-- The zero of negative sign. -/
  | negZero
  /-- The infinity of positive sign. -/
  | posInf
  /-- The infinity of negative sign. -/
  | negInf
  /-- Not a number; payloads are not distinguished. -/
  | nan
  deriving DecidableEq

namespace Double

/-- Rounding of a rational number to the nearest integer, a tie going to the even one. -/
def roundHalfEven (x : ℚ) : ℤ :=
  if x - ⌊x⌋ < 1 / 2 then ⌊x⌋
  else if 1 / 2 < x - ⌊x⌋ then ⌊x⌋ + 1
  else if ⌊x⌋ % 2 = 0 then ⌊x⌋
  else ⌊x⌋ + 1

/-- The exponent `e` of the binade `2^e <= |q| < 2^(e+1)` that holds `q`, not below the
exponent -1022 of the subnormal numbers. -/
def binade (q : ℚ) : ℤ := if q = 0 then -1022 else max (Int.log 2 |q|) (-1022)

/-- The distance of neighbouring binary64 numbers in the binade of `q`: 52 fraction bits. -/
def ulp (q : ℚ) : ℚ := 2 ^ (binade q - 52)

/-- The binary64 number nearest to `q`, ties to even, the exponent range taken as unbounded
above. -/
def rnd (q : ℚ) : ℚ := roundHalfEven (q / ulp q) * ulp q

/-- The zero of the given sign. -/
def zero (negative : Bool) : Double := if negative then negZero else fin 0

/-- The infinity of the given sign. -/
def inf (negative : Bool) : Double := if negative then negInf else posInf

/-- The `double` that an operation with the exact result `q` delivers: `q` rounded to nearest,
an infinity when the rounded magnitude reaches `2^1024`, a zero of the sign of `q` when the
result is rounded to zero. -/
def ofRat (q : ℚ) : Double :=
  if (2 : ℚ) ^ 1024 ≤ |rnd q| then inf (decide (q < 0))
  else if rnd q = 0 then zero (decide (q < 0))
  else fin (rnd q)

/-- The number a finite `double` denotes (0 for the others). -/
def toRat : Double → ℚ
  | fin q => q
  | _ => 0

/-- The sign bit. -/
def signBit : Double → Bool
  | fin q => decide (q < 0)
  | negZero => true
  | posInf => false
  | negInf => true
  | nan => false

/-- The test `std::isnan`. -/
def isNaN : Double → Bool
  | nan => true
  | _ => false

/-- The test `std::isfinite`. -/
def isFinite : Double → Bool
  | fin _ => true
  | negZero => true
  | _ => false

/-- The sum `x + y`. -/
def add (x y : Double) : Double :=
  if x.isNaN || y.isNaN then nan
  else if x.isFinite && y.isFinite then
    if x.toRat + y.toRat = 0 then zero (x.signBit && y.signBit)
    else ofRat (x.toRat + y.toRat)
  else if x.isFinite then y
  else if y.isFinite then x
  else if x.signBit = y.signBit then x
  else nan

/-- The negation `-x`. -/
def neg : Double → Double
  | fin q => if q = 0 then negZero else fin (-q)
  | negZero => fin 0
  | posInf => negInf
  | negInf => posInf
  | nan => nan

/-- The difference `x - y`. -/
def sub (x y : Double) : Double := add x (neg y)

/-- The product `x * y`. -/
def mul (x y : Double) : Double :=
  if x.isNaN || y.isNaN then nan
  else if x.isFinite && y.isFinite then
    if x.toRat * y.toRat = 0 then zero (xor x.signBit y.signBit)
    else ofRat (x.toRat * y.toRat)
  else if (x.isFinite && decide (x.toRat = 0)) || (y.isFinite && decide (y.toRat = 0)) then nan
  else inf (xor x.signBit y.signBit)

/-- The quotient `x / y`. -/
def div (x y : Double) : Double :=
  if x.isNaN || y.isNaN then nan
  else if x.isFinite && y.isFinite then
    if y.toRat = 0 then
      if x.toRat = 0 then nan else inf (xor x.signBit y.signBit)
    else if x.toRat = 0 then zero (xor x.signBit y.signBit)
    else ofRat (x.toRat / y.toRat)
  else if x.isFinite then zero (xor x.signBit y.signBit)
  else if y.isFinite then inf (xor x.signBit y.signBit)
  else nan

/-- The function `std::fabs`. -/
def fabs : Double → Double
  | fin q => fin |q|
  | negZero => fin 0
  | posInf => posInf
  | negInf => posInf
  | nan => nan

/-- The comparison `x < y`: false when an operand is NaN. -/
def lt (x y : Double) : Bool :=
  if x.isNaN || y.isNaN then false
  else if x.isFinite && y.isFinite then decide (x.toRat < y.toRat)
  else if x.isFinite then y.signBit == false
  else if y.isFinite then x.signBit
  else x.signBit && (y.signBit == false)

/-- The comparison `x <= y`: false when an operand is NaN. -/
def le (x y : Double) : Bool :=
  if x.isNaN || y.isNaN then false
  else if x.isFinite && y.isFinite then decide (x.toRat ≤ y.toRat)
  else if x.isFinite then y.signBit == false
  else if y.isFinite then x.signBit
  else x.signBit || (y.signBit == false)

instance : Add Double := ⟨add⟩

instance : Sub Double := ⟨sub⟩

instance : Mul Double := ⟨mul⟩

instance : Div Double := ⟨div⟩

instance : Neg Double := ⟨neg⟩

instance : LT Double := ⟨fun x y => lt x y = true⟩

instance : LE Double := ⟨fun x y => le x y = true⟩

instance (x y : Double) : Decidable (x < y) := inferInstanceAs (Decidable (lt x y = true))

instance (x y : Double) : Decidable (x ≤ y) := inferInstanceAs (Decidable (le x y = true))

/-- A decimal literal of the source: the `double` nearest to the decimal it spells. -/
instance : OfScientific Double := ⟨fun m s e => ofRat (OfScientific.ofScientific m s e)⟩

/-- An integer literal of the source. -/
instance (n : Nat) : OfNat Double n := ⟨ofRat n⟩

/-- The rational number `q` has a mantissa of at most 53 bits at an exponent not below that
of the subnormal numbers: a binary64 number, were the exponent range unbounded above. -/
def HasMantissa53 (q : ℚ) : Prop :=
  ∃ k n : ℤ, -1022 ≤ k ∧ |n| < 2 ^ 53 ∧ q = n * 2 ^ (k - 52)

/-- The rational number `q` is a finite binary64 number. -/
def IsBinary64 (q : ℚ) : Prop := HasMantissa53 q ∧ |q| < 2 ^ 1024

/-- The value is one of binary64: its finite number is representable. -/
def IsValid : Double → Prop
  | fin q => IsBinary64 q
  | _ => True

end Double

/-! ## `data_association.cpp` over binary64

The same functions as above, statement by statement, with `double` for `Double`. No
arithmetic operation stops the execution here: a division by zero yields an infinity or a
NaN, as in C++. What remains outside the embedding is a coefficient access outside the
bounds of an Eigen matrix, and a `while` loop that is still running after the number of
iterations that the caller of the embedding allows (`fuel`). -/

namespace Binary64

/-- The function `std::min(a, b)`: `(b < a) ? b : a`. -/
def stdMin (a b : Double) : Double := if b < a then b else a

/-- Executions that the binary64 embedding does not follow to a result. -/
inductive Stop where
  /-- Coefficient access outside the bounds of a matrix. -/
  | outOfRange
  /-- A `while` loop has not ended within the allowed number of iterations. -/
  | outOfFuel
  deriving DecidableEq, Repr

abbrev MatrixXd := MatrixX Double

abbrev MatrixXi := MatrixX ℤ

instance : Inhabited Double := ⟨Double.fin 0⟩

/-- Read access `m(i, j)` with signed indices, as `Eigen::Index`. -/
def coeff {α : Type} (m : MatrixX α) (i j : ℤ) : Except Stop α :=
  if m.InRange i j then .ok (m.coeffs i.toNat j.toNat)
  else .error .outOfRange

/-- Write access `m(i, j) = v`. -/
def assignCoeff {α : Type} (m : MatrixX α) (i j : ℤ) (v : α) : Except Stop (MatrixX α) :=
  if m.InRange i j then
    .ok ⟨m.rows, m.cols, fun a b => if a = i.toNat ∧ b = j.toNat then v else m.coeffs a b⟩
  else .error .outOfRange

/-- The abstract solver `gnn_solver::GnnSolverInterface`. -/
structure GnnSolverInterface where
  maximizeLinearAssignment :
    List (List Double) → UnorderedMap → UnorderedMap → UnorderedMap × UnorderedMap

/-- The data members of `class DataAssociation`. -/
structure DataAssociation where
  can_assign_matrix_ : MatrixXi
  max_dist_matrix_ : MatrixXd
  max_area_matrix_ : MatrixXd
  min_area_matrix_ : MatrixXd
  max_rad_matrix_ : MatrixXd
  min_iou_matrix_ : MatrixXd
  score_threshold_ : Double
  gnn_solver_ptr_ : GnnSolverInterface

/-- The constructor `DataAssociation::DataAssociation`. -/
def DataAssociation.create (mussp : GnnSolverInterface)
    (can_assign_vector : List ℤ) (max_dist_vector max_area_vector min_area_vector
      max_rad_vector min_iou_vector : List Double) : DataAssociation where
  score_threshold_ := 0.01
  can_assign_matrix_ := reshapeConfig can_assign_vector
  max_dist_matrix_ := reshapeConfig max_dist_vector
  max_area_matrix_ := reshapeConfig max_area_vector
  min_area_matrix_ := reshapeConfig min_area_vector
  max_rad_matrix_ := reshapeConfig max_rad_vector
  min_iou_matrix_ := reshapeConfig min_iou_vector
  gnn_solver_ptr_ := mussp

/-- The table `score` that `assign` copies out of `src`. -/
def scoreTable (src : MatrixXd) : List (List Double) :=
  (List.range src.rows).map fun row => (List.range src.cols).map fun col => src.coeffs row col

/-- First erase loop of `assign`: walk `direct_assignment` and erase each entry
`(first, second)` with `src(first, second) < score_threshold_`. -/
def eraseDirect (src : MatrixXd) (score_threshold : Double) :
    UnorderedMap → Except Stop UnorderedMap
  | [] => .ok []
  | itr :: rest => do
    let s ← coeff src itr.1 itr.2
    let rest ← eraseDirect src score_threshold rest
    if s < score_threshold then pure rest else pure (itr :: rest)

/-- Second erase loop of `assign`: walk `reverse_assignment` and erase each entry
`(first, second)` with `src(second, first) < score_threshold_`. -/
def eraseReverse (src : MatrixXd) (score_threshold : Double) :
    UnorderedMap → Except Stop UnorderedMap
  | [] => .ok []
  | itr :: rest => do
    let s ← coeff src itr.2 itr.1
    let rest ← eraseReverse src score_threshold rest
    if s < score_threshold then pure rest else pure (itr :: rest)

/-- The method `DataAssociation::assign`. -/
def DataAssociation.assign (da : DataAssociation) (src : MatrixXd)
    (direct_assignment reverse_assignment : UnorderedMap) :
    Except Stop (UnorderedMap × UnorderedMap) := do
  let solved := da.gnn_solver_ptr_.maximizeLinearAssignment (scoreTable src)
    direct_assignment reverse_assignment
  let direct ← eraseDirect src da.score_threshold_ solved.1
  let reverse ← eraseReverse src da.score_threshold_ solved.2
  pure (direct, reverse)

/-- Message `geometry_msgs::msg::Point`. -/
structure Point where
  x : Double
  y : Double
  z : Double

/-- Message `geometry_msgs::msg::Quaternion`. -/
structure Quaternion where
  x : Double
  y : Double
  z : Double
  w : Double

/-- Message `geometry_msgs::msg::Pose`. -/
structure Pose where
  position : Point
  orientation : Quaternion

/-- Message `geometry_msgs::msg::PoseWithCovariance`. -/
structure PoseWithCovariance where
  pose : Pose
  covariance : Fin 36 → Double

/-- Message `autoware_perception_msgs::msg::Shape`. -/
structure Shape where
  type : Nat
  footprint : List Point
  dimensions : Point

/-- Message `autoware_perception_msgs::msg::ObjectClassification`. -/
structure ObjectClassification where
  label : Nat
  probability : Double

/-- The fields of `autoware_perception_msgs::msg::DetectedObject` that the engine reads. -/
structure DetectedObject where
  classification : List ObjectClassification
  pose_with_covariance : PoseWithCovariance
  shape : Shape

/-- The fields of `autoware_perception_msgs::msg::TrackedObject` that the engine reads. -/
structure TrackedObject where
  pose_with_covariance : PoseWithCovariance
  shape : Shape

/-- Message `autoware_perception_msgs::msg::DetectedObjects`. -/
structure DetectedObjects where
  stamp : ℤ
  objects : List DetectedObject

/-- The two methods of the abstract class `Tracker` that the engine calls. -/
structure Tracker where
  getHighestProbLabel : Nat
  getTrackedObject : ℤ → TrackedObject

/-- Functions of other packages that `data_association.cpp` calls. -/
structure Externals where
  /-- The function `autoware::universe_utils::calcDistance2d`. -/
  calcDistance2d : Point → Point → Double
  /-- The function `autoware::universe_utils::getArea`. -/
  getArea : Shape → Double
  /-- The function `object_recognition_utils::get2dIoU(source, target, min_union_area)`. -/
  get2dIoU : DetectedObject → TrackedObject → Double → Double
  /-- The function `object_recognition_utils::getHighestProbLabel`. -/
  getHighestProbLabel : List ObjectClassification → Nat
  /-- The function `tf2::getYaw`. -/
  getYaw : Quaternion → Double
  /-- The function `autoware::universe_utils::normalizeRadian`. -/
  normalizeRadian : Double → Double
  /-- The function `std::sqrt`. -/
  sqrt : Double → Double

/-- Fixed-size matrix `Eigen::Matrix2d`. -/
structure Matrix2d where
  m00 : Double
  m01 : Double
  m10 : Double
  m11 : Double

/-- The determinant `m.determinant()` of a 2 x 2 matrix. -/
def Matrix2d.determinant (m : Matrix2d) : Double := m.m00 * m.m11 - m.m10 * m.m01

/-- The inverse `m.inverse()` of a 2 x 2 matrix, as Eigen computes it: the adjugate times
`invdet = 1 / determinant`, without a test of the determinant. -/
def Matrix2d.inverse (m : Matrix2d) : Matrix2d :=
  let invdet := 1 / m.determinant
  ⟨m.m11 * invdet, -m.m01 * invdet, -m.m10 * invdet, m.m00 * invdet⟩

/-- The function `getMahalanobisDistance`: `sqrt(d^T * covariance^-1 * d)` for the difference
`d` of the two planar positions. -/
def getMahalanobisDistance (ext : Externals) (measurement tracker : Point)
    (covariance : Matrix2d) : Double :=
  let d0 := measurement.x - tracker.x
  let d1 := measurement.y - tracker.y
  let inv := covariance.inverse
  let mahalanobis_squared :=
    (d0 * inv.m00 + d1 * inv.m10) * d0 + (d0 * inv.m01 + d1 * inv.m11) * d1
  ext.sqrt mahalanobis_squared

/-- The function `getXYCovariance`. -/
def getXYCovariance (pose_covariance : PoseWithCovariance) : Matrix2d :=
  ⟨pose_covariance.covariance 0, pose_covariance.covariance 1,
   pose_covariance.covariance 6, pose_covariance.covariance 7⟩

/-- The macro `M_PI` of `<math.h>`: the `double` nearest to its literal. -/
def M_PI : Double := 3.14159265358979323846

/-- The macro `M_PI_2` of `<math.h>`: the `double` nearest to its literal. -/
def M_PI_2 : Double := 1.57079632679489661923

/-- The local `angle_range` of `getFormedYawAngle`. -/
def angleRange (distinguish_front_or_back : Bool) : Double :=
  if distinguish_front_or_back then M_PI else M_PI_2

/-- The local `angle_step` of `getFormedYawAngle`. -/
def angleStep (distinguish_front_or_back : Bool) : Double :=
  if distinguish_front_or_back then 2.0 * M_PI else M_PI

/-- First loop of `getFormedYawAngle`:
`while (angle_range <= tracker_yaw - measurement_fixed_yaw) measurement_fixed_yaw += angle_step`,
followed for at most `fuel` tests of its condition; `none` when the loop is running then. -/
def fixYawUp (dfb : Bool) (tracker_yaw : Double) : Nat → Double → Option Double
  | 0, _ => none
  | fuel + 1, measurement_fixed_yaw =>
    if angleRange dfb ≤ tracker_yaw - measurement_fixed_yaw then
      fixYawUp dfb tracker_yaw fuel (measurement_fixed_yaw + angleStep dfb)
    else some measurement_fixed_yaw

/-- Second loop of `getFormedYawAngle`:
`while (angle_range <= measurement_fixed_yaw - tracker_yaw) measurement_fixed_yaw -= angle_step`,
followed for at most `fuel` tests of its condition; `none` when the loop is running then. -/
def fixYawDown (dfb : Bool) (tracker_yaw : Double) : Nat → Double → Option Double
  | 0, _ => none
  | fuel + 1, measurement_fixed_yaw =>
    if angleRange dfb ≤ measurement_fixed_yaw - tracker_yaw then
      fixYawDown dfb tracker_yaw fuel (measurement_fixed_yaw - angleStep dfb)
    else some measurement_fixed_yaw

/-- The body of `getFormedYawAngle` after the two yaws are normalised. -/
def formedYawAngle (fuel : Nat) (measurement_yaw tracker_yaw : Double)
    (distinguish_front_or_back : Bool) : Option Double := do
  let measurement_fixed_yaw := measurement_yaw
  let measurement_fixed_yaw ←
    fixYawUp distinguish_front_or_back tracker_yaw fuel measurement_fixed_yaw
  let measurement_fixed_yaw ←
    fixYawDown distinguish_front_or_back tracker_yaw fuel measurement_fixed_yaw
  pure (Double.fabs (measurement_fixed_yaw - tracker_yaw))

/-- The function `getFormedYawAngle`; each of its loops is followed for at most `fuel` tests
of its condition. -/
def getFormedYawAngle (ext : Externals) (fuel : Nat) (measurement_quat tracker_quat : Quaternion)
    (distinguish_front_or_back : Bool) : Option Double :=
  let measurement_yaw := ext.normalizeRadian (ext.getYaw measurement_quat)
  let tracker_yaw := ext.normalizeRadian (ext.getYaw tracker_quat)
  formedYawAngle fuel measurement_yaw tracker_yaw distinguish_front_or_back

/-- The right-hand side of `score = (max_dist - std::min(dist, max_dist)) / max_dist`. -/
def rawScore (max_dist dist : Double) : Double :=
  (max_dist - stdMin dist max_dist) / max_dist

/-- The block `// dist gate`: the value of `passed_gate` after it. -/
def distGate (max_dist dist : Double) (passed_gate : Bool) : Bool :=
  if passed_gate then
    if max_dist < dist then false else passed_gate
  else passed_gate

/-- The block `// area gate`: the value of `passed_gate` after it. -/
def DataAssociation.areaGate (da : DataAssociation) (ext : Externals)
    (tracker_label measurement_label : ℤ) (measurement_object : DetectedObject)
    (passed_gate : Bool) : Except Stop Bool :=
  if passed_gate then do
    let max_area ← coeff da.max_area_matrix_ tracker_label measurement_label
    let min_area ← coeff da.min_area_matrix_ tracker_label measurement_label
    let area := ext.getArea measurement_object.shape
    if area < min_area ∨ max_area < area then pure false else pure passed_gate
  else pure passed_gate

/-- The block `// angle gate`: the value of `passed_gate` after it. -/
def DataAssociation.angleGate (da : DataAssociation) (ext : Externals) (fuel : Nat)
    (tracker_label measurement_label : ℤ) (measurement_object : DetectedObject)
    (tracked_object : TrackedObject) (passed_gate : Bool) : Except Stop Bool :=
  if passed_gate then do
    let max_rad ← coeff da.max_rad_matrix_ tracker_label measurement_label
    match getFormedYawAngle ext fuel
      measurement_object.pose_with_covariance.pose.orientation
      tracked_object.pose_with_covariance.pose.orientation false with
    | none => .error .outOfFuel
    | some angle =>
      if Double.fabs max_rad < M_PI ∧ Double.fabs max_rad < Double.fabs angle then pure false
      else pure passed_gate
  else pure passed_gate

/-- The block `// mahalanobis dist gate`: the value of `passed_gate` after it. -/
def mahalanobisGate (ext : Externals) (measurement_object : DetectedObject)
    (tracked_object : TrackedObject) (passed_gate : Bool) : Bool :=
  if passed_gate then
    let mahalanobis_dist := getMahalanobisDistance ext
      measurement_object.pose_with_covariance.pose.position
      tracked_object.pose_with_covariance.pose.position
      (getXYCovariance tracked_object.pose_with_covariance)
    if (3.035 : Double) ≤ mahalanobis_dist then false else passed_gate
  else passed_gate

/-- The block `// 2d iou gate`: the value of `passed_gate` after it. -/
def DataAssociation.iouGate (da : DataAssociation) (ext : Externals)
    (tracker_label measurement_label : ℤ) (measurement_object : DetectedObject)
    (tracked_object : TrackedObject) (passed_gate : Bool) : Except Stop Bool :=
  if passed_gate then do
    let min_iou ← coeff da.min_iou_matrix_ tracker_label measurement_label
    let min_union_iou_area : Double := 1e-2
    let iou := ext.get2dIoU measurement_object tracked_object min_union_iou_area
    if iou < min_iou then pure false else pure passed_gate
  else pure passed_gate

/-- The block `// all gate is passed`: the value of `score` after it. -/
def DataAssociation.gatedScore (da : DataAssociation) (max_dist dist : Double)
    (passed_gate : Bool) : Double :=
  if passed_gate then
    let score := rawScore max_dist dist
    if score < da.score_threshold_ then 0.0 else score
  else 0.0

/-- The body of the inner loop of `calcScoreMatrix` up to the write into the matrix: the
value of the local `score` for one tracker and one measurement. -/
def DataAssociation.calcScore (da : DataAssociation) (ext : Externals) (fuel : Nat) (stamp : ℤ)
    (tracker : Tracker) (measurement_object : DetectedObject) : Except Stop Double := do
  let tracker_label : ℤ := tracker.getHighestProbLabel
  let measurement_label : ℤ := ext.getHighestProbLabel measurement_object.classification
  if (← coeff da.can_assign_matrix_ tracker_label measurement_label) ≠ 0 then
    let tracked_object := tracker.getTrackedObject stamp
    let max_dist ← coeff da.max_dist_matrix_ tracker_label measurement_label
    let dist := ext.calcDistance2d measurement_object.pose_with_covariance.pose.position
      tracked_object.pose_with_covariance.pose.position
    let passed_gate := true
    let passed_gate := distGate max_dist dist passed_gate
    let passed_gate ← da.areaGate ext tracker_label measurement_label measurement_object
      passed_gate
    let passed_gate ← da.angleGate ext fuel tracker_label measurement_label measurement_object
      tracked_object passed_gate
    let passed_gate := mahalanobisGate ext measurement_object tracked_object passed_gate
    let passed_gate ← da.iouGate ext tracker_label measurement_label measurement_object
      tracked_object passed_gate
    pure (da.gatedScore max_dist dist passed_gate)
  else
    pure 0.0

/-- The inner loop of `calcScoreMatrix`. -/
def DataAssociation.measurementLoop (da : DataAssociation) (ext : Externals) (fuel : Nat)
    (stamp : ℤ) (tracker : Tracker) (tracker_idx : Nat) :
    List DetectedObject → Nat → MatrixXd → Except Stop MatrixXd
  | [], _, score_matrix => .ok score_matrix
  | measurement_object :: rest, measurement_idx, score_matrix => do
    let score ← da.calcScore ext fuel stamp tracker measurement_object
    let score_matrix ← assignCoeff score_matrix tracker_idx measurement_idx score
    da.measurementLoop ext fuel stamp tracker tracker_idx rest (measurement_idx + 1) score_matrix

/-- The outer loop of `calcScoreMatrix`. -/
def DataAssociation.trackerLoop (da : DataAssociation) (ext : Externals) (fuel : Nat)
    (measurements : DetectedObjects) :
    List Tracker → Nat → MatrixXd → Except Stop MatrixXd
  | [], _, score_matrix => .ok score_matrix
  | tracker :: rest, tracker_idx, score_matrix => do
    let score_matrix ← da.measurementLoop ext fuel measurements.stamp tracker tracker_idx
      measurements.objects 0 score_matrix
    da.trackerLoop ext fuel measurements rest (tracker_idx + 1) score_matrix

/-- The method `DataAssociation::calcScoreMatrix`; `fuel` bounds the iterations of each loop
of `getFormedYawAngle`. -/
def DataAssociation.calcScoreMatrix (da : DataAssociation) (ext : Externals) (fuel : Nat)
    (measurements : DetectedObjects) (trackers : List Tracker) : Except Stop MatrixXd :=
  let score_matrix : MatrixXd :=
    ⟨trackers.length, measurements.objects.length, fun _ _ => 0.0⟩
  da.trackerLoop ext fuel measurements trackers 0 score_matrix

end Binary64

namespace Binary64

/-- The yaw is one that `normalizeRadian` returns for a finite angle: a finite value between
`-M_PI` and `M_PI`. -/
def IsNormalized (yaw : Double) : Prop :=
  yaw.isFinite = true ∧ -M_PI.toRat ≤ yaw.toRat ∧ yaw.toRat ≤ M_PI.toRat

/-- The yaw is one that `normalizeRadian` returns: a finite value between `-M_PI` and `M_PI`,
or NaN (for an angle that is not finite). -/
def IsNormalizedOrNaN (yaw : Double) : Prop := IsNormalized yaw ∨ yaw.isNaN = true

/-- The distance of the number `x` to the nearest integer multiple of `2 * r`: the angle
between two headings that differ by `x`, when headings are taken modulo `2 * r`. -/
def foldedAngle (r x : ℚ) : ℚ := |x - 2 * r * round (x / (2 * r))|

end Binary64

namespace Binary64

/-! ### Sample data over binary64 -/

/-- A solver object that hands back the two given maps, whatever it is given. -/
def fixedSolver (direct reverse : UnorderedMap) : GnnSolverInterface :=
  ⟨fun _ _ _ => (direct, reverse)⟩

/-- A square root for the worked instances: exact on the squares of rationals, NaN for a
negative number and for NaN, as `std::sqrt`. -/
def sampleSqrt : Double → Double
  | .fin q => if q < 0 then .nan else .fin (ratSqrt q)
  | .negZero => .negZero
  | .posInf => .posInf
  | .negInf => .nan
  | .nan => .nan

/-- Sample external functions for the worked instances: the Euclidean distance (exact when it
is rational), the area of the bounding box, overlap 1 for an object and a tracked object of
the same position and dimensions (0 otherwise), the label of the first classification
(0 when there is none), heading 0, the identity for `normalizeRadian`, and `sampleSqrt`. -/
def sampleExternals : Externals where
  calcDistance2d := fun p q =>
    .fin (ratSqrt ((p.x.toRat - q.x.toRat) ^ 2 + (p.y.toRat - q.y.toRat) ^ 2))
  getArea := fun s => s.dimensions.x * s.dimensions.y
  get2dIoU := fun m t _ =>
    if m.pose_with_covariance.pose.position.x = t.pose_with_covariance.pose.position.x
      ∧ m.pose_with_covariance.pose.position.y = t.pose_with_covariance.pose.position.y
      ∧ m.shape.dimensions.x = t.shape.dimensions.x
      ∧ m.shape.dimensions.y = t.shape.dimensions.y then 1 else 0
  getHighestProbLabel := fun c => (c.head?.map fun k => k.label).getD 0
  getYaw := fun _ => 0
  normalizeRadian := fun r => r
  sqrt := sampleSqrt

/-- Sample external functions with two headings: as `sampleExternals`, but the yaw of a
quaternion with `w = 0` is `first` and that of any other quaternion is `second`. -/
def yawExternals (first second : Double) : Externals :=
  { sampleExternals with getYaw := fun q => if q.w = .fin 0 then first else second }

/-- A pose at `(x, y)` with the orientation `orientation` and the planar position covariance
`[[c00, c01], [c10, c11]]`. -/
def samplePose (x y : Double) (orientation : Quaternion) (c00 c01 c10 c11 : Double) :
    PoseWithCovariance :=
  ⟨⟨⟨x, y, .fin 0⟩, orientation⟩,
    fun k => if k = 0 then c00 else if k = 1 then c01 else if k = 6 then c10
      else if k = 7 then c11 else .fin 0⟩

/-- A bounding box of 2 x 1 (area 2). -/
def sampleShape : Shape := ⟨0, [], ⟨.fin 2, .fin 1, .fin 1⟩⟩

/-- A detected object of label 0 at `(x, 0)` with the orientation `orientation`. -/
def sampleMeasurement (x : Double) (orientation : Quaternion) : DetectedObject :=
  ⟨[⟨0, .fin 1⟩], samplePose x (.fin 0) orientation (.fin 1) (.fin 0) (.fin 0) (.fin 1),
    sampleShape⟩

/-- A tracker of label 0 whose tracked object sits at the origin at every stamp, without
rotation, with the planar position covariance `[[c00, c01], [c10, c11]]`. -/
def sampleTracker (c00 c01 c10 c11 : Double) : Tracker :=
  ⟨0, fun _ => ⟨samplePose (.fin 0) (.fin 0) ⟨.fin 0, .fin 0, .fin 0, .fin 1⟩ c00 c01 c10 c11,
    sampleShape⟩⟩

/-- An engine for one class: `can_assign = 1`, the given `max_dist`, areas in `[0, 100]`,
the given `max_rad`, `min_iou = 0`. -/
def sampleEngine (mussp : GnnSolverInterface) (max_dist max_rad : Double) : DataAssociation :=
  DataAssociation.create mussp [1] [max_dist] [.fin 100] [.fin 0] [max_rad] [.fin 0]

/-- The matrix with the given rows (row-major list of lists, `cols` columns). -/
def matrixOfRows (rows : List (List Double)) (cols : Nat) : MatrixXd :=
  ⟨rows.length, cols, fun i j => (rows.getD i []).getD j (.fin 0)⟩

/-- The yaw -0.9947342778544477. -/
def yawA : Double := .fin (-2239942461538975 / 2251799813685248)

/-- The yaw -2.5655306046493442. -/
def yawB : Double := .fin (-5777061337553195 / 2251799813685248)

/-- The yaw -1.0275044374671338. -/
def yawC : Double := .fin (-4627468601698515 / 4503599627370496)

/-- The yaw -2.5983007642620306. -/
def yawD : Double := .fin (-2925426588431739 / 1125899906842624)

/-- The yaw 0.3. -/
def yawE : Double := .fin (5404319552844595 / 18014398509481984)

/-- The yaw -2.8415926535897933, which is `yawE` after a half turn, taken back into
`[-pi, pi)`. -/
def yawF : Double := .fin (-3199348903961433 / 1125899906842624)

/-- The yaw 1.0. -/
def yawOne : Double := .fin 1

end Binary64

namespace Binary64

/-! ### The claim on a cell over binary64 -/

/-- The values that the body of the inner loop reads or computes for one pair. -/
structure PairReadings where
  can_assign : ℤ
  max_dist : Double
  max_area : Double
  min_area : Double
  max_rad : Double
  min_iou : Double
  dist : Double
  area : Double
  angle : Double
  mahalanobis_dist : Double
  iou : Double

/-- The readings `r` are those of tracker `tracker` and measurement `measurement_object`: the
six configuration entries at (tracker label, measurement label), and the distance, area,
formed angle (its loops ending within `fuel` tests), Mahalanobis distance and overlap of the
pair. -/
def DataAssociation.Reads (da : DataAssociation) (ext : Externals) (fuel : Nat) (stamp : ℤ)
    (tracker : Tracker) (measurement_object : DetectedObject) (r : PairReadings) : Prop :=
  coeff da.can_assign_matrix_ tracker.getHighestProbLabel
      (ext.getHighestProbLabel measurement_object.classification) = .ok r.can_assign
  ∧ coeff da.max_dist_matrix_ tracker.getHighestProbLabel
      (ext.getHighestProbLabel measurement_object.classification) = .ok r.max_dist
  ∧ coeff da.max_area_matrix_ tracker.getHighestProbLabel
      (ext.getHighestProbLabel measurement_object.classification) = .ok r.max_area
  ∧ coeff da.min_area_matrix_ tracker.getHighestProbLabel
      (ext.getHighestProbLabel measurement_object.classification) = .ok r.min_area
  ∧ coeff da.max_rad_matrix_ tracker.getHighestProbLabel
      (ext.getHighestProbLabel measurement_object.classification) = .ok r.max_rad
  ∧ coeff da.min_iou_matrix_ tracker.getHighestProbLabel
      (ext.getHighestProbLabel measurement_object.classification) = .ok r.min_iou
  ∧ r.dist = ext.calcDistance2d measurement_object.pose_with_covariance.pose.position
      (tracker.getTrackedObject stamp).pose_with_covariance.pose.position
  ∧ r.area = ext.getArea measurement_object.shape
  ∧ getFormedYawAngle ext fuel measurement_object.pose_with_covariance.pose.orientation
      (tracker.getTrackedObject stamp).pose_with_covariance.pose.orientation false
        = some r.angle
  ∧ r.mahalanobis_dist
      = getMahalanobisDistance ext measurement_object.pose_with_covariance.pose.position
          (tracker.getTrackedObject stamp).pose_with_covariance.pose.position
          (getXYCovariance (tracker.getTrackedObject stamp).pose_with_covariance)
  ∧ r.iou = ext.get2dIoU measurement_object (tracker.getTrackedObject stamp) 1e-2

/-- None of the tests of the six blocks rejects the pair: the class may be assigned, and each
of the five comparisons by which a gate sets `passed_gate = false` is false (as it is when an
operand is NaN). -/
abbrev PairReadings.noTestFails (r : PairReadings) : Prop :=
  r.can_assign ≠ 0
  ∧ ¬ (r.max_dist < r.dist)
  ∧ ¬ (r.area < r.min_area ∨ r.max_area < r.area)
  ∧ ¬ (Double.fabs r.max_rad < M_PI ∧ Double.fabs r.max_rad < Double.fabs r.angle)
  ∧ ¬ ((3.035 : Double) ≤ r.mahalanobis_dist)
  ∧ ¬ (r.iou < r.min_iou)

/-- The score `s` of the claim on a cell. -/
def PairReadings.claimedScore (r : PairReadings) : Double := rawScore r.max_dist r.dist

/-- The readings of the sample pair: the tracker `sampleTracker c00 c01 c10 c11` and the
measurement `sampleMeasurement (.fin x) q` under `sampleEngine s max_dist max_rad` and
`sampleExternals`. -/
def sampleReadings (max_dist max_rad : Double) (x : ℚ) (c00 c01 c10 c11 : Double) :
    PairReadings :=
  ⟨1, max_dist, .fin 100, .fin 0, max_rad, .fin 0, .fin (ratSqrt (x ^ 2)), .fin 2, .fin 0,
    getMahalanobisDistance sampleExternals ⟨.fin x, .fin 0, .fin 0⟩ ⟨.fin 0, .fin 0, .fin 0⟩
      ⟨c00, c01, c10, c11⟩,
    if x = 0 then .fin 1 else .fin 0⟩

/-- The labels `(tracker_label, measurement_label)` are within the bounds of the six
configuration matrices. -/
def DataAssociation.LabelsInRange (da : DataAssociation) (tracker_label measurement_label : ℤ) :
    Prop :=
  da.can_assign_matrix_.InRange tracker_label measurement_label
  ∧ da.max_dist_matrix_.InRange tracker_label measurement_label
  ∧ da.max_area_matrix_.InRange tracker_label measurement_label
  ∧ da.min_area_matrix_.InRange tracker_label measurement_label
  ∧ da.max_rad_matrix_.InRange tracker_label measurement_label
  ∧ da.min_iou_matrix_.InRange tracker_label measurement_label

end Binary64

namespace Double

/-- The binary64 number nearest to the square root of `q > 0`, ties to even: with `e` the
binade of the root and `u = 2^(e - 52)` the unit of that binade, the integer nearest to the
square root of `q / u^2`, times `u`. -/
def rndSqrt (q : ℚ) : ℚ :=
  let e : ℤ := Int.log 2 q / 2
  let u : ℚ := 2 ^ (e - 52)
  let r : ℚ := q / (u * u)
  let f : ℤ := Nat.sqrt ⌊r⌋.toNat
  if r < (f + 1 / 2) ^ 2 then f * u
  else if (f + 1 / 2) ^ 2 < r then (f + 1) * u
  else if f % 2 = 0 then f * u
  else (f + 1) * u

/-- The function `std::sqrt`, correctly rounded as IEEE 754 requires. -/
def sqrt : Double → Double
  | fin q => if q < 0 then nan else if q = 0 then fin 0 else fin (rndSqrt q)
  | negZero => negZero
  | posInf => posInf
  | negInf => nan
  | nan => nan

end Double

namespace Binary64

/-- Sample external functions with the correctly rounded square root: as `sampleExternals`,
but `sqrt` is `Double.sqrt`. -/
def sqrtExternals : Externals := { sampleExternals with sqrt := Double.sqrt }

end Binary64

/-! ## Properties of `assign` -/

section AssignLemmas

theorem coeff_of_inRange {α : Type} (m : MatrixX α) (i j : ℤ) (h : m.InRange i j) :
    m.coeff i j = .ok (m.coeffs i.toNat j.toNat) := by
  unfold MatrixX.coeff
  rw [if_pos h]

/-- With every entry within bounds, the first erase loop is the filter that keeps the
entries whose score is not below the threshold. -/
theorem eraseDirect_eq_filter (src : MatrixXd) (thr : ℚ) (m : UnorderedMap)
    (h : ∀ p ∈ m, src.InRange p.1 p.2) :
    eraseDirect src thr m
      = .ok (m.filter fun p => decide (thr ≤ src.coeffs p.1.toNat p.2.toNat)) := by
  induction m with
  | nil => rfl
  | cons e rest ih =>
    have he : src.InRange e.1 e.2 := h e (List.mem_cons_self _ _)
    have hrest : ∀ p ∈ rest, src.InRange p.1 p.2 :=
      fun p hp => h p (List.mem_cons_of_mem _ hp)
    unfold eraseDirect
    rw [coeff_of_inRange src e.1 e.2 he, ih hrest]
    by_cases hlt : src.coeffs e.1.toNat e.2.toNat < thr
    · have hnot : ¬ thr ≤ src.coeffs e.1.toNat e.2.toNat := not_le.mpr hlt
      simp [List.filter_cons, hlt, hnot, bind, Except.bind, pure, Except.pure]
    · have hle : thr ≤ src.coeffs e.1.toNat e.2.toNat := not_lt.mp hlt
      simp [List.filter_cons, hlt, hle, bind, Except.bind, pure, Except.pure]

/-- With every entry within bounds, the second erase loop is the filter that keeps the
entries whose score is not below the threshold. -/
theorem eraseReverse_eq_filter (src : MatrixXd) (thr : ℚ) (m : UnorderedMap)
    (h : ∀ p ∈ m, src.InRange p.2 p.1) :
    eraseReverse src thr m
      = .ok (m.filter fun p => decide (thr ≤ src.coeffs p.2.toNat p.1.toNat)) := by
  induction m with
  | nil => rfl
  | cons e rest ih =>
    have he : src.InRange e.2 e.1 := h e (List.mem_cons_self _ _)
    have hrest : ∀ p ∈ rest, src.InRange p.2 p.1 :=
      fun p hp => h p (List.mem_cons_of_mem _ hp)
    unfold eraseReverse
    rw [coeff_of_inRange src e.2 e.1 he, ih hrest]
    by_cases hlt : src.coeffs e.2.toNat e.1.toNat < thr
    · have hnot : ¬ thr ≤ src.coeffs e.2.toNat e.1.toNat := not_le.mpr hlt
      simp [List.filter_cons, hlt, hnot, bind, Except.bind, pure, Except.pure]
    · have hle : thr ≤ src.coeffs e.2.toNat e.1.toNat := not_lt.mp hlt
      simp [List.filter_cons, hlt, hle, bind, Except.bind, pure, Except.pure]

/-- With a solver that hands back entries within the bounds of `src`, `assign` returns the
two filtered maps. -/
theorem assign_eq_filter (da : DataAssociation) (src : MatrixXd) (d0 r0 : UnorderedMap)
    (hd : ∀ p ∈ (da.gnn_solver_ptr_.maximizeLinearAssignment (scoreTable src) d0 r0).1,
      src.InRange p.1 p.2)
    (hr : ∀ p ∈ (da.gnn_solver_ptr_.maximizeLinearAssignment (scoreTable src) d0 r0).2,
      src.InRange p.2 p.1) :
    da.assign src d0 r0 = .ok
      ((da.gnn_solver_ptr_.maximizeLinearAssignment (scoreTable src) d0 r0).1.filter
          (fun p => decide (da.score_threshold_ ≤ src.coeffs p.1.toNat p.2.toNat)),
       (da.gnn_solver_ptr_.maximizeLinearAssignment (scoreTable src) d0 r0).2.filter
          (fun p => decide (da.score_threshold_ ≤ src.coeffs p.2.toNat p.1.toNat))) := by
  unfold DataAssociation.assign
  simp only []
  rw [eraseDirect_eq_filter src _ _ hd, eraseReverse_eq_filter src _ _ hr]
  rfl

end AssignLemmas

/-! ### Claims on `assign` -/

/-- C2: when the maps handed back by the solver are mutual inverses (and within the bounds of
`src`), the two maps that `assign` returns are mutual inverses: `(i, j)` is an entry of
`direct` exactly when `(j, i)` is an entry of `reverse`. -/
theorem assign_mutual_inverse (da : DataAssociation) (src : MatrixXd) (d0 r0 : UnorderedMap)
    (hd : ∀ p ∈ (da.gnn_solver_ptr_.maximizeLinearAssignment (scoreTable src) d0 r0).1,
      src.InRange p.1 p.2)
    (hinv : ∀ i j : ℤ,
      (i, j) ∈ (da.gnn_solver_ptr_.maximizeLinearAssignment (scoreTable src) d0 r0).1
        ↔ (j, i) ∈ (da.gnn_solver_ptr_.maximizeLinearAssignment (scoreTable src) d0 r0).2) :
    ∃ direct reverse, da.assign src d0 r0 = .ok (direct, reverse)
      ∧ ∀ i j : ℤ, (i, j) ∈ direct ↔ (j, i) ∈ reverse := by
  have hr : ∀ p ∈ (da.gnn_solver_ptr_.maximizeLinearAssignment (scoreTable src) d0 r0).2,
      src.InRange p.2 p.1 := by
    intro p hp
    exact hd (p.2, p.1) ((hinv p.2 p.1).mpr hp)
  refine ⟨_, _, assign_eq_filter da src d0 r0 hd hr, ?_⟩
  intro i j
  simp only [List.mem_filter]
  rw [hinv i j]

/-- C2, worked instance: a solver that proposes the pairs (0,1) and (1,0) on
`[[0, 0.5], [0.005, 0]]`. -/
theorem assign_mutual_inverse_witness :
    ∃ direct reverse,
      (DataAssociation.create (fixedSolver [(0, 1), (1, 0)] [(1, 0), (0, 1)])
        [] [] [] [] [] []).assign (matrixOfRows [[0, 0.5], [0.005, 0]] 2) [] []
        = .ok (direct, reverse)
      ∧ ∀ i j : ℤ, (i, j) ∈ direct ↔ (j, i) ∈ reverse :=
  assign_mutual_inverse
    (DataAssociation.create (fixedSolver [(0, 1), (1, 0)] [(1, 0), (0, 1)]) [] [] [] [] [] [])
    (matrixOfRows [[0, 0.5], [0.005, 0]] 2) [] []
    (by simp [DataAssociation.create, fixedSolver, matrixOfRows, MatrixX.InRange])
    (by
      intro i j
      simp only [DataAssociation.create, fixedSolver, List.mem_cons, Prod.mk.injEq,
        List.mem_singleton, List.not_mem_nil, or_false]
      constructor
      · rintro (⟨rfl, rfl⟩ | ⟨rfl, rfl⟩)
        · exact Or.inl ⟨rfl, rfl⟩
        · exact Or.inr ⟨rfl, rfl⟩
      · rintro (⟨rfl, rfl⟩ | ⟨rfl, rfl⟩)
        · exact Or.inl ⟨rfl, rfl⟩
        · exact Or.inr ⟨rfl, rfl⟩)

/-- C6: on an all-zero score matrix of any shape, both maps that `assign` returns are empty,
whatever pairs within the bounds of the matrix the solver proposed (a matrix with no row or
no column has no such pair). -/
theorem assign_all_zero_empty (mussp : GnnSolverInterface)
    (can_assign_vector : List ℤ)
    (max_dist_vector max_area_vector min_area_vector max_rad_vector min_iou_vector : List ℚ)
    (src : MatrixXd) (d0 r0 : UnorderedMap)
    (hzero : ∀ i j : Nat, i < src.rows → j < src.cols → src.coeffs i j = 0)
    (hd : ∀ p ∈ (mussp.maximizeLinearAssignment (scoreTable src) d0 r0).1, src.InRange p.1 p.2)
    (hr : ∀ p ∈ (mussp.maximizeLinearAssignment (scoreTable src) d0 r0).2, src.InRange p.2 p.1) :
    (DataAssociation.create mussp can_assign_vector max_dist_vector max_area_vector
      min_area_vector max_rad_vector min_iou_vector).assign src d0 r0 = .ok ([], []) := by
  have hz : ∀ a b : ℤ, src.InRange a b → src.coeffs a.toNat b.toNat = 0 := by
    intro a b hab
    apply hzero
    · have := hab.2.1
      omega
    · have := hab.2.2.2
      omega
  rw [assign_eq_filter _ src d0 r0 hd hr]
  have h1 : (mussp.maximizeLinearAssignment (scoreTable src) d0 r0).1.filter
      (fun p => decide ((0.01 : ℚ) ≤ src.coeffs p.1.toNat p.2.toNat)) = [] := by
    rw [List.filter_eq_nil_iff]
    intro p hp
    rw [hz p.1 p.2 (hd p hp)]
    norm_num
  have h2 : (mussp.maximizeLinearAssignment (scoreTable src) d0 r0).2.filter
      (fun p => decide ((0.01 : ℚ) ≤ src.coeffs p.2.toNat p.1.toNat)) = [] := by
    rw [List.filter_eq_nil_iff]
    intro p hp
    rw [hz p.2 p.1 (hr p hp)]
    norm_num
  show Except.ok (_, _) = _
  simp only [DataAssociation.create] at h1 h2 ⊢
  rw [h1, h2]

/-- C6, worked instance: the 2 x 3 zero matrix with a solver that proposes (0,2) and (1,0). -/
theorem assign_all_zero_empty_witness :
    (DataAssociation.create (fixedSolver [(0, 2), (1, 0)] [(2, 0), (0, 1)])
      [] [] [] [] [] []).assign (MatrixX.Zero 2 3) [] [] = .ok ([], []) :=
  assign_all_zero_empty (fixedSolver [(0, 2), (1, 0)] [(2, 0), (0, 1)]) [] [] [] [] [] []
    (MatrixX.Zero 2 3) [] []
    (by intro i j _ _; rfl)
    (by simp [fixedSolver, MatrixX.Zero, MatrixX.InRange])
    (by simp [fixedSolver, MatrixX.Zero, MatrixX.InRange])

/-! ## Properties of `calcScoreMatrix` -/

section ScoreMatrixLemmas

theorem assignCoeff_eq_ok_iff {α : Type} (m m2 : MatrixX α) (i j : ℤ) (v : α) :
    m.assignCoeff i j v = .ok m2 ↔ m.InRange i j ∧
      m2 = ⟨m.rows, m.cols, fun a b => if a = i.toNat ∧ b = j.toNat then v else m.coeffs a b⟩ := by
  unfold MatrixX.assignCoeff
  by_cases h : m.InRange i j
  · rw [if_pos h]
    constructor
    · intro hv
      exact ⟨h, by injection hv with hv; exact hv.symm⟩
    · rintro ⟨-, hv⟩
      rw [hv]
  · rw [if_neg h]
    constructor
    · intro hv
      cases hv
    · rintro ⟨hr, -⟩
      exact absurd hr h

/-- What a successful run of the inner loop leaves in the matrix. -/
theorem measurementLoop_spec (da : DataAssociation) (ext : Externals) (stamp : ℤ)
    (tracker : Tracker) (tracker_idx : Nat) (objs : List DetectedObject) :
    ∀ (measurement_idx : Nat) (sm out : MatrixXd),
      da.measurementLoop ext stamp tracker tracker_idx objs measurement_idx sm = .ok out →
      out.rows = sm.rows ∧ out.cols = sm.cols
      ∧ (∀ k (hk : k < objs.length), da.calcScore ext stamp tracker (objs.get ⟨k, hk⟩)
            = .ok (out.coeffs tracker_idx (measurement_idx + k)))
      ∧ (∀ a b, a ≠ tracker_idx ∨ b < measurement_idx → out.coeffs a b = sm.coeffs a b) := by
  induction objs with
  | nil =>
    intro mi sm out h
    unfold DataAssociation.measurementLoop at h
    injection h with h
    subst h
    exact ⟨rfl, rfl, fun k hk => absurd hk (Nat.not_lt_zero k), fun _ _ _ => rfl⟩
  | cons mo rest ih =>
    intro mi sm out h
    unfold DataAssociation.measurementLoop at h
    cases hcs : da.calcScore ext stamp tracker mo with
    | error e => rw [hcs] at h; cases h
    | ok score =>
      rw [hcs] at h
      cases hset : sm.assignCoeff (tracker_idx : ℤ) (mi : ℤ) score with
      | error e =>
        simp only [bind, Except.bind] at h
        rw [hset] at h
        cases h
      | ok sm1 =>
        simp only [bind, Except.bind] at h
        rw [hset] at h
        obtain ⟨hr, hc, hval, hframe⟩ := ih (mi + 1) sm1 out h
        obtain ⟨-, hsm1⟩ := (assignCoeff_eq_ok_iff sm sm1 _ _ score).mp hset
        subst hsm1
        refine ⟨hr, hc, ?_, ?_⟩
        · intro k hk
          cases k with
          | zero =>
            have := hframe tracker_idx mi (Or.inr (Nat.lt_succ_self mi))
            simp only [List.get_eq_getElem, List.getElem_cons_zero, Nat.add_zero]
            rw [this, hcs]
            simp
          | succ k =>
            have hk2 : k < rest.length := Nat.lt_of_succ_lt_succ hk
            have := hval k hk2
            simp only [List.get_eq_getElem, List.getElem_cons_succ] at this ⊢
            rw [this]
            congr 2
            omega
        · intro a b hab
          rw [hframe a b (by omega)]
          show (if a = ((tracker_idx : ℤ)).toNat ∧ b = ((mi : ℤ)).toNat then score else sm.coeffs a b)
            = sm.coeffs a b
          rw [if_neg]
          simp only [Int.toNat_ofNat]
          omega

/-- The inner loop runs to its end when every score is defined and the cells lie in the
matrix. -/
theorem measurementLoop_ok (da : DataAssociation) (ext : Externals) (stamp : ℤ)
    (tracker : Tracker) (tracker_idx : Nat) (objs : List DetectedObject)
    (hscore : ∀ mo ∈ objs, ∃ s, da.calcScore ext stamp tracker mo = .ok s) :
    ∀ (measurement_idx : Nat) (sm : MatrixXd), tracker_idx < sm.rows →
      measurement_idx + objs.length ≤ sm.cols →
      ∃ out, da.measurementLoop ext stamp tracker tracker_idx objs measurement_idx sm
        = .ok out := by
  induction objs with
  | nil =>
    intro mi sm _ _
    exact ⟨sm, rfl⟩
  | cons mo rest ih =>
    intro mi sm hrow hcol
    obtain ⟨s, hs⟩ := hscore mo (List.mem_cons_self _ _)
    have hin : sm.InRange (tracker_idx : ℤ) (mi : ℤ) := by
      simp only [List.length_cons] at hcol
      refine ⟨by omega, by omega, by omega, by omega⟩
    have hset := (assignCoeff_eq_ok_iff sm _ (tracker_idx : ℤ) (mi : ℤ) s).mpr ⟨hin, rfl⟩
    obtain ⟨out, hout⟩ := ih (fun m hm => hscore m (List.mem_cons_of_mem _ hm)) (mi + 1)
      ⟨sm.rows, sm.cols, fun a b =>
        if a = ((tracker_idx : ℤ)).toNat ∧ b = ((mi : ℤ)).toNat then s else sm.coeffs a b⟩
      hrow (by simp only [List.length_cons] at hcol; show mi + 1 + rest.length ≤ sm.cols; omega)
    refine ⟨out, ?_⟩
    unfold DataAssociation.measurementLoop
    rw [hs]
    simp only [bind, Except.bind]
    rw [hset]
    exact hout

/-- What a successful run of the outer loop leaves in the matrix. -/
theorem trackerLoop_spec (da : DataAssociation) (ext : Externals)
    (measurements : DetectedObjects) (trackers : List Tracker) :
    ∀ (tracker_idx : Nat) (sm out : MatrixXd),
      da.trackerLoop ext measurements trackers tracker_idx sm = .ok out →
      out.rows = sm.rows ∧ out.cols = sm.cols
      ∧ (∀ i (hi : i < trackers.length) j (hj : j < measurements.objects.length),
          da.calcScore ext measurements.stamp (trackers.get ⟨i, hi⟩)
            (measurements.objects.get ⟨j, hj⟩) = .ok (out.coeffs (tracker_idx + i) j))
      ∧ (∀ a b, a < tracker_idx → out.coeffs a b = sm.coeffs a b) := by
  induction trackers with
  | nil =>
    intro ti sm out h
    unfold DataAssociation.trackerLoop at h
    injection h with h
    subst h
    exact ⟨rfl, rfl, fun i hi => absurd hi (Nat.not_lt_zero i), fun _ _ _ => rfl⟩
  | cons tr rest ih =>
    intro ti sm out h
    unfold DataAssociation.trackerLoop at h
    cases hin : da.measurementLoop ext measurements.stamp tr ti measurements.objects 0 sm with
    | error e =>
      simp only [bind, Except.bind] at h
      rw [hin] at h
      cases h
    | ok sm1 =>
      simp only [bind, Except.bind] at h
      rw [hin] at h
      obtain ⟨hr1, hc1, hval1, hframe1⟩ :=
        measurementLoop_spec da ext measurements.stamp tr ti measurements.objects 0 sm sm1 hin
      obtain ⟨hr, hc, hval, hframe⟩ := ih (ti + 1) sm1 out h
      refine ⟨hr.trans hr1, hc.trans hc1, ?_, ?_⟩
      · intro i hi j hj
        cases i with
        | zero =>
          have h1 := hval1 j hj
          rw [Nat.zero_add] at h1
          simp only [List.get_eq_getElem, List.getElem_cons_zero, Nat.add_zero] at h1 ⊢
          rw [hframe ti j (Nat.lt_succ_self ti)]
          exact h1
        | succ i =>
          have hi2 : i < rest.length := Nat.lt_of_succ_lt_succ hi
          have h2 := hval i hi2 j hj
          simp only [List.get_eq_getElem, List.getElem_cons_succ] at h2 ⊢
          rw [h2]
          congr 2
          omega
      · intro a b hab
        rw [hframe a b (by omega), hframe1 a b (Or.inl (by omega))]

/-- The outer loop runs to its end when every score is defined and the rows lie in the
matrix. -/
theorem trackerLoop_ok (da : DataAssociation) (ext : Externals)
    (measurements : DetectedObjects) (trackers : List Tracker)
    (hscore : ∀ tr ∈ trackers, ∀ mo ∈ measurements.objects,
      ∃ s, da.calcScore ext measurements.stamp tr mo = .ok s) :
    ∀ (tracker_idx : Nat) (sm : MatrixXd), tracker_idx + trackers.length ≤ sm.rows →
      measurements.objects.length ≤ sm.cols →
      ∃ out, da.trackerLoop ext measurements trackers tracker_idx sm = .ok out := by
  induction trackers with
  | nil =>
    intro ti sm _ _
    exact ⟨sm, rfl⟩
  | cons tr rest ih =>
    intro ti sm hrow hcol
    simp only [List.length_cons] at hrow
    obtain ⟨sm1, hsm1⟩ := measurementLoop_ok da ext measurements.stamp tr ti
      measurements.objects (hscore tr (List.mem_cons_self _ _)) 0 sm (by omega) (by omega)
    obtain ⟨hr1, hc1, -, -⟩ :=
      measurementLoop_spec da ext measurements.stamp tr ti measurements.objects 0 sm sm1 hsm1
    obtain ⟨out, hout⟩ := ih (fun t ht => hscore t (List.mem_cons_of_mem _ ht)) (ti + 1) sm1
      (by rw [hr1]; omega) (by rw [hc1]; exact hcol)
    refine ⟨out, ?_⟩
    unfold DataAssociation.trackerLoop
    simp only [bind, Except.bind]
    rw [hsm1]
    exact hout

/-- Without measurements the outer loop leaves the matrix as it is. -/
theorem trackerLoop_no_measurement (da : DataAssociation) (ext : Externals)
    (measurements : DetectedObjects) (hnil : measurements.objects = [])
    (trackers : List Tracker) :
    ∀ (tracker_idx : Nat) (sm : MatrixXd),
      da.trackerLoop ext measurements trackers tracker_idx sm = .ok sm := by
  induction trackers with
  | nil =>
    intro ti sm
    rfl
  | cons tr rest ih =>
    intro ti sm
    unfold DataAssociation.trackerLoop
    rw [hnil]
    unfold DataAssociation.measurementLoop
    simp only [bind, Except.bind]
    exact ih (ti + 1) sm

theorem areaGate_of_reads (da : DataAssociation) (ext : Externals) (t m : ℤ)
    (mo : DetectedObject) (pg : Bool) (max_area min_area : ℚ)
    (h1 : da.max_area_matrix_.coeff t m = .ok max_area)
    (h2 : da.min_area_matrix_.coeff t m = .ok min_area) :
    da.areaGate ext t m mo pg
      = .ok (pg && decide (min_area ≤ ext.getArea mo.shape ∧ ext.getArea mo.shape ≤ max_area)) := by
  unfold DataAssociation.areaGate
  cases pg with
  | false => rfl
  | true =>
    rw [h1, h2]
    simp only [if_true, bind, Except.bind, pure, Except.pure, Bool.true_and]
    by_cases hc : ext.getArea mo.shape < min_area ∨ max_area < ext.getArea mo.shape
    · rw [if_pos hc]
      congr 1
      symm
      rw [decide_eq_false_iff_not]
      rintro ⟨ha, hb⟩
      rcases hc with hc | hc
      · exact absurd ha (not_le.mpr hc)
      · exact absurd hb (not_le.mpr hc)
    · rw [if_neg hc]
      congr 1
      symm
      rw [decide_eq_true_iff]
      rw [not_or, not_lt, not_lt] at hc
      exact hc

theorem angleGate_of_reads (da : DataAssociation) (ext : Externals) (t m : ℤ)
    (mo : DetectedObject) (tobj : TrackedObject) (pg : Bool) (max_rad : ℚ)
    (h1 : da.max_rad_matrix_.coeff t m = .ok max_rad) :
    da.angleGate ext t m mo tobj pg
      = .ok (pg && decide (¬ (|max_rad| < M_PI ∧ |max_rad| < |getFormedYawAngle ext
          mo.pose_with_covariance.pose.orientation tobj.pose_with_covariance.pose.orientation
          false|))) := by
  unfold DataAssociation.angleGate
  cases pg with
  | false => rfl
  | true =>
    rw [h1]
    simp only [if_true, bind, Except.bind, pure, Except.pure, Bool.true_and]
    by_cases hc : |max_rad| < M_PI ∧ |max_rad| < |getFormedYawAngle ext
        mo.pose_with_covariance.pose.orientation tobj.pose_with_covariance.pose.orientation false|
    · rw [if_pos hc]
      congr 1
      symm
      rw [decide_eq_false_iff_not]
      exact not_not.mpr hc
    · rw [if_neg hc]
      congr 1
      symm
      rw [decide_eq_true_iff]
      exact hc

theorem mahalanobisGate_of_reads (ext : Externals) (mo : DetectedObject) (tobj : TrackedObject)
    (pg : Bool) (mahalanobis_dist : ℚ)
    (h1 : getMahalanobisDistance ext mo.pose_with_covariance.pose.position
      tobj.pose_with_covariance.pose.position (getXYCovariance tobj.pose_with_covariance)
        = .ok mahalanobis_dist) :
    mahalanobisGate ext mo tobj pg = .ok (pg && decide (mahalanobis_dist < 3.035)) := by
  unfold mahalanobisGate
  cases pg with
  | false => rfl
  | true =>
    rw [h1]
    simp only [if_true, bind, Except.bind, pure, Except.pure, Bool.true_and]
    by_cases hc : (3.035 : ℚ) ≤ mahalanobis_dist
    · rw [if_pos hc]
      congr 1
      symm
      rw [decide_eq_false_iff_not]
      exact not_lt.mpr hc
    · rw [if_neg hc]
      congr 1
      symm
      rw [decide_eq_true_iff]
      exact not_le.mp hc

theorem iouGate_of_reads (da : DataAssociation) (ext : Externals) (t m : ℤ)
    (mo : DetectedObject) (tobj : TrackedObject) (pg : Bool) (min_iou : ℚ)
    (h1 : da.min_iou_matrix_.coeff t m = .ok min_iou) :
    da.iouGate ext t m mo tobj pg = .ok (pg && decide (min_iou ≤ ext.get2dIoU mo tobj 1e-2)) := by
  unfold DataAssociation.iouGate
  cases pg with
  | false => rfl
  | true =>
    rw [h1]
    simp only [if_true, bind, Except.bind, pure, Except.pure, Bool.true_and]
    by_cases hc : ext.get2dIoU mo tobj 1e-2 < min_iou
    · rw [if_pos hc]
      congr 1
      symm
      rw [decide_eq_false_iff_not]
      exact not_le.mpr hc
    · rw [if_neg hc]
      congr 1
      symm
      rw [decide_eq_true_iff]
      exact not_lt.mp hc

theorem distGate_eq (max_dist dist : ℚ) (pg : Bool) :
    distGate max_dist dist pg = (pg && decide (dist ≤ max_dist)) := by
  unfold distGate
  cases pg with
  | false => rfl
  | true =>
    simp only [if_true, Bool.true_and]
    by_cases hc : max_dist < dist
    · rw [if_pos hc]
      symm
      rw [decide_eq_false_iff_not]
      exact not_le.mpr hc
    · rw [if_neg hc]
      symm
      rw [decide_eq_true_iff]
      exact not_lt.mp hc

theorem gatedScore_eq (da : DataAssociation) (max_dist dist : ℚ) (pg : Bool)
    (hnz : max_dist ≠ 0) :
    da.gatedScore max_dist dist pg
      = .ok (if pg = true then
          (if da.score_threshold_ ≤ (max_dist - min dist max_dist) / max_dist
            then (max_dist - min dist max_dist) / max_dist else 0)
          else 0) := by
  unfold DataAssociation.gatedScore rawScore
  cases pg with
  | false =>
    simp only [pure, Except.pure]
    norm_num
  | true =>
    rw [if_neg hnz]
    simp only [if_true, bind, Except.bind, pure, Except.pure]
    by_cases hc : (max_dist - min dist max_dist) / max_dist < da.score_threshold_
    · rw [if_pos hc, if_neg (not_le.mpr hc)]
      norm_num
    · rw [if_neg hc, if_pos (not_lt.mp hc)]

/-- With all readings defined and a non-zero `max_dist`, the cell is the thresholded score when
the six conditions hold and 0 otherwise. -/
theorem calcScore_of_reads (da : DataAssociation) (ext : Externals) (stamp : ℤ)
    (tracker : Tracker) (mo : DetectedObject) (r : PairReadings)
    (hr : da.Reads ext stamp tracker mo r) (hnz : r.max_dist ≠ 0) :
    da.calcScore ext stamp tracker mo
      = .ok (if r.allGatesHold then
          (if da.score_threshold_ ≤ r.claimedScore then r.claimedScore else 0) else 0) := by
  obtain ⟨hca, hmd, hxa, hna, hmr, hmi, hdist, harea, hangle, hmah, hiou⟩ := hr
  unfold DataAssociation.calcScore
  simp only [bind, Except.bind, pure, Except.pure]
  rw [hca]
  simp only []
  by_cases hz : r.can_assign = 0
  · rw [if_neg (not_not.mpr hz), if_neg]
    · norm_num
    · intro h
      exact h.1 hz
  · rw [if_pos hz, hmd]
    simp only []
    rw [distGate_eq, areaGate_of_reads da ext _ _ mo _ r.max_area r.min_area hxa hna]
    simp only []
    rw [angleGate_of_reads da ext _ _ mo _ _ r.max_rad hmr]
    simp only []
    rw [mahalanobisGate_of_reads ext mo _ _ r.mahalanobis_dist hmah]
    simp only []
    rw [iouGate_of_reads da ext _ _ mo _ _ r.min_iou hmi]
    simp only []
    rw [gatedScore_eq da _ _ _ hnz, ← hdist, ← harea, ← hangle, ← hiou]
    congr 1
    unfold PairReadings.allGatesHold PairReadings.claimedScore
    by_cases hall : r.can_assign ≠ 0 ∧ r.dist ≤ r.max_dist
        ∧ (r.min_area ≤ r.area ∧ r.area ≤ r.max_area)
        ∧ ¬ (|r.max_rad| < M_PI ∧ |r.max_rad| < |r.angle|)
        ∧ r.mahalanobis_dist < 3.035 ∧ r.min_iou ≤ r.iou
    · rw [if_pos hall]
      obtain ⟨-, h2, h3, h4, h5, h6⟩ := hall
      rw [if_pos]
      simp only [Bool.true_and, Bool.and_eq_true, decide_eq_true_eq]
      exact ⟨⟨⟨⟨h2, h3⟩, h4⟩, h5⟩, h6⟩
    · rw [if_neg hall, if_neg]
      intro hb
      apply hall
      simp only [Bool.true_and, Bool.and_eq_true, decide_eq_true_eq] at hb
      obtain ⟨⟨⟨⟨h2, h3⟩, h4⟩, h5⟩, h6⟩ := hb
      exact ⟨hz, h2, h3, h4, h5, h6⟩

theorem except_bind_ok {ε α β : Type} (x : Except ε α) (f : α → Except ε β) (c : β)
    (h : (x >>= f) = .ok c) : ∃ a, x = .ok a ∧ f a = .ok c := by
  cases x with
  | error e => cases h
  | ok a => exact ⟨a, rfl, h⟩

theorem areaGate_true (da : DataAssociation) (ext : Externals) (t m : ℤ)
    (mo : DetectedObject) (pg : Bool) (h : da.areaGate ext t m mo pg = .ok true) :
    pg = true ∧ ∃ max_area min_area, da.max_area_matrix_.coeff t m = .ok max_area
      ∧ da.min_area_matrix_.coeff t m = .ok min_area
      ∧ min_area ≤ ext.getArea mo.shape ∧ ext.getArea mo.shape ≤ max_area := by
  cases pg with
  | false => cases h
  | true =>
    refine ⟨rfl, ?_⟩
    have h0 := h
    unfold DataAssociation.areaGate at h
    rw [if_pos rfl] at h
    obtain ⟨xa, hxa, h⟩ := except_bind_ok _ _ _ h
    obtain ⟨na, hna, -⟩ := except_bind_ok _ _ _ h
    refine ⟨xa, na, hxa, hna, ?_⟩
    rw [areaGate_of_reads da ext t m mo true xa na hxa hna] at h0
    injection h0 with h0
    simpa using h0

theorem angleGate_true (da : DataAssociation) (ext : Externals) (t m : ℤ)
    (mo : DetectedObject) (tobj : TrackedObject) (pg : Bool)
    (h : da.angleGate ext t m mo tobj pg = .ok true) :
    pg = true ∧ ∃ max_rad, da.max_rad_matrix_.coeff t m = .ok max_rad
      ∧ ¬ (|max_rad| < M_PI ∧ |max_rad| < |getFormedYawAngle ext
          mo.pose_with_covariance.pose.orientation tobj.pose_with_covariance.pose.orientation
          false|) := by
  cases pg with
  | false => cases h
  | true =>
    refine ⟨rfl, ?_⟩
    have h0 := h
    unfold DataAssociation.angleGate at h
    rw [if_pos rfl] at h
    obtain ⟨mr, hmr, -⟩ := except_bind_ok _ _ _ h
    refine ⟨mr, hmr, ?_⟩
    rw [angleGate_of_reads da ext t m mo tobj true mr hmr] at h0
    injection h0 with h0
    rw [Bool.true_and, decide_eq_true_iff] at h0
    exact h0

theorem mahalanobisGate_true (ext : Externals) (mo : DetectedObject) (tobj : TrackedObject)
    (pg : Bool) (h : mahalanobisGate ext mo tobj pg = .ok true) :
    pg = true ∧ ∃ mahalanobis_dist,
      getMahalanobisDistance ext mo.pose_with_covariance.pose.position
        tobj.pose_with_covariance.pose.position (getXYCovariance tobj.pose_with_covariance)
          = .ok mahalanobis_dist
      ∧ mahalanobis_dist < 3.035 := by
  cases pg with
  | false => cases h
  | true =>
    refine ⟨rfl, ?_⟩
    have h0 := h
    unfold mahalanobisGate at h
    rw [if_pos rfl] at h
    obtain ⟨md, hmd, -⟩ := except_bind_ok _ _ _ h
    refine ⟨md, hmd, ?_⟩
    rw [mahalanobisGate_of_reads ext mo tobj true md hmd] at h0
    injection h0 with h0
    rw [Bool.true_and, decide_eq_true_iff] at h0
    exact h0

theorem iouGate_true (da : DataAssociation) (ext : Externals) (t m : ℤ)
    (mo : DetectedObject) (tobj : TrackedObject) (pg : Bool)
    (h : da.iouGate ext t m mo tobj pg = .ok true) :
    pg = true ∧ ∃ min_iou, da.min_iou_matrix_.coeff t m = .ok min_iou
      ∧ min_iou ≤ ext.get2dIoU mo tobj 1e-2 := by
  cases pg with
  | false => cases h
  | true =>
    refine ⟨rfl, ?_⟩
    have h0 := h
    unfold DataAssociation.iouGate at h
    rw [if_pos rfl] at h
    obtain ⟨mi, hmi, -⟩ := except_bind_ok _ _ _ h
    refine ⟨mi, hmi, ?_⟩
    rw [iouGate_of_reads da ext t m mo tobj true mi hmi] at h0
    injection h0 with h0
    rw [Bool.true_and, decide_eq_true_iff] at h0
    exact h0

theorem gatedScore_ne_zero (da : DataAssociation) (max_dist dist : ℚ) (pg : Bool) (c : ℚ)
    (h : da.gatedScore max_dist dist pg = .ok c) (hc : c ≠ 0) :
    pg = true ∧ max_dist ≠ 0 ∧ c = (max_dist - min dist max_dist) / max_dist
      ∧ da.score_threshold_ ≤ c := by
  cases pg with
  | false =>
    unfold DataAssociation.gatedScore at h
    simp only [pure, Except.pure] at h
    injection h with h
    exact absurd (by rw [← h]; norm_num) hc
  | true =>
    have hnz : max_dist ≠ 0 := by
      intro hz
      unfold DataAssociation.gatedScore rawScore at h
      rw [if_pos rfl, if_pos hz] at h
      cases h
    rw [gatedScore_eq da max_dist dist true hnz, if_pos rfl] at h
    injection h with h
    by_cases hle : da.score_threshold_ ≤ (max_dist - min dist max_dist) / max_dist
    · rw [if_pos hle] at h
      exact ⟨rfl, hnz, h.symm, by rw [← h]; exact hle⟩
    · rw [if_neg hle] at h
      exact absurd h.symm hc

/-- A non-zero cell comes from a pair whose readings are all defined and pass the six
conditions. -/
theorem calcScore_ne_zero (da : DataAssociation) (ext : Externals) (stamp : ℤ)
    (tracker : Tracker) (mo : DetectedObject) (c : ℚ)
    (h : da.calcScore ext stamp tracker mo = .ok c) (hc : c ≠ 0) :
    ∃ r, da.Reads ext stamp tracker mo r ∧ r.max_dist ≠ 0 ∧ r.allGatesHold
      ∧ c = r.claimedScore ∧ da.score_threshold_ ≤ c := by
  unfold DataAssociation.calcScore at h
  obtain ⟨ca, hca, h⟩ := except_bind_ok _ _ _ h
  by_cases hz : ca = 0
  · rw [if_neg (not_not.mpr hz)] at h
    simp only [pure, Except.pure] at h
    injection h with h
    exact absurd (by rw [← h]; norm_num) hc
  · rw [if_pos hz] at h
    obtain ⟨md, hmd, h⟩ := except_bind_ok _ _ _ h
    obtain ⟨b1, h1, h⟩ := except_bind_ok _ _ _ h
    obtain ⟨b2, h2, h⟩ := except_bind_ok _ _ _ h
    obtain ⟨b3, h3, h⟩ := except_bind_ok _ _ _ h
    obtain ⟨b4, h4, h⟩ := except_bind_ok _ _ _ h
    obtain ⟨hb4, hnz, hval, hthr⟩ := gatedScore_ne_zero da _ _ b4 c h hc
    subst hb4
    obtain ⟨hb3, mi, hmi, hiou⟩ := iouGate_true da ext _ _ mo _ b3 h4
    subst hb3
    obtain ⟨hb2, mah, hmah, hmahlt⟩ := mahalanobisGate_true ext mo _ b2 h3
    subst hb2
    obtain ⟨hb1, mr, hmr, hang⟩ := angleGate_true da ext _ _ mo _ b1 h2
    subst hb1
    obtain ⟨hb0, xa, na, hxa, hna, harea⟩ := areaGate_true da ext _ _ mo _ h1
    rw [distGate_eq, Bool.true_and, decide_eq_true_iff] at hb0
    exact ⟨⟨ca, md, xa, na, mr, mi, _, _, _, mah, _⟩,
      ⟨hca, hmd, hxa, hna, hmr, hmi, rfl, rfl, rfl, hmah, rfl⟩, hnz,
      ⟨hz, hb0, harea, hang, hmahlt, hiou⟩, hval, hthr⟩

theorem ratSqrt_four : ratSqrt 4 = 2 := by
  have h : Nat.sqrt 4 = 2 := Nat.sqrt_eq 2
  simp [ratSqrt, h]

theorem ratSqrt_zero : ratSqrt 0 = 0 := by
  simp [ratSqrt]

theorem fixYawUp_zero_zero : fixYawUp false 0 0 = 0 := by
  rw [fixYawUp, if_neg]
  norm_num [angleRange, M_PI_2]

theorem fixYawDown_zero_zero : fixYawDown false 0 0 = 0 := by
  rw [fixYawDown, if_neg]
  norm_num [angleRange, M_PI_2]

theorem sample_angle (q1 q2 : Quaternion) : getFormedYawAngle sampleExternals q1 q2 false = 0 := by
  simp [getFormedYawAngle, sampleExternals, fixYawUp_zero_zero, fixYawDown_zero_zero]

theorem sample_reads :
    sampleEngine.Reads sampleExternals 0 (sampleTracker 0 0) (sampleMeasurement 0 2)
      ⟨1, 10, 100, 0, 3.15, 0, 2, 2, 0, 2, 0⟩ := by
  refine ⟨?_, ?_, ?_, ?_, ?_, ?_, ?_, ?_, ?_, ?_, ?_⟩
  · simp [sampleEngine, DataAssociation.create, reshapeConfig, MatrixX.Map, MatrixX.transpose,
      MatrixX.coeff, MatrixX.InRange, sampleExternals, sampleMeasurement, sampleTracker]
  · simp [sampleEngine, DataAssociation.create, reshapeConfig, MatrixX.Map, MatrixX.transpose,
      MatrixX.coeff, MatrixX.InRange, sampleExternals, sampleMeasurement, sampleTracker]
  · simp [sampleEngine, DataAssociation.create, reshapeConfig, MatrixX.Map, MatrixX.transpose,
      MatrixX.coeff, MatrixX.InRange, sampleExternals, sampleMeasurement, sampleTracker]
  · simp [sampleEngine, DataAssociation.create, reshapeConfig, MatrixX.Map, MatrixX.transpose,
      MatrixX.coeff, MatrixX.InRange, sampleExternals, sampleMeasurement, sampleTracker]
  · simp [sampleEngine, DataAssociation.create, reshapeConfig, MatrixX.Map, MatrixX.transpose,
      MatrixX.coeff, MatrixX.InRange, sampleExternals, sampleMeasurement, sampleTracker]
  · simp [sampleEngine, DataAssociation.create, reshapeConfig, MatrixX.Map, MatrixX.transpose,
      MatrixX.coeff, MatrixX.InRange, sampleExternals, sampleMeasurement, sampleTracker]
  · simp [sampleExternals, sampleMeasurement, sampleTracker, samplePose]
    rw [show ((2 : ℚ) ^ 2) = 4 by norm_num, ratSqrt_four]
  · simp [sampleExternals, sampleMeasurement, sampleShape]
  · rw [sample_angle]
  · simp [getMahalanobisDistance, getXYCovariance, Matrix2d.inverse, sampleExternals,
      sampleMeasurement, sampleTracker, samplePose, bind, Except.bind, pure, Except.pure]
    rw [show ((2 : ℚ) * 2) = 4 by norm_num, ratSqrt_four]
  · simp [sampleExternals, sampleMeasurement, sampleTracker, samplePose]

end ScoreMatrixLemmas

/-! ### Claims on `calcScoreMatrix` -/

/-- C8: `calcScoreMatrix` returns a matrix with one row per tracker and one column per
measurement, in list order: whenever it returns, the result has `T` rows and `M` columns and
its cell `(i, j)` is the score of tracker `i` and measurement `j`; it returns whenever every
single score is defined; and with no tracker or no measurement it returns the empty
`T x M` matrix without a fault. -/
theorem calcScoreMatrix_shape (da : DataAssociation) (ext : Externals)
    (measurements : DetectedObjects) (trackers : List Tracker) :
    (∀ m, da.calcScoreMatrix ext measurements trackers = .ok m →
      m.rows = trackers.length ∧ m.cols = measurements.objects.length
      ∧ ∀ i (hi : i < trackers.length) j (hj : j < measurements.objects.length),
          da.calcScore ext measurements.stamp (trackers.get ⟨i, hi⟩)
            (measurements.objects.get ⟨j, hj⟩) = .ok (m.coeffs i j))
    ∧ ((∀ tr ∈ trackers, ∀ mo ∈ measurements.objects,
          ∃ s, da.calcScore ext measurements.stamp tr mo = .ok s) →
        ∃ m, da.calcScoreMatrix ext measurements trackers = .ok m)
    ∧ (trackers.length = 0 ∨ measurements.objects.length = 0 →
        da.calcScoreMatrix ext measurements trackers
          = .ok (MatrixX.Zero trackers.length measurements.objects.length)) := by
  refine ⟨?_, ?_, ?_⟩
  · intro m hm
    unfold DataAssociation.calcScoreMatrix at hm
    obtain ⟨hr, hc, hval, -⟩ := trackerLoop_spec da ext measurements trackers 0 _ m hm
    refine ⟨hr, hc, ?_⟩
    intro i hi j hj
    have := hval i hi j hj
    rw [Nat.zero_add] at this
    exact this
  · intro hscore
    unfold DataAssociation.calcScoreMatrix
    exact trackerLoop_ok da ext measurements trackers hscore 0 _
      (by simp [MatrixX.Zero]) (by simp [MatrixX.Zero])
  · intro h
    unfold DataAssociation.calcScoreMatrix
    rcases h with h | h
    · have hnil : trackers = [] := List.length_eq_zero.mp h
      subst hnil
      rfl
    · have hnil : measurements.objects = [] := List.length_eq_zero.mp h
      exact trackerLoop_no_measurement da ext measurements hnil trackers 0 _

/-! ## Headings, gates at their boundary, the constructor, labels -/

section YawLemmas

theorem angleStep_pos (dfb : Bool) : 0 < angleStep dfb := by
  cases dfb <;> norm_num [angleStep, M_PI]

theorem angleStep_eq_two_range (dfb : Bool) : angleStep dfb = 2 * angleRange dfb := by
  cases dfb <;> norm_num [angleStep, angleRange, M_PI, M_PI_2]

/-- The first loop ends with `tracker_yaw - m < angle_range`, after adding the step `n`
times; when `n > 0` the last value before the final step still met the loop condition. -/
theorem fixYawUp_spec (dfb : Bool) (t m : ℚ) :
    t - fixYawUp dfb t m < angleRange dfb
    ∧ ∃ n : ℕ, fixYawUp dfb t m = m + n * angleStep dfb
      ∧ (n = 0 ∨ angleRange dfb ≤ t - (fixYawUp dfb t m - angleStep dfb)) := by
  induction m using fixYawUp.induct dfb t with
  | case1 m hle ih =>
    obtain ⟨h1, n, h2, h3⟩ := ih
    have hunf : fixYawUp dfb t m = fixYawUp dfb t (m + angleStep dfb) := by
      rw [fixYawUp, if_pos hle]
    rw [hunf]
    refine ⟨h1, n + 1, ?_, Or.inr ?_⟩
    · rw [h2]
      push_cast
      ring
    · rcases h3 with h3 | h3
      · subst h3
        rw [h2]
        simp only [Nat.cast_zero, zero_mul, add_zero, add_sub_cancel_right]
        exact hle
      · exact h3
  | case2 m hnot =>
    have hunf : fixYawUp dfb t m = m := by
      rw [fixYawUp, if_neg hnot]
    rw [hunf]
    exact ⟨not_le.mp hnot, 0, by simp, Or.inl rfl⟩

theorem fixYawDown_spec (dfb : Bool) (t m : ℚ) :
    fixYawDown dfb t m - t < angleRange dfb
    ∧ ∃ n : ℕ, fixYawDown dfb t m = m - n * angleStep dfb
      ∧ (n = 0 ∨ angleRange dfb ≤ (fixYawDown dfb t m + angleStep dfb) - t) := by
  induction m using fixYawDown.induct dfb t with
  | case1 m hle ih =>
    obtain ⟨h1, n, h2, h3⟩ := ih
    have hunf : fixYawDown dfb t m = fixYawDown dfb t (m - angleStep dfb) := by
      rw [fixYawDown, if_pos hle]
    rw [hunf]
    refine ⟨h1, n + 1, ?_, Or.inr ?_⟩
    · rw [h2]
      push_cast
      ring
    · rcases h3 with h3 | h3
      · subst h3
        rw [h2]
        simp only [Nat.cast_zero, zero_mul, sub_zero, sub_add_cancel]
        exact hle
      · exact h3
  | case2 m hnot =>
    have hunf : fixYawDown dfb t m = m := by
      rw [fixYawDown, if_neg hnot]
    rw [hunf]
    exact ⟨not_le.mp hnot, 0, by simp, Or.inl rfl⟩

/-- After both loops the corrected heading `c` satisfies `t - c <= range` and `c - t < range`,
and differs from the start by an integer number of steps. -/
theorem fixYaw_both (dfb : Bool) (t m : ℚ) :
    t - fixYawDown dfb t (fixYawUp dfb t m) ≤ angleRange dfb
    ∧ fixYawDown dfb t (fixYawUp dfb t m) - t < angleRange dfb
    ∧ ∃ k : ℤ, fixYawDown dfb t (fixYawUp dfb t m) = m + k * angleStep dfb := by
  obtain ⟨hu1, nu, hu2, -⟩ := fixYawUp_spec dfb t m
  obtain ⟨hd1, nd, hd2, hd3⟩ := fixYawDown_spec dfb t (fixYawUp dfb t m)
  have hstep := angleStep_eq_two_range dfb
  refine ⟨?_, hd1, (nu : ℤ) - nd, ?_⟩
  · rcases hd3 with hd3 | hd3
    · subst hd3
      rw [hd2]
      simp only [Nat.cast_zero, zero_mul, sub_zero]
      exact hu1.le
    · linarith
  · rw [hd2, hu2]
    push_cast
    ring

end YawLemmas

section GateLemmas

theorem ratSqrt_threshold_sq : ratSqrt (3.035 * 3.035) = 3.035 := by
  have h1 : Nat.sqrt 368449 = 607 := Nat.sqrt_eq 607
  have h2 : Nat.sqrt 40000 = 200 := Nat.sqrt_eq 200
  have h3 : ((3.035 : ℚ) * 3.035) = ((368449 : ℤ) : ℚ) / ((40000 : ℤ) : ℚ) := by norm_num
  have hcop : Nat.Coprime (368449 : ℤ).natAbs (40000 : ℤ).natAbs := by
    show Nat.Coprime 368449 40000
    norm_num
  have hnum := Rat.num_div_eq_of_coprime (by norm_num : (0 : ℤ) < 40000) hcop
  have hden := Rat.den_div_eq_of_coprime (by norm_num : (0 : ℤ) < 40000) hcop
  have hden2 : (((368449 : ℤ) : ℚ) / ((40000 : ℤ) : ℚ)).den = 40000 := by
    have := hden
    omega
  rw [h3]
  unfold ratSqrt
  rw [hnum, hden2, show (368449 : ℤ).toNat = 368449 from rfl, h1, h2]
  norm_num

end GateLemmas

section ConfigLemmas

theorem reshapeConfig_rows {α : Type} [Inhabited α] (v : List α) :
    (reshapeConfig v).rows = Nat.sqrt v.length := rfl

theorem reshapeConfig_cols {α : Type} [Inhabited α] (v : List α) :
    (reshapeConfig v).cols = Nat.sqrt v.length := rfl

/-- The entry of the stored matrix at (tracker label `i`, measurement label `j`) is the
element `i * L + j` of the flat vector, `L` being the integer square root of its length. -/
theorem reshapeConfig_coeff {α : Type} [Inhabited α] (v : List α) (i j : Nat)
    (hi : i < Nat.sqrt v.length) (hj : j < Nat.sqrt v.length) :
    (reshapeConfig v).coeff i j = .ok (v.getD (i * Nat.sqrt v.length + j) default)
    ∧ i * Nat.sqrt v.length + j < v.length := by
  constructor
  · rw [coeff_of_inRange]
    · simp only [reshapeConfig, MatrixX.transpose, MatrixX.Map, Int.toNat_ofNat]
      rw [Nat.add_comm]
    · refine ⟨by omega, ?_, by omega, ?_⟩
      · rw [reshapeConfig_rows]
        exact_mod_cast hi
      · rw [reshapeConfig_cols]
        exact_mod_cast hj
  · have h1 : i * Nat.sqrt v.length + j < (i + 1) * Nat.sqrt v.length := by
      rw [Nat.add_mul, Nat.one_mul]
      omega
    have h2 : (i + 1) * Nat.sqrt v.length ≤ Nat.sqrt v.length * Nat.sqrt v.length :=
      Nat.mul_le_mul_right _ hi
    have h3 := Nat.sqrt_le v.length
    omega

end ConfigLemmas

/-- C15: with tracker heading 0 and measurement heading pi (`M_PI`, or `-M_PI` after a
normalisation into `[-pi, pi)`), `getFormedYawAngle` returns 0 when front and back are not
distinguished and `M_PI` when they are. -/
theorem getFormedYawAngle_half_turn (ext : Externals) (measurement_quat tracker_quat : Quaternion)
    (ht : ext.normalizeRadian (ext.getYaw tracker_quat) = 0)
    (hm : ext.normalizeRadian (ext.getYaw measurement_quat) = M_PI
      ∨ ext.normalizeRadian (ext.getYaw measurement_quat) = -M_PI) :
    getFormedYawAngle ext measurement_quat tracker_quat false = 0
    ∧ getFormedYawAngle ext measurement_quat tracker_quat true = M_PI := by
  have hpi : (0 : ℚ) < M_PI := by norm_num [M_PI]
  unfold getFormedYawAngle
  simp only []
  rw [ht]
  rcases hm with hm | hm <;> rw [hm]
  · constructor
    · rw [fixYawUp, if_neg (by norm_num [angleRange, M_PI, M_PI_2]),
        fixYawDown, if_pos (by norm_num [angleRange, M_PI, M_PI_2]),
        fixYawDown, if_neg (by norm_num [angleRange, angleStep, M_PI, M_PI_2])]
      norm_num [angleStep]
    · rw [fixYawUp, if_neg (by norm_num [angleRange, M_PI]),
        fixYawDown, if_pos (by norm_num [angleRange, M_PI]),
        fixYawDown, if_neg (by norm_num [angleRange, angleStep, M_PI])]
      norm_num [angleStep, M_PI]
  · constructor
    · rw [fixYawUp, if_pos (by norm_num [angleRange, M_PI, M_PI_2]),
        fixYawUp, if_neg (by norm_num [angleRange, angleStep, M_PI, M_PI_2]),
        fixYawDown, if_neg (by norm_num [angleRange, angleStep, M_PI, M_PI_2])]
      norm_num [angleStep]
    · rw [fixYawUp, if_pos (by norm_num [angleRange, M_PI]),
        fixYawUp, if_neg (by norm_num [angleRange, angleStep, M_PI]),
        fixYawDown, if_pos (by norm_num [angleRange, angleStep, M_PI]),
        fixYawDown, if_neg (by norm_num [angleRange, angleStep, M_PI])]
      norm_num [angleStep, M_PI]

/-- C15, worked instance: the half turn (0, 0, 1, 0) against the rotation-free (0, 0, 0, 1). -/
theorem getFormedYawAngle_half_turn_witness :
    getFormedYawAngle halfTurnExternals ⟨0, 0, 1, 0⟩ ⟨0, 0, 0, 1⟩ false = 0
    ∧ getFormedYawAngle halfTurnExternals ⟨0, 0, 1, 0⟩ ⟨0, 0, 0, 1⟩ true = M_PI :=
  getFormedYawAngle_half_turn halfTurnExternals ⟨0, 0, 1, 0⟩ ⟨0, 0, 0, 1⟩
    (by simp [halfTurnExternals, sampleExternals])
    (by left; simp [halfTurnExternals, sampleExternals])

section LeadingSquareLemmas

theorem getD_take_of_lt {α : Type} (v : List α) (n k : Nat) (d : α) (h : k < n) :
    (v.take n).getD k d = v.getD k d := by
  simp only [List.getD_eq_getElem?_getD]
  rw [List.getElem?_take_of_lt h]

theorem square_index_lt (L i j : Nat) (hi : i < L) (hj : j < L) : i * L + j < L * L := by
  have h1 : i * L + j < (i + 1) * L := by
    rw [Nat.add_mul, Nat.one_mul]
    omega
  have h2 : (i + 1) * L ≤ L * L := Nat.mul_le_mul_right _ hi
  omega

theorem reshapeConfig_coeff_take {α : Type} [Inhabited α] (v : List α) (i j : ℤ) :
    (reshapeConfig v).coeff i j
      = if 0 ≤ i ∧ i < Nat.sqrt v.length ∧ 0 ≤ j ∧ j < Nat.sqrt v.length then
          .ok ((v.take (Nat.sqrt v.length * Nat.sqrt v.length)).getD
            (i.toNat * Nat.sqrt v.length + j.toNat) default)
        else .error .outOfRange := by
  unfold MatrixX.coeff
  by_cases h : 0 ≤ i ∧ i < Nat.sqrt v.length ∧ 0 ≤ j ∧ j < Nat.sqrt v.length
  · rw [if_pos h, if_pos (show (reshapeConfig v).InRange i j from h)]
    have hi : i.toNat < Nat.sqrt v.length := by omega
    have hj : j.toNat < Nat.sqrt v.length := by omega
    rw [getD_take_of_lt _ _ _ _ (square_index_lt _ _ _ hi hj)]
    simp only [reshapeConfig, MatrixX.transpose, MatrixX.Map]
    rw [Nat.add_comm]
  · rw [if_neg h, if_neg (show ¬ (reshapeConfig v).InRange i j from h)]

theorem reshapeConfig_isLeadingSquareOf {α : Type} [Inhabited α] (v : List α) :
    IsLeadingSquareOf (reshapeConfig v) v := by
  refine ⟨rfl, rfl, ?_, ?_⟩
  · intro i j hi hj
    refine ⟨square_index_lt _ _ _ hi hj, ?_⟩
    rw [reshapeConfig_coeff_take, if_pos ⟨by omega, by exact_mod_cast hi, by omega,
      by exact_mod_cast hj⟩]
    simp
  · intro w hw htake i j
    rw [reshapeConfig_coeff_take, reshapeConfig_coeff_take, hw, htake]

end LeadingSquareLemmas

/-- C17 (as amended): the constructor produces an engine for vectors of every length, a
length that is not a perfect square included. For a vector of length `n` it takes
`L = floor (sqrt n)` and builds the `L x L` matrix from the first `L * L` elements, entry
`(i, j)` being element `i * L + j`; the elements after them are ignored. -/
theorem create_always_succeeds (mussp : GnnSolverInterface) (can_assign_vector : List ℤ)
    (max_dist_vector max_area_vector min_area_vector max_rad_vector min_iou_vector : List ℚ) :
    ∃ da, DataAssociation.create mussp can_assign_vector max_dist_vector max_area_vector
        min_area_vector max_rad_vector min_iou_vector = da
      ∧ IsLeadingSquareOf da.can_assign_matrix_ can_assign_vector
      ∧ IsLeadingSquareOf da.max_dist_matrix_ max_dist_vector
      ∧ IsLeadingSquareOf da.max_area_matrix_ max_area_vector
      ∧ IsLeadingSquareOf da.min_area_matrix_ min_area_vector
      ∧ IsLeadingSquareOf da.max_rad_matrix_ max_rad_vector
      ∧ IsLeadingSquareOf da.min_iou_matrix_ min_iou_vector
      ∧ da.score_threshold_ = 0.01 ∧ da.gnn_solver_ptr_ = mussp :=
  ⟨_, rfl, reshapeConfig_isLeadingSquareOf _, reshapeConfig_isLeadingSquareOf _,
    reshapeConfig_isLeadingSquareOf _, reshapeConfig_isLeadingSquareOf _,
    reshapeConfig_isLeadingSquareOf _, reshapeConfig_isLeadingSquareOf _, rfl, rfl⟩

/-- C17, worked instance: vectors of length 5 give 2 x 2 matrices of their first four
elements, and the engine is the same in every coefficient as the one built from the vectors
cut to length 4. -/
theorem create_always_succeeds_witness :
    oversizedEngine.max_dist_matrix_.rows = 2 ∧ oversizedEngine.max_dist_matrix_.cols = 2
    ∧ oversizedEngine.max_dist_matrix_.coeff 0 0 = .ok 10
    ∧ oversizedEngine.max_dist_matrix_.coeff 0 1 = .ok 20
    ∧ oversizedEngine.max_dist_matrix_.coeff 1 0 = .ok 30
    ∧ oversizedEngine.max_dist_matrix_.coeff 1 1 = .ok 40
    ∧ (∀ i j : ℤ, twoClassEngine.max_dist_matrix_.coeff i j
        = oversizedEngine.max_dist_matrix_.coeff i j) := by
  obtain ⟨da, hda, -, ⟨hrows, hcols, hcoeff, hrest⟩, -⟩ :=
    create_always_succeeds (fixedSolver [] []) [1, 0, 0, 1, 7] [10, 20, 30, 40, 50]
      [100, 200, 300, 400, 500] [0, 1, 2, 3, 4] [3.15, 1, 2, 3, 4] [0, 0.1, 0.2, 0.3, 0.4]
  have hs5 : Nat.sqrt 5 = 2 := by norm_num [Nat.sqrt, Nat.sqrt.iter]
  have hs4 : Nat.sqrt 4 = 2 := by norm_num [Nat.sqrt, Nat.sqrt.iter]
  have hlen : ([10, 20, 30, 40, 50] : List ℚ).length = 5 := rfl
  rw [hlen, hs5] at hrows hcols hcoeff hrest
  subst hda
  refine ⟨hrows, hcols, ?_, ?_, ?_, ?_, ?_⟩
  · simpa using (hcoeff 0 0 (by omega) (by omega)).2
  · simpa using (hcoeff 0 1 (by omega) (by omega)).2
  · simpa using (hcoeff 1 0 (by omega) (by omega)).2
  · simpa using (hcoeff 1 1 (by omega) (by omega)).2
  · exact hrest [10, 20, 30, 40] (by simp [hs4]) (by simp)

/-- C17 as stated fails: six vectors of length 2, which is not a square, give an engine with
1 x 1 matrices that hold the first element of each vector. -/
theorem create_non_square_counterexample :
    (¬ ∃ L : Nat, L * L = 2)
    ∧ truncatedEngine.can_assign_matrix_.rows = 1
    ∧ truncatedEngine.can_assign_matrix_.cols = 1
    ∧ truncatedEngine.can_assign_matrix_.coeff 0 0 = .ok 1
    ∧ truncatedEngine.max_dist_matrix_.coeff 0 0 = .ok 10
    ∧ truncatedEngine.min_iou_matrix_.coeff 0 0 = .ok 0 := by
  have hs : Nat.sqrt 2 = 1 := by norm_num [Nat.sqrt, Nat.sqrt.iter]
  refine ⟨?_, ?_, ?_, ?_, ?_, ?_⟩
  · rintro ⟨L, hL⟩
    have h2 : L < 2 := by
      by_contra hge
      have : 2 * 2 ≤ L * L := Nat.mul_le_mul (by omega) (by omega)
      omega
    interval_cases L <;> omega
  · exact hs
  · exact hs
  · have h := (reshapeConfig_coeff ([1, 0] : List ℤ) 0 0 (by rw [List.length]; simp [hs])
      (by simp [hs])).1
    simpa [truncatedEngine, DataAssociation.create] using h
  · have h := (reshapeConfig_coeff ([10, 20] : List ℚ) 0 0 (by simp [hs]) (by simp [hs])).1
    simpa [truncatedEngine, DataAssociation.create] using h
  · have h := (reshapeConfig_coeff ([0, 0.5] : List ℚ) 0 0 (by simp [hs]) (by simp [hs])).1
    simpa [truncatedEngine, DataAssociation.create] using h

section LoopFaultLemmas

theorem reads_unique (da : DataAssociation) (ext : Externals) (stamp : ℤ) (tracker : Tracker)
    (mo : DetectedObject) (r1 r2 : PairReadings)
    (h1 : da.Reads ext stamp tracker mo r1) (h2 : da.Reads ext stamp tracker mo r2) :
    r1 = r2 := by
  obtain ⟨a1, a2, a3, a4, a5, a6, a7, a8, a9, a10, a11⟩ := h1
  obtain ⟨b1, b2, b3, b4, b5, b6, b7, b8, b9, b10, b11⟩ := h2
  rw [a1] at b1
  rw [a2] at b2
  rw [a3] at b3
  rw [a4] at b4
  rw [a5] at b5
  rw [a6] at b6
  rw [a10] at b10
  injection b1 with b1
  injection b2 with b2
  injection b3 with b3
  injection b4 with b4
  injection b5 with b5
  injection b6 with b6
  injection b10 with b10
  cases r1
  cases r2
  simp only [PairReadings.mk.injEq]
  simp only [] at a7 a8 a9 a11 b1 b2 b3 b4 b5 b6 b7 b8 b9 b10 b11
  exact ⟨b1, b2, b3, b4, b5, b6, a7.trans b7.symm, a8.trans b8.symm, a9.trans b9.symm, b10,
    a11.trans b11.symm⟩

/-- A pair whose readings are defined and fail a condition gets the cell 0. -/
theorem calcScore_zero_of_gate_failure (da : DataAssociation) (ext : Externals) (stamp : ℤ)
    (tracker : Tracker) (mo : DetectedObject) (r : PairReadings) (c : ℚ)
    (hr : da.Reads ext stamp tracker mo r) (hfail : ¬ r.allGatesHold)
    (hc : da.calcScore ext stamp tracker mo = .ok c) : c = 0 := by
  by_contra hne
  obtain ⟨r2, hr2, -, hall, -, -⟩ := calcScore_ne_zero da ext stamp tracker mo c hc hne
  rw [reads_unique da ext stamp tracker mo r r2 hr hr2] at hfail
  exact hfail hall

/-- A label outside the bounds of `can_assign_matrix_` makes the first coefficient access of
the loop body an access out of bounds. -/
theorem calcScore_label_out_of_range (da : DataAssociation) (ext : Externals) (stamp : ℤ)
    (tracker : Tracker) (mo : DetectedObject)
    (h : da.can_assign_matrix_.rows ≤ tracker.getHighestProbLabel
      ∨ da.can_assign_matrix_.cols ≤ ext.getHighestProbLabel mo.classification) :
    da.calcScore ext stamp tracker mo = .error .outOfRange := by
  have hc : da.can_assign_matrix_.coeff tracker.getHighestProbLabel
      (ext.getHighestProbLabel mo.classification) = .error .outOfRange := by
    unfold MatrixX.coeff
    rw [if_neg]
    rintro ⟨-, h1, -, h2⟩
    rcases h with h | h <;> omega
  unfold DataAssociation.calcScore
  simp only [bind, Except.bind]
  rw [hc]

end LoopFaultLemmas

/-- C18: for flat vectors of length `L * L` the constructor stores six `L x L` matrices
(`L` is the integer square root of the length) whose entry at (tracker label `i`, measurement
label `j`) is the element `i * L + j` of the vector, for all `i, j < L`: the vector is read
row by row, rows indexed by the tracker label. -/
theorem create_reads_row_major (mussp : GnnSolverInterface) (L : Nat)
    (can_assign_vector : List ℤ)
    (max_dist_vector max_area_vector min_area_vector max_rad_vector min_iou_vector : List ℚ)
    (h1 : can_assign_vector.length = L * L) (h2 : max_dist_vector.length = L * L)
    (h3 : max_area_vector.length = L * L) (h4 : min_area_vector.length = L * L)
    (h5 : max_rad_vector.length = L * L) (h6 : min_iou_vector.length = L * L) :
    ∃ da, DataAssociation.create mussp can_assign_vector max_dist_vector max_area_vector
        min_area_vector max_rad_vector min_iou_vector = da
      ∧ Nat.sqrt (L * L) = L
      ∧ da.can_assign_matrix_.rows = L ∧ da.can_assign_matrix_.cols = L
      ∧ da.max_dist_matrix_.rows = L ∧ da.max_dist_matrix_.cols = L
      ∧ da.max_area_matrix_.rows = L ∧ da.max_area_matrix_.cols = L
      ∧ da.min_area_matrix_.rows = L ∧ da.min_area_matrix_.cols = L
      ∧ da.max_rad_matrix_.rows = L ∧ da.max_rad_matrix_.cols = L
      ∧ da.min_iou_matrix_.rows = L ∧ da.min_iou_matrix_.cols = L
      ∧ ∀ i j : Nat, i < L → j < L →
          da.can_assign_matrix_.coeff i j = .ok (can_assign_vector.getD (i * L + j) 0)
          ∧ da.max_dist_matrix_.coeff i j = .ok (max_dist_vector.getD (i * L + j) 0)
          ∧ da.max_area_matrix_.coeff i j = .ok (max_area_vector.getD (i * L + j) 0)
          ∧ da.min_area_matrix_.coeff i j = .ok (min_area_vector.getD (i * L + j) 0)
          ∧ da.max_rad_matrix_.coeff i j = .ok (max_rad_vector.getD (i * L + j) 0)
          ∧ da.min_iou_matrix_.coeff i j = .ok (min_iou_vector.getD (i * L + j) 0)
          ∧ i * L + j < L * L := by
  have hs : Nat.sqrt (L * L) = L := Nat.sqrt_eq L
  have e1 : Nat.sqrt can_assign_vector.length = L := by rw [h1, hs]
  have e2 : Nat.sqrt max_dist_vector.length = L := by rw [h2, hs]
  have e3 : Nat.sqrt max_area_vector.length = L := by rw [h3, hs]
  have e4 : Nat.sqrt min_area_vector.length = L := by rw [h4, hs]
  have e5 : Nat.sqrt max_rad_vector.length = L := by rw [h5, hs]
  have e6 : Nat.sqrt min_iou_vector.length = L := by rw [h6, hs]
  refine ⟨_, rfl, hs, ?_, ?_, ?_, ?_, ?_, ?_, ?_, ?_, ?_, ?_, ?_, ?_, ?_⟩
  · exact (reshapeConfig_rows _).trans e1
  · exact (reshapeConfig_cols _).trans e1
  · exact (reshapeConfig_rows _).trans e2
  · exact (reshapeConfig_cols _).trans e2
  · exact (reshapeConfig_rows _).trans e3
  · exact (reshapeConfig_cols _).trans e3
  · exact (reshapeConfig_rows _).trans e4
  · exact (reshapeConfig_cols _).trans e4
  · exact (reshapeConfig_rows _).trans e5
  · exact (reshapeConfig_cols _).trans e5
  · exact (reshapeConfig_rows _).trans e6
  · exact (reshapeConfig_cols _).trans e6
  · intro i j hi hj
    have g1 := reshapeConfig_coeff can_assign_vector i j (by rw [e1]; exact hi)
      (by rw [e1]; exact hj)
    have g2 := (reshapeConfig_coeff max_dist_vector i j (by rw [e2]; exact hi)
      (by rw [e2]; exact hj)).1
    have g3 := (reshapeConfig_coeff max_area_vector i j (by rw [e3]; exact hi)
      (by rw [e3]; exact hj)).1
    have g4 := (reshapeConfig_coeff min_area_vector i j (by rw [e4]; exact hi)
      (by rw [e4]; exact hj)).1
    have g5 := (reshapeConfig_coeff max_rad_vector i j (by rw [e5]; exact hi)
      (by rw [e5]; exact hj)).1
    have g6 := (reshapeConfig_coeff min_iou_vector i j (by rw [e6]; exact hi)
      (by rw [e6]; exact hj)).1
    rw [e1] at g1
    rw [e2] at g2
    rw [e3] at g3
    rw [e4] at g4
    rw [e5] at g5
    rw [e6] at g6
    refine ⟨g1.1, g2, g3, g4, g5, g6, ?_⟩
    have := g1.2
    rw [h1] at this
    exact this

/-- C18, worked instance: in the engine built from vectors of length 4, the entry of
`max_dist` at (tracker label 1, measurement label 0) is element 2 of the vector. -/
theorem create_reads_row_major_witness :
    twoClassEngine.max_dist_matrix_.coeff 1 0 = .ok 30
    ∧ twoClassEngine.max_dist_matrix_.coeff 0 1 = .ok 20 := by
  obtain ⟨da, hda, -, -, -, -, -, -, -, -, -, -, -, -, -, hcoeff⟩ :=
    create_reads_row_major (fixedSolver [] []) 2 [1, 0, 0, 1] [10, 20, 30, 40]
      [100, 200, 300, 400] [0, 1, 2, 3] [3.15, 1, 2, 3] [0, 0.1, 0.2, 0.3]
      rfl rfl rfl rfl rfl rfl
  have hda2 : twoClassEngine = da := hda
  rw [hda2]
  constructor
  · have h := (hcoeff 1 0 (by norm_num) (by norm_num)).2.1
    simpa using h
  · have h := (hcoeff 0 1 (by norm_num) (by norm_num)).2.1
    simpa using h

/-- C19 (as amended): when the tracker label or the measurement label of a pair lies outside
the bounds of `can_assign_matrix_`, the loop body reads the matrix out of bounds, unchecked
(`Fault.outOfRange`, undefined behaviour in C++): the label is not clamped, no score is
computed for the pair, and `calcScoreMatrix` returns no matrix. -/
theorem calcScoreMatrix_label_out_of_range (da : DataAssociation) (ext : Externals)
    (measurements : DetectedObjects) (trackers : List Tracker)
    (i : Nat) (hi : i < trackers.length) (j : Nat) (hj : j < measurements.objects.length)
    (h : da.can_assign_matrix_.rows ≤ (trackers.get ⟨i, hi⟩).getHighestProbLabel
      ∨ da.can_assign_matrix_.cols
          ≤ ext.getHighestProbLabel (measurements.objects.get ⟨j, hj⟩).classification) :
    da.can_assign_matrix_.coeff (trackers.get ⟨i, hi⟩).getHighestProbLabel
        (ext.getHighestProbLabel (measurements.objects.get ⟨j, hj⟩).classification)
      = .error .outOfRange
    ∧ da.calcScore ext measurements.stamp (trackers.get ⟨i, hi⟩)
        (measurements.objects.get ⟨j, hj⟩) = .error .outOfRange
    ∧ ∀ m, da.calcScoreMatrix ext measurements trackers ≠ .ok m := by
  have hcs := calcScore_label_out_of_range da ext measurements.stamp (trackers.get ⟨i, hi⟩)
    (measurements.objects.get ⟨j, hj⟩) h
  refine ⟨?_, hcs, ?_⟩
  · unfold MatrixX.coeff
    rw [if_neg]
    rintro ⟨-, h1, -, h2⟩
    rcases h with h | h <;> omega
  · intro m hm
    unfold DataAssociation.calcScoreMatrix at hm
    obtain ⟨-, -, hval, -⟩ := trackerLoop_spec da ext measurements trackers 0 _ m hm
    have := hval i hi j hj
    rw [hcs] at this
    cases this

/-- C19 (as amended), worked instance: a tracker of label 5 on the one-class engine. -/
theorem calcScoreMatrix_label_out_of_range_witness :
    sampleEngine.calcScore sampleExternals 0 ⟨5, fun _ => ⟨samplePose 0 0, sampleShape⟩⟩
      (sampleMeasurement 0 0) = .error .outOfRange :=
  (calcScoreMatrix_label_out_of_range sampleEngine sampleExternals
    ⟨0, [sampleMeasurement 0 0]⟩ [⟨5, fun _ => ⟨samplePose 0 0, sampleShape⟩⟩]
    0 (by simp) 0 (by simp)
    (by left; simp [sampleEngine, DataAssociation.create, reshapeConfig, MatrixX.Map,
      MatrixX.transpose])).2.1

/-- C19 as stated fails: for a tracker of label 5 on the one-class engine the lookup
`can_assign_matrix_(5, 0)` is an unchecked access out of bounds, and `calcScoreMatrix` ends
in that access instead of reporting an error. -/
theorem calcScoreMatrix_unchecked_label_counterexample :
    sampleEngine.can_assign_matrix_.rows = 1
    ∧ sampleEngine.can_assign_matrix_.coeff 5 0 = .error .outOfRange
    ∧ sampleEngine.calcScoreMatrix sampleExternals ⟨0, [sampleMeasurement 0 0]⟩
        [⟨5, fun _ => ⟨samplePose 0 0, sampleShape⟩⟩] = .error .outOfRange := by
  refine ⟨rfl, ?_, ?_⟩
  · simp [sampleEngine, DataAssociation.create, reshapeConfig, MatrixX.Map,
      MatrixX.transpose, MatrixX.coeff, MatrixX.InRange]
  · have hcs := calcScore_label_out_of_range sampleEngine sampleExternals 0
      ⟨5, fun _ => ⟨samplePose 0 0, sampleShape⟩⟩ (sampleMeasurement 0 0)
      (by left; simp [sampleEngine, DataAssociation.create, reshapeConfig, MatrixX.Map,
        MatrixX.transpose])
    unfold DataAssociation.calcScoreMatrix DataAssociation.trackerLoop
    simp only [bind, Except.bind]
    unfold DataAssociation.measurementLoop
    simp only [bind, Except.bind]
    rw [hcs]

section SampleMatrixLemmas

theorem ratSqrt_four_hundred : ratSqrt 400 = 20 := by
  have h : Nat.sqrt 400 = 20 := Nat.sqrt_eq 20
  simp [ratSqrt, h]

theorem sample_reads_far :
    sampleEngine.Reads sampleExternals 0 (sampleTracker 0 0) (sampleMeasurement 0 20)
      ⟨1, 10, 100, 0, 3.15, 0, 20, 2, 0, 20, 0⟩ := by
  refine ⟨?_, ?_, ?_, ?_, ?_, ?_, ?_, ?_, ?_, ?_, ?_⟩
  · simp [sampleEngine, DataAssociation.create, reshapeConfig, MatrixX.Map, MatrixX.transpose,
      MatrixX.coeff, MatrixX.InRange, sampleExternals, sampleMeasurement, sampleTracker]
  · simp [sampleEngine, DataAssociation.create, reshapeConfig, MatrixX.Map, MatrixX.transpose,
      MatrixX.coeff, MatrixX.InRange, sampleExternals, sampleMeasurement, sampleTracker]
  · simp [sampleEngine, DataAssociation.create, reshapeConfig, MatrixX.Map, MatrixX.transpose,
      MatrixX.coeff, MatrixX.InRange, sampleExternals, sampleMeasurement, sampleTracker]
  · simp [sampleEngine, DataAssociation.create, reshapeConfig, MatrixX.Map, MatrixX.transpose,
      MatrixX.coeff, MatrixX.InRange, sampleExternals, sampleMeasurement, sampleTracker]
  · simp [sampleEngine, DataAssociation.create, reshapeConfig, MatrixX.Map, MatrixX.transpose,
      MatrixX.coeff, MatrixX.InRange, sampleExternals, sampleMeasurement, sampleTracker]
  · simp [sampleEngine, DataAssociation.create, reshapeConfig, MatrixX.Map, MatrixX.transpose,
      MatrixX.coeff, MatrixX.InRange, sampleExternals, sampleMeasurement, sampleTracker]
  · simp [sampleExternals, sampleMeasurement, sampleTracker, samplePose]
    rw [show ((20 : ℚ) ^ 2) = 400 by norm_num, ratSqrt_four_hundred]
  · simp [sampleExternals, sampleMeasurement, sampleShape]
  · rw [sample_angle]
  · simp [getMahalanobisDistance, getXYCovariance, Matrix2d.inverse, sampleExternals,
      sampleMeasurement, sampleTracker, samplePose, bind, Except.bind, pure, Except.pure]
    rw [show ((20 : ℚ) * 20) = 400 by norm_num, ratSqrt_four_hundred]
  · simp [sampleExternals, sampleMeasurement, sampleTracker, samplePose]

/-- The score matrix of the sample tracker and one sample measurement is defined. -/
theorem sample_matrix_ok (x y : ℚ) (r : PairReadings)
    (hr : sampleEngine.Reads sampleExternals 0 (sampleTracker 0 0) (sampleMeasurement x y) r)
    (hnz : r.max_dist ≠ 0) :
    ∃ m, sampleEngine.calcScoreMatrix sampleExternals ⟨0, [sampleMeasurement x y]⟩
      [sampleTracker 0 0] = .ok m := by
  unfold DataAssociation.calcScoreMatrix
  apply trackerLoop_ok
  · intro tr htr mo hmo
    simp only [List.mem_singleton] at htr hmo
    subst htr
    subst hmo
    exact ⟨_, calcScore_of_reads sampleEngine sampleExternals 0 _ _ r hr hnz⟩
  · simp [MatrixX.Zero]
  · simp [MatrixX.Zero]

end SampleMatrixLemmas

/-- C12: when a pair `(i, j)` fails at least one of the six conditions, `calcScoreMatrix`
writes 0 in cell `(i, j)`, and for an engine built by the constructor the pair is in neither
of the maps that `assign` returns for that matrix (the solver handing back pairs within the
bounds of the matrix), whatever the other cells hold. -/
theorem gate_failure_excludes_pair (mussp : GnnSolverInterface) (can_assign_vector : List ℤ)
    (max_dist_vector max_area_vector min_area_vector max_rad_vector min_iou_vector : List ℚ)
    (ext : Externals) (measurements : DetectedObjects) (trackers : List Tracker)
    (m : MatrixXd)
    (hm : (DataAssociation.create mussp can_assign_vector max_dist_vector max_area_vector
      min_area_vector max_rad_vector min_iou_vector).calcScoreMatrix ext measurements trackers
        = .ok m)
    (i j : Nat) (hi : i < trackers.length) (hj : j < measurements.objects.length)
    (r : PairReadings)
    (hr : (DataAssociation.create mussp can_assign_vector max_dist_vector max_area_vector
      min_area_vector max_rad_vector min_iou_vector).Reads ext measurements.stamp
        (trackers.get ⟨i, hi⟩) (measurements.objects.get ⟨j, hj⟩) r)
    (hfail : ¬ r.allGatesHold)
    (d0 r0 : UnorderedMap)
    (hd : ∀ p ∈ (mussp.maximizeLinearAssignment (scoreTable m) d0 r0).1, m.InRange p.1 p.2)
    (hrv : ∀ p ∈ (mussp.maximizeLinearAssignment (scoreTable m) d0 r0).2, m.InRange p.2 p.1) :
    m.coeff i j = .ok 0
    ∧ ∃ direct reverse,
        (DataAssociation.create mussp can_assign_vector max_dist_vector max_area_vector
          min_area_vector max_rad_vector min_iou_vector).assign m d0 r0 = .ok (direct, reverse)
        ∧ ((i : ℤ), (j : ℤ)) ∉ direct ∧ ((j : ℤ), (i : ℤ)) ∉ reverse := by
  have hm2 := hm
  unfold DataAssociation.calcScoreMatrix at hm2
  obtain ⟨hrows, hcols, hval, -⟩ := trackerLoop_spec _ ext measurements trackers 0 _ m hm2
  have hc := hval i hi j hj
  rw [Nat.zero_add] at hc
  have hzero : m.coeffs i j = 0 := calcScore_zero_of_gate_failure _ ext _ _ _ r _ hr hfail hc
  have hin : m.InRange (i : ℤ) (j : ℤ) := by
    refine ⟨by omega, ?_, by omega, ?_⟩
    · rw [hrows]
      exact_mod_cast hi
    · rw [hcols]
      exact_mod_cast hj
  refine ⟨?_, _, _, assign_eq_filter _ m d0 r0 hd hrv, ?_, ?_⟩
  · rw [coeff_of_inRange m _ _ hin]
    simp [hzero]
  · intro hmem
    rw [List.mem_filter] at hmem
    have h2 := of_decide_eq_true hmem.2
    simp only [Int.toNat_ofNat, hzero, DataAssociation.create] at h2
    norm_num at h2
  · intro hmem
    rw [List.mem_filter] at hmem
    have h2 := of_decide_eq_true hmem.2
    simp only [Int.toNat_ofNat, hzero, DataAssociation.create] at h2
    norm_num at h2

/-- C12, worked instance: a measurement at distance 20 fails the distance gate
(`max_dist = 10`); its cell is 0 and a solver proposal of the pair is dropped. -/
theorem gate_failure_excludes_pair_witness :
    ∃ m, (DataAssociation.create (fixedSolver [(0, 0)] [(0, 0)]) [1] [10] [100] [0] [3.15]
          [0]).calcScoreMatrix sampleExternals ⟨0, [sampleMeasurement 0 20]⟩
          [sampleTracker 0 0] = .ok m
      ∧ m.coeff 0 0 = .ok 0
      ∧ ∃ direct reverse,
          (DataAssociation.create (fixedSolver [(0, 0)] [(0, 0)]) [1] [10] [100] [0] [3.15]
            [0]).assign m [] [] = .ok (direct, reverse)
          ∧ ((0 : ℤ), (0 : ℤ)) ∉ direct ∧ ((0 : ℤ), (0 : ℤ)) ∉ reverse := by
  obtain ⟨m, hm⟩ := sample_matrix_ok 0 20 _ sample_reads_far (by norm_num)
  have hm2 : (DataAssociation.create (fixedSolver [(0, 0)] [(0, 0)]) [1] [10] [100] [0] [3.15]
      [0]).calcScoreMatrix sampleExternals ⟨0, [sampleMeasurement 0 20]⟩ [sampleTracker 0 0]
        = .ok m := hm
  have hdims : m.rows = 1 ∧ m.cols = 1 := by
    have h3 := hm
    unfold DataAssociation.calcScoreMatrix at h3
    obtain ⟨hr, hc, -, -⟩ := trackerLoop_spec _ _ _ _ 0 _ m h3
    exact ⟨hr, hc⟩
  have hin : ∀ p ∈ [((0 : ℤ), (0 : ℤ))], m.InRange p.1 p.2 := by
    intro p hp
    simp only [List.mem_singleton] at hp
    subst hp
    refine ⟨le_refl _, ?_, le_refl _, ?_⟩
    · rw [hdims.1]
      norm_num
    · rw [hdims.2]
      norm_num
  have hin2 : ∀ p ∈ [((0 : ℤ), (0 : ℤ))], m.InRange p.2 p.1 := by
    intro p hp
    simp only [List.mem_singleton] at hp
    subst hp
    exact hin (0, 0) (List.mem_singleton.mpr rfl)
  have h := gate_failure_excludes_pair (fixedSolver [(0, 0)] [(0, 0)]) [1] [10] [100] [0]
    [3.15] [0] sampleExternals ⟨0, [sampleMeasurement 0 20]⟩ [sampleTracker 0 0] m hm2 0 0
    (by simp) (by simp) ⟨1, 10, 100, 0, 3.15, 0, 20, 2, 0, 20, 0⟩ sample_reads_far
    (by norm_num [PairReadings.allGatesHold]) [] [] hin hin2
  exact ⟨m, hm2, h⟩

/-! ## The concrete scenario -/

section ScenarioLemmas

end ScenarioLemmas

namespace MuSSP

section ArcMembership

variable (cost : List (List ℚ)) (flow : Flow)

theorem mem_sourceArcs (a : Arc) :
    a ∈ sourceArcs cost flow ↔ ∃ i, i < numTrackers cost
      ∧ ((i ∈ flow.map Prod.fst ∧ a = ⟨.tracker i, .source, 0⟩)
        ∨ (i ∉ flow.map Prod.fst ∧ a = ⟨.source, .tracker i, 0⟩)) := by
  unfold sourceArcs
  rw [List.mem_map]
  constructor
  · rintro ⟨i, hi, rfl⟩
    refine ⟨i, List.mem_range.mp hi, ?_⟩
    by_cases h : i ∈ flow.map Prod.fst
    · rw [if_pos h]
      exact Or.inl ⟨h, rfl⟩
    · rw [if_neg h]
      exact Or.inr ⟨h, rfl⟩
  · rintro ⟨i, hi, ⟨h, rfl⟩ | ⟨h, rfl⟩⟩
    · exact ⟨i, List.mem_range.mpr hi, by rw [if_pos h]⟩
    · exact ⟨i, List.mem_range.mpr hi, by rw [if_neg h]⟩

theorem mem_sinkArcs (a : Arc) :
    a ∈ sinkArcs cost flow ↔ ∃ j, j < numMeasurements cost
      ∧ ((j ∈ flow.map Prod.snd ∧ a = ⟨.sink, .measurement j, 0⟩)
        ∨ (j ∉ flow.map Prod.snd ∧ a = ⟨.measurement j, .sink, 0⟩)) := by
  unfold sinkArcs
  rw [List.mem_map]
  constructor
  · rintro ⟨j, hj, rfl⟩
    refine ⟨j, List.mem_range.mp hj, ?_⟩
    by_cases h : j ∈ flow.map Prod.snd
    · rw [if_pos h]
      exact Or.inl ⟨h, rfl⟩
    · rw [if_neg h]
      exact Or.inr ⟨h, rfl⟩
  · rintro ⟨j, hj, ⟨h, rfl⟩ | ⟨h, rfl⟩⟩
    · exact ⟨j, List.mem_range.mpr hj, by rw [if_pos h]⟩
    · exact ⟨j, List.mem_range.mpr hj, by rw [if_neg h]⟩

theorem mem_pairArcs (a : Arc) :
    a ∈ pairArcs cost flow ↔ ∃ i j, i < numTrackers cost ∧ j < numMeasurements cost
      ∧ (((i, j) ∈ flow ∧ a = ⟨.measurement j, .tracker i, score cost i j⟩)
        ∨ ((i, j) ∉ flow ∧ score cost i j ≠ 0
            ∧ a = ⟨.tracker i, .measurement j, -score cost i j⟩)) := by
  unfold pairArcs
  rw [List.mem_flatMap]
  constructor
  · rintro ⟨i, hi, ha⟩
    rw [List.mem_filterMap] at ha
    obtain ⟨j, hj, hja⟩ := ha
    refine ⟨i, j, List.mem_range.mp hi, List.mem_range.mp hj, ?_⟩
    unfold pairArc at hja
    by_cases h : (i, j) ∈ flow
    · rw [if_pos h] at hja
      injection hja with hja
      exact Or.inl ⟨h, hja.symm⟩
    · rw [if_neg h] at hja
      by_cases hs : score cost i j ≠ 0
      · rw [if_pos hs] at hja
        injection hja with hja
        exact Or.inr ⟨h, hs, hja.symm⟩
      · rw [if_neg hs] at hja
        cases hja
  · rintro ⟨i, j, hi, hj, h⟩
    refine ⟨i, List.mem_range.mpr hi, ?_⟩
    rw [List.mem_filterMap]
    refine ⟨j, List.mem_range.mpr hj, ?_⟩
    unfold pairArc
    rcases h with ⟨h, rfl⟩ | ⟨h, hs, rfl⟩
    · rw [if_pos h]
    · rw [if_neg h, if_pos hs]

theorem mem_residualArcs (a : Arc) :
    a ∈ residualArcs cost flow
      ↔ a ∈ sourceArcs cost flow ∨ a ∈ pairArcs cost flow ∨ a ∈ sinkArcs cost flow := by
  unfold residualArcs
  rw [List.mem_append, List.mem_append]

end ArcMembership

section Certificate

/-- A list on which `g` is not positive sums to at most any list on whose other elements
`g` is not negative. -/
theorem sum_le_sum_of_signs {α : Type} [DecidableEq α] (g : α → ℚ) (l l2 : List α)
    (hl : l.Nodup) (hl2 : l2.Nodup) (hneg : ∀ x ∈ l, g x ≤ 0)
    (hpos : ∀ x ∈ l2, x ∉ l → 0 ≤ g x) :
    (l.map g).sum ≤ (l2.map g).sum := by
  rw [← List.sum_toFinset g hl, ← List.sum_toFinset g hl2]
  have h1 : ∑ x in l.toFinset, g x ≤ ∑ x in l.toFinset ∩ l2.toFinset, g x := by
    rw [← Finset.sum_inter_add_sum_diff l.toFinset l2.toFinset g]
    have : ∑ x in l.toFinset \ l2.toFinset, g x ≤ 0 := by
      apply Finset.sum_nonpos
      intro x hx
      rw [Finset.mem_sdiff, List.mem_toFinset] at hx
      exact hneg x hx.1
    linarith
  have h2 : ∑ x in l.toFinset ∩ l2.toFinset, g x ≤ ∑ x in l2.toFinset, g x := by
    rw [← Finset.sum_inter_add_sum_diff l2.toFinset l.toFinset g, Finset.inter_comm]
    have : 0 ≤ ∑ x in l2.toFinset \ l.toFinset, g x := by
      apply Finset.sum_nonneg
      intro x hx
      rw [Finset.mem_sdiff, List.mem_toFinset, List.mem_toFinset] at hx
      exact hpos x hx.1 hx.2
    linarith
  exact h1.trans h2

theorem weight_filter_nonzero (cost : List (List ℚ)) (flow : Flow) :
    weight cost (flow.filter fun p => decide (score cost p.1 p.2 ≠ 0)) = weight cost flow := by
  induction flow with
  | nil => rfl
  | cons p rest ih =>
    unfold weight at ih ⊢
    by_cases h : score cost p.1 p.2 ≠ 0
    · rw [List.filter_cons_of_pos (by simpa using h), List.map_cons, List.sum_cons,
        List.map_cons, List.sum_cons, ih]
    · rw [List.filter_cons_of_neg (by simpa using h), List.map_cons, List.sum_cons, ih]
      rw [not_not] at h
      rw [h, zero_add]

theorem weight_eq_neg_sums (cost : List (List ℚ)) (p : Node → ℚ) (flow : Flow)
    (hst : p .source = p .sink) :
    weight cost flow
      = -(((flow.map Prod.fst).map fun i => p .source - p (.tracker i)).sum
        + (flow.map fun q => -score cost q.1 q.2 + p (.tracker q.1) - p (.measurement q.2)).sum
        + ((flow.map Prod.snd).map fun j => p (.measurement j) - p .sink).sum) := by
  induction flow with
  | nil => simp [weight]
  | cons q rest ih =>
    unfold weight at ih ⊢
    simp only [List.map_cons, List.sum_cons]
    rw [ih]
    linarith

/-- A flow whose residual network carries potentials with non-negative reduced costs, equal
at source and sink, has maximal total score among all matchings. -/
theorem weight_le_of_feasible (cost : List (List ℚ)) (flow other : Flow) (p : Node → ℚ)
    (hflow : FlowOK cost flow) (hother : FlowOK cost other)
    (hfeas : ∀ a ∈ residualArcs cost flow, 0 ≤ a.cost + p a.tail - p a.head)
    (hst : p .source = p .sink) :
    weight cost other ≤ weight cost flow := by
  rw [← weight_filter_nonzero cost other]
  have hsub : (other.filter fun q => decide (score cost q.1 q.2 ≠ 0)).Sublist other :=
    List.filter_sublist _
  rw [weight_eq_neg_sums cost p _ hst, weight_eq_neg_sums cost p flow hst]
  have h1 := sum_le_sum_of_signs (fun i => p .source - p (.tracker i)) (flow.map Prod.fst)
    ((other.filter fun q => decide (score cost q.1 q.2 ≠ 0)).map Prod.fst) hflow.2.1
    (hother.2.1.sublist (hsub.map _))
    (by
      intro i hi
      obtain ⟨q, hq, rfl⟩ := List.mem_map.mp hi
      have := hfeas ⟨.tracker q.1, .source, 0⟩ ((mem_residualArcs _ _ _).mpr (Or.inl
        ((mem_sourceArcs _ _ _).mpr ⟨q.1, (hflow.1 q hq).1, Or.inl ⟨hi, rfl⟩⟩)))
      simp only at this ⊢
      linarith)
    (by
      intro i hi hni
      obtain ⟨q, hq, rfl⟩ := List.mem_map.mp hi
      have := hfeas ⟨.source, .tracker q.1, 0⟩ ((mem_residualArcs _ _ _).mpr (Or.inl
        ((mem_sourceArcs _ _ _).mpr ⟨q.1, (hother.1 q (hsub.subset hq)).1, Or.inr ⟨hni, rfl⟩⟩)))
      simp only at this ⊢
      linarith)
  have h2 := sum_le_sum_of_signs
    (fun q : Nat × Nat => -score cost q.1 q.2 + p (.tracker q.1) - p (.measurement q.2))
    flow (other.filter fun q => decide (score cost q.1 q.2 ≠ 0))
    (List.Nodup.of_map _ hflow.2.1) ((List.Nodup.of_map _ hother.2.1).sublist hsub)
    (by
      intro q hq
      have := hfeas ⟨.measurement q.2, .tracker q.1, score cost q.1 q.2⟩
        ((mem_residualArcs _ _ _).mpr (Or.inr (Or.inl ((mem_pairArcs _ _ _).mpr
          ⟨q.1, q.2, (hflow.1 q hq).1, (hflow.1 q hq).2, Or.inl ⟨hq, rfl⟩⟩))))
      simp only at this ⊢
      linarith)
    (by
      intro q hq hnq
      have hq2 := List.mem_filter.mp hq
      have hs : score cost q.1 q.2 ≠ 0 := by simpa using hq2.2
      have := hfeas ⟨.tracker q.1, .measurement q.2, -score cost q.1 q.2⟩
        ((mem_residualArcs _ _ _).mpr (Or.inr (Or.inl ((mem_pairArcs _ _ _).mpr
          ⟨q.1, q.2, (hother.1 q hq2.1).1, (hother.1 q hq2.1).2, Or.inr ⟨hnq, hs, rfl⟩⟩))))
      simp only at this ⊢
      linarith)
  have h3 := sum_le_sum_of_signs (fun j => p (.measurement j) - p .sink) (flow.map Prod.snd)
    ((other.filter fun q => decide (score cost q.1 q.2 ≠ 0)).map Prod.snd) hflow.2.2
    (hother.2.2.sublist (hsub.map _))
    (by
      intro j hj
      obtain ⟨q, hq, rfl⟩ := List.mem_map.mp hj
      have := hfeas ⟨.sink, .measurement q.2, 0⟩ ((mem_residualArcs _ _ _).mpr (Or.inr (Or.inr
        ((mem_sinkArcs _ _ _).mpr ⟨q.2, (hflow.1 q hq).2, Or.inl ⟨hj, rfl⟩⟩))))
      simp only at this ⊢
      linarith)
    (by
      intro j hj hnj
      obtain ⟨q, hq, rfl⟩ := List.mem_map.mp hj
      have := hfeas ⟨.measurement q.2, .sink, 0⟩ ((mem_residualArcs _ _ _).mpr (Or.inr (Or.inr
        ((mem_sinkArcs _ _ _).mpr ⟨q.2, (hother.1 q (hsub.subset hq)).2, Or.inr ⟨hnj, rfl⟩⟩))))
      simp only at this ⊢
      linarith)
  linarith

end Certificate

section Potentials

theorem lookup_cons {α : Type} (u v : Node) (x : α) (l : List (Node × α)) :
    lookup ((u, x) :: l) v = if v = u then some x else lookup l v := rfl

theorem lookup_map_pair {α : Type} (f : Node → α) (l : List Node) (v : Node) :
    lookup (l.map fun u => (u, f u)) v = if v ∈ l then some (f v) else none := by
  induction l with
  | nil => rfl
  | cons u rest ih =>
    rw [List.map_cons, lookup_cons, ih]
    by_cases h : v = u
    · subst h
      simp
    · rw [if_neg h]
      simp [h]

theorem potentialAt_update (nodes : List Node) (potential dist : Dist) (cap : ℚ) (v : Node)
    (hv : v ∈ nodes) :
    potentialAt (updatePotential nodes potential dist cap) v
      = potentialAt potential v + cappedDist dist cap v := by
  unfold potentialAt updatePotential
  rw [lookup_map_pair, if_pos hv]
  rfl

theorem mem_nodes (cost : List (List ℚ)) (v : Node) :
    v ∈ nodes cost ↔ v = .source ∨ (∃ i, i < numTrackers cost ∧ v = .tracker i)
      ∨ (∃ j, j < numMeasurements cost ∧ v = .measurement j) ∨ v = .sink := by
  unfold nodes
  simp only [List.mem_cons, List.mem_append, List.mem_map, List.mem_range, List.mem_singleton,
    List.not_mem_nil, or_false]
  constructor
  · rintro (h | ⟨i, hi, rfl⟩ | ⟨j, hj, rfl⟩ | h)
    · exact Or.inl h
    · exact Or.inr (Or.inl ⟨i, hi, rfl⟩)
    · exact Or.inr (Or.inr (Or.inl ⟨j, hj, rfl⟩))
    · exact Or.inr (Or.inr (Or.inr h))
  · rintro (h | ⟨i, hi, rfl⟩ | ⟨j, hj, rfl⟩ | h)
    · exact Or.inl h
    · exact Or.inr (Or.inl ⟨i, hi, rfl⟩)
    · exact Or.inr (Or.inr (Or.inl ⟨j, hj, rfl⟩))
    · exact Or.inr (Or.inr (Or.inr h))

/-- The six kinds of residual arcs. -/
theorem residual_arc_kinds (cost : List (List ℚ)) (flow : Flow) (a : Arc)
    (h : a ∈ residualArcs cost flow) :
    (∃ i, i < numTrackers cost ∧ i ∉ flow.map Prod.fst ∧ a = ⟨.source, .tracker i, 0⟩)
    ∨ (∃ i, i < numTrackers cost ∧ i ∈ flow.map Prod.fst ∧ a = ⟨.tracker i, .source, 0⟩)
    ∨ (∃ i j, i < numTrackers cost ∧ j < numMeasurements cost ∧ (i, j) ∉ flow
        ∧ score cost i j ≠ 0 ∧ a = ⟨.tracker i, .measurement j, -score cost i j⟩)
    ∨ (∃ i j, i < numTrackers cost ∧ j < numMeasurements cost ∧ (i, j) ∈ flow
        ∧ a = ⟨.measurement j, .tracker i, score cost i j⟩)
    ∨ (∃ j, j < numMeasurements cost ∧ j ∉ flow.map Prod.snd ∧ a = ⟨.measurement j, .sink, 0⟩)
    ∨ (∃ j, j < numMeasurements cost ∧ j ∈ flow.map Prod.snd
        ∧ a = ⟨.sink, .measurement j, 0⟩) := by
  rcases (mem_residualArcs cost flow a).mp h with h | h | h
  · obtain ⟨i, hi, ⟨h1, h2⟩ | ⟨h1, h2⟩⟩ := (mem_sourceArcs cost flow a).mp h
    · exact Or.inr (Or.inl ⟨i, hi, h1, h2⟩)
    · exact Or.inl ⟨i, hi, h1, h2⟩
  · obtain ⟨i, j, hi, hj, ⟨h1, h2⟩ | ⟨h1, h2, h3⟩⟩ := (mem_pairArcs cost flow a).mp h
    · exact Or.inr (Or.inr (Or.inr (Or.inl ⟨i, j, hi, hj, h1, h2⟩)))
    · exact Or.inr (Or.inr (Or.inl ⟨i, j, hi, hj, h1, h2, h3⟩))
  · obtain ⟨j, hj, ⟨h1, h2⟩ | ⟨h1, h2⟩⟩ := (mem_sinkArcs cost flow a).mp h
    · exact Or.inr (Or.inr (Or.inr (Or.inr (Or.inr ⟨j, hj, h1, h2⟩))))
    · exact Or.inr (Or.inr (Or.inr (Or.inr (Or.inl ⟨j, hj, h1, h2⟩))))

theorem residual_arc_nodes (cost : List (List ℚ)) (flow : Flow) (a : Arc)
    (h : a ∈ residualArcs cost flow) : a.tail ∈ nodes cost ∧ a.head ∈ nodes cost := by
  rcases residual_arc_kinds cost flow a h with ⟨i, hi, -, rfl⟩ | ⟨i, hi, -, rfl⟩
    | ⟨i, j, hi, hj, -, -, rfl⟩ | ⟨i, j, hi, hj, -, rfl⟩ | ⟨j, hj, -, rfl⟩ | ⟨j, hj, -, rfl⟩
  · exact ⟨(mem_nodes _ _).mpr (Or.inl rfl), (mem_nodes _ _).mpr (Or.inr (Or.inl ⟨i, hi, rfl⟩))⟩
  · exact ⟨(mem_nodes _ _).mpr (Or.inr (Or.inl ⟨i, hi, rfl⟩)), (mem_nodes _ _).mpr (Or.inl rfl)⟩
  · exact ⟨(mem_nodes _ _).mpr (Or.inr (Or.inl ⟨i, hi, rfl⟩)),
      (mem_nodes _ _).mpr (Or.inr (Or.inr (Or.inl ⟨j, hj, rfl⟩)))⟩
  · exact ⟨(mem_nodes _ _).mpr (Or.inr (Or.inr (Or.inl ⟨j, hj, rfl⟩))),
      (mem_nodes _ _).mpr (Or.inr (Or.inl ⟨i, hi, rfl⟩))⟩
  · exact ⟨(mem_nodes _ _).mpr (Or.inr (Or.inr (Or.inl ⟨j, hj, rfl⟩))),
      (mem_nodes _ _).mpr (Or.inr (Or.inr (Or.inr rfl)))⟩
  · exact ⟨(mem_nodes _ _).mpr (Or.inr (Or.inr (Or.inr rfl))),
      (mem_nodes _ _).mpr (Or.inr (Or.inr (Or.inl ⟨j, hj, rfl⟩)))⟩

theorem mem_reducedArcs (potential : Dist) (arcs : List Arc) (b : Arc) :
    b ∈ reducedArcs potential arcs ↔ ∃ a ∈ arcs, b = ⟨a.tail, a.head,
      a.cost + potentialAt potential a.tail - potentialAt potential a.head⟩ := by
  unfold reducedArcs
  rw [List.mem_map]
  constructor
  · rintro ⟨a, ha, rfl⟩
    exact ⟨a, ha, rfl⟩
  · rintro ⟨a, ha, rfl⟩
    exact ⟨a, ha, rfl⟩

/-- Adding the capped distances of a relaxed labelling keeps the reduced costs
non-negative. -/
theorem capped_reduced_cost_nonneg (potential dist : Dist) (arcs : List Arc) (cap : ℚ)
    (hfeas : Feasible potential arcs)
    (hrel : Relaxed (reducedArcs potential arcs) dist) (a : Arc) (ha : a ∈ arcs) :
    0 ≤ a.cost + (potentialAt potential a.tail + cappedDist dist cap a.tail)
      - (potentialAt potential a.head + cappedDist dist cap a.head) := by
  have hc := hfeas a ha
  have hr := hrel ⟨a.tail, a.head,
    a.cost + potentialAt potential a.tail - potentialAt potential a.head⟩
    ((mem_reducedArcs _ _ _).mpr ⟨a, ha, rfl⟩)
  simp only at hr
  have hhead : cappedDist dist cap a.head ≤ cap := by
    unfold cappedDist
    cases lookup dist a.head with
    | none => exact le_refl _
    | some d => exact min_le_right _ _
  unfold cappedDist at hhead ⊢
  cases htail : lookup dist a.tail with
  | none =>
    simp only []
    rw [htail] at hr
    linarith
  | some dt =>
    obtain ⟨dh, hdh, hle⟩ := hr dt htail
    rw [hdh]
    simp only []
    have h1 : min dh cap ≤ min dt cap
        + (a.cost + potentialAt potential a.tail - potentialAt potential a.head) := by
      rcases le_total dt cap with h | h
      · rw [min_eq_left h]
        exact (min_le_left _ _).trans hle
      · rw [min_eq_right h]
        have := min_le_right dh cap
        linarith
    linarith

end Potentials

section Dijkstra

theorem chain_append (s v : Node) (l : List Arc) (a : Arc) :
    Chain s (l ++ [a]) v ↔ ∃ m, Chain s l m ∧ a.tail = m ∧ a.head = v := by
  induction l generalizing s with
  | nil =>
    simp only [List.nil_append, Chain]
    constructor
    · rintro ⟨h1, h2⟩
      exact ⟨s, rfl, h1, h2⟩
    · rintro ⟨m, h1, h2, h3⟩
      exact ⟨h2.trans h1.symm, h3⟩
  | cons b rest ih =>
    simp only [List.cons_append, Chain]
    constructor
    · rintro ⟨h1, h2⟩
      obtain ⟨m, hm1, hm2, hm3⟩ := (ih b.head).mp h2
      exact ⟨m, ⟨h1, hm1⟩, hm2, hm3⟩
    · rintro ⟨m, ⟨h1, hm1⟩, hm2, hm3⟩
      exact ⟨h1, (ih b.head).mpr ⟨m, hm1, hm2, hm3⟩⟩

theorem pickMin_none (dist : Dist) (queue : List Node) (h : pickMin dist queue = none) :
    ∀ v ∈ queue, lookup dist v = none := by
  induction queue with
  | nil =>
    intro v hv
    cases hv
  | cons w rest ih =>
    intro v hv
    unfold pickMin at h
    cases hw : lookup dist w with
    | none =>
      rw [hw] at h
      simp only at h
      rcases List.mem_cons.mp hv with rfl | hv2
      · exact hw
      · exact ih h v hv2
    | some dw =>
      rw [hw] at h
      cases hr : pickMin dist rest with
      | none =>
        rw [hr] at h
        simp at h
      | some best =>
        rw [hr] at h
        obtain ⟨b1, b2⟩ := best
        simp only at h
        split_ifs at h

theorem pickMin_some (dist : Dist) (queue : List Node) (u : Node) (du : ℚ)
    (h : pickMin dist queue = some (u, du)) :
    u ∈ queue ∧ lookup dist u = some du
      ∧ ∀ v ∈ queue, ∀ dv, lookup dist v = some dv → du ≤ dv := by
  induction queue generalizing u du with
  | nil =>
    unfold pickMin at h
    cases h
  | cons w rest ih =>
    unfold pickMin at h
    cases hw : lookup dist w with
    | none =>
      rw [hw] at h
      simp only at h
      obtain ⟨h1, h2, h3⟩ := ih u du h
      refine ⟨List.mem_cons_of_mem _ h1, h2, ?_⟩
      intro v hv dv hdv
      rcases List.mem_cons.mp hv with rfl | hv2
      · rw [hw] at hdv
        cases hdv
      · exact h3 v hv2 dv hdv
    | some dw =>
      rw [hw] at h
      cases hr : pickMin dist rest with
      | none =>
        rw [hr] at h
        simp only [Option.some.injEq, Prod.mk.injEq] at h
        obtain ⟨rfl, rfl⟩ := h
        refine ⟨List.mem_cons_self _ _, hw, ?_⟩
        intro v hv dv hdv
        rcases List.mem_cons.mp hv with rfl | hv2
        · rw [hw] at hdv
          injection hdv with hdv
          exact hdv.le
        · rw [pickMin_none dist rest hr v hv2] at hdv
          cases hdv
      | some best =>
        rw [hr] at h
        obtain ⟨b1, b2⟩ := best
        obtain ⟨g1, g2, g3⟩ := ih b1 b2 hr
        simp only at h
        by_cases hlt : b2 < dw
        · rw [if_pos hlt] at h
          simp only [Option.some.injEq, Prod.mk.injEq] at h
          obtain ⟨rfl, rfl⟩ := h
          refine ⟨List.mem_cons_of_mem _ g1, g2, ?_⟩
          intro v hv dv hdv
          rcases List.mem_cons.mp hv with rfl | hv2
          · rw [hw] at hdv
            injection hdv with hdv
            rw [← hdv]
            exact hlt.le
          · exact g3 v hv2 dv hdv
        · rw [if_neg hlt] at h
          simp only [Option.some.injEq, Prod.mk.injEq] at h
          obtain ⟨rfl, rfl⟩ := h
          refine ⟨List.mem_cons_self _ _, hw, ?_⟩
          intro v hv dv hdv
          rcases List.mem_cons.mp hv with rfl | hv2
          · rw [hw] at hdv
            injection hdv with hdv
            exact hdv.le
          · exact (not_lt.mp hlt).trans (g3 v hv2 dv hdv)

end Dijkstra

section DijkstraStep

theorem pathAt_cons (lab : Labels) (h v : Node) (x : ℚ) (p : List Arc) :
    pathAt ⟨(h, x) :: lab.dist, (h, p) :: lab.path⟩ v = if v = h then p else pathAt lab v := by
  unfold pathAt
  rw [lookup_cons]
  by_cases hv : v = h
  · rw [if_pos hv, if_pos hv]
    rfl
  · rw [if_neg hv, if_neg hv]

theorem relax_update (arcs : List Arc) (queue : List Node) (u : Node) (du : ℚ)
    (pu done : List Arc) (lab : Labels) (start : Node) (a : Arc)
    (ha : a ∈ arcs) (hc : 0 ≤ a.cost) (ht : a.tail = u)
    (hnew : ∀ dh, lookup lab.dist a.head = some dh → du + a.cost < dh)
    (hinv : RelaxInv arcs queue u du pu done lab start) :
    RelaxInv arcs queue u du pu (a :: done)
      ⟨(a.head, du + a.cost) :: lab.dist, (a.head, pu ++ [a]) :: lab.path⟩ start := by
  have hdu : 0 ≤ du := hinv.nonneg u du hinv.u_label
  have hhQ : a.head ∈ queue := by
    cases hh : lookup lab.dist a.head with
    | none => exact hinv.unlabelled a ha hh
    | some dh =>
      by_contra hn
      have h1 := hinv.below_u a.head dh hn hh
      have h2 := hnew dh hh
      linarith
  have hhu : a.head ≠ u := fun h => hinv.u_settled (h ▸ hhQ)
  have hhs : a.head ≠ start := by
    intro h
    have h1 := hinv.start_label
    rw [← h] at h1
    have h2 := hnew 0 h1
    linarith
  have hkeep : ∀ v, v ∉ queue →
      lookup ((a.head, du + a.cost) :: lab.dist) v = lookup lab.dist v := by
    intro v hv
    rw [lookup_cons, if_neg]
    intro h
    exact hv (h ▸ hhQ)
  have hpu : PathOK arcs queue lab start u := hinv.paths u du hinv.u_label
  have hpath := hinv.u_path
  subst hpath
  refine ⟨?_, ?_, hinv.u_settled, ?_, ?_, ?_, ?_, ?_, ?_, ?_⟩
  · show lookup ((a.head, du + a.cost) :: lab.dist) u = some du
    rw [hkeep u hinv.u_settled]
    exact hinv.u_label
  · rw [pathAt_cons, if_neg (Ne.symm hhu)]
  · show lookup ((a.head, du + a.cost) :: lab.dist) start = some 0
    rw [lookup_cons, if_neg (Ne.symm hhs)]
    exact hinv.start_label
  · intro v d hv
    change lookup ((a.head, du + a.cost) :: lab.dist) v = some d at hv
    rw [lookup_cons] at hv
    by_cases hvh : v = a.head
    · rw [if_pos hvh] at hv
      injection hv with hv
      linarith
    · rw [if_neg hvh] at hv
      exact hinv.nonneg v d hv
  · intro b hb hnone
    change lookup ((a.head, du + a.cost) :: lab.dist) b.head = none at hnone
    rw [lookup_cons] at hnone
    by_cases hvh : b.head = a.head
    · rw [if_pos hvh] at hnone
      cases hnone
    · rw [if_neg hvh] at hnone
      exact hinv.unlabelled b hb hnone
  · intro b hb hbt hdone dt hdt
    change lookup ((a.head, du + a.cost) :: lab.dist) b.tail = some dt at hdt
    show ∃ dh, lookup ((a.head, du + a.cost) :: lab.dist) b.head = some dh ∧ dh ≤ dt + b.cost
    rw [hkeep b.tail hbt] at hdt
    by_cases hba : b = a
    · subst hba
      rw [ht, hinv.u_label] at hdt
      injection hdt with hdt
      refine ⟨du + b.cost, ?_, ?_⟩
      · rw [lookup_cons, if_pos rfl]
      · rw [hdt]
    · have hdone2 : b.tail ≠ u ∨ b ∈ done := by
        rcases hdone with h | h
        · exact Or.inl h
        · rcases List.mem_cons.mp h with h2 | h2
          · exact absurd h2 hba
          · exact Or.inr h2
      obtain ⟨dh, h1, h2⟩ := hinv.relaxed b hb hbt hdone2 dt hdt
      rw [lookup_cons]
      by_cases hvh : b.head = a.head
      · rw [if_pos hvh]
        refine ⟨du + a.cost, rfl, ?_⟩
        rw [hvh] at h1
        have := hnew dh h1
        linarith
      · rw [if_neg hvh]
        exact ⟨dh, h1, h2⟩
  · intro x v dx dv hx hv hdx hdv
    change lookup ((a.head, du + a.cost) :: lab.dist) x = some dx at hdx
    change lookup ((a.head, du + a.cost) :: lab.dist) v = some dv at hdv
    rw [hkeep x hx] at hdx
    rw [lookup_cons] at hdv
    by_cases hvh : v = a.head
    · rw [if_pos hvh] at hdv
      injection hdv with hdv
      have := hinv.below_u x dx hx hdx
      linarith
    · rw [if_neg hvh] at hdv
      exact hinv.order x v dx dv hx hv hdx hdv
  · intro x dx hx hdx
    change lookup ((a.head, du + a.cost) :: lab.dist) x = some dx at hdx
    rw [hkeep x hx] at hdx
    exact hinv.below_u x dx hx hdx
  · intro v dv hdv
    change lookup ((a.head, du + a.cost) :: lab.dist) v = some dv at hdv
    by_cases hvh : v = a.head
    · subst hvh
      have hP : pathAt ⟨(a.head, du + a.cost) :: lab.dist, (a.head, pathAt lab u ++ [a]) :: lab.path⟩
          a.head = pathAt lab u ++ [a] := by
        rw [pathAt_cons, if_pos rfl]
      have hold : ∀ b ∈ pathAt lab u, b.tail ≠ a.head ∧ b.head ≠ a.head := by
        intro b hb
        refine ⟨fun h => hpu.tails b hb (h ▸ hhQ), ?_⟩
        rcases hpu.heads b hb with h | h
        · rw [h]
          exact Ne.symm hhu
        · exact fun h2 => h (h2 ▸ hhQ)
      constructor
      · rw [hP, chain_append]
        exact ⟨u, hpu.chain, ht, rfl⟩
      · rw [hP]
        intro b hb
        rcases List.mem_append.mp hb with h | h
        · exact hpu.mem b h
        · rw [List.mem_singleton.mp h]
          exact ha
      · rw [hP]
        intro b hb
        rcases List.mem_append.mp hb with h | h
        · exact hpu.tails b h
        · rw [List.mem_singleton.mp h, ht]
          exact hinv.u_settled
      · rw [hP]
        intro b hb
        rcases List.mem_append.mp hb with h | h
        · rcases hpu.heads b h with h2 | h2
          · right
            rw [h2]
            exact hinv.u_settled
          · exact Or.inr h2
        · rw [List.mem_singleton.mp h]
          exact Or.inl rfl
      · rw [hP]
        intro b hb
        show ∃ dt, lookup ((a.head, du + a.cost) :: lab.dist) b.tail = some dt
          ∧ lookup ((a.head, du + a.cost) :: lab.dist) b.head = some (dt + b.cost)
        rcases List.mem_append.mp hb with h | h
        · obtain ⟨dt, h1, h2⟩ := hpu.tight b h
          refine ⟨dt, ?_, ?_⟩
          · rw [lookup_cons, if_neg (hold b h).1]
            exact h1
          · rw [lookup_cons, if_neg (hold b h).2]
            exact h2
        · rw [List.mem_singleton.mp h]
          refine ⟨du, ?_, ?_⟩
          · rw [ht, hkeep u hinv.u_settled]
            exact hinv.u_label
          · rw [lookup_cons, if_pos rfl]
      · rw [hP, List.map_append, List.map_singleton]
        refine List.Nodup.append hpu.nodup (List.nodup_singleton _) ?_
        intro y hy1 hy2
        rw [List.mem_singleton] at hy2
        obtain ⟨b, hb, rfl⟩ := List.mem_map.mp hy1
        exact (hold b hb).2 hy2
      · rw [hP, List.map_append, List.map_singleton]
        intro h
        rcases List.mem_append.mp h with h | h
        · exact hpu.start_not_head h
        · exact hhs (List.mem_singleton.mp h).symm
      · rw [hP, List.map_append, List.map_singleton]
        intro h
        rcases List.mem_append.mp h with h | h
        · obtain ⟨b, hb, hbt⟩ := List.mem_map.mp h
          exact (hold b hb).1 hbt
        · exact hhu ((List.mem_singleton.mp h).trans ht)
    · rw [lookup_cons, if_neg hvh] at hdv
      have hv := hinv.paths v dv hdv
      have hP : pathAt ⟨(a.head, du + a.cost) :: lab.dist, (a.head, pathAt lab u ++ [a]) :: lab.path⟩ v
          = pathAt lab v := by
        rw [pathAt_cons, if_neg hvh]
      constructor
      · rw [hP]
        exact hv.chain
      · rw [hP]
        exact hv.mem
      · rw [hP]
        exact hv.tails
      · rw [hP]
        exact hv.heads
      · rw [hP]
        intro b hb
        show ∃ dt, lookup ((a.head, du + a.cost) :: lab.dist) b.tail = some dt
          ∧ lookup ((a.head, du + a.cost) :: lab.dist) b.head = some (dt + b.cost)
        obtain ⟨dt, h1, h2⟩ := hv.tight b hb
        refine ⟨dt, ?_, ?_⟩
        · rw [hkeep b.tail (hv.tails b hb)]
          exact h1
        · rcases hv.heads b hb with h | h
          · rw [lookup_cons, if_neg (h ▸ hvh)]
            exact h2
          · rw [hkeep b.head h]
            exact h2
      · rw [hP]
        exact hv.nodup
      · rw [hP]
        exact hv.start_not_head
      · rw [hP]
        exact hv.end_not_tail

end DijkstraStep

section DijkstraLoop

theorem relax_step (arcs : List Arc) (queue : List Node) (u : Node) (du : ℚ)
    (pu done : List Arc) (lab : Labels) (start : Node) (a : Arc)
    (ha : a ∈ arcs) (hc : 0 ≤ a.cost)
    (hinv : RelaxInv arcs queue u du pu done lab start) :
    RelaxInv arcs queue u du pu (a :: done) (relaxArc u du pu lab a) start := by
  have hweak : ∀ dh, lookup lab.dist a.head = some dh → ¬ du + a.cost < dh →
      RelaxInv arcs queue u du pu (a :: done) lab start := by
    intro dh hh hlt
    refine ⟨hinv.u_label, hinv.u_path, hinv.u_settled, hinv.start_label, hinv.nonneg,
      hinv.unlabelled, ?_, hinv.order, hinv.below_u, hinv.paths⟩
    intro b hb hbt hdone dt hdt
    by_cases hba : b = a
    · by_cases hbu : b.tail = u
      · rw [hbu, hinv.u_label] at hdt
        injection hdt with hdt
        rw [hba]
        refine ⟨dh, hh, ?_⟩
        rw [← hdt]
        exact not_lt.mp hlt
      · exact hinv.relaxed b hb hbt (Or.inl hbu) dt hdt
    · refine hinv.relaxed b hb hbt ?_ dt hdt
      rcases hdone with h | h
      · exact Or.inl h
      · rcases List.mem_cons.mp h with h2 | h2
        · exact absurd h2 hba
        · exact Or.inr h2
  unfold relaxArc
  by_cases ht : a.tail = u
  · rw [if_pos ht]
    cases hh : lookup lab.dist a.head with
    | none =>
      refine relax_update arcs queue u du pu done lab start a ha hc ht ?_ hinv
      intro dh hdh
      rw [hh] at hdh
      cases hdh
    | some dh =>
      by_cases hlt : du + a.cost < dh
      · simp only [if_pos hlt]
        refine relax_update arcs queue u du pu done lab start a ha hc ht ?_ hinv
        intro dh2 hdh
        rw [hh] at hdh
        injection hdh with hdh
        rw [← hdh]
        exact hlt
      · simp only [if_neg hlt]
        exact hweak dh hh hlt
  · rw [if_neg ht]
    refine ⟨hinv.u_label, hinv.u_path, hinv.u_settled, hinv.start_label, hinv.nonneg,
      hinv.unlabelled, ?_, hinv.order, hinv.below_u, hinv.paths⟩
    intro b hb hbt hdone dt hdt
    refine hinv.relaxed b hb hbt ?_ dt hdt
    rcases hdone with h | h
    · exact Or.inl h
    · rcases List.mem_cons.mp h with h2 | h2
      · left
        rw [h2]
        exact ht
      · exact Or.inr h2

theorem relax_fold (arcs : List Arc) (queue : List Node) (u : Node) (du : ℚ)
    (pu : List Arc) (start : Node) (hc : ∀ a ∈ arcs, 0 ≤ a.cost) (rest : List Arc) :
    ∀ (done : List Arc) (lab : Labels), (∀ a ∈ rest, a ∈ arcs) →
      RelaxInv arcs queue u du pu done lab start →
      ∃ done2, (∀ a, a ∈ done ∨ a ∈ rest → a ∈ done2)
        ∧ RelaxInv arcs queue u du pu done2 (rest.foldl (relaxArc u du pu) lab) start := by
  induction rest with
  | nil =>
    intro done lab _ hinv
    refine ⟨done, ?_, hinv⟩
    intro a h
    rcases h with h | h
    · exact h
    · cases h
  | cons a rest ih =>
    intro done lab hsub hinv
    have ha : a ∈ arcs := hsub a (List.mem_cons_self _ _)
    have hstep := relax_step arcs queue u du pu done lab start a ha (hc a ha) hinv
    obtain ⟨done2, h1, h2⟩ := ih (a :: done) (relaxArc u du pu lab a)
      (fun b hb => hsub b (List.mem_cons_of_mem _ hb)) hstep
    refine ⟨done2, ?_, h2⟩
    intro b hb
    rcases hb with hb | hb
    · exact h1 b (Or.inl (List.mem_cons_of_mem _ hb))
    · rcases List.mem_cons.mp hb with hb2 | hb2
      · exact h1 b (Or.inl (hb2 ▸ List.mem_cons_self _ _))
      · exact h1 b (Or.inr hb2)

theorem pathOK_mono (arcs : List Arc) (queue queue2 : List Node) (lab : Labels)
    (start v : Node) (hsub : ∀ x, x ∈ queue2 → x ∈ queue)
    (h : PathOK arcs queue lab start v) : PathOK arcs queue2 lab start v := by
  refine ⟨h.chain, h.mem, ?_, ?_, h.tight, h.nodup, h.start_not_head, h.end_not_tail⟩
  · intro a ha hq
    exact h.tails a ha (hsub _ hq)
  · intro a ha
    rcases h.heads a ha with h2 | h2
    · exact Or.inl h2
    · exact Or.inr fun hq => h2 (hsub _ hq)

theorem dijkstra_settle (arcs : List Arc) (queue : List Node) (lab : Labels) (start : Node)
    (hc : ∀ a ∈ arcs, 0 ≤ a.cost) (hq : queue.Nodup) (u : Node) (du : ℚ)
    (hpick : pickMin lab.dist queue = some (u, du))
    (hinv : DijkstraInv arcs queue lab start) :
    DijkstraInv arcs (queue.erase u) (arcs.foldl (relaxArc u du (pathAt lab u)) lab) start := by
  obtain ⟨hu1, hu2, hu3⟩ := pickMin_some lab.dist queue u du hpick
  have hmem : ∀ x, x ∈ queue.erase u ↔ x ≠ u ∧ x ∈ queue := fun x => hq.mem_erase_iff
  have hout : ∀ x, x ∉ queue.erase u → x = u ∨ x ∉ queue := by
    intro x hx
    by_cases hxu : x = u
    · exact Or.inl hxu
    · exact Or.inr fun h => hx ((hmem x).mpr ⟨hxu, h⟩)
  have hstart : RelaxInv arcs (queue.erase u) u du (pathAt lab u) [] lab start := by
    refine ⟨hu2, rfl, fun h => ((hmem u).mp h).1 rfl, hinv.start_label, hinv.nonneg, ?_, ?_,
      ?_, ?_, ?_⟩
    · intro a ha hnone
      refine (hmem _).mpr ⟨?_, hinv.unlabelled a ha hnone⟩
      intro h
      rw [h, hu2] at hnone
      cases hnone
    · intro a ha hat hdone dt hdt
      rcases hdone with h | h
      · rcases hout _ hat with h2 | h2
        · exact absurd h2 h
        · exact hinv.relaxed a ha h2 dt hdt
      · cases h
    · intro x v dx dv hx hv hdx hdv
      have hv2 := ((hmem v).mp hv).2
      rcases hout x hx with h | h
      · rw [h, hu2] at hdx
        injection hdx with hdx
        rw [← hdx]
        exact hu3 v hv2 dv hdv
      · exact hinv.order x v dx dv h hv2 hdx hdv
    · intro x dx hx hdx
      rcases hout x hx with h | h
      · rw [h, hu2] at hdx
        injection hdx with hdx
        exact hdx.ge
      · exact hinv.order x u dx du h hu1 hdx hu2
    · intro v dv hdv
      exact pathOK_mono arcs queue (queue.erase u) lab start v
        (fun x hx => ((hmem x).mp hx).2) (hinv.paths v dv hdv)
  obtain ⟨done2, h1, h2⟩ := relax_fold arcs (queue.erase u) u du (pathAt lab u) start hc arcs
    [] lab (fun a ha => ha) hstart
  refine ⟨h2.start_label, h2.nonneg, h2.unlabelled, ?_, h2.order, h2.paths⟩
  intro a ha hat dt hdt
  exact h2.relaxed a ha hat (Or.inr (h1 a (Or.inr ha))) dt hdt

theorem dijkstraLoop_done (arcs : List Arc) (start : Node) (hc : ∀ a ∈ arcs, 0 ≤ a.cost)
    (fuel : Nat) :
    ∀ (queue : List Node) (lab : Labels), queue.Nodup → queue.length ≤ fuel →
      DijkstraInv arcs queue lab start →
      DijkstraDone arcs (dijkstraLoop arcs fuel queue lab) start := by
  have hfinal : ∀ (queue : List Node) (lab : Labels),
      (∀ v ∈ queue, lookup lab.dist v = none) → DijkstraInv arcs queue lab start →
      DijkstraDone arcs lab start := by
    intro queue lab hnone hinv
    refine ⟨hinv.start_label, hinv.nonneg, ?_, fun v d h => (hinv.paths v d h).chain,
      fun v d h => (hinv.paths v d h).mem, fun v d h => (hinv.paths v d h).tight,
      fun v d h => (hinv.paths v d h).nodup, fun v d h => (hinv.paths v d h).start_not_head,
      fun v d h => (hinv.paths v d h).end_not_tail⟩
    intro a ha dt hdt
    refine hinv.relaxed a ha ?_ dt hdt
    intro hq
    rw [hnone _ hq] at hdt
    cases hdt
  induction fuel with
  | zero =>
    intro queue lab _ hlen hinv
    unfold dijkstraLoop
    refine hfinal queue lab ?_ hinv
    intro v hv
    rw [List.length_eq_zero.mp (Nat.le_zero.mp hlen)] at hv
    cases hv
  | succ fuel ih =>
    intro queue lab hq hlen hinv
    unfold dijkstraLoop
    cases hpick : pickMin lab.dist queue with
    | none => exact hfinal queue lab (pickMin_none lab.dist queue hpick) hinv
    | some best =>
      obtain ⟨u, du⟩ := best
      have hu := (pickMin_some lab.dist queue u du hpick).1
      refine ih (queue.erase u) _ (hq.erase u) ?_
        (dijkstra_settle arcs queue lab start hc hq u du hpick hinv)
      rw [List.length_erase_of_mem hu]
      omega

theorem dijkstra_done (nodes : List Node) (arcs : List Arc) (start : Node)
    (hc : ∀ a ∈ arcs, 0 ≤ a.cost) (hnodes : nodes.Nodup) (hstart : start ∈ nodes)
    (hheads : ∀ a ∈ arcs, a.head ∈ nodes) :
    DijkstraDone arcs (dijkstra nodes arcs start) start := by
  unfold dijkstra
  refine dijkstraLoop_done arcs start hc nodes.length nodes _ hnodes le_rfl ?_
  have hl : ∀ v d, lookup [(start, (0 : ℚ))] v = some d → v = start := by
    intro v d h
    rw [lookup_cons] at h
    by_contra hv
    rw [if_neg hv] at h
    cases h
  refine ⟨?_, ?_, ?_, ?_, ?_, ?_⟩
  · show lookup [(start, (0 : ℚ))] start = some 0
    rw [lookup_cons, if_pos rfl]
  · intro v d h
    change lookup [(start, (0 : ℚ))] v = some d at h
    rw [lookup_cons] at h
    by_cases hv : v = start
    · rw [if_pos hv] at h
      injection h with h
      exact h.le
    · rw [if_neg hv] at h
      cases h
  · intro a ha _
    exact hheads a ha
  · intro a _ hat dt hdt
    rw [hl _ dt hdt] at hat
    exact absurd hstart hat
  · intro x v dx dv hx _ hdx _
    rw [hl _ dx hdx] at hx
    exact absurd hstart hx
  · intro v dv hdv
    have hv := hl v dv hdv
    subst hv
    have hP : pathAt ⟨[(v, (0 : ℚ))], [(v, [])]⟩ v = [] := by
      unfold pathAt
      rw [lookup_cons, if_pos rfl]
      rfl
    constructor
    · rw [hP]
      exact rfl
    · rw [hP]
      intro a ha
      cases ha
    · rw [hP]
      intro a ha
      cases ha
    · rw [hP]
      intro a ha
      cases ha
    · rw [hP]
      intro a ha
      cases ha
    · rw [hP]
      exact List.nodup_nil
    · rw [hP]
      intro h
      cases h
    · rw [hP]
      intro h
      cases h

end DijkstraLoop

section Chains

theorem chain_tails (l : List Arc) : ∀ (s v : Node), Chain s l v →
    l.map Arc.tail ++ [v] = s :: l.map Arc.head := by
  induction l with
  | nil =>
    intro s v h
    simp only [Chain] at h
    simp [h]
  | cons a rest ih =>
    intro s v h
    simp only [Chain] at h
    rw [List.map_cons, List.map_cons, List.cons_append, ih a.head v h.2, h.1]

theorem chain_prev (l : List Arc) : ∀ (s v : Node), Chain s l v → ∀ a ∈ l,
    a.tail = s ∨ ∃ b ∈ l, b.head = a.tail := by
  induction l with
  | nil =>
    intro s v _ a ha
    cases ha
  | cons c rest ih =>
    intro s v h a ha
    simp only [Chain] at h
    rcases List.mem_cons.mp ha with rfl | ha2
    · exact Or.inl h.1
    · right
      rcases ih c.head v h.2 a ha2 with h3 | ⟨b, hb, hb2⟩
      · exact ⟨c, List.mem_cons_self _ _, h3.symm⟩
      · exact ⟨b, List.mem_cons_of_mem _ hb, hb2⟩

theorem chain_next (l : List Arc) : ∀ (s v : Node), Chain s l v → ∀ a ∈ l,
    a.head = v ∨ ∃ b ∈ l, b.tail = a.head := by
  induction l with
  | nil =>
    intro s v _ a ha
    cases ha
  | cons c rest ih =>
    intro s v h a ha
    simp only [Chain] at h
    rcases List.mem_cons.mp ha with rfl | ha2
    · cases rest with
      | nil =>
        simp only [Chain] at h
        exact Or.inl h.2
      | cons c2 rest2 =>
        simp only [Chain] at h
        exact Or.inr ⟨c2, List.mem_cons_of_mem _ (List.mem_cons_self _ _), h.2.1⟩
    · rcases ih c.head v h.2 a ha2 with h3 | ⟨b, hb, hb2⟩
      · exact Or.inl h3
      · exact Or.inr ⟨b, List.mem_cons_of_mem _ hb, hb2⟩

theorem chain_first (l : List Arc) (s v : Node) (h : Chain s l v) (hne : s ≠ v) :
    ∃ b ∈ l, b.tail = s := by
  cases l with
  | nil =>
    simp only [Chain] at h
    exact absurd h hne
  | cons c rest =>
    simp only [Chain] at h
    exact ⟨c, List.mem_cons_self _ _, h.1⟩

theorem chain_tails_nodup (l : List Arc) (s v : Node) (h : Chain s l v)
    (hnodup : (l.map Arc.head).Nodup) (hs : s ∉ l.map Arc.head) :
    (l.map Arc.tail).Nodup := by
  have h1 : (l.map Arc.tail ++ [v]).Nodup := by
    rw [chain_tails l s v h]
    exact List.nodup_cons.mpr ⟨hs, hnodup⟩
  exact (List.nodup_append.mp h1).1

theorem chain_labels_le (dist : Dist) (v : Node) (d : ℚ) (hv : lookup dist v = some d)
    (l : List Arc) : ∀ (s : Node), Chain s l v →
    (∀ a ∈ l, ∃ dt, lookup dist a.tail = some dt ∧ lookup dist a.head = some (dt + a.cost)) →
    (∀ a ∈ l, 0 ≤ a.cost) →
    (∀ ds, lookup dist s = some ds → ds ≤ d)
      ∧ ∀ a ∈ l, ∀ dh, lookup dist a.head = some dh → dh ≤ d := by
  induction l with
  | nil =>
    intro s h _ _
    simp only [Chain] at h
    refine ⟨?_, ?_⟩
    · intro ds hds
      rw [h, hv] at hds
      injection hds with hds
      exact hds.ge
    · intro a ha
      cases ha
  | cons c rest ih =>
    intro s h htight hcost
    simp only [Chain] at h
    obtain ⟨ih1, ih2⟩ := ih c.head h.2
      (fun a ha => htight a (List.mem_cons_of_mem _ ha))
      (fun a ha => hcost a (List.mem_cons_of_mem _ ha))
    obtain ⟨dt, ht1, ht2⟩ := htight c (List.mem_cons_self _ _)
    have hc := hcost c (List.mem_cons_self _ _)
    have hhead := ih1 _ ht2
    refine ⟨?_, ?_⟩
    · intro ds hds
      rw [← h.1, ht1] at hds
      injection hds with hds
      linarith
    · intro a ha dh hdh
      rcases List.mem_cons.mp ha with rfl | ha2
      · exact ih1 dh hdh
      · exact ih2 a ha2 dh hdh

end Chains

section Augment

theorem mem_augment (flow : Flow) (path : List Arc) (p : Nat × Nat) :
    p ∈ augment flow path ↔ (p ∈ flow ∧ ¬ Step path (.measurement p.2) (.tracker p.1))
      ∨ Step path (.tracker p.1) (.measurement p.2) := by
  unfold augment Step
  rw [List.mem_append, List.mem_filter, List.mem_filterMap]
  have h1 : (!cancels path p) = true
      ↔ ¬ ∃ b ∈ path, b.tail = .measurement p.2 ∧ b.head = .tracker p.1 := by
    unfold cancels
    simp only [Bool.not_eq_true', List.any_eq_false, decide_eq_true_eq, not_exists, not_and]
  have h2 : (∃ a ∈ path, newPair a = some p)
      ↔ ∃ b ∈ path, b.tail = .tracker p.1 ∧ b.head = .measurement p.2 := by
    constructor
    · rintro ⟨a, ha, hp⟩
      refine ⟨a, ha, ?_⟩
      unfold newPair at hp
      split at hp
      · rename_i i j hi hj
        injection hp with hp
        rw [← hp]
        exact ⟨hi, hj⟩
      · cases hp
    · rintro ⟨b, hb, hb1, hb2⟩
      refine ⟨b, hb, ?_⟩
      unfold newPair
      rw [hb1, hb2]
  rw [h1]
  constructor
  · rintro (h | h)
    · exact Or.inl h
    · exact Or.inr (h2.mp h)
  · rintro (h | h)
    · exact Or.inl h
    · exact Or.inr (h2.mpr h)

theorem residual_cost (cost : List (List ℚ)) (flow : Flow) (a : Arc)
    (h : a ∈ residualArcs cost flow) : a.cost = costOf cost a.tail a.head := by
  rcases residual_arc_kinds cost flow a h with ⟨i, hi, -, rfl⟩ | ⟨i, hi, -, rfl⟩
    | ⟨i, j, hi, hj, -, -, rfl⟩ | ⟨i, j, hi, hj, -, rfl⟩ | ⟨j, hj, -, rfl⟩ | ⟨j, hj, -, rfl⟩
  all_goals rfl

end Augment

section PathSteps

variable {cost : List (List ℚ)} {flow : Flow} {path : List Arc}

theorem newPair_some (a : Arc) (p : Nat × Nat) :
    newPair a = some p ↔ a.tail = .tracker p.1 ∧ a.head = .measurement p.2 := by
  constructor
  · intro hp
    unfold newPair at hp
    split at hp
    · rename_i i j hi hj
      injection hp with hp
      rw [← hp]
      exact ⟨hi, hj⟩
    · cases hp
  · rintro ⟨hb1, hb2⟩
    unfold newPair
    rw [hb1, hb2]

theorem step_kinds (hp : AugPath cost flow path) (t h : Node) (hs : Step path t h) :
    (∃ i, i < numTrackers cost ∧ i ∉ flow.map Prod.fst ∧ t = .source ∧ h = .tracker i)
    ∨ (∃ i j, i < numTrackers cost ∧ j < numMeasurements cost ∧ (i, j) ∉ flow
        ∧ score cost i j ≠ 0 ∧ t = .tracker i ∧ h = .measurement j)
    ∨ (∃ i j, i < numTrackers cost ∧ j < numMeasurements cost ∧ (i, j) ∈ flow
        ∧ t = .measurement j ∧ h = .tracker i)
    ∨ (∃ j, j < numMeasurements cost ∧ j ∉ flow.map Prod.snd ∧ t = .measurement j
        ∧ h = .sink) := by
  obtain ⟨b, hb, rfl, rfl⟩ := hs
  obtain ⟨a, ha, hat, hah⟩ := hp.arcs b hb
  rcases residual_arc_kinds cost flow a ha with ⟨i, hi, h1, rfl⟩ | ⟨i, hi, h1, rfl⟩
    | ⟨i, j, hi, hj, h1, h2, rfl⟩ | ⟨i, j, hi, hj, h1, rfl⟩ | ⟨j, hj, h1, rfl⟩
    | ⟨j, hj, h1, rfl⟩
  · exact Or.inl ⟨i, hi, h1, hat.symm, hah.symm⟩
  · exact absurd (List.mem_map.mpr ⟨b, hb, hah.symm⟩) hp.source_not_head
  · exact Or.inr (Or.inl ⟨i, j, hi, hj, h1, h2, hat.symm, hah.symm⟩)
  · exact Or.inr (Or.inr (Or.inl ⟨i, j, hi, hj, h1, hat.symm, hah.symm⟩))
  · exact Or.inr (Or.inr (Or.inr ⟨j, hj, h1, hat.symm, hah.symm⟩))
  · exact absurd (List.mem_map.mpr ⟨b, hb, hat.symm⟩) hp.sink_not_tail

theorem step_next (hp : AugPath cost flow path) (t h : Node) (hs : Step path t h)
    (hne : h ≠ .sink) : ∃ h2, Step path h h2 := by
  obtain ⟨b, hb, rfl, rfl⟩ := hs
  rcases chain_next path _ _ hp.chain b hb with h1 | ⟨c, hc, hc2⟩
  · exact absurd h1 hne
  · exact ⟨c.head, c, hc, hc2, rfl⟩

theorem step_prev (hp : AugPath cost flow path) (t h : Node) (hs : Step path t h)
    (hne : t ≠ .source) : ∃ t0, Step path t0 t := by
  obtain ⟨b, hb, rfl, rfl⟩ := hs
  rcases chain_prev path _ _ hp.chain b hb with h1 | ⟨c, hc, hc2⟩
  · exact absurd h1 hne
  · exact ⟨c.tail, c, hc, rfl, hc2⟩

theorem out_tracker (hp : AugPath cost flow path) (t : Node) (i : Nat)
    (hs : Step path t (.tracker i)) :
    ∃ j, Step path (.tracker i) (.measurement j) ∧ (i, j) ∉ flow := by
  obtain ⟨h2, hs2⟩ := step_next hp t _ hs (by simp)
  rcases step_kinds hp _ _ hs2 with ⟨i2, -, -, h3, -⟩ | ⟨i2, j2, -, -, h3, -, h4, rfl⟩
    | ⟨i2, j2, -, -, -, h3, -⟩ | ⟨j2, -, -, h3, -⟩
  · cases h3
  · injection h4 with h4
    subst h4
    exact ⟨j2, hs2, h3⟩
  · cases h3
  · cases h3

theorem in_tracker (hp : AugPath cost flow path) (h : Node) (i : Nat)
    (hs : Step path (.tracker i) h) :
    (i ∉ flow.map Prod.fst ∧ Step path .source (.tracker i))
      ∨ ∃ j, (i, j) ∈ flow ∧ Step path (.measurement j) (.tracker i) := by
  obtain ⟨t0, hs2⟩ := step_prev hp _ h hs (by simp)
  rcases step_kinds hp _ _ hs2 with ⟨i2, -, h3, rfl, h4⟩ | ⟨i2, j2, -, -, -, -, -, h4⟩
    | ⟨i2, j2, -, -, h3, rfl, h4⟩ | ⟨j2, -, -, -, h4⟩
  · injection h4 with h4
    subst h4
    exact Or.inl ⟨h3, hs2⟩
  · cases h4
  · injection h4 with h4
    subst h4
    exact Or.inr ⟨j2, h3, hs2⟩
  · cases h4

theorem out_measurement (hp : AugPath cost flow path) (t : Node) (j : Nat)
    (hs : Step path t (.measurement j)) :
    (j ∉ flow.map Prod.snd ∧ Step path (.measurement j) .sink)
      ∨ ∃ i, (i, j) ∈ flow ∧ Step path (.measurement j) (.tracker i) := by
  obtain ⟨h2, hs2⟩ := step_next hp t _ hs (by simp)
  rcases step_kinds hp _ _ hs2 with ⟨i2, -, -, h3, -⟩ | ⟨i2, j2, -, -, -, -, h3, -⟩
    | ⟨i2, j2, -, -, h5, h3, rfl⟩ | ⟨j2, -, h5, h3, rfl⟩
  · cases h3
  · cases h3
  · injection h3 with h3
    subst h3
    exact Or.inr ⟨i2, h5, hs2⟩
  · injection h3 with h3
    subst h3
    exact Or.inl ⟨h5, hs2⟩

theorem in_measurement (hp : AugPath cost flow path) (h : Node) (j : Nat)
    (hs : Step path (.measurement j) h) :
    ∃ i, Step path (.tracker i) (.measurement j) ∧ (i, j) ∉ flow := by
  obtain ⟨t0, hs2⟩ := step_prev hp _ h hs (by simp)
  rcases step_kinds hp _ _ hs2 with ⟨i2, -, -, -, h4⟩ | ⟨i2, j2, -, -, h3, -, rfl, h4⟩
    | ⟨i2, j2, -, -, -, -, h4⟩ | ⟨j2, -, -, -, h4⟩
  · cases h4
  · injection h4 with h4
    subst h4
    exact ⟨i2, hs2, h3⟩
  · cases h4
  · cases h4

theorem first_step (hp : AugPath cost flow path) :
    ∃ i, i ∉ flow.map Prod.fst ∧ Step path .source (.tracker i) := by
  obtain ⟨b, hb, hb2⟩ := chain_first path _ _ hp.chain (by simp)
  have hs : Step path .source b.head := ⟨b, hb, hb2, rfl⟩
  rcases step_kinds hp _ _ hs with ⟨i2, -, h3, -, h4⟩ | ⟨i2, j2, -, -, -, -, h3, -⟩
    | ⟨i2, j2, -, -, -, h3, -⟩ | ⟨j2, -, -, h3, -⟩
  · rw [h4] at hs
    exact ⟨i2, h3, hs⟩
  · cases h3
  · cases h3
  · cases h3

theorem mem_rows (flow : Flow) (i : Nat) : i ∈ flow.map Prod.fst ↔ ∃ j, (i, j) ∈ flow := by
  rw [List.mem_map]
  constructor
  · rintro ⟨⟨i2, j⟩, hp, rfl⟩
    exact ⟨j, hp⟩
  · rintro ⟨j, hp⟩
    exact ⟨(i, j), hp, rfl⟩

theorem mem_cols (flow : Flow) (j : Nat) : j ∈ flow.map Prod.snd ↔ ∃ i, (i, j) ∈ flow := by
  rw [List.mem_map]
  constructor
  · rintro ⟨⟨i, j2⟩, hp, rfl⟩
    exact ⟨i, hp⟩
  · rintro ⟨i, hp⟩
    exact ⟨(i, j), hp, rfl⟩

/-- A matched tracker stays matched. -/
theorem rows_augment (hp : AugPath cost flow path) (i : Nat) (hi : i ∈ flow.map Prod.fst) :
    i ∈ (augment flow path).map Prod.fst := by
  obtain ⟨j, hj⟩ := (mem_rows flow i).mp hi
  rw [mem_rows]
  by_cases hc : Step path (.measurement j) (.tracker i)
  · obtain ⟨j2, hs, -⟩ := out_tracker hp _ i hc
    exact ⟨j2, (mem_augment flow path (i, j2)).mpr (Or.inr hs)⟩
  · exact ⟨j, (mem_augment flow path (i, j)).mpr (Or.inl ⟨hj, hc⟩)⟩

/-- One more tracker is matched. -/
theorem new_row_augment (hp : AugPath cost flow path) :
    ∃ i, i ∉ flow.map Prod.fst ∧ i ∈ (augment flow path).map Prod.fst := by
  obtain ⟨i, hi, hs⟩ := first_step hp
  obtain ⟨j, hs2, -⟩ := out_tracker hp _ i hs
  exact ⟨i, hi, (mem_rows _ i).mpr ⟨j, (mem_augment flow path (i, j)).mpr (Or.inr hs2)⟩⟩

end PathSteps

section AugmentFlow

variable {cost : List (List ℚ)} {flow : Flow} {path : List Arc}

theorem new_rows_nodup (hp : AugPath cost flow path) :
    ((path.filterMap newPair).map Prod.fst).Nodup := by
  have htails := chain_tails_nodup path _ _ hp.chain hp.nodup hp.source_not_head
  unfold List.Nodup at htails ⊢
  rw [List.pairwise_map] at htails ⊢
  rw [List.pairwise_filterMap]
  refine htails.imp ?_
  intro a b hab p hpa q hqb hpq
  have h1 := ((newPair_some a p).mp hpa).1
  have h2 := ((newPair_some b q).mp hqb).1
  rw [hpq] at h1
  exact hab (h1.trans h2.symm)

theorem new_cols_nodup (hp : AugPath cost flow path) :
    ((path.filterMap newPair).map Prod.snd).Nodup := by
  have hheads := hp.nodup
  unfold List.Nodup at hheads ⊢
  rw [List.pairwise_map] at hheads ⊢
  rw [List.pairwise_filterMap]
  refine hheads.imp ?_
  intro a b hab p hpa q hqb hpq
  have h1 := ((newPair_some a p).mp hpa).2
  have h2 := ((newPair_some b q).mp hqb).2
  rw [hpq] at h1
  exact hab (h1.trans h2.symm)

theorem mem_new (path : List Arc) (p : Nat × Nat) :
    p ∈ path.filterMap newPair ↔ Step path (.tracker p.1) (.measurement p.2) := by
  rw [List.mem_filterMap]
  unfold Step
  constructor
  · rintro ⟨a, ha, h⟩
    exact ⟨a, ha, (newPair_some a p).mp h⟩
  · rintro ⟨a, ha, h⟩
    exact ⟨a, ha, (newPair_some a p).mpr h⟩

theorem mem_kept (flow : Flow) (path : List Arc) (p : Nat × Nat) :
    p ∈ flow.filter (fun p => !cancels path p)
      ↔ p ∈ flow ∧ ¬ Step path (.measurement p.2) (.tracker p.1) := by
  rw [List.mem_filter]
  unfold cancels Step
  simp only [Bool.not_eq_true', List.any_eq_false, decide_eq_true_eq, not_exists, not_and]

/-- Pushing a unit along the path gives a one-to-one matching again. -/
theorem flowOK_augment (hflow : FlowOK cost flow) (hp : AugPath cost flow path) :
    FlowOK cost (augment flow path) := by
  obtain ⟨hrange, hrows, hcols⟩ := hflow
  refine ⟨?_, ?_, ?_⟩
  · intro p hpm
    rcases (mem_augment flow path p).mp hpm with h | h
    · exact hrange p h.1
    · rcases step_kinds hp _ _ h with ⟨i2, -, -, h3, -⟩ | ⟨i2, j2, hi, hj, -, -, h3, h4⟩
        | ⟨i2, j2, -, -, -, h3, -⟩ | ⟨j2, -, -, h3, -⟩
      · cases h3
      · injection h3 with h3
        injection h4 with h4
        rw [h3, h4]
        exact ⟨hi, hj⟩
      · cases h3
      · cases h3
  · unfold augment
    rw [List.map_append, List.nodup_append]
    refine ⟨(List.filter_sublist _).map Prod.fst |>.nodup hrows, new_rows_nodup hp, ?_⟩
    intro i hi1 hi2
    obtain ⟨⟨i1, j1⟩, hk, rfl⟩ := List.mem_map.mp hi1
    obtain ⟨⟨i2, j2⟩, hn, hi⟩ := List.mem_map.mp hi2
    simp only at hi
    subst hi
    have hk2 := (mem_kept flow path _).mp hk
    have hn2 := (mem_new path _).mp hn
    simp only at hk2 hn2
    rcases in_tracker hp _ _ hn2 with ⟨h1, -⟩ | ⟨j, h1, h2⟩
    · exact h1 ((mem_rows flow _).mpr ⟨j1, hk2.1⟩)
    · have hj : j = j1 := by
        have := List.inj_on_of_nodup_map hrows h1 hk2.1 rfl
        injection this with _ h
      rw [hj] at h2
      exact hk2.2 h2
  · unfold augment
    rw [List.map_append, List.nodup_append]
    refine ⟨(List.filter_sublist _).map Prod.snd |>.nodup hcols, new_cols_nodup hp, ?_⟩
    intro j hj1 hj2
    obtain ⟨⟨i1, j1⟩, hk, rfl⟩ := List.mem_map.mp hj1
    obtain ⟨⟨i2, j2⟩, hn, hj⟩ := List.mem_map.mp hj2
    simp only at hj
    subst hj
    have hk2 := (mem_kept flow path _).mp hk
    have hn2 := (mem_new path _).mp hn
    simp only at hk2 hn2
    rcases out_measurement hp _ _ hn2 with ⟨h1, -⟩ | ⟨i, h1, h2⟩
    · exact h1 ((mem_cols flow _).mpr ⟨i1, hk2.1⟩)
    · have hi : i = i1 := by
        have := List.inj_on_of_nodup_map hcols h1 hk2.1 rfl
        injection this with h _
      rw [hi] at h2
      exact hk2.2 h2

end AugmentFlow

section AugmentResidual

variable {cost : List (List ℚ)} {flow : Flow} {path : List Arc}

/-- A matched measurement stays matched. -/
theorem cols_augment (hp : AugPath cost flow path) (j : Nat) (hj : j ∈ flow.map Prod.snd) :
    j ∈ (augment flow path).map Prod.snd := by
  obtain ⟨i, hi⟩ := (mem_cols flow j).mp hj
  rw [mem_cols]
  by_cases hc : Step path (.measurement j) (.tracker i)
  · obtain ⟨i2, hs, -⟩ := in_measurement hp _ j hc
    exact ⟨i2, (mem_augment flow path (i2, j)).mpr (Or.inr hs)⟩
  · exact ⟨i, (mem_augment flow path (i, j)).mpr (Or.inl ⟨hi, hc⟩)⟩

/-- A residual arc after the augmentation is a residual arc from before, or the reverse of
an arc of the path. -/
theorem residual_augment (hp : AugPath cost flow path) (a2 : Arc)
    (h : a2 ∈ residualArcs cost (augment flow path)) :
    a2 ∈ residualArcs cost flow
      ∨ ∃ a ∈ residualArcs cost flow, Step path a.tail a.head
          ∧ a2 = ⟨a.head, a.tail, -a.cost⟩ := by
  rcases residual_arc_kinds cost _ a2 h with ⟨i, hi, h1, rfl⟩ | ⟨i, hi, h1, rfl⟩
    | ⟨i, j, hi, hj, h1, h2, rfl⟩ | ⟨i, j, hi, hj, h1, rfl⟩ | ⟨j, hj, h1, rfl⟩
    | ⟨j, hj, h1, rfl⟩
  · left
    have h2 : i ∉ flow.map Prod.fst := fun h3 => h1 (rows_augment hp i h3)
    exact (mem_residualArcs _ _ _).mpr (Or.inl ((mem_sourceArcs _ _ _).mpr
      ⟨i, hi, Or.inr ⟨h2, rfl⟩⟩))
  · by_cases h2 : i ∈ flow.map Prod.fst
    · left
      exact (mem_residualArcs _ _ _).mpr (Or.inl ((mem_sourceArcs _ _ _).mpr
        ⟨i, hi, Or.inl ⟨h2, rfl⟩⟩))
    · right
      obtain ⟨j, hj⟩ := (mem_rows _ i).mp h1
      rcases (mem_augment flow path (i, j)).mp hj with h3 | h3
      · exact absurd ((mem_rows _ i).mpr ⟨j, h3.1⟩) h2
      · rcases in_tracker hp _ _ h3 with ⟨-, h4⟩ | ⟨j2, h4, -⟩
        · refine ⟨⟨.source, .tracker i, 0⟩, ?_, h4, ?_⟩
          · exact (mem_residualArcs _ _ _).mpr (Or.inl ((mem_sourceArcs _ _ _).mpr
              ⟨i, hi, Or.inr ⟨h2, rfl⟩⟩))
          · simp
        · exact absurd ((mem_rows _ i).mpr ⟨j2, h4⟩) h2
  · by_cases h3 : (i, j) ∈ flow
    · right
      have h4 : Step path (.measurement j) (.tracker i) := by
        by_contra h5
        exact h1 ((mem_augment flow path (i, j)).mpr (Or.inl ⟨h3, h5⟩))
      refine ⟨⟨.measurement j, .tracker i, score cost i j⟩, ?_, h4, rfl⟩
      exact (mem_residualArcs _ _ _).mpr (Or.inr (Or.inl ((mem_pairArcs _ _ _).mpr
        ⟨i, j, hi, hj, Or.inl ⟨h3, rfl⟩⟩)))
    · left
      exact (mem_residualArcs _ _ _).mpr (Or.inr (Or.inl ((mem_pairArcs _ _ _).mpr
        ⟨i, j, hi, hj, Or.inr ⟨h3, h2, rfl⟩⟩)))
  · rcases (mem_augment flow path (i, j)).mp h1 with h3 | h3
    · left
      exact (mem_residualArcs _ _ _).mpr (Or.inr (Or.inl ((mem_pairArcs _ _ _).mpr
        ⟨i, j, hi, hj, Or.inl ⟨h3.1, rfl⟩⟩)))
    · right
      rcases step_kinds hp _ _ h3 with ⟨i2, -, -, h4, -⟩ | ⟨i2, j2, -, -, h5, h6, h4, h7⟩
        | ⟨i2, j2, -, -, -, h4, -⟩ | ⟨j2, -, -, h4, -⟩
      · cases h4
      · injection h4 with h4
        injection h7 with h7
        subst h4
        subst h7
        refine ⟨⟨.tracker i, .measurement j, -score cost i j⟩, ?_, h3, ?_⟩
        · exact (mem_residualArcs _ _ _).mpr (Or.inr (Or.inl ((mem_pairArcs _ _ _).mpr
            ⟨i, j, hi, hj, Or.inr ⟨h5, h6, rfl⟩⟩)))
        · simp
      · cases h4
      · cases h4
  · left
    have h2 : j ∉ flow.map Prod.snd := fun h3 => h1 (cols_augment hp j h3)
    exact (mem_residualArcs _ _ _).mpr (Or.inr (Or.inr ((mem_sinkArcs _ _ _).mpr
      ⟨j, hj, Or.inr ⟨h2, rfl⟩⟩)))
  · by_cases h2 : j ∈ flow.map Prod.snd
    · left
      exact (mem_residualArcs _ _ _).mpr (Or.inr (Or.inr ((mem_sinkArcs _ _ _).mpr
        ⟨j, hj, Or.inl ⟨h2, rfl⟩⟩)))
    · right
      obtain ⟨i, hi⟩ := (mem_cols _ j).mp h1
      rcases (mem_augment flow path (i, j)).mp hi with h3 | h3
      · exact absurd ((mem_cols _ j).mpr ⟨i, h3.1⟩) h2
      · rcases out_measurement hp _ _ h3 with ⟨-, h4⟩ | ⟨i2, h4, -⟩
        · refine ⟨⟨.measurement j, .sink, 0⟩, ?_, h4, ?_⟩
          · exact (mem_residualArcs _ _ _).mpr (Or.inr (Or.inr ((mem_sinkArcs _ _ _).mpr
              ⟨j, hj, Or.inr ⟨h2, rfl⟩⟩)))
          · simp
        · exact absurd ((mem_cols _ j).mpr ⟨i2, h4⟩) h2

theorem nodes_nodup (cost : List (List ℚ)) : (nodes cost).Nodup := by
  unfold nodes
  rw [List.nodup_cons]
  refine ⟨by simp, ?_⟩
  rw [List.nodup_append]
  refine ⟨?_, ?_, ?_⟩
  · refine List.Nodup.map ?_ (List.nodup_range _)
    intro a b h
    injection h
  · rw [List.nodup_append]
    refine ⟨?_, List.nodup_singleton _, ?_⟩
    · refine List.Nodup.map ?_ (List.nodup_range _)
      intro a b h
      injection h
    · intro x hx1 hx2
      rw [List.mem_singleton] at hx2
      subst hx2
      simp at hx1
  · intro x hx1 hx2
    obtain ⟨i, -, rfl⟩ := List.mem_map.mp hx1
    simp at hx2

end AugmentResidual

section Loop

variable {cost : List (List ℚ)} {flow : Flow} {potential : Dist}

theorem search_done (hfeas : Feasible potential (residualArcs cost flow)) :
    DijkstraDone (reducedArcs potential (residualArcs cost flow))
      (dijkstra (nodes cost) (reducedArcs potential (residualArcs cost flow)) .source)
      .source := by
  refine dijkstra_done _ _ _ ?_ (nodes_nodup cost) ((mem_nodes _ _).mpr (Or.inl rfl)) ?_
  · intro b hb
    obtain ⟨a, ha, rfl⟩ := (mem_reducedArcs _ _ _).mp hb
    exact hfeas a ha
  · intro b hb
    obtain ⟨a, ha, rfl⟩ := (mem_reducedArcs _ _ _).mp hb
    exact (residual_arc_nodes cost flow a ha).2

theorem search_path (hfeas : Feasible potential (residualArcs cost flow)) (d : ℚ)
    (hd : lookup (dijkstra (nodes cost) (reducedArcs potential (residualArcs cost flow))
      .source).dist .sink = some d) :
    AugPath cost flow (pathAt (dijkstra (nodes cost)
      (reducedArcs potential (residualArcs cost flow)) .source) .sink) := by
  have hdone := search_done hfeas
  refine ⟨hdone.chain _ d hd, ?_, hdone.nodup _ d hd, hdone.start_not_head _ d hd,
    hdone.end_not_tail _ d hd⟩
  intro b hb
  obtain ⟨a, ha, rfl⟩ := (mem_reducedArcs _ _ _).mp (hdone.mem _ d hd b hb)
  exact ⟨a, ha, rfl, rfl⟩

theorem cappedDist_of_le (dist : Dist) (cap : ℚ) (v : Node) (x : ℚ)
    (h : lookup dist v = some x) (hle : x ≤ cap) : cappedDist dist cap v = x := by
  unfold cappedDist
  rw [h]
  exact min_eq_left hle

/-- The potentials updated by the capped distances are feasible for the residual network
after the augmentation. -/
theorem feasible_augment (hfeas : Feasible potential (residualArcs cost flow)) (d : ℚ)
    (hd : lookup (dijkstra (nodes cost) (reducedArcs potential (residualArcs cost flow))
      .source).dist .sink = some d) :
    Feasible (updatePotential (nodes cost) potential (dijkstra (nodes cost)
        (reducedArcs potential (residualArcs cost flow)) .source).dist d)
      (residualArcs cost (augment flow (pathAt (dijkstra (nodes cost)
        (reducedArcs potential (residualArcs cost flow)) .source) .sink))) := by
  have hdone := search_done hfeas
  have hp := search_path hfeas d hd
  generalize dijkstra (nodes cost) (reducedArcs potential (residualArcs cost flow)) .source
    = lab at hdone hp hd
  intro a2 ha2
  have hn := residual_arc_nodes _ _ a2 ha2
  rw [potentialAt_update _ _ _ _ _ hn.1, potentialAt_update _ _ _ _ _ hn.2]
  rcases residual_augment hp a2 ha2 with h | ⟨a, ha, hs, rfl⟩
  · exact capped_reduced_cost_nonneg potential lab.dist _ d hfeas hdone.relaxed a2 h
  · obtain ⟨b, hb, hbt, hbh⟩ := hs
    have hbR := hdone.mem _ d hd b hb
    obtain ⟨a0, ha0, hb0⟩ := (mem_reducedArcs _ _ _).mp hbR
    have hcost : a0.cost = a.cost := by
      rw [residual_cost cost flow a0 ha0, residual_cost cost flow a ha, ← hbt, ← hbh, hb0]
    have hbc : b.cost = a.cost + potentialAt potential a.tail - potentialAt potential a.head := by
      rw [← hbt, ← hbh, ← hcost, hb0]
    obtain ⟨dt, ht1, ht2⟩ := hdone.tight _ d hd b hb
    have hnonneg : ∀ c ∈ pathAt lab .sink, 0 ≤ c.cost := by
      intro c hc
      obtain ⟨a1, ha1, rfl⟩ := (mem_reducedArcs _ _ _).mp (hdone.mem _ d hd c hc)
      exact hfeas a1 ha1
    have hle := (chain_labels_le lab.dist .sink d hd (pathAt lab .sink) .source
      (hdone.chain _ d hd) (hdone.tight _ d hd) hnonneg).2 b hb _ ht2
    have hb0 := hnonneg b hb
    rw [hbt] at ht1
    rw [hbh] at ht2
    show 0 ≤ -a.cost + (potentialAt potential a.head + cappedDist lab.dist d a.head)
      - (potentialAt potential a.tail + cappedDist lab.dist d a.tail)
    rw [cappedDist_of_le _ _ _ _ ht2 hle, cappedDist_of_le _ _ _ _ ht1 (by linarith), hbc]
    linarith

theorem flow_length_le (hflow : FlowOK cost flow) : flow.length ≤ numTrackers cost := by
  obtain ⟨hrange, hrows, -⟩ := hflow
  have h1 : (flow.map Prod.fst).toFinset ⊆ Finset.range (numTrackers cost) := by
    intro i hi
    rw [List.mem_toFinset] at hi
    obtain ⟨p, hp, rfl⟩ := List.mem_map.mp hi
    exact Finset.mem_range.mpr (hrange p hp).1
  have h2 := Finset.card_le_card h1
  rw [List.toFinset_card_of_nodup hrows, List.length_map, Finset.card_range] at h2
  exact h2

theorem length_augment (hflow : FlowOK cost flow) {path : List Arc}
    (hp : AugPath cost flow path) : flow.length < (augment flow path).length := by
  have hflow2 := flowOK_augment hflow hp
  have h1 : (flow.map Prod.fst).toFinset ⊂ ((augment flow path).map Prod.fst).toFinset := by
    rw [Finset.ssubset_iff_of_subset]
    · obtain ⟨i, hi1, hi2⟩ := new_row_augment hp
      exact ⟨i, List.mem_toFinset.mpr hi2, fun h => hi1 (List.mem_toFinset.mp h)⟩
    · intro i hi
      rw [List.mem_toFinset] at hi ⊢
      exact rows_augment hp i hi
  have h2 := Finset.card_lt_card h1
  rw [List.toFinset_card_of_nodup hflow.2.1, List.toFinset_card_of_nodup hflow2.2.1,
    List.length_map, List.length_map] at h2
  exact h2

/-- When the search finds no path of negative cost, no matching has a larger total. -/
theorem optimal_of_stop (hflow : FlowOK cost flow)
    (hfeas : Feasible potential (residualArcs cost flow))
    (hle : potentialAt potential .sink ≤ potentialAt potential .source)
    (hstop : ∀ d, lookup (dijkstra (nodes cost)
        (reducedArcs potential (residualArcs cost flow)) .source).dist .sink = some d →
      ¬ d + potentialAt potential .sink - potentialAt potential .source < 0)
    (other : Flow) (hother : FlowOK cost other) : weight cost other ≤ weight cost flow := by
  have hdone := search_done hfeas
  generalize dijkstra (nodes cost) (reducedArcs potential (residualArcs cost flow)) .source
    = lab at hdone hstop
  refine weight_le_of_feasible cost flow other
    (fun v => potentialAt potential v + cappedDist lab.dist
      (potentialAt potential .source - potentialAt potential .sink) v) hflow hother ?_ ?_
  · intro a ha
    exact capped_reduced_cost_nonneg potential lab.dist _ _ hfeas hdone.relaxed a ha
  · show potentialAt potential .source + cappedDist lab.dist _ .source
      = potentialAt potential .sink + cappedDist lab.dist _ .sink
    rw [cappedDist_of_le _ _ _ _ hdone.start_label (by linarith)]
    cases hs : lookup lab.dist .sink with
    | none =>
      unfold cappedDist
      rw [hs]
      ring
    | some d =>
      have h1 := not_lt.mp (hstop d hs)
      unfold cappedDist
      rw [hs]
      simp only
      rw [min_eq_right (by linarith)]
      ring

theorem sspLoop_optimal (cost : List (List ℚ)) (fuel : Nat) :
    ∀ st : State, LoopInv cost st → numTrackers cost < st.flow.length + fuel →
      FlowOK cost (sspLoop cost fuel st)
        ∧ ∀ other, FlowOK cost other → weight cost other ≤ weight cost (sspLoop cost fuel st) := by
  induction fuel with
  | zero =>
    intro st hinv hlen
    have := flow_length_le hinv.flow
    omega
  | succ fuel ih =>
    intro st hinv hlen
    unfold sspLoop
    simp only
    cases hs : lookup (dijkstra (nodes cost)
        (reducedArcs st.potential (residualArcs cost st.flow)) .source).dist .sink with
    | none =>
      refine ⟨hinv.flow, optimal_of_stop hinv.flow hinv.feasible hinv.sink_le ?_⟩
      intro d hd
      rw [hs] at hd
      cases hd
    | some d =>
      simp only
      by_cases hneg : d + potentialAt st.potential .sink - potentialAt st.potential .source < 0
      · rw [if_pos hneg]
        have hp := search_path hinv.feasible d hs
        have hdone := search_done hinv.feasible
        have hd0 := hdone.nonneg _ d hs
        refine ih _ ⟨flowOK_augment hinv.flow hp, feasible_augment hinv.feasible d hs, ?_⟩ ?_
        · show potentialAt (updatePotential _ _ _ _) .sink
            ≤ potentialAt (updatePotential _ _ _ _) .source
          rw [potentialAt_update _ _ _ _ _ ((mem_nodes _ _).mpr (Or.inr (Or.inr (Or.inr rfl)))),
            potentialAt_update _ _ _ _ _ ((mem_nodes _ _).mpr (Or.inl rfl)),
            cappedDist_of_le _ _ _ _ hs le_rfl,
            cappedDist_of_le _ _ _ _ hdone.start_label hd0]
          linarith
        · have := length_augment hinv.flow hp
          show numTrackers cost < (augment st.flow _).length + fuel
          omega
      · rw [if_neg hneg]
        refine ⟨hinv.flow, optimal_of_stop hinv.flow hinv.feasible hinv.sink_le ?_⟩
        intro d2 hd2
        rw [hs] at hd2
        injection hd2 with hd2
        rw [← hd2]
        exact hneg

end Loop

section BellmanFord

theorem bfRelax_other (dist : Dist) (a : Arc) (v : Node) (hv : v ≠ a.head) :
    lookup (bfRelax dist a) v = lookup dist v := by
  unfold bfRelax
  cases lookup dist a.tail with
  | none => rfl
  | some dt =>
    simp only
    cases lookup dist a.head with
    | none =>
      simp only
      rw [lookup_cons, if_neg hv]
    | some dh =>
      simp only
      by_cases h : dt + a.cost < dh
      · rw [if_pos h, lookup_cons, if_neg hv]
      · rw [if_neg h]

theorem bfRelax_mono (dist : Dist) (a : Arc) (v : Node) (d : ℚ)
    (hv : lookup dist v = some d) :
    ∃ d2, lookup (bfRelax dist a) v = some d2 ∧ d2 ≤ d := by
  by_cases hva : v = a.head
  · subst hva
    unfold bfRelax
    cases lookup dist a.tail with
    | none => exact ⟨d, hv, le_rfl⟩
    | some dt =>
      simp only
      rw [hv]
      simp only
      by_cases h : dt + a.cost < d
      · rw [if_pos h, lookup_cons, if_pos rfl]
        exact ⟨_, rfl, h.le⟩
      · rw [if_neg h]
        exact ⟨d, hv, le_rfl⟩
  · rw [bfRelax_other dist a v hva]
    exact ⟨d, hv, le_rfl⟩

theorem bfRelax_relaxed (dist : Dist) (a : Arc) (hne : a.head ≠ a.tail) (dt : ℚ)
    (ht : lookup (bfRelax dist a) a.tail = some dt) :
    ∃ dh, lookup (bfRelax dist a) a.head = some dh ∧ dh ≤ dt + a.cost := by
  rw [bfRelax_other dist a a.tail (Ne.symm hne)] at ht
  unfold bfRelax
  rw [ht]
  simp only
  cases hh : lookup dist a.head with
  | none =>
    simp only
    rw [lookup_cons, if_pos rfl]
    exact ⟨_, rfl, le_rfl⟩
  | some dh =>
    simp only
    by_cases h : dt + a.cost < dh
    · rw [if_pos h, lookup_cons, if_pos rfl]
      exact ⟨_, rfl, le_rfl⟩
    · rw [if_neg h]
      exact ⟨dh, hh, not_lt.mp h⟩

theorem bfRelax_nonpos (dist : Dist) (a : Arc) (hc : a.cost ≤ 0)
    (h : ∀ v d, lookup dist v = some d → d ≤ 0) :
    ∀ v d, lookup (bfRelax dist a) v = some d → d ≤ 0 := by
  intro v d hv
  by_cases hva : v = a.head
  · subst hva
    unfold bfRelax at hv
    cases ht : lookup dist a.tail with
    | none =>
      rw [ht] at hv
      exact h _ d hv
    | some dt =>
      rw [ht] at hv
      simp only at hv
      have hdt := h _ dt ht
      cases hh : lookup dist a.head with
      | none =>
        rw [hh] at hv
        simp only at hv
        rw [lookup_cons, if_pos rfl] at hv
        injection hv with hv
        linarith
      | some dh =>
        rw [hh] at hv
        simp only at hv
        by_cases hlt : dt + a.cost < dh
        · rw [if_pos hlt, lookup_cons, if_pos rfl] at hv
          injection hv with hv
          linarith
        · rw [if_neg hlt] at hv
          exact h _ d hv
  · rw [bfRelax_other dist a v hva] at hv
    exact h v d hv

theorem bfRound_other (arcs : List Arc) (v : Node) (hv : ∀ a ∈ arcs, a.head ≠ v) :
    ∀ dist : Dist, lookup (bfRound arcs dist) v = lookup dist v := by
  unfold bfRound
  induction arcs with
  | nil =>
    intro dist
    rfl
  | cons a rest ih =>
    intro dist
    rw [List.foldl_cons, ih (fun b hb => hv b (List.mem_cons_of_mem _ hb)),
      bfRelax_other dist a v (Ne.symm (hv a (List.mem_cons_self _ _)))]

theorem bfRound_mono (arcs : List Arc) (v : Node) :
    ∀ (dist : Dist) (d : ℚ), lookup dist v = some d →
      ∃ d2, lookup (bfRound arcs dist) v = some d2 ∧ d2 ≤ d := by
  unfold bfRound
  induction arcs with
  | nil =>
    intro dist d hd
    exact ⟨d, hd, le_rfl⟩
  | cons a rest ih =>
    intro dist d hd
    obtain ⟨d1, h1, h2⟩ := bfRelax_mono dist a v d hd
    obtain ⟨d2, h3, h4⟩ := ih _ d1 h1
    exact ⟨d2, h3, h4.trans h2⟩

theorem bfRound_nonpos (arcs : List Arc) (hc : ∀ a ∈ arcs, a.cost ≤ 0) :
    ∀ dist : Dist, (∀ v d, lookup dist v = some d → d ≤ 0) →
      ∀ v d, lookup (bfRound arcs dist) v = some d → d ≤ 0 := by
  unfold bfRound
  induction arcs with
  | nil =>
    intro dist h
    exact h
  | cons a rest ih =>
    intro dist h
    exact ih (fun b hb => hc b (List.mem_cons_of_mem _ hb)) _
      (bfRelax_nonpos dist a (hc a (List.mem_cons_self _ _)) h)

/-- One round over arcs in topological order relaxes every arc. -/
theorem bfRound_relaxed (arcs : List Arc) (hloop : ∀ a ∈ arcs, a.head ≠ a.tail)
    (horder : arcs.Pairwise fun a b => b.head ≠ a.tail) :
    ∀ dist : Dist, Relaxed arcs (bfRound arcs dist) := by
  induction arcs with
  | nil =>
    intro dist a ha
    cases ha
  | cons a rest ih =>
    intro dist b hb dt hdt
    rw [List.pairwise_cons] at horder
    have hfold : bfRound (a :: rest) dist = bfRound rest (bfRelax dist a) := rfl
    rw [hfold] at hdt ⊢
    rcases List.mem_cons.mp hb with rfl | hb2
    · rw [bfRound_other rest b.tail (fun c hc => horder.1 c hc)] at hdt
      obtain ⟨dh, h1, h2⟩ := bfRelax_relaxed dist b (hloop b (List.mem_cons_self _ _)) dt hdt
      obtain ⟨d2, h3, h4⟩ := bfRound_mono rest b.head _ dh h1
      exact ⟨d2, h3, h4.trans h2⟩
    · exact ih (fun c hc => hloop c (List.mem_cons_of_mem _ hc)) horder.2 _ b hb2 dt hdt

theorem bfRound_fixed (arcs : List Arc) (dist : Dist) (h : Relaxed arcs dist) :
    bfRound arcs dist = dist := by
  unfold bfRound
  induction arcs with
  | nil => rfl
  | cons a rest ih =>
    have ha : bfRelax dist a = dist := by
      unfold bfRelax
      cases ht : lookup dist a.tail with
      | none => rfl
      | some dt =>
        obtain ⟨dh, h1, h2⟩ := h a (List.mem_cons_self _ _) dt ht
        simp only
        rw [h1]
        simp only
        rw [if_neg (not_lt.mpr h2)]
    rw [List.foldl_cons, ha]
    exact ih (fun b hb => h b (List.mem_cons_of_mem _ hb))

theorem bellmanFord_eq_round (nodes : List Node) (arcs : List Arc) (start : Node)
    (hlen : 2 ≤ nodes.length) (hloop : ∀ a ∈ arcs, a.head ≠ a.tail)
    (horder : arcs.Pairwise fun a b => b.head ≠ a.tail) :
    bellmanFord nodes arcs start = bfRound arcs [(start, 0)] := by
  unfold bellmanFord
  obtain ⟨k, hk⟩ : ∃ k, nodes.length - 1 = k + 1 := ⟨nodes.length - 2, by omega⟩
  rw [hk, Function.iterate_succ_apply]
  exact Function.iterate_fixed
    (bfRound_fixed arcs _ (bfRound_relaxed arcs hloop horder _)) k

end BellmanFord

section Initial

variable (cost : List (List ℚ))

theorem sourceArcs_nil (a : Arc) (h : a ∈ sourceArcs cost []) :
    ∃ i, i < numTrackers cost ∧ a = ⟨.source, .tracker i, 0⟩ := by
  obtain ⟨i, hi, ⟨h1, -⟩ | ⟨-, h2⟩⟩ := (mem_sourceArcs cost [] a).mp h
  · cases h1
  · exact ⟨i, hi, h2⟩

theorem pairArcs_nil (a : Arc) (h : a ∈ pairArcs cost []) :
    ∃ i j, i < numTrackers cost ∧ j < numMeasurements cost ∧ score cost i j ≠ 0
      ∧ a = ⟨.tracker i, .measurement j, -score cost i j⟩ := by
  obtain ⟨i, j, hi, hj, ⟨h1, -⟩ | ⟨-, h2, h3⟩⟩ := (mem_pairArcs cost [] a).mp h
  · cases h1
  · exact ⟨i, j, hi, hj, h2, h3⟩

theorem sinkArcs_nil (a : Arc) (h : a ∈ sinkArcs cost []) :
    ∃ j, j < numMeasurements cost ∧ a = ⟨.measurement j, .sink, 0⟩ := by
  obtain ⟨j, hj, ⟨h1, -⟩ | ⟨-, h2⟩⟩ := (mem_sinkArcs cost [] a).mp h
  · cases h1
  · exact ⟨j, hj, h2⟩

theorem initial_order :
    (residualArcs cost []).Pairwise fun a b => b.head ≠ a.tail := by
  unfold residualArcs
  rw [List.pairwise_append, List.pairwise_append]
  refine ⟨?_, ⟨?_, ?_, ?_⟩, ?_⟩
  · refine List.pairwise_of_forall_mem_list ?_
    intro a ha b hb
    obtain ⟨i, -, rfl⟩ := sourceArcs_nil cost a ha
    obtain ⟨i2, -, rfl⟩ := sourceArcs_nil cost b hb
    simp
  · refine List.pairwise_of_forall_mem_list ?_
    intro a ha b hb
    obtain ⟨i, j, -, -, -, rfl⟩ := pairArcs_nil cost a ha
    obtain ⟨i2, j2, -, -, -, rfl⟩ := pairArcs_nil cost b hb
    simp
  · refine List.pairwise_of_forall_mem_list ?_
    intro a ha b hb
    obtain ⟨j, -, rfl⟩ := sinkArcs_nil cost a ha
    obtain ⟨j2, -, rfl⟩ := sinkArcs_nil cost b hb
    simp
  · intro a ha b hb
    obtain ⟨i, j, -, -, -, rfl⟩ := pairArcs_nil cost a ha
    obtain ⟨j2, -, rfl⟩ := sinkArcs_nil cost b hb
    simp
  · intro a ha b hb
    obtain ⟨i, -, rfl⟩ := sourceArcs_nil cost a ha
    rcases List.mem_append.mp hb with hb | hb
    · obtain ⟨i2, j2, -, -, -, rfl⟩ := pairArcs_nil cost b hb
      simp
    · obtain ⟨j2, -, rfl⟩ := sinkArcs_nil cost b hb
      simp

theorem initial_kinds (a : Arc) (h : a ∈ residualArcs cost []) :
    (∃ i, i < numTrackers cost ∧ a = ⟨.source, .tracker i, 0⟩)
    ∨ (∃ i j, i < numTrackers cost ∧ j < numMeasurements cost ∧ score cost i j ≠ 0
        ∧ a = ⟨.tracker i, .measurement j, -score cost i j⟩)
    ∨ (∃ j, j < numMeasurements cost ∧ a = ⟨.measurement j, .sink, 0⟩) := by
  rcases (mem_residualArcs cost [] a).mp h with h | h | h
  · exact Or.inl (sourceArcs_nil cost a h)
  · exact Or.inr (Or.inl (pairArcs_nil cost a h))
  · exact Or.inr (Or.inr (sinkArcs_nil cost a h))

theorem initialPotential_eq :
    initialPotential cost = bfRound (residualArcs cost []) [(.source, 0)] := by
  unfold initialPotential
  refine bellmanFord_eq_round _ _ _ ?_ ?_ (initial_order cost)
  · unfold nodes
    simp only [List.length_cons, List.length_append, List.length_map, List.length_range,
      List.length_singleton]
    omega
  · intro a ha
    rcases initial_kinds cost a ha with ⟨i, -, rfl⟩ | ⟨i, j, -, -, -, rfl⟩ | ⟨j, -, rfl⟩
    all_goals simp

theorem potentialAt_nonpos (dist : Dist) (h : ∀ v d, lookup dist v = some d → d ≤ 0)
    (v : Node) : potentialAt dist v ≤ 0 := by
  unfold potentialAt
  cases hv : lookup dist v with
  | none => exact le_rfl
  | some d => exact h v d hv

theorem potentialAt_some (dist : Dist) (v : Node) (d : ℚ) (h : lookup dist v = some d) :
    potentialAt dist v = d := by
  unfold potentialAt
  rw [h]
  rfl

/-- The loop starts in a state that satisfies its invariant. -/
theorem initial_inv (hnn : ∀ i j, 0 ≤ score cost i j) :
    LoopInv cost ⟨[], initialPotential cost⟩ := by
  have hloop : ∀ a ∈ residualArcs cost [], a.head ≠ a.tail := by
    intro a ha
    rcases initial_kinds cost a ha with ⟨i, -, rfl⟩ | ⟨i, j, -, -, -, rfl⟩ | ⟨j, -, rfl⟩
    all_goals simp
  have hrel : Relaxed (residualArcs cost []) (initialPotential cost) := by
    rw [initialPotential_eq]
    exact bfRound_relaxed _ hloop (initial_order cost) _
  have hsource : lookup (initialPotential cost) .source = some 0 := by
    rw [initialPotential_eq, bfRound_other]
    · rw [lookup_cons, if_pos rfl]
    · intro a ha
      rcases initial_kinds cost a ha with ⟨i, -, rfl⟩ | ⟨i, j, -, -, -, rfl⟩ | ⟨j, -, rfl⟩
      all_goals simp
  have hnonpos : ∀ v d, lookup (initialPotential cost) v = some d → d ≤ 0 := by
    rw [initialPotential_eq]
    refine bfRound_nonpos _ ?_ _ ?_
    · intro a ha
      rcases initial_kinds cost a ha with ⟨i, -, rfl⟩ | ⟨i, j, -, -, -, rfl⟩ | ⟨j, -, rfl⟩
      · exact le_rfl
      · exact neg_nonpos.mpr (hnn i j)
      · exact le_rfl
    · intro v d hv
      rw [lookup_cons] at hv
      by_cases h : v = .source
      · rw [if_pos h] at hv
        injection hv with hv
        exact hv.ge
      · rw [if_neg h] at hv
        cases hv
  refine ⟨⟨?_, List.nodup_nil, List.nodup_nil⟩, ?_, ?_⟩
  · intro p hp
    cases hp
  · intro a ha
    show 0 ≤ a.cost + potentialAt (initialPotential cost) a.tail
      - potentialAt (initialPotential cost) a.head
    cases ht : lookup (initialPotential cost) a.tail with
    | some dt =>
      obtain ⟨dh, h1, h2⟩ := hrel a ha dt ht
      rw [potentialAt_some _ _ _ ht, potentialAt_some _ _ _ h1]
      linarith
    | none =>
      have hhead := potentialAt_nonpos _ hnonpos a.head
      rcases initial_kinds cost a ha with ⟨i, -, rfl⟩ | ⟨i, j, hi, -, -, rfl⟩ | ⟨j, -, rfl⟩
      · rw [hsource] at ht
        cases ht
      · have hsrc : (⟨.source, .tracker i, 0⟩ : Arc) ∈ residualArcs cost [] :=
          (mem_residualArcs _ _ _).mpr (Or.inl ((mem_sourceArcs _ _ _).mpr
            ⟨i, hi, Or.inr ⟨by simp, rfl⟩⟩))
        obtain ⟨dh, h1, -⟩ := hrel _ hsrc 0 hsource
        simp only at ht h1
        rw [h1] at ht
        cases ht
      · simp only at ht hhead ⊢
        have h0 : potentialAt (initialPotential cost) (.measurement j) = 0 := by
          unfold potentialAt
          rw [ht]
          rfl
        rw [h0]
        linarith
  · show potentialAt (initialPotential cost) .sink ≤ potentialAt (initialPotential cost) .source
    rw [potentialAt_some _ _ _ hsource]
    exact potentialAt_nonpos _ hnonpos _

/-- The flow that the algorithm ends with is a one-to-one matching of the largest total
score. -/
theorem solve_optimal (hnn : ∀ i j, 0 ≤ score cost i j) :
    FlowOK cost (solve cost)
      ∧ ∀ other, FlowOK cost other → weight cost other ≤ weight cost (solve cost) := by
  unfold solve
  refine sspLoop_optimal cost _ _ (initial_inv cost hnn) ?_
  show numTrackers cost < 0 + (numTrackers cost + 1)
  omega

end Initial

section Contract

variable (cost : List (List ℚ))

theorem isMatching_of_flowOK (flow : Flow) (h : FlowOK cost flow) :
    IsMatching cost (flow.map fun p => ((p.1 : ℤ), (p.2 : ℤ))) := by
  obtain ⟨hrange, hrows, hcols⟩ := h
  refine ⟨?_, ?_, ?_⟩
  · intro p hp
    obtain ⟨q, hq, rfl⟩ := List.mem_map.mp hp
    have := hrange q hq
    unfold numTrackers numMeasurements at this
    simp only
    omega
  · rw [List.map_map]
    have : (Prod.fst ∘ fun p : Nat × Nat => ((p.1 : ℤ), (p.2 : ℤ)))
        = (fun n : Nat => (n : ℤ)) ∘ Prod.fst := rfl
    rw [this, ← List.map_map]
    exact hrows.map Nat.cast_injective
  · rw [List.map_map]
    have : (Prod.snd ∘ fun p : Nat × Nat => ((p.1 : ℤ), (p.2 : ℤ)))
        = (fun n : Nat => (n : ℤ)) ∘ Prod.snd := rfl
    rw [this, ← List.map_map]
    exact hcols.map Nat.cast_injective

theorem totalScore_of_flow (flow : Flow) :
    totalScore cost (flow.map fun p => ((p.1 : ℤ), (p.2 : ℤ))) = weight cost flow := by
  unfold totalScore weight score
  rw [List.map_map]
  rfl

theorem flowOK_of_isMatching (other : UnorderedMap) (h : IsMatching cost other) :
    FlowOK cost (other.map fun p => (p.1.toNat, p.2.toNat)) := by
  obtain ⟨hrange, hrows, hcols⟩ := h
  refine ⟨?_, ?_, ?_⟩
  · intro p hp
    obtain ⟨q, hq, rfl⟩ := List.mem_map.mp hp
    have := hrange q hq
    unfold numTrackers numMeasurements
    simp only
    omega
  · rw [List.map_map]
    have : (Prod.fst ∘ fun p : ℤ × ℤ => (p.1.toNat, p.2.toNat)) = Int.toNat ∘ Prod.fst := rfl
    rw [this, ← List.map_map]
    refine List.Nodup.map_on ?_ hrows
    intro x hx y hy hxy
    obtain ⟨p, hp, rfl⟩ := List.mem_map.mp hx
    obtain ⟨q, hq, rfl⟩ := List.mem_map.mp hy
    have h1 := hrange p hp
    have h2 := hrange q hq
    omega
  · rw [List.map_map]
    have : (Prod.snd ∘ fun p : ℤ × ℤ => (p.1.toNat, p.2.toNat)) = Int.toNat ∘ Prod.snd := rfl
    rw [this, ← List.map_map]
    refine List.Nodup.map_on ?_ hcols
    intro x hx y hy hxy
    obtain ⟨p, hp, rfl⟩ := List.mem_map.mp hx
    obtain ⟨q, hq, rfl⟩ := List.mem_map.mp hy
    have h1 := hrange p hp
    have h2 := hrange q hq
    omega

theorem weight_of_map (other : UnorderedMap) :
    weight cost (other.map fun p => (p.1.toNat, p.2.toNat)) = totalScore cost other := by
  unfold totalScore weight score
  rw [List.map_map]
  rfl

/-- On a table without negative entry the solver meets its contract. -/
theorem maximizeLinearAssignment_contract (hnn : ∀ i j, 0 ≤ score cost i j)
    (d0 r0 : UnorderedMap) :
    IsMaxAssignment cost (maximizeLinearAssignment cost d0 r0).1
      (maximizeLinearAssignment cost d0 r0).2 := by
  obtain ⟨hflow, hopt⟩ := solve_optimal cost hnn
  refine ⟨isMatching_of_flowOK cost _ hflow, ?_, ?_⟩
  · intro i j
    unfold maximizeLinearAssignment
    simp only [List.mem_map, Prod.mk.injEq]
    constructor
    · rintro ⟨p, hp, h1, h2⟩
      exact ⟨p, hp, h2, h1⟩
    · rintro ⟨p, hp, h1, h2⟩
      exact ⟨p, hp, h2, h1⟩
  · intro other hother
    show totalScore cost other ≤ totalScore cost ((solve cost).map _)
    rw [totalScore_of_flow, ← weight_of_map]
    exact hopt _ (flowOK_of_isMatching cost other hother)

theorem score_scoreTable_nonneg (src : MatrixXd)
    (hnn : ∀ row col, row < src.rows → col < src.cols → 0 ≤ src.coeffs row col)
    (i j : Nat) : 0 ≤ score (scoreTable src) i j := by
  unfold score scoreTable
  by_cases hi : i < src.rows
  · by_cases hj : j < src.cols
    · simp [List.getD, hi, hj, hnn i j hi hj]
    · have h1 : (List.range src.cols)[j]? = none :=
        List.getElem?_eq_none (by rw [List.length_range]; omega)
      simp [List.getD, hi, h1]
  · have h1 : (List.range src.rows)[i]? = none :=
      List.getElem?_eq_none (by rw [List.length_range]; omega)
    simp [List.getD, h1]

end Contract

end MuSSP

/-! ### Claim on the solver -/

/-- C4: for every score matrix without negative entry, the two maps that the solver `MuSSP`
leaves when `assign` hands it the table of the matrix form a one-to-one partial matching of
rows to columns (with its inverse map) whose total score is the maximum over all one-to-one
partial matchings of rows to columns. -/
theorem mussp_maximizes_total_score (da : DataAssociation) (src : MatrixXd)
    (d0 r0 : UnorderedMap) (hsolver : da.gnn_solver_ptr_ = muSSP)
    (hnn : ∀ row col, row < src.rows → col < src.cols → 0 ≤ src.coeffs row col) :
    IsMaxAssignment (scoreTable src)
      (da.gnn_solver_ptr_.maximizeLinearAssignment (scoreTable src) d0 r0).1
      (da.gnn_solver_ptr_.maximizeLinearAssignment (scoreTable src) d0 r0).2 := by
  rw [hsolver]
  exact MuSSP.maximizeLinearAssignment_contract (scoreTable src)
    (MuSSP.score_scoreTable_nonneg src hnn) d0 r0

/-- C4, worked instance: on `[[5, 4], [4, 0]]` the solver returns `{0 -> 1, 1 -> 0}` of total
score 8, and not the choice `{0 -> 0}` of the row maxima, whose total score is 5. -/
theorem mussp_maximizes_total_score_witness :
    IsMaxAssignment (scoreTable (matrixOfRows [[5, 4], [4, 0]] 2))
        ((DataAssociation.create muSSP [] [] [] [] [] []).gnn_solver_ptr_.maximizeLinearAssignment
          (scoreTable (matrixOfRows [[5, 4], [4, 0]] 2)) [] []).1
        ((DataAssociation.create muSSP [] [] [] [] [] []).gnn_solver_ptr_.maximizeLinearAssignment
          (scoreTable (matrixOfRows [[5, 4], [4, 0]] 2)) [] []).2
      ∧ (DataAssociation.create muSSP [] [] [] [] [] []).gnn_solver_ptr_.maximizeLinearAssignment
          (scoreTable (matrixOfRows [[5, 4], [4, 0]] 2)) [] []
        = ([(1, 0), (0, 1)], [(0, 1), (1, 0)])
      ∧ totalScore (scoreTable (matrixOfRows [[5, 4], [4, 0]] 2)) [(1, 0), (0, 1)] = 8
      ∧ totalScore (scoreTable (matrixOfRows [[5, 4], [4, 0]] 2)) [(0, 0)] = 5 :=
  ⟨mussp_maximizes_total_score _ _ [] [] rfl (by
      intro row col hrow hcol
      have hrow2 : row < 2 := hrow
      have hcol2 : col < 2 := hcol
      interval_cases row <;> interval_cases col <;> simp [matrixOfRows]),
    by with_unfolding_all decide,
    by simp [totalScore, scoreTable, matrixOfRows, List.range_succ]; norm_num,
    by simp [totalScore, scoreTable, matrixOfRows, List.range_succ]⟩

section CascadeLemmas

/-- With all readings defined, the cell is what the last block computes from the conjunction
of the six conditions. -/
theorem calcScore_of_reads_gated (da : DataAssociation) (ext : Externals) (stamp : ℤ)
    (tracker : Tracker) (mo : DetectedObject) (r : PairReadings)
    (hr : da.Reads ext stamp tracker mo r) :
    da.calcScore ext stamp tracker mo
      = da.gatedScore r.max_dist r.dist (decide r.allGatesHold) := by
  obtain ⟨hca, hmd, hxa, hna, hmr, hmi, hdist, harea, hangle, hmah, hiou⟩ := hr
  unfold DataAssociation.calcScore
  simp only [bind, Except.bind, pure, Except.pure]
  rw [hca]
  simp only []
  by_cases hz : r.can_assign = 0
  · rw [if_neg (not_not.mpr hz)]
    have hno : ¬ r.allGatesHold := fun h => h.1 hz
    rw [decide_eq_false hno]
    rfl
  · rw [if_pos hz, hmd]
    simp only []
    rw [distGate_eq, areaGate_of_reads da ext _ _ mo _ r.max_area r.min_area hxa hna]
    simp only []
    rw [angleGate_of_reads da ext _ _ mo _ _ r.max_rad hmr]
    simp only []
    rw [mahalanobisGate_of_reads ext mo _ _ r.mahalanobis_dist hmah]
    simp only []
    rw [iouGate_of_reads da ext _ _ mo _ _ r.min_iou hmi]
    simp only []
    rw [← hdist, ← harea, ← hangle, ← hiou]
    congr 1
    rw [Bool.eq_iff_iff]
    simp only [Bool.true_and, Bool.and_eq_true, decide_eq_true_eq]
    unfold PairReadings.allGatesHold
    constructor
    · rintro ⟨⟨⟨⟨h2, h3⟩, h4⟩, h5⟩, h6⟩
      exact ⟨hz, h2, h3, h4, h5, h6⟩
    · rintro ⟨-, h2, h3, h4, h5, h6⟩
      exact ⟨⟨⟨⟨h2, h3⟩, h4⟩, h5⟩, h6⟩

theorem sample_reads_same :
    sampleEngine.Reads sampleExternals 0 (sampleTracker 0 0) (sampleMeasurement 0 0)
      ⟨1, 10, 100, 0, 3.15, 0, 0, 2, 0, 0, 1⟩ := by
  refine ⟨?_, ?_, ?_, ?_, ?_, ?_, ?_, ?_, ?_, ?_, ?_⟩
  · simp [sampleEngine, DataAssociation.create, reshapeConfig, MatrixX.Map, MatrixX.transpose,
      MatrixX.coeff, MatrixX.InRange, sampleExternals, sampleMeasurement, sampleTracker]
  · simp [sampleEngine, DataAssociation.create, reshapeConfig, MatrixX.Map, MatrixX.transpose,
      MatrixX.coeff, MatrixX.InRange, sampleExternals, sampleMeasurement, sampleTracker]
  · simp [sampleEngine, DataAssociation.create, reshapeConfig, MatrixX.Map, MatrixX.transpose,
      MatrixX.coeff, MatrixX.InRange, sampleExternals, sampleMeasurement, sampleTracker]
  · simp [sampleEngine, DataAssociation.create, reshapeConfig, MatrixX.Map, MatrixX.transpose,
      MatrixX.coeff, MatrixX.InRange, sampleExternals, sampleMeasurement, sampleTracker]
  · simp [sampleEngine, DataAssociation.create, reshapeConfig, MatrixX.Map, MatrixX.transpose,
      MatrixX.coeff, MatrixX.InRange, sampleExternals, sampleMeasurement, sampleTracker]
  · simp [sampleEngine, DataAssociation.create, reshapeConfig, MatrixX.Map, MatrixX.transpose,
      MatrixX.coeff, MatrixX.InRange, sampleExternals, sampleMeasurement, sampleTracker]
  · simp [sampleExternals, sampleMeasurement, sampleTracker, samplePose, ratSqrt_zero]
  · simp [sampleExternals, sampleMeasurement, sampleShape]
  · rw [sample_angle]
  · simp [getMahalanobisDistance, getXYCovariance, Matrix2d.inverse, sampleExternals,
      sampleMeasurement, sampleTracker, samplePose, bind, Except.bind, pure, Except.pure,
      ratSqrt_zero]
  · simp [sampleExternals, sampleMeasurement, sampleTracker, samplePose]

theorem sample_gates_same : PairReadings.allGatesHold ⟨1, 10, 100, 0, 3.15, 0, 0, 2, 0, 0, 1⟩ := by
  norm_num [PairReadings.allGatesHold, M_PI]

theorem sample_gates_near : PairReadings.allGatesHold ⟨1, 10, 100, 0, 3.15, 0, 2, 2, 0, 2, 0⟩ := by
  norm_num [PairReadings.allGatesHold, M_PI]

end CascadeLemmas

section UnconditionalLemmas

theorem gatePredicate_of_reads (da : DataAssociation) (ext : Externals) (stamp : ℤ)
    (tracker : Tracker) (mo : DetectedObject) (r : PairReadings)
    (hr : da.Reads ext stamp tracker mo r) (gate : Gate) :
    da.gatePredicate ext stamp tracker mo gate = .ok (r.gatePasses gate) := by
  obtain ⟨hca, hmd, hxa, hna, hmr, hmi, hdist, harea, hangle, hmah, hiou⟩ := hr
  cases gate with
  | canAssign =>
    unfold DataAssociation.gatePredicate PairReadings.gatePasses
    rw [hca]
    rfl
  | dist =>
    unfold DataAssociation.gatePredicate PairReadings.gatePasses
    rw [hmd, ← hdist]
    simp only [bind, Except.bind, pure, Except.pure]
    congr 1
    rw [← decide_not, decide_eq_decide, not_lt]
  | area =>
    unfold DataAssociation.gatePredicate PairReadings.gatePasses
    rw [hxa, hna, ← harea]
    simp only [bind, Except.bind, pure, Except.pure]
    congr 1
    rw [← decide_not, decide_eq_decide, not_or, not_lt, not_lt]
  | angle =>
    unfold DataAssociation.gatePredicate PairReadings.gatePasses
    rw [hmr, ← hangle]
    simp only [bind, Except.bind, pure, Except.pure]
    congr 1
    rw [← decide_not]
  | mahalanobis =>
    unfold DataAssociation.gatePredicate PairReadings.gatePasses
    rw [hmah]
    simp only [bind, Except.bind, pure, Except.pure]
    congr 1
    rw [← decide_not, decide_eq_decide, not_le]
  | iou =>
    unfold DataAssociation.gatePredicate PairReadings.gatePasses
    rw [hmi, ← hiou]
    simp only [bind, Except.bind, pure, Except.pure]
    congr 1
    rw [← decide_not, decide_eq_decide, not_lt]

theorem allGatePredicates_of_reads (da : DataAssociation) (ext : Externals) (stamp : ℤ)
    (tracker : Tracker) (mo : DetectedObject) (r : PairReadings)
    (hr : da.Reads ext stamp tracker mo r) (order : List Gate) :
    da.allGatePredicates ext stamp tracker mo order = .ok (order.all r.gatePasses) := by
  induction order with
  | nil => rfl
  | cons gate rest ih =>
    unfold DataAssociation.allGatePredicates
    rw [gatePredicate_of_reads da ext stamp tracker mo r hr gate, ih]
    rfl

theorem all_gatePasses_iff (r : PairReadings) (order : List Gate) (hall : ∀ g : Gate, g ∈ order) :
    order.all r.gatePasses = decide r.allGatesHold := by
  rw [Bool.eq_iff_iff, List.all_eq_true, decide_eq_true_iff]
  unfold PairReadings.allGatesHold
  constructor
  · intro h
    have h1 := h .canAssign (hall _)
    have h2 := h .dist (hall _)
    have h3 := h .area (hall _)
    have h4 := h .angle (hall _)
    have h5 := h .mahalanobis (hall _)
    have h6 := h .iou (hall _)
    simp only [PairReadings.gatePasses, decide_eq_true_eq] at h1 h2 h3 h4 h5 h6
    exact ⟨h1, h2, h3, h4, h5, h6⟩
  · rintro ⟨h1, h2, h3, h4, h5, h6⟩ g -
    cases g <;> simp only [PairReadings.gatePasses, decide_eq_true_eq]
    · exact h1
    · exact h2
    · exact h3
    · exact h4
    · exact h5
    · exact h6

theorem mem_of_perm_gates (order : List Gate)
    (horder : order.Perm [.canAssign, .dist, .area, .angle, .mahalanobis, .iou]) (g : Gate) :
    g ∈ order := by
  rw [horder.mem_iff]
  cases g <;> simp

theorem calcScoreUnconditional_of_reads (da : DataAssociation) (ext : Externals) (stamp : ℤ)
    (tracker : Tracker) (mo : DetectedObject) (r : PairReadings)
    (hr : da.Reads ext stamp tracker mo r) (order : List Gate) (hall : ∀ g : Gate, g ∈ order) :
    da.calcScoreUnconditional ext stamp tracker mo order = da.calcScore ext stamp tracker mo := by
  rw [calcScore_of_reads_gated da ext stamp tracker mo r hr]
  unfold DataAssociation.calcScoreUnconditional
  rw [allGatePredicates_of_reads da ext stamp tracker mo r hr order,
    all_gatePasses_iff r order hall]
  obtain ⟨-, hmd, -, -, -, -, hdist, -⟩ := hr
  rw [hmd, ← hdist]
  rfl

theorem allGatePredicates_ok_mem (da : DataAssociation) (ext : Externals) (stamp : ℤ)
    (tracker : Tracker) (mo : DetectedObject) (order : List Gate) :
    ∀ b, da.allGatePredicates ext stamp tracker mo order = .ok b →
      ∀ g ∈ order, ∃ bg, da.gatePredicate ext stamp tracker mo g = .ok bg := by
  induction order with
  | nil =>
    intro b _ g hg
    cases hg
  | cons gate rest ih =>
    intro b hb g hg
    unfold DataAssociation.allGatePredicates at hb
    obtain ⟨b1, h1, hb2⟩ := except_bind_ok _ _ _ hb
    obtain ⟨b2, h2, -⟩ := except_bind_ok _ _ _ hb2
    rcases List.mem_cons.mp hg with rfl | hg2
    · exact ⟨b1, h1⟩
    · exact ih b2 h2 g hg2

/-- When every gate predicate is defined, all readings of the pair are. -/
theorem reads_of_gatePredicates (da : DataAssociation) (ext : Externals) (stamp : ℤ)
    (tracker : Tracker) (mo : DetectedObject)
    (h : ∀ g : Gate, ∃ bg, da.gatePredicate ext stamp tracker mo g = .ok bg) :
    ∃ r, da.Reads ext stamp tracker mo r := by
  obtain ⟨b1, h1⟩ := h .canAssign
  obtain ⟨b2, h2⟩ := h .dist
  obtain ⟨b3, h3⟩ := h .area
  obtain ⟨b4, h4⟩ := h .angle
  obtain ⟨b5, h5⟩ := h .mahalanobis
  obtain ⟨b6, h6⟩ := h .iou
  unfold DataAssociation.gatePredicate at h1 h2 h3 h4 h5 h6
  obtain ⟨can_assign, hca, -⟩ := except_bind_ok _ _ _ h1
  obtain ⟨max_dist, hmd, -⟩ := except_bind_ok _ _ _ h2
  obtain ⟨max_area, hxa, h3b⟩ := except_bind_ok _ _ _ h3
  obtain ⟨min_area, hna, -⟩ := except_bind_ok _ _ _ h3b
  obtain ⟨max_rad, hmr, -⟩ := except_bind_ok _ _ _ h4
  obtain ⟨mahalanobis_dist, hmah, -⟩ := except_bind_ok _ _ _ h5
  obtain ⟨min_iou, hmi, -⟩ := except_bind_ok _ _ _ h6
  exact ⟨⟨can_assign, max_dist, max_area, min_area, max_rad, min_iou, _, _, _,
    mahalanobis_dist, _⟩, hca, hmd, hxa, hna, hmr, hmi, rfl, rfl, rfl, hmah, rfl⟩

end UnconditionalLemmas

/-- C21: the gate cascade of `calcScoreMatrix` gives the same cell as computing every gate
predicate unconditionally: for every pair and every order of the six gates, whenever the
readings of the pair are defined the cell equals the result of the unconditional evaluation
(all six predicates computed in that order; the thresholded distance score if their
conjunction holds, 0 otherwise), and whenever the unconditional evaluation yields a value the
cascade yields the same value. -/
theorem gate_cascade_eq_unconditional (da : DataAssociation) (ext : Externals) (stamp : ℤ)
    (tracker : Tracker) (measurement_object : DetectedObject) (order : List Gate)
    (horder : order.Perm [.canAssign, .dist, .area, .angle, .mahalanobis, .iou]) :
    (∀ r, da.Reads ext stamp tracker measurement_object r →
      da.calcScore ext stamp tracker measurement_object
        = da.calcScoreUnconditional ext stamp tracker measurement_object order)
    ∧ (∀ score, da.calcScoreUnconditional ext stamp tracker measurement_object order
          = .ok score →
        da.calcScore ext stamp tracker measurement_object = .ok score) := by
  have hall := mem_of_perm_gates order horder
  refine ⟨?_, ?_⟩
  · intro r hr
    exact (calcScoreUnconditional_of_reads da ext stamp tracker measurement_object r hr order
      hall).symm
  · intro score hscore
    have hdef : ∀ g : Gate, ∃ bg,
        da.gatePredicate ext stamp tracker measurement_object g = .ok bg := by
      intro g
      unfold DataAssociation.calcScoreUnconditional at hscore
      obtain ⟨b, hb, -⟩ := except_bind_ok _ _ _ hscore
      exact allGatePredicates_ok_mem da ext stamp tracker measurement_object order b hb g
        (hall g)
    obtain ⟨r, hr⟩ := reads_of_gatePredicates da ext stamp tracker measurement_object hdef
    rw [← calcScoreUnconditional_of_reads da ext stamp tracker measurement_object r hr order
      hall]
    exact hscore

/-- C21, worked instance: the six gates in the reverse of the order of the source, on the
sample pair at distance 2: both evaluations give 0.8. -/
theorem gate_cascade_eq_unconditional_witness :
    sampleEngine.calcScoreUnconditional sampleExternals 0 (sampleTracker 0 0)
        (sampleMeasurement 0 2) [.iou, .mahalanobis, .angle, .area, .dist, .canAssign]
      = .ok 0.8
    ∧ sampleEngine.calcScore sampleExternals 0 (sampleTracker 0 0) (sampleMeasurement 0 2)
      = .ok 0.8 := by
  have hperm : List.Perm [Gate.iou, Gate.mahalanobis, Gate.angle, Gate.area, Gate.dist,
      Gate.canAssign] [.canAssign, .dist, .area, .angle, .mahalanobis, .iou] := by
    decide
  have h := (gate_cascade_eq_unconditional sampleEngine sampleExternals 0 (sampleTracker 0 0)
    (sampleMeasurement 0 2) _ hperm).1 _ sample_reads
  have hval : sampleEngine.calcScore sampleExternals 0 (sampleTracker 0 0)
      (sampleMeasurement 0 2) = .ok 0.8 := by
    rw [calcScore_of_reads _ _ _ _ _ _ sample_reads (by norm_num), if_pos sample_gates_near]
    congr 1
    rw [if_pos]
    · norm_num [PairReadings.claimedScore]
    · norm_num [PairReadings.claimedScore, sampleEngine, DataAssociation.create]
  exact ⟨h ▸ hval, hval⟩

/-! ## The Mahalanobis distance as a quadratic form -/

section MahalanobisLemmas

end MahalanobisLemmas

section YawLoopLemmas

/-- The first loop runs its body exactly `n` times: the loop condition holds before each of
the `n` passes and fails after the last. -/
theorem fixYawUp_trace (dfb : Bool) (t m : ℚ) :
    ∃ n : ℕ, fixYawUp dfb t m = m + n * angleStep dfb
      ∧ (∀ i : ℕ, i < n → angleRange dfb ≤ t - (m + i * angleStep dfb))
      ∧ ¬ angleRange dfb ≤ t - (m + n * angleStep dfb) := by
  induction m using fixYawUp.induct dfb t with
  | case1 m hle ih =>
    obtain ⟨n, h1, h2, h3⟩ := ih
    have hunf : fixYawUp dfb t m = fixYawUp dfb t (m + angleStep dfb) := by
      rw [fixYawUp, if_pos hle]
    rw [hunf]
    refine ⟨n + 1, ?_, ?_, ?_⟩
    · rw [h1]
      push_cast
      ring
    · intro i hi
      cases i with
      | zero =>
        simp only [Nat.cast_zero, zero_mul, add_zero]
        exact hle
      | succ j =>
        have := h2 j (by omega)
        have he : m + ((j + 1 : ℕ) : ℚ) * angleStep dfb
            = m + angleStep dfb + (j : ℚ) * angleStep dfb := by
          push_cast
          ring
        rw [he]
        exact this
    · have he : m + ((n + 1 : ℕ) : ℚ) * angleStep dfb
          = m + angleStep dfb + (n : ℚ) * angleStep dfb := by
        push_cast
        ring
      rw [he]
      exact h3
  | case2 m hnot =>
    have hunf : fixYawUp dfb t m = m := by
      rw [fixYawUp, if_neg hnot]
    rw [hunf]
    refine ⟨0, by simp, ?_, ?_⟩
    · intro i hi
      omega
    · simpa using hnot

/-- The second loop runs its body exactly `k` times. -/
theorem fixYawDown_trace (dfb : Bool) (t m : ℚ) :
    ∃ k : ℕ, fixYawDown dfb t m = m - k * angleStep dfb
      ∧ (∀ i : ℕ, i < k → angleRange dfb ≤ (m - i * angleStep dfb) - t)
      ∧ ¬ angleRange dfb ≤ (m - k * angleStep dfb) - t := by
  induction m using fixYawDown.induct dfb t with
  | case1 m hle ih =>
    obtain ⟨n, h1, h2, h3⟩ := ih
    have hunf : fixYawDown dfb t m = fixYawDown dfb t (m - angleStep dfb) := by
      rw [fixYawDown, if_pos hle]
    rw [hunf]
    refine ⟨n + 1, ?_, ?_, ?_⟩
    · rw [h1]
      push_cast
      ring
    · intro i hi
      cases i with
      | zero =>
        simp only [Nat.cast_zero, zero_mul, sub_zero]
        exact hle
      | succ j =>
        have := h2 j (by omega)
        have he : m - ((j + 1 : ℕ) : ℚ) * angleStep dfb
            = m - angleStep dfb - (j : ℚ) * angleStep dfb := by
          push_cast
          ring
        rw [he]
        exact this
    · have he : m - ((n + 1 : ℕ) : ℚ) * angleStep dfb
          = m - angleStep dfb - (n : ℚ) * angleStep dfb := by
        push_cast
        ring
      rw [he]
      exact h3
  | case2 m hnot =>
    have hunf : fixYawDown dfb t m = m := by
      rw [fixYawDown, if_neg hnot]
    rw [hunf]
    refine ⟨0, by simp, ?_, ?_⟩
    · intro i hi
      omega
    · simpa using hnot

theorem angleRange_pos (dfb : Bool) : 0 < angleRange dfb := by
  cases dfb <;> norm_num [angleRange, M_PI, M_PI_2]

/-- Two values of `[-r, r)` that differ by an integer multiple of `2 * r` are equal. -/
theorem window_unique (r x y : ℚ) (k : ℤ) (hr : 0 < r) (hx1 : -r ≤ x) (hx2 : x < r)
    (hy1 : -r ≤ y) (hy2 : y < r) (h : x = y + k * (2 * r)) : x = y := by
  have hk1 : (-1 : ℚ) < k := by
    by_contra hcon
    have hk : (k : ℚ) ≤ -1 := not_lt.mp hcon
    have : (k : ℚ) * (2 * r) ≤ -1 * (2 * r) := mul_le_mul_of_nonneg_right hk (by linarith)
    linarith
  have hk2 : (k : ℚ) < 1 := by
    by_contra hcon
    have hk : (1 : ℚ) ≤ k := not_lt.mp hcon
    have : 1 * (2 * r) ≤ (k : ℚ) * (2 * r) := mul_le_mul_of_nonneg_right hk (by linarith)
    linarith
  have hk0 : k = 0 := by
    have h1 : (-1 : ℤ) < k := by exact_mod_cast hk1
    have h2 : k < (1 : ℤ) := by exact_mod_cast hk2
    omega
  rw [h, hk0]
  simp

/-- The corrected heading minus the tracker heading is the value of `[-range, range)` that
differs from `m - t` by a multiple of the step. -/
theorem fixYaw_window (dfb : Bool) (t m : ℚ) :
    -angleRange dfb ≤ fixYawDown dfb t (fixYawUp dfb t m) - t
    ∧ fixYawDown dfb t (fixYawUp dfb t m) - t < angleRange dfb
    ∧ ∃ k : ℤ, fixYawDown dfb t (fixYawUp dfb t m) - t
        = (m - t) + k * (2 * angleRange dfb) := by
  obtain ⟨h1, h2, k, h3⟩ := fixYaw_both dfb t m
  refine ⟨by linarith, h2, k, ?_⟩
  rw [h3, angleStep_eq_two_range]
  ring

/-- The value of `getFormedYawAngle` depends only on the class of `m - t` modulo the step. -/
theorem formed_congr (dfb : Bool) (t m t2 m2 : ℚ) (j : ℤ)
    (h : m2 - t2 = (m - t) + j * (2 * angleRange dfb)) :
    fixYawDown dfb t2 (fixYawUp dfb t2 m2) - t2 = fixYawDown dfb t (fixYawUp dfb t m) - t := by
  obtain ⟨a1, a2, k, a3⟩ := fixYaw_window dfb t m
  obtain ⟨b1, b2, k2, b3⟩ := fixYaw_window dfb t2 m2
  refine window_unique (angleRange dfb) _ _ (k2 + j - k) (angleRange_pos dfb) b1 b2 a1 a2 ?_
  rw [b3, a3, h]
  push_cast
  ring

/-- Swapping the two headings negates the corrected difference, or leaves it at `-range`. -/
theorem formed_swap (dfb : Bool) (a b : ℚ) :
    |fixYawDown dfb b (fixYawUp dfb b a) - b| = |fixYawDown dfb a (fixYawUp dfb a b) - a| := by
  obtain ⟨a1, a2, k, a3⟩ := fixYaw_window dfb b a
  obtain ⟨b1, b2, k2, b3⟩ := fixYaw_window dfb a b
  have hr := angleRange_pos dfb
  by_cases hedge : fixYawDown dfb b (fixYawUp dfb b a) - b = -angleRange dfb
  · have h2 : fixYawDown dfb a (fixYawUp dfb a b) - a = -angleRange dfb := by
      refine window_unique (angleRange dfb) _ _ (k2 + k + 1) hr b1 b2 (le_refl _) (by linarith) ?_
      rw [b3]
      push_cast
      linarith
    rw [hedge, h2]
  · have hlt : -angleRange dfb < fixYawDown dfb b (fixYawUp dfb b a) - b :=
      lt_of_le_of_ne a1 (Ne.symm hedge)
    have h2 : fixYawDown dfb a (fixYawUp dfb a b) - a
        = -(fixYawDown dfb b (fixYawUp dfb b a) - b) := by
      refine window_unique (angleRange dfb) _ _ (k2 + k) hr b1 b2 (by linarith) (by linarith) ?_
      rw [b3]
      push_cast
      linarith
    rw [h2, abs_neg]

end YawLoopLemmas

/-! ## Properties of `isOnRight`, `Buffer` and `concatParentIds` -/

/-- C23: `isOnRight` throws the logic error exactly when the direction of the object is
`NONE`; for every other direction it throws nothing and returns true exactly when the
direction is `RIGHT`. -/
theorem isOnRight_throws_iff_none {Direction : Type} [DecidableEq Direction]
    (NONE RIGHT : Direction) (obj : ObjectData Direction) :
    ((∃ e, isOnRight NONE RIGHT obj = .error e) ↔ obj.direction = NONE)
    ∧ (isOnRight NONE RIGHT obj
        = .error (Exception.logic_error ("object direction is not initialized. something wrong."))
        ↔ obj.direction = NONE)
    ∧ (obj.direction ≠ NONE → isOnRight NONE RIGHT obj = .ok (decide (obj.direction = RIGHT)))
    ∧ (isOnRight NONE RIGHT obj = .ok true ↔ obj.direction ≠ NONE ∧ obj.direction = RIGHT)
    ∧ (isOnRight NONE RIGHT obj = .ok false ↔ obj.direction ≠ NONE ∧ obj.direction ≠ RIGHT) := by
  unfold isOnRight
  by_cases h : obj.direction = NONE
  · rw [if_pos h]
    refine ⟨⟨fun _ => h, fun _ => ⟨_, rfl⟩⟩, ⟨fun _ => h, fun _ => rfl⟩, fun hn => absurd h hn,
      ⟨fun hok => ?_, fun hn => absurd h hn.1⟩, ⟨fun hok => ?_, fun hn => absurd h hn.1⟩⟩
    · cases hok
    · cases hok
  · rw [if_neg h]
    refine ⟨⟨?_, fun hn => absurd hn h⟩, ⟨fun he => ?_, fun hn => absurd hn h⟩, fun _ => rfl,
      ⟨fun hok => ?_, fun hn => ?_⟩, ⟨fun hok => ?_, fun hn => ?_⟩⟩
    · rintro ⟨e, he⟩
      cases he
    · cases he
    · simp only [pure, Except.pure, Except.ok.injEq, decide_eq_true_eq] at hok
      exact ⟨h, hok⟩
    · simp only [pure, Except.pure, Except.ok.injEq, decide_eq_true_eq]
      exact hn.2
    · simp only [pure, Except.pure, Except.ok.injEq, decide_eq_false_iff_not] at hok
      exact ⟨h, hok⟩
    · simp only [pure, Except.pure, Except.ok.injEq, decide_eq_false_iff_not]
      exact hn.2

/-- C23, worked instance: the three enumerators of a sample enumeration. -/
theorem isOnRight_throws_iff_none_witness :
    isOnRight SampleDirection.NONE SampleDirection.RIGHT ⟨SampleDirection.NONE⟩
        = .error (Exception.logic_error ("object direction is not initialized. something wrong."))
    ∧ isOnRight SampleDirection.NONE SampleDirection.RIGHT ⟨SampleDirection.LEFT⟩ = .ok false
    ∧ isOnRight SampleDirection.NONE SampleDirection.RIGHT ⟨SampleDirection.RIGHT⟩ = .ok true :=
  ⟨(isOnRight_throws_iff_none SampleDirection.NONE SampleDirection.RIGHT
      ⟨SampleDirection.NONE⟩).2.1.mpr rfl,
    (isOnRight_throws_iff_none SampleDirection.NONE SampleDirection.RIGHT
      ⟨SampleDirection.LEFT⟩).2.2.2.2.mpr ⟨by decide, by decide⟩,
    (isOnRight_throws_iff_none SampleDirection.NONE SampleDirection.RIGHT
      ⟨SampleDirection.RIGHT⟩).2.2.2.1.mpr ⟨by decide, rfl⟩⟩

section BufferLemmas

theorem removeIfErase_eq_filter {T : Type} (pred : T → Bool) (l : List T) :
    removeIfErase pred l = l.filter fun msg => !pred msg := by
  induction l with
  | nil => rfl
  | cons msg rest ih =>
    unfold removeIfErase
    by_cases h : pred msg = true
    · rw [if_pos h, ih, List.filter_cons_of_neg (by simp [h])]
    · rw [if_neg h, ih, List.filter_cons_of_pos (by simp [h])]

theorem findIf_eq_find {T : Type} (pred : T → Bool) (l : List T) :
    findIf pred l = l.find? pred := by
  induction l with
  | nil => rfl
  | cons msg rest ih =>
    unfold findIf
    by_cases h : pred msg = true
    · rw [if_pos h, List.find?_cons_of_pos _ h]
    · rw [if_neg h, ih, List.find?_cons_of_neg _ h]

theorem findIf_eq_some_iff {T : Type} (pred : T → Bool) (l : List T) (m : T) :
    findIf pred l = some m
      ↔ ∃ before after, l = before ++ m :: after ∧ (∀ x ∈ before, pred x = false)
          ∧ pred m = true := by
  induction l with
  | nil =>
    constructor
    · intro h
      cases h
    · rintro ⟨before, after, h, -, -⟩
      cases before <;> cases h
  | cons msg rest ih =>
    unfold findIf
    by_cases h : pred msg = true
    · rw [if_pos h]
      constructor
      · intro hm
        injection hm with hm
        subst hm
        refine ⟨[], rest, rfl, ?_, h⟩
        intro x hx
        cases hx
      · rintro ⟨before, after, hl, hb, hp⟩
        cases before with
        | nil =>
          injection hl with h1 h2
          rw [h1]
        | cons c before2 =>
          injection hl with h1 h2
          have := hb c (List.mem_cons_self _ _)
          rw [← h1, h] at this
          cases this
    · rw [if_neg h, ih]
      constructor
      · rintro ⟨before, after, hl, hb, hp⟩
        refine ⟨msg :: before, after, by rw [hl]; rfl, ?_, hp⟩
        intro x hx
        rcases List.mem_cons.mp hx with rfl | hx2
        · simpa using h
        · exact hb x hx2
      · rintro ⟨before, after, hl, hb, hp⟩
        cases before with
        | nil =>
          injection hl with h1 h2
          rw [h1] at h
          exact absurd hp h
        | cons c before2 =>
          injection hl with h1 h2
          exact ⟨before2, after, h2, fun x hx => hb x (List.mem_cons_of_mem _ hx), hp⟩

theorem findIf_eq_none_iff {T : Type} (pred : T → Bool) (l : List T) :
    findIf pred l = none ↔ ∀ x ∈ l, pred x = false := by
  rw [findIf_eq_find, List.find?_eq_none]
  simp

end BufferLemmas

/-- C29: for every buffer and every time `now`, `remove_old_data(now)` leaves exactly the
messages whose stamp is at least `now`, in their original relative order; a following
`get(now)` returns the first remaining message whose stamp is greater than `now` (every
remaining message before it is stamped `now`), and no value exactly when no remaining message
is stamped later than `now`; a message stamped exactly `now` is retained and is not what
`get(now)` returns. -/
theorem remove_old_data_then_get {T : Type} (nanoseconds : T → ℤ) (b : Buffer T) (now : ℤ) :
    (b.remove_old_data nanoseconds now).msgs
        = b.msgs.filter (fun msg => decide (now ≤ nanoseconds msg))
    ∧ List.Sublist (b.remove_old_data nanoseconds now).msgs b.msgs
    ∧ (∀ msg, msg ∈ (b.remove_old_data nanoseconds now).msgs
        ↔ msg ∈ b.msgs ∧ now ≤ nanoseconds msg)
    ∧ (∀ msg, (b.remove_old_data nanoseconds now).get nanoseconds now = some msg
        ↔ ∃ before after, (b.remove_old_data nanoseconds now).msgs = before ++ msg :: after
            ∧ (∀ x ∈ before, nanoseconds x = now) ∧ now < nanoseconds msg)
    ∧ ((b.remove_old_data nanoseconds now).get nanoseconds now = none
        ↔ ¬ ∃ msg ∈ (b.remove_old_data nanoseconds now).msgs, now < nanoseconds msg)
    ∧ (∀ msg ∈ b.msgs, nanoseconds msg = now →
        msg ∈ (b.remove_old_data nanoseconds now).msgs
        ∧ ∀ got, (b.remove_old_data nanoseconds now).get nanoseconds now = some got →
            nanoseconds got ≠ nanoseconds msg) := by
  have hfilter : (b.remove_old_data nanoseconds now).msgs
      = b.msgs.filter (fun msg => decide (now ≤ nanoseconds msg)) := by
    show removeIfErase _ b.msgs = _
    rw [removeIfErase_eq_filter]
    congr 1
    funext msg
    rw [← decide_not, decide_eq_decide, not_lt]
  have hmem : ∀ msg, msg ∈ (b.remove_old_data nanoseconds now).msgs
      ↔ msg ∈ b.msgs ∧ now ≤ nanoseconds msg := by
    intro msg
    rw [hfilter, List.mem_filter, decide_eq_true_iff]
  have hsome : ∀ msg, (b.remove_old_data nanoseconds now).get nanoseconds now = some msg
      ↔ ∃ before after, (b.remove_old_data nanoseconds now).msgs = before ++ msg :: after
          ∧ (∀ x ∈ before, nanoseconds x = now) ∧ now < nanoseconds msg := by
    intro msg
    unfold Buffer.get
    rw [findIf_eq_some_iff]
    constructor
    · rintro ⟨before, after, hl, hb, hp⟩
      refine ⟨before, after, hl, ?_, by simpa using hp⟩
      intro x hx
      have h1 := hb x hx
      have h2 := ((hmem x).mp (by rw [hl]; exact List.mem_append_left _ hx)).2
      simp only [gt_iff_lt, decide_eq_false_iff_not, not_lt] at h1
      omega
    · rintro ⟨before, after, hl, hb, hp⟩
      refine ⟨before, after, hl, ?_, by simpa using hp⟩
      intro x hx
      have := hb x hx
      simp only [gt_iff_lt, decide_eq_false_iff_not, not_lt]
      omega
  refine ⟨hfilter, ?_, hmem, hsome, ?_, ?_⟩
  · rw [hfilter]
    exact List.filter_sublist _
  · unfold Buffer.get
    rw [findIf_eq_none_iff]
    constructor
    · rintro h ⟨msg, hm, hlt⟩
      have := h msg hm
      simp only [gt_iff_lt, decide_eq_false_iff_not] at this
      exact this hlt
    · intro h x hx
      simp only [gt_iff_lt, decide_eq_false_iff_not]
      exact fun hlt => h ⟨x, hx, hlt⟩
  · intro msg hm hnow
    refine ⟨(hmem msg).mpr ⟨hm, hnow.ge⟩, ?_⟩
    intro got hgot
    obtain ⟨-, -, -, -, hlt⟩ := (hsome got).mp hgot
    omega

/-- C29, worked instance: stamps 5, 10, 3, 10, 12 and `now = 10`: the messages stamped 10,
10 and 12 remain, and `get(10)` returns the one stamped 12. -/
theorem remove_old_data_then_get_witness :
    (Buffer.remove_old_data (fun msg : ℤ => msg) ⟨[5, 10, 3, 10, 12]⟩ 10).msgs = [10, 10, 12]
    ∧ Buffer.get (fun msg : ℤ => msg)
        (Buffer.remove_old_data (fun msg : ℤ => msg) ⟨[5, 10, 3, 10, 12]⟩ 10) 10 = some 12 := by
  have h := remove_old_data_then_get (fun msg : ℤ => msg) ⟨[5, 10, 3, 10, 12]⟩ 10
  refine ⟨h.1.trans (by decide), (h.2.2.2.1 12).mpr ⟨[10, 10], [], ?_, ?_, by decide⟩⟩
  · exact h.1.trans (by decide)
  · intro x hx
    simp only [List.mem_cons, List.mem_singleton, List.not_mem_nil, or_false, or_self] at hx
    exact hx

section ConcatLemmas

variable {UUID : Type} [DecidableEq UUID]

theorem pushBackIfNew_eq (ret : List UUID) (id : UUID) :
    pushBackIfNew ret id = if id ∈ ret then ret else ret ++ [id] := by
  unfold pushBackIfNew
  by_cases h : id ∈ ret
  · rw [if_pos h, if_pos]
    rw [List.any_eq_true]
    exact ⟨id, h, by simp⟩
  · rw [if_neg h, if_neg]
    rw [List.any_eq_true]
    rintro ⟨x, hx, hxid⟩
    have : x = id := by simpa using hxid
    exact h (this ▸ hx)

theorem concatParentIds_eq_fold (ids1 ids2 : List UUID) :
    concatParentIds ids1 ids2 = (ids1 ++ ids2).foldl pushBackIfNew [] := by
  unfold concatParentIds
  rw [List.foldl_append]

theorem fold_snoc (l : List UUID) (id : UUID) :
    (l ++ [id]).foldl pushBackIfNew [] = pushBackIfNew (l.foldl pushBackIfNew []) id := by
  rw [List.foldl_append]
  rfl

theorem mem_fold (l : List UUID) (x : UUID) : x ∈ l.foldl pushBackIfNew [] ↔ x ∈ l := by
  induction l using List.reverseRecOn with
  | nil => rfl
  | append_singleton l id ih =>
    rw [fold_snoc, pushBackIfNew_eq]
    by_cases h : id ∈ l.foldl pushBackIfNew []
    · rw [if_pos h, ih, List.mem_append, List.mem_singleton]
      constructor
      · exact fun hx => Or.inl hx
      · rintro (hx | rfl)
        · exact hx
        · exact ih.mp h
    · rw [if_neg h, List.mem_append, List.mem_append, ih]

theorem fold_snoc_eq (l : List UUID) (id : UUID) :
    (l ++ [id]).foldl pushBackIfNew []
      = if id ∈ l then l.foldl pushBackIfNew [] else l.foldl pushBackIfNew [] ++ [id] := by
  rw [fold_snoc, pushBackIfNew_eq]
  by_cases h : id ∈ l
  · rw [if_pos h, if_pos ((mem_fold l id).mpr h)]
  · rw [if_neg h, if_neg (fun hm => h ((mem_fold l id).mp hm))]

theorem nodup_fold (l : List UUID) : (l.foldl pushBackIfNew []).Nodup := by
  induction l using List.reverseRecOn with
  | nil => exact List.nodup_nil
  | append_singleton l id ih =>
    rw [fold_snoc_eq]
    by_cases h : id ∈ l
    · rw [if_pos h]
      exact ih
    · rw [if_neg h]
      refine List.Nodup.append ih (List.nodup_singleton _) ?_
      intro x hx1 hx2
      rw [List.mem_singleton] at hx2
      exact h ((mem_fold l id).mp (hx2 ▸ hx1))

theorem sublist_fold (l : List UUID) : List.Sublist (l.foldl pushBackIfNew []) l := by
  induction l using List.reverseRecOn with
  | nil => exact List.Sublist.refl _
  | append_singleton l id ih =>
    rw [fold_snoc_eq]
    by_cases h : id ∈ l
    · rw [if_pos h]
      exact ih.trans (List.sublist_append_left _ _)
    · rw [if_neg h]
      exact List.Sublist.append ih (List.Sublist.refl _)

/-- The result lists the ids by their first occurrence. -/
theorem order_fold (l : List UUID) :
    (l.foldl pushBackIfNew []).Pairwise fun x y => l.indexOf x < l.indexOf y := by
  induction l using List.reverseRecOn with
  | nil => exact List.Pairwise.nil
  | append_singleton l id ih =>
    have hold : (l.foldl pushBackIfNew []).Pairwise
        fun x y => (l ++ [id]).indexOf x < (l ++ [id]).indexOf y := by
      refine List.Pairwise.imp_of_mem ?_ ih
      intro x y hx hy hxy
      rw [List.indexOf_append_of_mem ((mem_fold l x).mp hx),
        List.indexOf_append_of_mem ((mem_fold l y).mp hy)]
      exact hxy
    rw [fold_snoc_eq]
    by_cases h : id ∈ l
    · rw [if_pos h]
      exact hold
    · rw [if_neg h, List.pairwise_append]
      refine ⟨hold, List.pairwise_singleton _ _, ?_⟩
      intro x hx y hy
      rw [List.mem_singleton] at hy
      subst hy
      have hxl := (mem_fold l x).mp hx
      rw [List.indexOf_append_of_mem hxl, List.indexOf_append_of_not_mem h]
      have := List.indexOf_lt_length.mpr hxl
      omega

theorem fold_absorb (ret l : List UUID) (h : ∀ x ∈ l, x ∈ ret) :
    l.foldl pushBackIfNew ret = ret := by
  induction l with
  | nil => rfl
  | cons id rest ih =>
    rw [List.foldl_cons, pushBackIfNew_eq, if_pos (h id (List.mem_cons_self _ _))]
    exact ih fun x hx => h x (List.mem_cons_of_mem _ hx)

theorem fold_of_nodup (l : List UUID) (h : l.Nodup) : l.foldl pushBackIfNew [] = l := by
  induction l using List.reverseRecOn with
  | nil => rfl
  | append_singleton l id ih =>
    rw [List.nodup_append] at h
    obtain ⟨h1, -, h3⟩ := h
    have hid : id ∉ l := fun hm => h3 hm (List.mem_singleton_self id)
    rw [fold_snoc_eq, if_neg hid, ih h1]

end ConcatLemmas

/-- C30: for all id lists `ids1` and `ids2`, `concatParentIds` returns a list without
duplicates whose elements are those of `ids1` and of `ids2`, ordered by their first occurrence
in `ids1` followed by `ids2`; `concatParentIds(ids, ids) = concatParentIds(ids, [])`, and on a
list without duplicates the operation gives back the list. -/
theorem concatParentIds_union {UUID : Type} [DecidableEq UUID] (ids1 ids2 : List UUID) :
    (concatParentIds ids1 ids2).Nodup
    ∧ (∀ id, id ∈ concatParentIds ids1 ids2 ↔ id ∈ ids1 ∨ id ∈ ids2)
    ∧ List.Sublist (concatParentIds ids1 ids2) (ids1 ++ ids2)
    ∧ (concatParentIds ids1 ids2).Pairwise
        (fun x y => (ids1 ++ ids2).indexOf x < (ids1 ++ ids2).indexOf y)
    ∧ concatParentIds ids1 ids1 = concatParentIds ids1 []
    ∧ (ids1.Nodup → concatParentIds ids1 [] = ids1 ∧ concatParentIds ids1 ids1 = ids1)
    ∧ concatParentIds (concatParentIds ids1 ids2) (concatParentIds ids1 ids2)
        = concatParentIds ids1 ids2 := by
  have hself : ∀ l : List UUID, concatParentIds l l = concatParentIds l [] := by
    intro l
    unfold concatParentIds
    simp only [List.foldl_nil]
    exact fold_absorb _ l fun x hx => (mem_fold l x).mpr hx
  have hnil : ∀ l : List UUID, l.Nodup → concatParentIds l [] = l := by
    intro l hl
    rw [concatParentIds_eq_fold, List.append_nil]
    exact fold_of_nodup l hl
  have hnodup : (concatParentIds ids1 ids2).Nodup := by
    rw [concatParentIds_eq_fold]
    exact nodup_fold _
  refine ⟨hnodup, ?_, ?_, ?_, hself ids1, ?_, ?_⟩
  · intro id
    rw [concatParentIds_eq_fold, mem_fold, List.mem_append]
  · rw [concatParentIds_eq_fold]
    exact sublist_fold _
  · rw [concatParentIds_eq_fold]
    exact order_fold _
  · intro h
    exact ⟨hnil ids1 h, (hself ids1).trans (hnil ids1 h)⟩
  · rw [hself, hnil _ hnodup]

/-- C30, worked instance: `concatParentIds([1, 2, 1, 3], [3, 4, 2]) = [1, 2, 3, 4]`. -/
theorem concatParentIds_union_witness :
    concatParentIds [1, 2, 1, 3] [3, 4, 2] = ([1, 2, 3, 4] : List ℕ)
    ∧ (concatParentIds [1, 2, 1, 3] [3, 4, 2] : List ℕ).Nodup
    ∧ concatParentIds [1, 2, 1, 3] [1, 2, 1, 3] = (concatParentIds [1, 2, 1, 3] [] : List ℕ) :=
  ⟨by decide, (concatParentIds_union [1, 2, 1, 3] [3, 4, 2]).1,
    (concatParentIds_union [1, 2, 1, 3] [3, 4, 2]).2.2.2.2.1⟩

section SolverAssignLemmas

theorem scoreTable_length (src : MatrixXd) : (scoreTable src).length = src.rows := by
  simp [scoreTable]

theorem scoreTable_head_length (src : MatrixXd) (h : 0 < src.rows) :
    ((scoreTable src).headD []).length = src.cols := by
  unfold scoreTable
  obtain ⟨n, hn⟩ : ∃ n, src.rows = n + 1 := ⟨src.rows - 1, by omega⟩
  rw [hn, List.range_succ_eq_map]
  simp

theorem inRange_of_isMatching (src : MatrixXd) (direct : UnorderedMap)
    (h : IsMatching (scoreTable src) direct) : ∀ p ∈ direct, src.InRange p.1 p.2 := by
  intro p hp
  obtain ⟨h1, h2, h3, h4⟩ := h.1 p hp
  rw [scoreTable_length] at h2
  have hrows : 0 < src.rows := by omega
  rw [scoreTable_head_length src hrows] at h4
  exact ⟨h1, h2, h3, h4⟩

theorem muSSP_reverse_eq (cost : List (List ℚ)) (d0 r0 : UnorderedMap) :
    (muSSP.maximizeLinearAssignment cost d0 r0).2
      = (muSSP.maximizeLinearAssignment cost d0 r0).1.map Prod.swap := by
  simp [muSSP, MuSSP.maximizeLinearAssignment, List.map_map, Function.comp_def]

/-- With the solver `muSSP` and a matrix without negative entry, `assign` returns, and what
it returns are the solver's one-to-one maps, thinned out by the threshold. -/
theorem assign_muSSP (da : DataAssociation) (src : MatrixXd) (d0 r0 : UnorderedMap)
    (hsolver : da.gnn_solver_ptr_ = muSSP)
    (hnn : ∀ row col, row < src.rows → col < src.cols → 0 ≤ src.coeffs row col) :
    IsMatching (scoreTable src) (muSSP.maximizeLinearAssignment (scoreTable src) d0 r0).1
    ∧ da.assign src d0 r0 = .ok
      ((muSSP.maximizeLinearAssignment (scoreTable src) d0 r0).1.filter
          (fun p => decide (da.score_threshold_ ≤ src.coeffs p.1.toNat p.2.toNat)),
       (muSSP.maximizeLinearAssignment (scoreTable src) d0 r0).2.filter
          (fun p => decide (da.score_threshold_ ≤ src.coeffs p.2.toNat p.1.toNat))) := by
  have hcontract := MuSSP.maximizeLinearAssignment_contract (scoreTable src)
    (MuSSP.score_scoreTable_nonneg src hnn) d0 r0
  have hmatch : IsMatching (scoreTable src)
      (muSSP.maximizeLinearAssignment (scoreTable src) d0 r0).1 := hcontract.1
  have hd := inRange_of_isMatching src _ hmatch
  have hr : ∀ p ∈ (muSSP.maximizeLinearAssignment (scoreTable src) d0 r0).2,
      src.InRange p.2 p.1 := by
    intro p hp
    rw [muSSP_reverse_eq, List.mem_map] at hp
    obtain ⟨q, hq, rfl⟩ := hp
    exact hd q hq
  refine ⟨hmatch, ?_⟩
  have h := assign_eq_filter da src d0 r0 (by rw [hsolver]; exact hd) (by rw [hsolver]; exact hr)
  rw [hsolver] at h
  exact h

end SolverAssignLemmas

/-- C3: for every score matrix (a matrix without negative entry, as `calcScoreMatrix`
produces) the assignment that `assign` returns with the solver `MuSSP` is one-to-one: in
`direct` no tracker index occurs twice as key and no measurement index twice as value, in
`reverse` no measurement index occurs twice as key and no tracker index twice as value. -/
theorem assign_one_to_one (da : DataAssociation) (src : MatrixXd) (d0 r0 : UnorderedMap)
    (hsolver : da.gnn_solver_ptr_ = muSSP)
    (hnn : ∀ row col, row < src.rows → col < src.cols → 0 ≤ src.coeffs row col) :
    ∃ direct reverse, da.assign src d0 r0 = .ok (direct, reverse)
      ∧ (direct.map Prod.fst).Nodup ∧ (direct.map Prod.snd).Nodup
      ∧ (reverse.map Prod.fst).Nodup ∧ (reverse.map Prod.snd).Nodup := by
  obtain ⟨hmatch, hassign⟩ := assign_muSSP da src d0 r0 hsolver hnn
  have hrev := muSSP_reverse_eq (scoreTable src) d0 r0
  have hr1 : ((muSSP.maximizeLinearAssignment (scoreTable src) d0 r0).2.map Prod.fst).Nodup := by
    rw [hrev, List.map_map]
    exact hmatch.2.2
  have hr2 : ((muSSP.maximizeLinearAssignment (scoreTable src) d0 r0).2.map Prod.snd).Nodup := by
    rw [hrev, List.map_map]
    exact hmatch.2.1
  refine ⟨_, _, hassign, ?_, ?_, ?_, ?_⟩
  · exact hmatch.2.1.sublist ((List.filter_sublist _).map _)
  · exact hmatch.2.2.sublist ((List.filter_sublist _).map _)
  · exact hr1.sublist ((List.filter_sublist _).map _)
  · exact hr2.sublist ((List.filter_sublist _).map _)

/-- C3, worked instance: the engine of the constructor with the solver `muSSP` on
`[[5, 4], [4, 0]]`. -/
theorem assign_one_to_one_witness :
    ∃ direct reverse,
      (DataAssociation.create muSSP [] [] [] [] [] []).assign
        (matrixOfRows [[5, 4], [4, 0]] 2) [] [] = .ok (direct, reverse)
      ∧ (direct.map Prod.fst).Nodup ∧ (direct.map Prod.snd).Nodup
      ∧ (reverse.map Prod.fst).Nodup ∧ (reverse.map Prod.snd).Nodup :=
  assign_one_to_one (DataAssociation.create muSSP [] [] [] [] [] [])
    (matrixOfRows [[5, 4], [4, 0]] 2) [] [] rfl (by
      intro row col hrow hcol
      have hrow2 : row < 2 := hrow
      have hcol2 : col < 2 := hcol
      interval_cases row <;> interval_cases col <;> simp [matrixOfRows])

/-! ## Properties over binary64 -/

namespace Double

section RoundHalfEven

theorem roundHalfEven_cases (x : ℚ) :
    (roundHalfEven x = ⌊x⌋ ∧ x - ⌊x⌋ ≤ 1 / 2) ∨ (roundHalfEven x = ⌊x⌋ + 1 ∧ 1 / 2 ≤ x - ⌊x⌋) := by
  unfold roundHalfEven
  by_cases h1 : x - ⌊x⌋ < 1 / 2
  · rw [if_pos h1]
    exact Or.inl ⟨rfl, h1.le⟩
  · rw [if_neg h1]
    by_cases h2 : 1 / 2 < x - ⌊x⌋
    · rw [if_pos h2]
      exact Or.inr ⟨rfl, h2.le⟩
    · rw [if_neg h2]
      by_cases h3 : ⌊x⌋ % 2 = 0
      · rw [if_pos h3]
        exact Or.inl ⟨rfl, not_lt.mp h2⟩
      · rw [if_neg h3]
        exact Or.inr ⟨rfl, not_lt.mp h1⟩

theorem roundHalfEven_of_lt (x : ℚ) (h : x - ⌊x⌋ < 1 / 2) : roundHalfEven x = ⌊x⌋ := by
  unfold roundHalfEven
  rw [if_pos h]

theorem roundHalfEven_of_gt (x : ℚ) (h : 1 / 2 < x - ⌊x⌋) : roundHalfEven x = ⌊x⌋ + 1 := by
  unfold roundHalfEven
  rw [if_neg (not_lt.mpr h.le), if_pos h]

theorem floor_le_roundHalfEven (x : ℚ) : ⌊x⌋ ≤ roundHalfEven x := by
  rcases roundHalfEven_cases x with h | h <;> rw [h.1]
  omega

theorem roundHalfEven_le_floor_add_one (x : ℚ) : roundHalfEven x ≤ ⌊x⌋ + 1 := by
  rcases roundHalfEven_cases x with h | h <;> rw [h.1]
  omega

theorem roundHalfEven_intCast (n : ℤ) : roundHalfEven (n : ℚ) = n := by
  rw [roundHalfEven_of_lt] <;> simp

theorem abs_roundHalfEven_sub (x : ℚ) : |(roundHalfEven x : ℚ) - x| ≤ 1 / 2 := by
  have h0 := Int.floor_le x
  have h1 := Int.lt_floor_add_one x
  rw [abs_le]
  rcases roundHalfEven_cases x with h | h <;> rw [h.1]
  · constructor <;> linarith
  · push_cast
    constructor <;> linarith

theorem le_roundHalfEven {n : ℤ} {x : ℚ} (h : (n : ℚ) ≤ x) : n ≤ roundHalfEven x :=
  (Int.le_floor.mpr h).trans (floor_le_roundHalfEven x)

theorem roundHalfEven_le {n : ℤ} {x : ℚ} (h : x ≤ (n : ℚ)) : roundHalfEven x ≤ n := by
  rcases h.lt_or_eq with hlt | heq
  · have : ⌊x⌋ < n := Int.floor_lt.mpr hlt
    have := roundHalfEven_le_floor_add_one x
    omega
  · rw [heq, roundHalfEven_intCast]

theorem roundHalfEven_mono {x y : ℚ} (h : x ≤ y) : roundHalfEven x ≤ roundHalfEven y := by
  have hf : ⌊x⌋ ≤ ⌊y⌋ := Int.floor_mono h
  rcases hf.lt_or_eq with hlt | heq
  · have h1 := roundHalfEven_le_floor_add_one x
    have h2 := floor_le_roundHalfEven y
    omega
  · by_cases hx : x - ⌊x⌋ < 1 / 2
    · rw [roundHalfEven_of_lt x hx, heq]
      exact floor_le_roundHalfEven y
    · by_cases hy : 1 / 2 < y - ⌊y⌋
      · rw [roundHalfEven_of_gt y hy, ← heq]
        exact roundHalfEven_le_floor_add_one x
      · have hxy : x = y := by
          have h1 : x - ⌊x⌋ = 1 / 2 := by
            have : y - (⌊x⌋ : ℚ) ≤ 1 / 2 := by
              rw [heq]
              exact not_lt.mp hy
            linarith [not_lt.mp hx]
          have h2 : y - (⌊x⌋ : ℚ) = 1 / 2 := by
            have : y - (⌊x⌋ : ℚ) ≤ 1 / 2 := by
              rw [heq]
              exact not_lt.mp hy
            linarith
          linarith
        rw [hxy]

theorem roundHalfEven_eq_of_abs_lt (x : ℚ) (n : ℤ) (h : |x - n| < 1 / 2) :
    roundHalfEven x = n := by
  rw [abs_lt] at h
  by_cases hn : (n : ℚ) ≤ x
  · have hfl : ⌊x⌋ = n := by
      rw [Int.floor_eq_iff]
      constructor <;> linarith
    rw [roundHalfEven_of_lt x (by rw [hfl]; linarith), hfl]
  · have hfl : ⌊x⌋ = n - 1 := by
      rw [Int.floor_eq_iff]
      push_cast
      constructor <;> linarith
    rw [roundHalfEven_of_gt x (by rw [hfl]; push_cast; linarith), hfl]
    omega

/-- A tie goes to the even neighbour. -/
theorem roundHalfEven_of_tie (x : ℚ) (f : ℤ) (h : x = f + 1 / 2) :
    roundHalfEven x = if f % 2 = 0 then f else f + 1 := by
  have hfl : ⌊x⌋ = f := by
    rw [Int.floor_eq_iff, h]
    constructor <;> linarith
  unfold roundHalfEven
  rw [hfl, if_neg (by rw [h]; norm_num), if_neg (by rw [h]; norm_num)]

end RoundHalfEven

section Binade

theorem binade_ge (q : ℚ) : -1022 ≤ binade q := by
  unfold binade
  split_ifs
  · exact le_refl _
  · exact le_max_right _ _

theorem binade_zero : binade 0 = -1022 := by
  unfold binade
  rw [if_pos rfl]

theorem ulp_pos (q : ℚ) : 0 < ulp q := zpow_pos (by norm_num) _

theorem abs_lt_two_zpow_binade_succ (q : ℚ) : |q| < (2 : ℚ) ^ (binade q + 1) := by
  unfold binade
  split_ifs with h
  · rw [h, abs_zero]
    exact zpow_pos (by norm_num) _
  · have h1 := Int.lt_zpow_succ_log_self (b := 2) (by norm_num) |q|
    have h2 : ((2 : ℕ) : ℚ) ^ (Int.log 2 |q| + 1)
        ≤ (2 : ℚ) ^ (max (Int.log 2 |q|) (-1022) + 1) := by
      push_cast
      exact zpow_le_zpow_right₀ (by norm_num) (by have := le_max_left (Int.log 2 |q|) (-1022); omega)
    exact lt_of_lt_of_le h1 h2

theorem two_zpow_binade_le (q : ℚ) (h : binade q ≠ -1022) : (2 : ℚ) ^ binade q ≤ |q| := by
  unfold binade at h ⊢
  split_ifs at h ⊢ with h0
  · exact absurd rfl h
  · have hlog : max (Int.log 2 |q|) (-1022) = Int.log 2 |q| := by
      rcases le_total (Int.log 2 |q|) (-1022) with hle | hle
      · rw [max_eq_right hle] at h
        exact absurd rfl h
      · exact max_eq_left hle
    rw [hlog]
    have := Int.zpow_log_le_self (b := 2) (r := |q|) (by norm_num) (abs_pos.mpr h0)
    exact_mod_cast this

theorem binade_eq_of_bounds (q : ℚ) (e : ℤ) (he : -1022 ≤ e)
    (h1 : (2 : ℚ) ^ e ≤ |q| ∨ e = -1022) (h2 : |q| < (2 : ℚ) ^ (e + 1)) : binade q = e := by
  unfold binade
  split_ifs with h0
  · rcases h1 with h1 | h1
    · rw [h0, abs_zero] at h1
      exact absurd h1 (not_le.mpr (zpow_pos (by norm_num) _))
    · exact h1.symm
  · have hpos : 0 < |q| := abs_pos.mpr h0
    have hlt : Int.log 2 |q| < e + 1 := by
      rw [← Int.lt_zpow_iff_log_lt (by norm_num) hpos]
      exact_mod_cast h2
    rcases h1 with h1 | h1
    · have hle : e ≤ Int.log 2 |q| := by
        rw [← Int.zpow_le_iff_le_log (by norm_num) hpos]
        exact_mod_cast h1
      rw [max_eq_left (by omega)]
      omega
    · rw [h1] at hlt ⊢
      rcases le_total (Int.log 2 |q|) (-1022) with hle | hle
      · exact max_eq_right hle
      · rw [max_eq_left hle]
        omega

theorem binade_le_of_abs_lt (q : ℚ) (k : ℤ) (hk : -1022 ≤ k) (h : |q| < (2 : ℚ) ^ (k + 1)) :
    binade q ≤ k := by
  unfold binade
  split_ifs with h0
  · exact hk
  · have hpos : 0 < |q| := abs_pos.mpr h0
    have hlt : Int.log 2 |q| < k + 1 := by
      rw [← Int.lt_zpow_iff_log_lt (by norm_num) hpos]
      exact_mod_cast h
    exact max_le (by omega) hk

theorem binade_mono {p q : ℚ} (h : |p| ≤ |q|) : binade p ≤ binade q := by
  apply binade_le_of_abs_lt _ _ (binade_ge q)
  exact lt_of_le_of_lt h (abs_lt_two_zpow_binade_succ q)

end Binade

end Double

namespace Double

section Rounding

theorem rnd_zero : rnd 0 = 0 := by
  unfold rnd
  rw [zero_div]
  have : roundHalfEven 0 = 0 := by
    have := roundHalfEven_intCast 0
    simpa using this
  rw [this]
  simp

/-- The rounding error is at most half a unit in the last place. -/
theorem abs_rnd_sub_le (q : ℚ) : |rnd q - q| ≤ ulp q / 2 := by
  have hu := ulp_pos q
  have h := abs_roundHalfEven_sub (q / ulp q)
  have heq : rnd q - q = ((roundHalfEven (q / ulp q) : ℚ) - q / ulp q) * ulp q := by
    unfold rnd
    field_simp
  rw [heq, abs_mul, abs_of_pos hu]
  calc |(roundHalfEven (q / ulp q) : ℚ) - q / ulp q| * ulp q ≤ 1 / 2 * ulp q :=
        mul_le_mul_of_nonneg_right h hu.le
    _ = ulp q / 2 := by ring

theorem ulp_le_of_abs_lt (q : ℚ) (k : ℤ) (hk : -1022 ≤ k) (h : |q| < (2 : ℚ) ^ (k + 1)) :
    ulp q ≤ (2 : ℚ) ^ (k - 52) := by
  unfold ulp
  exact zpow_le_zpow_right₀ (by norm_num) (by have := binade_le_of_abs_lt q k hk h; omega)

/-- The rounding error of a number below `2^(k+1)` in magnitude is at most `2^(k-53)`. -/
theorem abs_rnd_sub_le_of_abs_lt (q : ℚ) (k : ℤ) (hk : -1022 ≤ k)
    (h : |q| < (2 : ℚ) ^ (k + 1)) : |rnd q - q| ≤ (2 : ℚ) ^ (k - 53) := by
  have h1 := abs_rnd_sub_le q
  have h2 := ulp_le_of_abs_lt q k hk h
  have h3 : (2 : ℚ) ^ (k - 52) / 2 = (2 : ℚ) ^ (k - 53) := by
    rw [show k - 52 = (k - 53) + 1 by ring, zpow_add₀ (by norm_num : (2 : ℚ) ≠ 0), zpow_one]
    ring
  linarith

theorem hasMantissa53_neg {f : ℚ} (hf : HasMantissa53 f) : HasMantissa53 (-f) := by
  obtain ⟨k, n, hk1, hn, rfl⟩ := hf
  exact ⟨k, -n, hk1, by rwa [abs_neg], by push_cast; ring⟩

theorem hasMantissa53_zero : HasMantissa53 0 := ⟨0, 0, by norm_num, by norm_num, by simp⟩

theorem cast_two_pow_52 : (((2 : ℤ) ^ 52 : ℤ) : ℚ) = (2 : ℚ) ^ (52 : ℤ) := by norm_num

theorem hasMantissa53_two_zpow (e : ℤ) (h1 : -1022 ≤ e) : HasMantissa53 ((2 : ℚ) ^ e) := by
  refine ⟨e, 2 ^ 52, h1, by norm_num, ?_⟩
  rw [cast_two_pow_52, ← zpow_add₀ (by norm_num : (2 : ℚ) ≠ 0)]
  congr 1
  ring

/-- A binary64 number with an exponent not below the binade of `x` lies on the grid on
which `x` is rounded. -/
theorem grid_of_le (x : ℚ) (k n : ℤ) (hk : binade x ≤ k) :
    ∃ N : ℤ, (n : ℚ) * (2 : ℚ) ^ (k - 52) = N * ulp x := by
  obtain ⟨d, hd⟩ : ∃ d : ℕ, k - binade x = d := ⟨(k - binade x).toNat, by omega⟩
  refine ⟨n * 2 ^ d, ?_⟩
  unfold ulp
  push_cast
  rw [show k - 52 = (d : ℤ) + (binade x - 52) by omega,
    zpow_add₀ (by norm_num : (2 : ℚ) ≠ 0), zpow_natCast]
  ring

/-- A binary64 number with an exponent below the binade of `x` is smaller than that binade. -/
theorem abs_lt_of_lt (x : ℚ) (k n : ℤ) (hn : |n| < 2 ^ 53) (hk : k < binade x) :
    |(n : ℚ) * (2 : ℚ) ^ (k - 52)| < (2 : ℚ) ^ binade x := by
  have hp : (0 : ℚ) < (2 : ℚ) ^ (k - 52) := zpow_pos (by norm_num) _
  rw [abs_mul, abs_of_pos hp]
  have hn2 : |(n : ℚ)| < (2 : ℚ) ^ (53 : ℤ) := by
    have h1 : ((|n| : ℤ) : ℚ) < (((2 : ℤ) ^ 53 : ℤ) : ℚ) := Int.cast_lt.mpr hn
    rw [Int.cast_abs] at h1
    have h2 : (((2 : ℤ) ^ 53 : ℤ) : ℚ) = (2 : ℚ) ^ (53 : ℤ) := by norm_num
    rw [h2] at h1
    exact h1
  calc |(n : ℚ)| * (2 : ℚ) ^ (k - 52) < (2 : ℚ) ^ (53 : ℤ) * (2 : ℚ) ^ (k - 52) :=
        mul_lt_mul_of_pos_right hn2 hp
    _ = (2 : ℚ) ^ (k + 1) := by
        rw [← zpow_add₀ (by norm_num : (2 : ℚ) ≠ 0)]
        congr 1
        ring
    _ ≤ (2 : ℚ) ^ binade x := zpow_le_zpow_right₀ (by norm_num) (by omega)

theorem two_zpow_binade_eq (x : ℚ) : (2 : ℚ) ^ binade x = (((2 : ℤ) ^ 52 : ℤ) : ℚ) * ulp x := by
  unfold ulp
  rw [cast_two_pow_52, ← zpow_add₀ (by norm_num : (2 : ℚ) ≠ 0)]
  congr 1
  ring

/-- Rounding does not pass a binary64 number from above. -/
theorem le_rnd_of_le {f x : ℚ} (hf : HasMantissa53 f) (h : f ≤ x) : f ≤ rnd x := by
  obtain ⟨k, n, hk1, hn, rfl⟩ := hf
  have hu := ulp_pos x
  by_cases hk : binade x ≤ k
  · obtain ⟨N, hN⟩ := grid_of_le x k n hk
    rw [hN] at h ⊢
    unfold rnd
    apply mul_le_mul_of_nonneg_right _ hu.le
    have : (N : ℚ) ≤ x / ulp x := by rwa [le_div_iff₀ hu]
    exact_mod_cast le_roundHalfEven this
  · have hlt := abs_lt_of_lt x k n hn (by omega)
    have hb : binade x ≠ -1022 := by omega
    have hx := two_zpow_binade_le x hb
    rcases le_or_lt 0 x with hx0 | hx0
    · rw [abs_of_nonneg hx0] at hx
      have h2 : (((2 : ℤ) ^ 52 : ℤ) : ℚ) ≤ x / ulp x := by
        rw [le_div_iff₀ hu, ← two_zpow_binade_eq]
        exact hx
      have h3 : (((2 : ℤ) ^ 52 : ℤ) : ℚ) * ulp x ≤ rnd x := by
        unfold rnd
        apply mul_le_mul_of_nonneg_right _ hu.le
        exact_mod_cast le_roundHalfEven h2
      rw [← two_zpow_binade_eq] at h3
      have := le_abs_self ((n : ℚ) * (2 : ℚ) ^ (k - 52))
      linarith
    · rw [abs_of_neg hx0] at hx
      have := neg_abs_le ((n : ℚ) * (2 : ℚ) ^ (k - 52))
      linarith

/-- Rounding does not pass a binary64 number from below. -/
theorem rnd_le_of_le {f x : ℚ} (hf : HasMantissa53 f) (h : x ≤ f) : rnd x ≤ f := by
  obtain ⟨k, n, hk1, hn, rfl⟩ := hf
  have hu := ulp_pos x
  by_cases hk : binade x ≤ k
  · obtain ⟨N, hN⟩ := grid_of_le x k n hk
    rw [hN] at h ⊢
    unfold rnd
    apply mul_le_mul_of_nonneg_right _ hu.le
    have : x / ulp x ≤ (N : ℚ) := by rwa [div_le_iff₀ hu]
    exact_mod_cast roundHalfEven_le this
  · have hlt := abs_lt_of_lt x k n hn (by omega)
    have hb : binade x ≠ -1022 := by omega
    have hx := two_zpow_binade_le x hb
    rcases le_or_lt 0 x with hx0 | hx0
    · rw [abs_of_nonneg hx0] at hx
      have := le_abs_self ((n : ℚ) * (2 : ℚ) ^ (k - 52))
      linarith
    · rw [abs_of_neg hx0] at hx
      have h4 := two_zpow_binade_eq x
      have h2 : x / ulp x ≤ ((-((2 : ℤ) ^ 52) : ℤ) : ℚ) := by
        rw [div_le_iff₀ hu, Int.cast_neg]
        linarith
      have h3 : rnd x ≤ ((-((2 : ℤ) ^ 52) : ℤ) : ℚ) * ulp x := by
        unfold rnd
        apply mul_le_mul_of_nonneg_right _ hu.le
        exact_mod_cast roundHalfEven_le h2
      rw [Int.cast_neg] at h3
      have := neg_abs_le ((n : ℚ) * (2 : ℚ) ^ (k - 52))
      linarith

/-- A binary64 number is rounded to itself. -/
theorem rnd_eq_self {f : ℚ} (hf : HasMantissa53 f) : rnd f = f :=
  le_antisymm (rnd_le_of_le hf le_rfl) (le_rnd_of_le hf le_rfl)

/-- Rounding is monotone. -/
theorem rnd_mono {x y : ℚ} (h : x ≤ y) : rnd x ≤ rnd y := by
  by_cases he : binade x = binade y
  · have hu : ulp x = ulp y := by
      unfold ulp
      rw [he]
    unfold rnd
    rw [hu]
    apply mul_le_mul_of_nonneg_right _ (ulp_pos y).le
    exact_mod_cast roundHalfEven_mono (div_le_div_of_nonneg_right h (ulp_pos y).le)
  · have key : ∃ f, HasMantissa53 f ∧ x ≤ f ∧ f ≤ y := by
      rcases le_or_lt x 0 with hx0 | hx0
      · rcases le_or_lt 0 y with hy0 | hy0
        · exact ⟨0, hasMantissa53_zero, hx0, hy0⟩
        · have hxy : |y| ≤ |x| := by
            rw [abs_of_neg hy0, abs_of_nonpos hx0]
            linarith
          have hlt : binade y < binade x := lt_of_le_of_ne (binade_mono hxy) (Ne.symm he)
          have hb : binade x ≠ -1022 := by
            have := binade_ge y
            omega
          have h1 := two_zpow_binade_le x hb
          have h2 := abs_lt_two_zpow_binade_succ y
          have h3 : (2 : ℚ) ^ (binade y + 1) ≤ (2 : ℚ) ^ binade x :=
            zpow_le_zpow_right₀ (by norm_num) (by omega)
          rw [abs_of_nonpos hx0] at h1
          rw [abs_of_neg hy0] at h2
          exact ⟨-(2 : ℚ) ^ binade x, hasMantissa53_neg (hasMantissa53_two_zpow _ (binade_ge x)),
            by linarith, by linarith⟩
      · have hy0 : 0 < y := lt_of_lt_of_le hx0 h
        have hxy : |x| ≤ |y| := by
          rw [abs_of_pos hy0, abs_of_pos hx0]
          exact h
        have hlt : binade x < binade y := lt_of_le_of_ne (binade_mono hxy) he
        have hb : binade y ≠ -1022 := by
          have := binade_ge x
          omega
        have h1 := two_zpow_binade_le y hb
        have h2 := abs_lt_two_zpow_binade_succ x
        have h3 : (2 : ℚ) ^ (binade x + 1) ≤ (2 : ℚ) ^ binade y :=
          zpow_le_zpow_right₀ (by norm_num) (by omega)
        rw [abs_of_pos hy0] at h1
        rw [abs_of_pos hx0] at h2
        exact ⟨(2 : ℚ) ^ binade y, hasMantissa53_two_zpow _ (binade_ge y),
          by linarith, by linarith⟩
    obtain ⟨f, hf, h1, h2⟩ := key
    exact (rnd_le_of_le hf h1).trans (le_rnd_of_le hf h2)

/-- The value of the rounding, from the binade `e` of the number and the integer `n` nearest
to its quotient by the unit of that binade. -/
theorem rnd_eq_of_bounds (q : ℚ) (e n : ℤ) (he : -1022 ≤ e)
    (h1 : (2 : ℚ) ^ e ≤ |q| ∨ e = -1022) (h2 : |q| < (2 : ℚ) ^ (e + 1))
    (hn : |q / (2 : ℚ) ^ (e - 52) - n| < 1 / 2) : rnd q = n * (2 : ℚ) ^ (e - 52) := by
  unfold rnd ulp
  rw [binade_eq_of_bounds q e he h1 h2, roundHalfEven_eq_of_abs_lt _ n hn]

/-- The value of the rounding at a tie: the binade `e` of the number, and the even one of the
two integers nearest to its quotient by the unit of that binade. -/
theorem rnd_eq_of_tie (q : ℚ) (e f : ℤ) (he : -1022 ≤ e)
    (h1 : (2 : ℚ) ^ e ≤ |q| ∨ e = -1022) (h2 : |q| < (2 : ℚ) ^ (e + 1))
    (hf : q / (2 : ℚ) ^ (e - 52) = f + 1 / 2) :
    rnd q = ((if f % 2 = 0 then f else f + 1 : ℤ) : ℚ) * (2 : ℚ) ^ (e - 52) := by
  unfold rnd ulp
  rw [binade_eq_of_bounds q e he h1 h2, roundHalfEven_of_tie _ f hf]

/-- The rounded number has a mantissa of at most 53 bits. -/
theorem hasMantissa53_rnd (q : ℚ) : HasMantissa53 (rnd q) := by
  have hu := ulp_pos q
  have h2 := abs_lt_two_zpow_binade_succ q
  have hle : |(roundHalfEven (q / ulp q) : ℤ)| ≤ (2 : ℤ) ^ 53 := by
    have hq : |q / ulp q| < (2 : ℚ) ^ (53 : ℤ) := by
      rw [abs_div, abs_of_pos hu, div_lt_iff₀ hu]
      unfold ulp
      rw [← zpow_add₀ (by norm_num : (2 : ℚ) ≠ 0)]
      rw [show (53 : ℤ) + (binade q - 52) = binade q + 1 by ring]
      exact h2
    have hc : (((2 : ℤ) ^ 53 : ℤ) : ℚ) = (2 : ℚ) ^ (53 : ℤ) := by norm_num
    rw [abs_lt] at hq
    rw [abs_le]
    constructor
    · have : ((-((2 : ℤ) ^ 53) : ℤ) : ℚ) ≤ q / ulp q := by
        rw [Int.cast_neg, hc]
        exact hq.1.le
      exact le_roundHalfEven this
    · have : q / ulp q ≤ (((2 : ℤ) ^ 53 : ℤ) : ℚ) := by
        rw [hc]
        exact hq.2.le
      exact roundHalfEven_le this
  rcases hle.lt_or_eq with hlt | heq
  · exact ⟨binade q, roundHalfEven (q / ulp q), binade_ge q, hlt, rfl⟩
  · refine ⟨binade q + 1, roundHalfEven (q / ulp q) / 2, by have := binade_ge q; omega, ?_, ?_⟩
    · rcases abs_cases (roundHalfEven (q / ulp q)) with ⟨h, -⟩ | ⟨h, -⟩ <;> rw [h] at heq
      · rw [heq]
        norm_num
      · have : roundHalfEven (q / ulp q) = -(2 : ℤ) ^ 53 := by omega
        rw [this]
        norm_num
    · have hdiv : (2 : ℤ) ∣ roundHalfEven (q / ulp q) := by
        rcases abs_cases (roundHalfEven (q / ulp q)) with ⟨h, -⟩ | ⟨h, -⟩ <;> rw [h] at heq
        · rw [heq]
          norm_num
        · have : roundHalfEven (q / ulp q) = -(2 : ℤ) ^ 53 := by omega
          rw [this]
          norm_num
      obtain ⟨c, hc⟩ := hdiv
      unfold rnd
      rw [hc, Int.mul_ediv_cancel_left c (by norm_num)]
      unfold ulp
      push_cast
      rw [show binade q + 1 - 52 = (binade q - 52) + 1 by ring,
        zpow_add₀ (by norm_num : (2 : ℚ) ≠ 0), zpow_one]
      ring

end Rounding

end Double

namespace Double

section OfRat

theorem toRat_zero (b : Bool) : (zero b).toRat = 0 := by
  cases b <;> rfl

theorem isFinite_zero (b : Bool) : (zero b).isFinite = true := by
  cases b <;> rfl

/-- Without overflow the delivered `double` is finite and denotes the rounded number. -/
theorem ofRat_finite (q : ℚ) (h : |rnd q| < (2 : ℚ) ^ 1024) :
    (ofRat q).isFinite = true ∧ (ofRat q).toRat = rnd q := by
  unfold ofRat
  rw [if_neg (not_le.mpr h)]
  by_cases h0 : rnd q = 0
  · rw [if_pos h0, h0]
    exact ⟨isFinite_zero _, toRat_zero _⟩
  · rw [if_neg h0]
    exact ⟨rfl, rfl⟩

theorem abs_rnd_le_of_abs_le {f q : ℚ} (hf : HasMantissa53 f) (h : |q| ≤ f) : |rnd q| ≤ f := by
  rw [abs_le] at h ⊢
  exact ⟨le_rnd_of_le (hasMantissa53_neg hf) h.1, rnd_le_of_le hf h.2⟩

theorem abs_rnd_lt_of_abs_le_two_zpow (q : ℚ) (k : ℤ) (hk1 : -1022 ≤ k) (hk2 : k < 1024)
    (h : |q| ≤ (2 : ℚ) ^ k) : |rnd q| < (2 : ℚ) ^ 1024 := by
  have h1 := abs_rnd_le_of_abs_le (hasMantissa53_two_zpow k hk1) h
  have h2 : (2 : ℚ) ^ k < (2 : ℚ) ^ (1024 : ℤ) := zpow_lt_zpow_right₀ (by norm_num) hk2
  have h3 : (2 : ℚ) ^ (1024 : ℤ) = (2 : ℚ) ^ (1024 : ℕ) := zpow_natCast 2 1024
  rw [h3] at h2
  exact lt_of_le_of_lt h1 h2

/-- The delivered `double`, from the value of the rounding. -/
theorem ofRat_eq_fin (q v : ℚ) (k : ℤ) (hk1 : -1022 ≤ k) (hk2 : k < 1024) (h : rnd q = v)
    (hv : v ≠ 0) (hb : |q| ≤ (2 : ℚ) ^ k) : ofRat q = fin v := by
  have hlt := abs_rnd_lt_of_abs_le_two_zpow q k hk1 hk2 hb
  unfold ofRat
  rw [if_neg (not_le.mpr hlt), h, if_neg hv]

/-- A binary64 number other than zero is delivered as it is. -/
theorem ofRat_of_hasMantissa53 (v : ℚ) (k : ℤ) (hk1 : -1022 ≤ k) (hk2 : k < 1024)
    (h : HasMantissa53 v) (hv : v ≠ 0) (hb : |v| ≤ (2 : ℚ) ^ k) : ofRat v = fin v :=
  ofRat_eq_fin v v k hk1 hk2 (rnd_eq_self h) hv hb

theorem ofRat_zero : ofRat 0 = fin 0 := by
  unfold ofRat
  rw [rnd_zero]
  simp [zero]

/-- An integer of at most 53 bits is a binary64 number. -/
theorem hasMantissa53_intCast (n : ℤ) (h : |n| < 2 ^ 53) : HasMantissa53 (n : ℚ) :=
  ⟨52, n, by norm_num, h, by simp⟩

end OfRat

end Double

namespace Double

section Comparison

theorem isNaN_zero (b : Bool) : (zero b).isNaN = false := by
  cases b <;> rfl

theorem isNaN_inf (b : Bool) : (inf b).isNaN = false := by
  cases b <;> rfl

/-- A rounded number is never NaN. -/
theorem isNaN_ofRat (q : ℚ) : (ofRat q).isNaN = false := by
  unfold ofRat
  split_ifs
  · exact isNaN_inf _
  · exact isNaN_zero _
  · rfl

theorem lt_def (x y : Double) : x < y ↔ lt x y = true := Iff.rfl

theorem le_def (x y : Double) : x ≤ y ↔ le x y = true := Iff.rfl

theorem add_def (x y : Double) : x + y = add x y := rfl

theorem sub_def (x y : Double) : x - y = add x (neg y) := rfl

theorem mul_def (x y : Double) : x * y = mul x y := rfl

theorem div_def (x y : Double) : x / y = div x y := rfl

theorem neg_def (x : Double) : -x = neg x := rfl

/-- A comparison with NaN is false. -/
theorem not_lt_nan_left (y : Double) : ¬ (nan < y) := by
  rw [lt_def]
  simp [lt, isNaN]

theorem not_lt_nan_right (x : Double) : ¬ (x < nan) := by
  rw [lt_def]
  simp [lt, isNaN]

theorem not_le_nan_left (y : Double) : ¬ (nan ≤ y) := by
  rw [le_def]
  simp [le, isNaN]

theorem not_le_nan_right (x : Double) : ¬ (x ≤ nan) := by
  rw [le_def]
  simp [le, isNaN]

theorem lt_of_isNaN_left {x : Double} (h : x.isNaN = true) (y : Double) : ¬ (x < y) := by
  cases x <;> simp [isNaN] at h
  exact not_lt_nan_left y

theorem le_of_isNaN_right {y : Double} (h : y.isNaN = true) (x : Double) : ¬ (x ≤ y) := by
  cases y <;> simp [isNaN] at h
  exact not_le_nan_right x

/-- On values that are not NaN the order is total: `x < y` fails exactly when `y <= x`. -/
theorem not_lt_iff_le {x y : Double} (hx : x.isNaN = false) (hy : y.isNaN = false) :
    ¬ (x < y) ↔ y ≤ x := by
  rw [lt_def, le_def]
  cases x <;> cases y <;> simp [lt, le, isNaN, isFinite, signBit, toRat] at hx hy ⊢

/-- The test `x < y` fails exactly when `y <= x` or one of the two is NaN. -/
theorem not_lt_iff (x y : Double) :
    ¬ (x < y) ↔ y ≤ x ∨ x.isNaN = true ∨ y.isNaN = true := by
  cases hx : x.isNaN
  · cases hy : y.isNaN
    · rw [not_lt_iff_le hx hy]
      simp
    · simp only [or_true, iff_true]
      rw [lt_def]
      simp [lt, hy]
  · simp only [true_or, or_true, iff_true]
    exact lt_of_isNaN_left hx y

theorem isFinite_of_fin (q : ℚ) : (fin q).isFinite = true := rfl

theorem lt_iff_of_finite {x y : Double} (hx : x.isFinite = true) (hy : y.isFinite = true) :
    x < y ↔ x.toRat < y.toRat := by
  rw [lt_def]
  cases x <;> cases y <;> simp [lt, isNaN, isFinite, toRat] at hx hy ⊢

theorem le_iff_of_finite {x y : Double} (hx : x.isFinite = true) (hy : y.isFinite = true) :
    x ≤ y ↔ x.toRat ≤ y.toRat := by
  rw [le_def]
  cases x <;> cases y <;> simp [le, isNaN, isFinite, toRat] at hx hy ⊢

theorem isNaN_of_isFinite {x : Double} (hx : x.isFinite = true) : x.isNaN = false := by
  cases x <;> simp [isFinite, isNaN] at hx ⊢

end Comparison

section Arithmetic

theorem isFinite_neg (x : Double) : (neg x).isFinite = x.isFinite := by
  cases x <;> simp [neg, isFinite]
  split_ifs <;> rfl

theorem toRat_neg (x : Double) : (neg x).toRat = -x.toRat := by
  cases x <;> simp [neg, toRat]
  split_ifs with h
  · simp [toRat, h]
  · rfl

/-- The sum of two finite values, without overflow: the rounded exact sum. -/
theorem add_finite {x y : Double} (hx : x.isFinite = true) (hy : y.isFinite = true)
    (h : |rnd (x.toRat + y.toRat)| < (2 : ℚ) ^ 1024) :
    (x + y).isFinite = true ∧ (x + y).toRat = rnd (x.toRat + y.toRat) := by
  rw [add_def]
  unfold add
  rw [isNaN_of_isFinite hx, isNaN_of_isFinite hy, hx, hy]
  simp only [Bool.or_self, Bool.false_eq_true, if_false, Bool.and_self, if_true]
  by_cases h0 : x.toRat + y.toRat = 0
  · rw [if_pos h0, h0, rnd_zero]
    exact ⟨isFinite_zero _, toRat_zero _⟩
  · rw [if_neg h0]
    exact ofRat_finite _ h

/-- The difference of two finite values, without overflow: the rounded exact difference. -/
theorem sub_finite {x y : Double} (hx : x.isFinite = true) (hy : y.isFinite = true)
    (h : |rnd (x.toRat - y.toRat)| < (2 : ℚ) ^ 1024) :
    (x - y).isFinite = true ∧ (x - y).toRat = rnd (x.toRat - y.toRat) := by
  have hny : (neg y).isFinite = true := by rw [isFinite_neg, hy]
  have := add_finite hx hny (by rw [toRat_neg, ← sub_eq_add_neg]; exact h)
  rw [toRat_neg, ← sub_eq_add_neg] at this
  exact this

/-- The product of two finite values, without overflow: the rounded exact product. -/
theorem mul_finite {x y : Double} (hx : x.isFinite = true) (hy : y.isFinite = true)
    (h : |rnd (x.toRat * y.toRat)| < (2 : ℚ) ^ 1024) :
    (x * y).isFinite = true ∧ (x * y).toRat = rnd (x.toRat * y.toRat) := by
  rw [mul_def]
  unfold mul
  rw [isNaN_of_isFinite hx, isNaN_of_isFinite hy, hx, hy]
  simp only [Bool.or_self, Bool.false_eq_true, if_false, Bool.and_self, if_true]
  by_cases h0 : x.toRat * y.toRat = 0
  · rw [if_pos h0, h0, rnd_zero]
    exact ⟨isFinite_zero _, toRat_zero _⟩
  · rw [if_neg h0]
    exact ofRat_finite _ h

/-- The quotient of two finite values, the divisor not zero, without overflow: the rounded
exact quotient. -/
theorem div_finite {x y : Double} (hx : x.isFinite = true) (hy : y.isFinite = true)
    (hy0 : y.toRat ≠ 0) (h : |rnd (x.toRat / y.toRat)| < (2 : ℚ) ^ 1024) :
    (x / y).isFinite = true ∧ (x / y).toRat = rnd (x.toRat / y.toRat) := by
  rw [div_def]
  unfold div
  rw [isNaN_of_isFinite hx, isNaN_of_isFinite hy, hx, hy]
  simp only [Bool.or_self, Bool.false_eq_true, if_false, Bool.and_self, if_true]
  rw [if_neg hy0]
  by_cases h0 : x.toRat = 0
  · rw [if_pos h0, h0, zero_div, rnd_zero]
    exact ⟨isFinite_zero _, toRat_zero _⟩
  · rw [if_neg h0]
    exact ofRat_finite _ h

theorem isFinite_fabs (x : Double) (hx : x.isFinite = true) : (fabs x).isFinite = true := by
  cases x <;> simp [fabs, isFinite] at hx ⊢

theorem toRat_fabs (x : Double) : (fabs x).toRat = |x.toRat| := by
  cases x <;> simp [fabs, toRat]

/-- The quotient `0 / 0` is NaN, whatever the signs of the zeros. -/
theorem div_zero_zero {x y : Double} (hx : x.isFinite = true) (hy : y.isFinite = true)
    (hx0 : x.toRat = 0) (hy0 : y.toRat = 0) : x / y = nan := by
  rw [div_def]
  unfold div
  rw [isNaN_of_isFinite hx, isNaN_of_isFinite hy, hx, hy]
  simp [hx0, hy0]

end Arithmetic

end Double

namespace Binary64

open Double

section Constants

theorem M_PI_eq : M_PI = Double.fin (884279719003555 / 281474976710656) := by
  show Double.ofRat (3.14159265358979323846 : ℚ) = _
  refine ofRat_eq_fin _ _ 2 (by norm_num) (by norm_num) ?_ (by norm_num)
    (by norm_num [abs_le])
  have := rnd_eq_of_bounds (3.14159265358979323846 : ℚ) 1 7074237752028440 (by norm_num)
    (Or.inl (by norm_num [le_abs])) (by norm_num [abs_lt]) (by norm_num [abs_lt])
  rw [this]
  norm_num

theorem M_PI_2_eq : M_PI_2 = Double.fin (884279719003555 / 562949953421312) := by
  show Double.ofRat (1.57079632679489661923 : ℚ) = _
  refine ofRat_eq_fin _ _ 1 (by norm_num) (by norm_num) ?_ (by norm_num)
    (by norm_num [abs_le])
  have := rnd_eq_of_bounds (1.57079632679489661923 : ℚ) 0 7074237752028440 (by norm_num)
    (Or.inl (by norm_num [le_abs])) (by norm_num [abs_lt]) (by norm_num [abs_lt])
  rw [this]
  norm_num

theorem two_eq : (2.0 : Double) = Double.fin 2 := by
  show Double.ofRat (2.0 : ℚ) = _
  have h : (2.0 : ℚ) = ((2 : ℤ) : ℚ) := by norm_num
  rw [h]
  have := ofRat_of_hasMantissa53 ((2 : ℤ) : ℚ) 1 (by norm_num) (by norm_num)
    (hasMantissa53_intCast 2 (by norm_num)) (by norm_num) (by norm_num [abs_le])
  rw [this]
  norm_num

theorem two_M_PI_eq : (2.0 : Double) * M_PI = Double.fin (884279719003555 / 140737488355328) := by
  rw [two_eq, M_PI_eq, mul_def]
  unfold Double.mul
  simp only [isNaN, isFinite, toRat, Bool.or_self, Bool.false_eq_true, if_false, Bool.and_self,
    if_true]
  rw [if_neg (by norm_num)]
  have hm : HasMantissa53 ((2 : ℚ) * (884279719003555 / 281474976710656)) :=
    ⟨2, 7074237752028440, by norm_num, by norm_num, by norm_num⟩
  rw [ofRat_of_hasMantissa53 _ 3 (by norm_num) (by norm_num) hm (by norm_num)
    (by norm_num [abs_le])]
  norm_num

/-- The number that `angle_range` denotes. -/
theorem angleRange_eq (dfb : Bool) :
    angleRange dfb = Double.fin (if dfb then 884279719003555 / 281474976710656
      else 884279719003555 / 562949953421312) := by
  cases dfb
  · exact M_PI_2_eq
  · exact M_PI_eq

/-- The number that `angle_step` denotes: twice that of `angle_range`. -/
theorem angleStep_eq (dfb : Bool) :
    angleStep dfb = Double.fin (2 * (angleRange dfb).toRat) := by
  cases dfb
  · show M_PI = _
    rw [angleRange_eq, M_PI_eq]
    norm_num [toRat]
  · show (2.0 : Double) * M_PI = _
    rw [angleRange_eq, two_M_PI_eq]
    norm_num [toRat]

end Constants

end Binary64

namespace Binary64

open Double

section YawLoops

theorem angleRange_isFinite (dfb : Bool) : (angleRange dfb).isFinite = true := by
  rw [angleRange_eq]
  rfl

theorem angleRange_toRat (dfb : Bool) :
    (angleRange dfb).toRat = if dfb then 884279719003555 / 281474976710656
      else 884279719003555 / 562949953421312 := by
  rw [angleRange_eq]
  rfl

theorem angleRange_gt (dfb : Bool) : (3 / 2 : ℚ) < (angleRange dfb).toRat := by
  rw [angleRange_toRat]
  cases dfb <;> norm_num

theorem angleRange_le (dfb : Bool) : (angleRange dfb).toRat ≤ 22 / 7 := by
  rw [angleRange_toRat]
  cases dfb <;> norm_num

theorem angleRange_hasMantissa53 (dfb : Bool) : HasMantissa53 (angleRange dfb).toRat := by
  rw [angleRange_toRat]
  cases dfb
  · exact ⟨0, 7074237752028440, by norm_num, by norm_num, by norm_num⟩
  · exact ⟨1, 7074237752028440, by norm_num, by norm_num, by norm_num⟩

theorem angleRange_slack_hasMantissa53 (dfb : Bool) :
    HasMantissa53 ((angleRange dfb).toRat + (2 : ℚ) ^ (-50 : ℤ)) := by
  rw [angleRange_toRat]
  cases dfb
  · exact ⟨0, 7074237752028444, by norm_num, by norm_num, by norm_num⟩
  · exact ⟨1, 7074237752028442, by norm_num, by norm_num, by norm_num⟩

theorem angleStep_isFinite (dfb : Bool) : (angleStep dfb).isFinite = true := by
  rw [angleStep_eq]
  rfl

theorem angleStep_toRat (dfb : Bool) : (angleStep dfb).toRat = 2 * (angleRange dfb).toRat := by
  rw [angleStep_eq]
  rfl

theorem abs_rnd_lt_of_abs_le_eight (x : ℚ) (h : |x| ≤ 8) : |rnd x| < (2 : ℚ) ^ 1024 :=
  abs_rnd_lt_of_abs_le_two_zpow x 3 (by norm_num) (by norm_num) (by norm_num; exact h)

/-- The rounding error of a number below 8 in magnitude is at most `2^-51`
(`2^51 = 2251799813685248`). -/
theorem abs_rnd_sub_le_of_abs_lt_eight (x : ℚ) (h : |x| < 8) :
    |rnd x - x| ≤ 1 / 2251799813685248 := by
  have := abs_rnd_sub_le_of_abs_lt x 2 (by norm_num) (by norm_num; exact h)
  norm_num at this ⊢
  exact this

/-- The test `angle_range <= x - y` of the two loops, on finite values. -/
theorem range_le_sub_iff (dfb : Bool) {x y : Double} (hx : x.isFinite = true)
    (hy : y.isFinite = true) (hb : |x.toRat - y.toRat| ≤ 8) :
    angleRange dfb ≤ x - y ↔ (angleRange dfb).toRat ≤ rnd (x.toRat - y.toRat) := by
  obtain ⟨h1, h2⟩ := sub_finite hx hy (abs_rnd_lt_of_abs_le_eight _ hb)
  rw [le_iff_of_finite (angleRange_isFinite dfb) h1, h2]

/-- When the test holds, the exact difference is not below `angle_range - 2^-51` (`2^51 = 2251799813685248`). -/
theorem range_le_sub_true (dfb : Bool) {x y : Double} (hx : x.isFinite = true)
    (hy : y.isFinite = true) (hb : |x.toRat - y.toRat| ≤ 7)
    (h : angleRange dfb ≤ x - y) :
    (angleRange dfb).toRat - 1 / 2251799813685248 ≤ x.toRat - y.toRat := by
  rw [range_le_sub_iff dfb hx hy (by linarith)] at h
  have he := abs_rnd_sub_le_of_abs_lt_eight (x.toRat - y.toRat) (by linarith)
  rw [abs_le] at he
  linarith [he.2]

/-- When the test fails, the exact difference is below `angle_range`. -/
theorem range_le_sub_false (dfb : Bool) {x y : Double} (hx : x.isFinite = true)
    (hy : y.isFinite = true) (hb : |x.toRat - y.toRat| ≤ 8)
    (h : ¬ angleRange dfb ≤ x - y) : x.toRat - y.toRat < (angleRange dfb).toRat := by
  rw [range_le_sub_iff dfb hx hy hb] at h
  by_contra hge
  exact h (le_rnd_of_le (angleRange_hasMantissa53 dfb) (not_lt.mp hge))

/-- One pass of the body of the first loop. -/
theorem add_step (dfb : Bool) {m : Double} (hm : m.isFinite = true)
    (hb : |m.toRat + 2 * (angleRange dfb).toRat| < 8) :
    (m + angleStep dfb).isFinite = true
    ∧ |(m + angleStep dfb).toRat - (m.toRat + 2 * (angleRange dfb).toRat)|
        ≤ 1 / 2251799813685248 := by
  have hs := angleStep_toRat dfb
  obtain ⟨h1, h2⟩ := add_finite hm (angleStep_isFinite dfb)
    (abs_rnd_lt_of_abs_le_eight _ (by rw [hs]; exact hb.le))
  refine ⟨h1, ?_⟩
  rw [h2, hs]
  exact abs_rnd_sub_le_of_abs_lt_eight _ hb

/-- One pass of the body of the second loop. -/
theorem sub_step (dfb : Bool) {m : Double} (hm : m.isFinite = true)
    (hb : |m.toRat - 2 * (angleRange dfb).toRat| < 8) :
    (m - angleStep dfb).isFinite = true
    ∧ |(m - angleStep dfb).toRat - (m.toRat - 2 * (angleRange dfb).toRat)|
        ≤ 1 / 2251799813685248 := by
  have hs := angleStep_toRat dfb
  obtain ⟨h1, h2⟩ := sub_finite hm (angleStep_isFinite dfb)
    (abs_rnd_lt_of_abs_le_eight _ (by rw [hs]; exact hb.le))
  refine ⟨h1, ?_⟩
  rw [h2, hs]
  exact abs_rnd_sub_le_of_abs_lt_eight _ hb

end YawLoops

end Binary64

namespace Binary64

open Double

section YawLoopSpecs

theorem fixYawUp_succ (dfb : Bool) (t m : Double) (fuel : Nat) :
    fixYawUp dfb t (fuel + 1) m
      = if Double.le (angleRange dfb) (t - m) = true then
          fixYawUp dfb t fuel (m + angleStep dfb)
        else some m := rfl

theorem fixYawDown_succ (dfb : Bool) (t m : Double) (fuel : Nat) :
    fixYawDown dfb t (fuel + 1) m
      = if Double.le (angleRange dfb) (m - t) = true then
          fixYawDown dfb t fuel (m - angleStep dfb)
        else some m := rfl

/-- The first loop on finite yaws of moderate size: it ends within three tests of its
condition, after at most two additions of the step, each exact up to `2^-51`; on exit
`tracker_yaw - m' < angle_range`, and after an addition
`-angle_range - 2^-50 <= tracker_yaw - m'`. -/
theorem fixYawUp_bounds (dfb : Bool) (t m : Double) (ht : t.isFinite = true)
    (hm : m.isFinite = true) (htb : |t.toRat| ≤ 22 / 7) (hmb : |m.toRat| ≤ 7)
    (hd : |t.toRat - m.toRat| ≤ 7) :
    ∃ (m' : Double) (k : ℕ), k ≤ 2 ∧ m'.isFinite = true
      ∧ (∀ fuel, 3 ≤ fuel → fixYawUp dfb t fuel m = some m')
      ∧ |m'.toRat - (m.toRat + k * (2 * (angleRange dfb).toRat))| ≤ k * (2 : ℚ) ^ (-51 : ℤ)
      ∧ t.toRat - m'.toRat < (angleRange dfb).toRat
      ∧ (k = 0 → m' = m)
      ∧ (1 ≤ k → -(angleRange dfb).toRat - (2 : ℚ) ^ (-50 : ℤ) ≤ t.toRat - m'.toRat)
      ∧ ¬ (Double.le (angleRange dfb) (t - m') = true) := by
  have hr1 := angleRange_gt dfb
  have hr2 := angleRange_le dfb
  rw [abs_le] at htb hmb hd
  have he51 : (2 : ℚ) ^ (-51 : ℤ) = 1 / 2251799813685248 := by norm_num
  have he50 : (2 : ℚ) ^ (-50 : ℤ) = 1 / 1125899906842624 := by norm_num
  simp only [he51, he50]
  clear he51 he50
  by_cases c0 : Double.le (angleRange dfb) (t - m) = true
  · -- one addition
    have hx0 := range_le_sub_true dfb ht hm (abs_le.mpr hd) c0
    obtain ⟨hm1, he1⟩ := add_step dfb hm (by rw [abs_lt]; constructor <;> linarith)
    rw [abs_le] at he1
    have hd1 : |t.toRat - (m + angleStep dfb).toRat| ≤ 7 := by
      rw [abs_le]
      constructor <;> linarith [he1.1, he1.2]
    by_cases c1 : Double.le (angleRange dfb) (t - (m + angleStep dfb)) = true
    · -- a second addition
      have hx1 := range_le_sub_true dfb ht hm1 hd1 c1
      obtain ⟨hm2, he2⟩ := add_step dfb hm1
        (by rw [abs_lt]; constructor <;> linarith [he1.1, he1.2])
      rw [abs_le] at he2
      have hd2 : |t.toRat - (m + angleStep dfb + angleStep dfb).toRat| ≤ 7 := by
        rw [abs_le]
        constructor <;> linarith [he1.1, he1.2, he2.1, he2.2]
      have c2 : ¬ Double.le (angleRange dfb) (t - (m + angleStep dfb + angleStep dfb)) = true := by
        intro c2
        have hx2 := range_le_sub_true dfb ht hm2 hd2 c2
        linarith [he1.1, he1.2, he2.1, he2.2]
      have hx2 := range_le_sub_false dfb ht hm2 (by linarith) c2
      refine ⟨m + angleStep dfb + angleStep dfb, 2, le_refl _, hm2, ?_, ?_, hx2, ?_, ?_, c2⟩
      · intro fuel hfuel
        obtain ⟨f, rfl⟩ : ∃ f, fuel = f + 3 := ⟨fuel - 3, by omega⟩
        rw [fixYawUp_succ, if_pos c0, fixYawUp_succ, if_pos c1, fixYawUp_succ, if_neg c2]
      · rw [abs_le]
        push_cast
        constructor <;> linarith [he1.1, he1.2, he2.1, he2.2]
      · intro h
        omega
      · intro _
        linarith [he1.1, he1.2, he2.1, he2.2]
    · have hx1 := range_le_sub_false dfb ht hm1 (by linarith) c1
      refine ⟨m + angleStep dfb, 1, by omega, hm1, ?_, ?_, hx1, ?_, ?_, c1⟩
      · intro fuel hfuel
        obtain ⟨f, rfl⟩ : ∃ f, fuel = f + 3 := ⟨fuel - 3, by omega⟩
        rw [fixYawUp_succ, if_pos c0, fixYawUp_succ, if_neg c1]
      · rw [abs_le]
        push_cast
        constructor <;> linarith [he1.1, he1.2]
      · intro h
        omega
      · intro _
        linarith [he1.1, he1.2]
  · have hx0 := range_le_sub_false dfb ht hm (by rw [abs_le]; constructor <;> linarith) c0
    refine ⟨m, 0, by omega, hm, ?_, ?_, hx0, fun _ => rfl, ?_, c0⟩
    · intro fuel hfuel
      obtain ⟨f, rfl⟩ : ∃ f, fuel = f + 3 := ⟨fuel - 3, by omega⟩
      rw [fixYawUp_succ, if_neg c0]
    · simp
    · intro h
      omega

/-- The second loop on finite yaws of moderate size: it ends within three tests of its
condition, after at most two subtractions of the step, each exact up to `2^-51`; on exit
`m' - tracker_yaw < angle_range`, and after a subtraction
`-angle_range - 2^-50 <= m' - tracker_yaw`. -/
theorem fixYawDown_bounds (dfb : Bool) (t m : Double) (ht : t.isFinite = true)
    (hm : m.isFinite = true) (htb : |t.toRat| ≤ 22 / 7) (hmb : |m.toRat| ≤ 7)
    (hd : |m.toRat - t.toRat| ≤ 7) :
    ∃ (m' : Double) (k : ℕ), k ≤ 2 ∧ m'.isFinite = true
      ∧ (∀ fuel, 3 ≤ fuel → fixYawDown dfb t fuel m = some m')
      ∧ |m'.toRat - (m.toRat - k * (2 * (angleRange dfb).toRat))| ≤ k * (2 : ℚ) ^ (-51 : ℤ)
      ∧ m'.toRat - t.toRat < (angleRange dfb).toRat
      ∧ (k = 0 → m' = m)
      ∧ (1 ≤ k → -(angleRange dfb).toRat - (2 : ℚ) ^ (-50 : ℤ) ≤ m'.toRat - t.toRat)
      ∧ ¬ (Double.le (angleRange dfb) (m' - t) = true) := by
  have hr1 := angleRange_gt dfb
  have hr2 := angleRange_le dfb
  rw [abs_le] at htb hmb hd
  have he51 : (2 : ℚ) ^ (-51 : ℤ) = 1 / 2251799813685248 := by norm_num
  have he50 : (2 : ℚ) ^ (-50 : ℤ) = 1 / 1125899906842624 := by norm_num
  simp only [he51, he50]
  clear he51 he50
  by_cases c0 : Double.le (angleRange dfb) (m - t) = true
  · have hx0 := range_le_sub_true dfb hm ht (abs_le.mpr hd) c0
    obtain ⟨hm1, he1⟩ := sub_step dfb hm (by rw [abs_lt]; constructor <;> linarith)
    rw [abs_le] at he1
    have hd1 : |(m - angleStep dfb).toRat - t.toRat| ≤ 7 := by
      rw [abs_le]
      constructor <;> linarith [he1.1, he1.2]
    by_cases c1 : Double.le (angleRange dfb) (m - angleStep dfb - t) = true
    · have hx1 := range_le_sub_true dfb hm1 ht hd1 c1
      obtain ⟨hm2, he2⟩ := sub_step dfb hm1
        (by rw [abs_lt]; constructor <;> linarith [he1.1, he1.2])
      rw [abs_le] at he2
      have hd2 : |(m - angleStep dfb - angleStep dfb).toRat - t.toRat| ≤ 7 := by
        rw [abs_le]
        constructor <;> linarith [he1.1, he1.2, he2.1, he2.2]
      have c2 : ¬ Double.le (angleRange dfb) (m - angleStep dfb - angleStep dfb - t) = true := by
        intro c2
        have hx2 := range_le_sub_true dfb hm2 ht hd2 c2
        linarith [he1.1, he1.2, he2.1, he2.2]
      have hx2 := range_le_sub_false dfb hm2 ht (by linarith) c2
      refine ⟨m - angleStep dfb - angleStep dfb, 2, le_refl _, hm2, ?_, ?_, hx2, ?_, ?_, c2⟩
      · intro fuel hfuel
        obtain ⟨f, rfl⟩ : ∃ f, fuel = f + 3 := ⟨fuel - 3, by omega⟩
        rw [fixYawDown_succ, if_pos c0, fixYawDown_succ, if_pos c1, fixYawDown_succ, if_neg c2]
      · rw [abs_le]
        push_cast
        constructor <;> linarith [he1.1, he1.2, he2.1, he2.2]
      · intro h
        omega
      · intro _
        linarith [he1.1, he1.2, he2.1, he2.2]
    · have hx1 := range_le_sub_false dfb hm1 ht (by linarith) c1
      refine ⟨m - angleStep dfb, 1, by omega, hm1, ?_, ?_, hx1, ?_, ?_, c1⟩
      · intro fuel hfuel
        obtain ⟨f, rfl⟩ : ∃ f, fuel = f + 3 := ⟨fuel - 3, by omega⟩
        rw [fixYawDown_succ, if_pos c0, fixYawDown_succ, if_neg c1]
      · rw [abs_le]
        push_cast
        constructor <;> linarith [he1.1, he1.2]
      · intro h
        omega
      · intro _
        linarith [he1.1, he1.2]
  · have hx0 := range_le_sub_false dfb hm ht (by rw [abs_le]; constructor <;> linarith) c0
    refine ⟨m, 0, by omega, hm, ?_, ?_, hx0, fun _ => rfl, ?_, c0⟩
    · intro fuel hfuel
      obtain ⟨f, rfl⟩ : ∃ f, fuel = f + 3 := ⟨fuel - 3, by omega⟩
      rw [fixYawDown_succ, if_neg c0]
    · simp
    · intro h
      omega

end YawLoopSpecs

end Binary64

namespace Binary64

open Double

section FormedAngle

theorem M_PI_toRat : M_PI.toRat = 884279719003555 / 281474976710656 := by
  rw [M_PI_eq]
  rfl

theorem abs_toRat_le_of_isNormalized {y : Double} (h : IsNormalized y) : |y.toRat| ≤ 22 / 7 := by
  obtain ⟨-, h1, h2⟩ := h
  rw [M_PI_toRat] at h1 h2
  rw [abs_le]
  constructor <;> linarith

/-- The two loops and the final difference on normalised yaws: both loops end within three
tests of their conditions; the corrected heading `mf` is the measurement yaw plus `K` steps
up to `2^-49`; the exact difference `mf - tracker_yaw` is below `angle_range` and not below
`-angle_range - 2^-50`; the returned value is finite, not negative and at most
`angle_range + 2^-50`. -/
theorem formedYawAngle_bounds (dfb : Bool) (m t : Double) (hm : IsNormalized m)
    (ht : IsNormalized t) :
    ∃ (m1 mf : Double) (K : ℤ), mf.isFinite = true
      ∧ (∀ fuel, 3 ≤ fuel → fixYawUp dfb t fuel m = some m1)
      ∧ (∀ fuel, 3 ≤ fuel → fixYawDown dfb t fuel m1 = some mf)
      ∧ (∀ fuel, 3 ≤ fuel → formedYawAngle fuel m t dfb = some (Double.fabs (mf - t)))
      ∧ |mf.toRat - (m.toRat + K * (2 * (angleRange dfb).toRat))| ≤ (2 : ℚ) ^ (-49 : ℤ)
      ∧ mf.toRat - t.toRat < (angleRange dfb).toRat
      ∧ -(angleRange dfb).toRat - (2 : ℚ) ^ (-50 : ℤ) ≤ mf.toRat - t.toRat
      ∧ (Double.fabs (mf - t)).isFinite = true
      ∧ (Double.fabs (mf - t)).toRat = |rnd (mf.toRat - t.toRat)|
      ∧ (Double.fabs (mf - t)).toRat ≤ (angleRange dfb).toRat + (2 : ℚ) ^ (-50 : ℤ)
      ∧ ¬ (Double.le (angleRange dfb) (mf - t) = true) := by
  have hmb := abs_toRat_le_of_isNormalized hm
  have htb := abs_toRat_le_of_isNormalized ht
  have hr1 := angleRange_gt dfb
  have hr2 := angleRange_le dfb
  have hslack := angleRange_slack_hasMantissa53 dfb
  have he51 : (2 : ℚ) ^ (-51 : ℤ) = 1 / 2251799813685248 := by norm_num
  have he50 : (2 : ℚ) ^ (-50 : ℤ) = 1 / 1125899906842624 := by norm_num
  have he49 : (2 : ℚ) ^ (-49 : ℤ) = 1 / 562949953421312 := by norm_num
  obtain ⟨m1, k1, hk1, hm1, hup, herr1, hx1, hz1, hl1, -⟩ :=
    fixYawUp_bounds dfb t m ht.1 hm.1 htb (by linarith)
      (by rw [abs_le] at hmb htb ⊢; constructor <;> linarith [hmb.1, hmb.2, htb.1, htb.2])
  simp only [he51, he50, he49] at herr1 hl1 hslack ⊢
  clear he51 he50 he49
  rw [abs_le] at hmb htb
  have hinv : |m1.toRat| ≤ 7 ∧ |m1.toRat - t.toRat| ≤ 7 := by
    rcases Nat.eq_zero_or_pos k1 with h0 | hpos
    · rw [hz1 h0, abs_le, abs_le]
      refine ⟨⟨by linarith, by linarith⟩, by linarith, by linarith⟩
    · have := hl1 hpos
      rw [abs_le, abs_le]
      refine ⟨⟨by linarith, by linarith⟩, by linarith, by linarith⟩
  obtain ⟨mf, k2, hk2, hmf, hdown, herr2, hx2, hz2, hl2, hexit⟩ :=
    fixYawDown_bounds dfb t m1 ht.1 hm1 (abs_le.mpr htb) hinv.1 hinv.2
  have he51 : (2 : ℚ) ^ (-51 : ℤ) = 1 / 2251799813685248 := by norm_num
  have he50 : (2 : ℚ) ^ (-50 : ℤ) = 1 / 1125899906842624 := by norm_num
  simp only [he51, he50] at herr2 hl2
  clear he51 he50
  have hlow : -(angleRange dfb).toRat - 1 / 1125899906842624 ≤ mf.toRat - t.toRat := by
    rcases Nat.eq_zero_or_pos k2 with h0 | hpos
    · rw [hz2 h0]
      linarith
    · exact hl2 hpos
  have habs : |mf.toRat - t.toRat| ≤ 8 := by
    rw [abs_le]
    constructor <;> linarith
  obtain ⟨hfin, hval⟩ := sub_finite hmf ht.1 (abs_rnd_lt_of_abs_le_eight _ habs)
  have hup1 : rnd (mf.toRat - t.toRat) ≤ (angleRange dfb).toRat :=
    rnd_le_of_le (angleRange_hasMantissa53 dfb) hx2.le
  have hlo1 : -((angleRange dfb).toRat + 1 / 1125899906842624) ≤ rnd (mf.toRat - t.toRat) :=
    le_rnd_of_le (hasMantissa53_neg hslack) (by linarith)
  refine ⟨m1, mf, (k1 : ℤ) - (k2 : ℤ), hmf, hup, hdown, ?_, ?_, hx2, hlow,
    isFinite_fabs _ hfin, ?_, ?_, hexit⟩
  · intro fuel hfuel
    simp only [formedYawAngle, hup fuel hfuel, hdown fuel hfuel, Option.bind_eq_bind,
      Option.some_bind, Option.pure_def]
  · rw [abs_le] at herr1 herr2 ⊢
    have hk1q : (k1 : ℚ) ≤ 2 := by exact_mod_cast hk1
    have hk2q : (k2 : ℚ) ≤ 2 := by exact_mod_cast hk2
    push_cast
    constructor <;> nlinarith [herr1.1, herr1.2, herr2.1, herr2.2]
  · rw [toRat_fabs, hval]
  · rw [toRat_fabs, hval, abs_le]
    constructor <;> linarith

end FormedAngle

section FoldedAngle

theorem foldedAngle_le (r x : ℚ) (n : ℤ) : foldedAngle r x ≤ |x - 2 * r * n| := by
  unfold foldedAngle
  rcases eq_or_ne r 0 with h0 | h0
  · simp [h0]
  · have h2 : (2 * r) ≠ 0 := mul_ne_zero (by norm_num) h0
    have key := round_le (x / (2 * r)) n
    calc |x - 2 * r * (round (x / (2 * r)) : ℚ)|
        = |2 * r| * |x / (2 * r) - (round (x / (2 * r)) : ℚ)| := by
          rw [← abs_mul]
          congr 1
          field_simp
      _ ≤ |2 * r| * |x / (2 * r) - (n : ℚ)| := mul_le_mul_of_nonneg_left key (abs_nonneg _)
      _ = |x - 2 * r * n| := by
          rw [← abs_mul]
          congr 1
          field_simp

theorem foldedAngle_eq (r x : ℚ) : ∃ n : ℤ, foldedAngle r x = |x - 2 * r * n| :=
  ⟨round (x / (2 * r)), rfl⟩

theorem foldedAngle_nonneg (r x : ℚ) : 0 ≤ foldedAngle r x := abs_nonneg _

/-- The folded angle does not change by a multiple of `2 * r`. -/
theorem foldedAngle_add_int_mul (r x : ℚ) (K : ℤ) :
    foldedAngle r (x + K * (2 * r)) = foldedAngle r x := by
  apply le_antisymm
  · obtain ⟨n, hn⟩ := foldedAngle_eq r x
    rw [hn]
    have := foldedAngle_le r (x + K * (2 * r)) (n + K)
    push_cast at this
    rw [show x + K * (2 * r) - 2 * r * ((n : ℚ) + K) = x - 2 * r * n by ring] at this
    exact this
  · obtain ⟨n, hn⟩ := foldedAngle_eq r (x + K * (2 * r))
    rw [hn]
    have := foldedAngle_le r x (n - K)
    push_cast at this
    rw [show x - 2 * r * ((n : ℚ) - K) = x + K * (2 * r) - 2 * r * n by ring] at this
    exact this

/-- The folded angle changes by no more than its argument. -/
theorem abs_foldedAngle_sub_le (r x y : ℚ) : |foldedAngle r x - foldedAngle r y| ≤ |x - y| := by
  rw [abs_sub_le_iff]
  constructor
  · obtain ⟨n, hn⟩ := foldedAngle_eq r y
    have h1 := foldedAngle_le r x n
    have h2 : |x - 2 * r * n| ≤ |x - y| + |y - 2 * r * n| := by
      have := abs_add (x - y) (y - 2 * r * n)
      rwa [show x - y + (y - 2 * r * n) = x - 2 * r * n by ring] at this
    linarith
  · obtain ⟨n, hn⟩ := foldedAngle_eq r x
    have h1 := foldedAngle_le r y n
    have h2 : |y - 2 * r * n| ≤ |x - y| + |x - 2 * r * n| := by
      have := abs_add (y - x) (x - 2 * r * n)
      rw [show y - x + (x - 2 * r * n) = y - 2 * r * n by ring, abs_sub_comm y x] at this
      exact this
    linarith

/-- The folded angle is even. -/
theorem foldedAngle_neg (r x : ℚ) : foldedAngle r (-x) = foldedAngle r x := by
  apply le_antisymm
  · obtain ⟨n, hn⟩ := foldedAngle_eq r x
    rw [hn]
    have := foldedAngle_le r (-x) (-n)
    push_cast at this
    rw [show -x - 2 * r * -(n : ℚ) = -(x - 2 * r * n) by ring, abs_neg] at this
    exact this
  · obtain ⟨n, hn⟩ := foldedAngle_eq r (-x)
    rw [hn]
    have := foldedAngle_le r x (-n)
    push_cast at this
    rw [show x - 2 * r * -(n : ℚ) = -(-x - 2 * r * n) by ring, abs_neg] at this
    exact this

/-- Near the window `[-r, r]` the folded angle is the magnitude, up to twice the distance to
the window. -/
theorem abs_sub_foldedAngle_le (r x d : ℚ) (hr : 0 < r) (hd : 0 ≤ d) (hx : |x| ≤ r + d) :
    |x| - 2 * d ≤ foldedAngle r x ∧ foldedAngle r x ≤ |x| := by
  constructor
  · obtain ⟨n, hn⟩ := foldedAngle_eq r x
    rw [hn]
    rcases eq_or_ne n 0 with h0 | h0
    · rw [h0]
      simp only [Int.cast_zero, mul_zero, sub_zero]
      linarith
    · have hn1 : (1 : ℚ) ≤ |(n : ℚ)| := by
        have : (1 : ℤ) ≤ |n| := Int.one_le_abs h0
        exact_mod_cast this
      have h1 : |2 * r * (n : ℚ)| = 2 * r * |(n : ℚ)| := by
        rw [abs_mul, abs_of_pos (by linarith : (0 : ℚ) < 2 * r)]
      have h2 : |2 * r * (n : ℚ)| - |x| ≤ |x - 2 * r * n| := by
        have := abs_sub_abs_le_abs_sub (2 * r * (n : ℚ)) x
        rwa [abs_sub_comm (2 * r * (n : ℚ)) x] at this
      have h3 : 2 * r ≤ 2 * r * |(n : ℚ)| := by nlinarith
      linarith
  · have := foldedAngle_le r x 0
    simpa using this

end FoldedAngle

end Binary64

namespace Double

section Evaluation

/-- The difference of two finite values whose exact difference is not zero. -/
theorem sub_eq_ofRat {x y : Double} (hx : x.isFinite = true) (hy : y.isFinite = true)
    (h : x.toRat - y.toRat ≠ 0) : x - y = ofRat (x.toRat - y.toRat) := by
  rw [sub_def]
  unfold add
  rw [isNaN_of_isFinite hx, isNaN_of_isFinite (by rw [isFinite_neg, hy] : (neg y).isFinite = true),
    hx, isFinite_neg, hy, toRat_neg, ← sub_eq_add_neg]
  simp only [Bool.or_self, Bool.false_eq_true, if_false, Bool.and_self, if_true]
  rw [if_neg h]

/-- The sum of two finite values whose exact sum is not zero. -/
theorem add_eq_ofRat {x y : Double} (hx : x.isFinite = true) (hy : y.isFinite = true)
    (h : x.toRat + y.toRat ≠ 0) : x + y = ofRat (x.toRat + y.toRat) := by
  rw [add_def]
  unfold add
  rw [isNaN_of_isFinite hx, isNaN_of_isFinite hy, hx, hy]
  simp only [Bool.or_self, Bool.false_eq_true, if_false, Bool.and_self, if_true]
  rw [if_neg h]

/-- The product of two finite values whose exact product is not zero. -/
theorem mul_eq_ofRat {x y : Double} (hx : x.isFinite = true) (hy : y.isFinite = true)
    (h : x.toRat * y.toRat ≠ 0) : x * y = ofRat (x.toRat * y.toRat) := by
  rw [mul_def]
  unfold mul
  rw [isNaN_of_isFinite hx, isNaN_of_isFinite hy, hx, hy]
  simp only [Bool.or_self, Bool.false_eq_true, if_false, Bool.and_self, if_true]
  rw [if_neg h]

/-- The quotient of two finite values, neither of them zero. -/
theorem div_eq_ofRat {x y : Double} (hx : x.isFinite = true) (hy : y.isFinite = true)
    (hx0 : x.toRat ≠ 0) (hy0 : y.toRat ≠ 0) : x / y = ofRat (x.toRat / y.toRat) := by
  rw [div_def]
  unfold div
  rw [isNaN_of_isFinite hx, isNaN_of_isFinite hy, hx, hy]
  simp only [Bool.or_self, Bool.false_eq_true, if_false, Bool.and_self, if_true]
  rw [if_neg hy0, if_neg hx0]

/-- The difference of two finite numbers, from the binade `e` of the exact difference and
the integer `n` nearest to its quotient by the unit of that binade. -/
theorem fin_sub_fin (a b : ℚ) (e n : ℤ) (he1 : -1022 ≤ e) (he2 : e < 1023)
    (h1 : (2 : ℚ) ^ e ≤ |a - b|) (h2 : |a - b| < (2 : ℚ) ^ (e + 1))
    (hn : |(a - b) / (2 : ℚ) ^ (e - 52) - n| < 1 / 2) (hn0 : n ≠ 0) :
    fin a - fin b = fin (n * (2 : ℚ) ^ (e - 52)) := by
  have h0 : a - b ≠ 0 := by
    intro h
    rw [h, abs_zero] at h1
    exact absurd h1 (not_le.mpr (zpow_pos (by norm_num) _))
  rw [@sub_eq_ofRat (fin a) (fin b) rfl rfl h0]
  refine ofRat_eq_fin _ _ (e + 1) (by omega) (by omega)
    (rnd_eq_of_bounds _ e n he1 (Or.inl h1) h2 hn) ?_ h2.le
  exact mul_ne_zero (by exact_mod_cast hn0) (zpow_pos (by norm_num) _).ne'

/-- The sum of two finite numbers, from the binade `e` of the exact sum and the integer `n`
nearest to its quotient by the unit of that binade. -/
theorem fin_add_fin (a b : ℚ) (e n : ℤ) (he1 : -1022 ≤ e) (he2 : e < 1023)
    (h1 : (2 : ℚ) ^ e ≤ |a + b|) (h2 : |a + b| < (2 : ℚ) ^ (e + 1))
    (hn : |(a + b) / (2 : ℚ) ^ (e - 52) - n| < 1 / 2) (hn0 : n ≠ 0) :
    fin a + fin b = fin (n * (2 : ℚ) ^ (e - 52)) := by
  have h0 : a + b ≠ 0 := by
    intro h
    rw [h, abs_zero] at h1
    exact absurd h1 (not_le.mpr (zpow_pos (by norm_num) _))
  rw [@add_eq_ofRat (fin a) (fin b) rfl rfl h0]
  refine ofRat_eq_fin _ _ (e + 1) (by omega) (by omega)
    (rnd_eq_of_bounds _ e n he1 (Or.inl h1) h2 hn) ?_ h2.le
  exact mul_ne_zero (by exact_mod_cast hn0) (zpow_pos (by norm_num) _).ne'

/-- The difference of two finite numbers at a tie: the binade `e` of the exact difference,
whose quotient by the unit of that binade is `f + 1/2`. -/
theorem fin_sub_fin_tie (a b : ℚ) (e f : ℤ) (he1 : -1022 ≤ e) (he2 : e < 1023)
    (h1 : (2 : ℚ) ^ e ≤ |a - b|) (h2 : |a - b| < (2 : ℚ) ^ (e + 1))
    (hf : (a - b) / (2 : ℚ) ^ (e - 52) = f + 1 / 2)
    (hn0 : (if f % 2 = 0 then f else f + 1) ≠ 0) :
    fin a - fin b = fin (((if f % 2 = 0 then f else f + 1 : ℤ) : ℚ) * (2 : ℚ) ^ (e - 52)) := by
  have h0 : a - b ≠ 0 := by
    intro h
    rw [h, abs_zero] at h1
    exact absurd h1 (not_le.mpr (zpow_pos (by norm_num) _))
  rw [@sub_eq_ofRat (fin a) (fin b) rfl rfl h0]
  refine ofRat_eq_fin _ _ (e + 1) (by omega) (by omega)
    (rnd_eq_of_tie _ e f he1 (Or.inl h1) h2 hf) ?_ h2.le
  exact mul_ne_zero (by exact_mod_cast hn0) (zpow_pos (by norm_num) _).ne'

theorem fin_le_fin (a b : ℚ) : fin a ≤ fin b ↔ a ≤ b :=
  le_iff_of_finite rfl rfl

theorem fin_lt_fin (a b : ℚ) : fin a < fin b ↔ a < b :=
  lt_iff_of_finite rfl rfl

end Evaluation

end Double

namespace Binary64

open Double

section FormedApprox

/-- On normalised yaws the returned angle is the folded difference of the two yaws, up to
`9 * 2^-51`. -/
theorem formedYawAngle_approx (dfb : Bool) (m t : Double) (hm : IsNormalized m)
    (ht : IsNormalized t) :
    ∃ v : Double, (∀ fuel, 3 ≤ fuel → formedYawAngle fuel m t dfb = some v)
      ∧ v.isFinite = true
      ∧ |v.toRat - foldedAngle (angleRange dfb).toRat (m.toRat - t.toRat)|
          ≤ 9 / 2251799813685248 := by
  obtain ⟨m1, mf, K, hmf, -, -, hformed, herr, hlt, hge, hfin, hval, -, -⟩ :=
    formedYawAngle_bounds dfb m t hm ht
  have hr1 := angleRange_gt dfb
  have hr2 := angleRange_le dfb
  have he50 : (2 : ℚ) ^ (-50 : ℤ) = 1 / 1125899906842624 := by norm_num
  have he49 : (2 : ℚ) ^ (-49 : ℤ) = 1 / 562949953421312 := by norm_num
  rw [he49] at herr
  rw [he50] at hge
  clear he49 he50
  refine ⟨_, hformed, hfin, ?_⟩
  rw [hval]
  have hx : |mf.toRat - t.toRat| ≤ (angleRange dfb).toRat + 1 / 1125899906842624 := by
    rw [abs_le]
    constructor <;> linarith
  have h1 := abs_rnd_sub_le_of_abs_lt_eight (mf.toRat - t.toRat) (by linarith)
  have h2 : abs (abs (rnd (mf.toRat - t.toRat)) - abs (mf.toRat - t.toRat))
      ≤ 1 / 2251799813685248 :=
    (abs_abs_sub_abs_le_abs_sub _ _).trans h1
  obtain ⟨h3, h4⟩ := abs_sub_foldedAngle_le (angleRange dfb).toRat (mf.toRat - t.toRat)
    (1 / 1125899906842624) (by linarith) (by norm_num) hx
  have h5 := abs_foldedAngle_sub_le (angleRange dfb).toRat (mf.toRat - t.toRat)
    (m.toRat - t.toRat + K * (2 * (angleRange dfb).toRat))
  rw [foldedAngle_add_int_mul] at h5
  have h6 : mf.toRat - t.toRat - (m.toRat - t.toRat + K * (2 * (angleRange dfb).toRat))
      = mf.toRat - (m.toRat + K * (2 * (angleRange dfb).toRat)) := by ring
  rw [h6] at h5
  have h7 := h5.trans herr
  rw [abs_le] at h2 h7 ⊢
  constructor <;> linarith [h2.1, h2.2, h7.1, h7.2]

end FormedApprox

end Binary64

namespace Binary64

open Double

section GateLemmas

theorem except_bind_ok_stop {α β : Type} (a : α) (f : α → Except Stop β) :
    (Except.ok a >>= f) = f a := rfl

/-- With the entry `max_rad` read and the formed angle returned, the angle gate is the test of
the source. -/
theorem angleGate_of_reads_binary64 (da : DataAssociation) (ext : Externals) (fuel : Nat)
    (tracker_label measurement_label : ℤ) (measurement_object : DetectedObject)
    (tracked_object : TrackedObject) (max_rad angle : Double)
    (h : coeff da.max_rad_matrix_ tracker_label measurement_label = .ok max_rad)
    (ha : getFormedYawAngle ext fuel measurement_object.pose_with_covariance.pose.orientation
      tracked_object.pose_with_covariance.pose.orientation false = some angle) :
    da.angleGate ext fuel tracker_label measurement_label measurement_object tracked_object true
      = .ok (!(decide (Double.fabs max_rad < M_PI ∧ Double.fabs max_rad < Double.fabs angle))) := by
  unfold DataAssociation.angleGate
  rw [h]
  simp only [if_true, bind, Except.bind, ha]
  by_cases hc : Double.fabs max_rad < M_PI ∧ Double.fabs max_rad < Double.fabs angle
  · rw [if_pos hc, decide_eq_true hc]
    rfl
  · rw [if_neg hc, decide_eq_false hc]
    rfl

end GateLemmas

end Binary64

namespace Binary64

open Double

/-- C20 (as amended): over binary64, for normalised yaws and both values of
`distinguish_front_or_back`, `getFormedYawAngle` returns (given three tests per loop); the
value is finite, not negative and at most the angular range plus `2^-50` (the range itself
can be exceeded by rounding), and it is `|fl(m' - tracker_yaw)|` for a heading `m'` that
differs from the normalised measurement yaw by an integer multiple of the step up to
`2^-49`. -/
theorem getFormedYawAngle_range_binary64 (ext : Externals)
    (measurement_quat tracker_quat : Quaternion) (distinguish_front_or_back : Bool)
    (hm : IsNormalized (ext.normalizeRadian (ext.getYaw measurement_quat)))
    (ht : IsNormalized (ext.normalizeRadian (ext.getYaw tracker_quat))) :
    ∃ (m' : Double) (k : ℤ), m'.isFinite = true
      ∧ (∀ fuel, 3 ≤ fuel →
          getFormedYawAngle ext fuel measurement_quat tracker_quat distinguish_front_or_back
            = some (Double.fabs (m' - ext.normalizeRadian (ext.getYaw tracker_quat))))
      ∧ (Double.fabs (m' - ext.normalizeRadian (ext.getYaw tracker_quat))).isFinite = true
      ∧ 0 ≤ (Double.fabs (m' - ext.normalizeRadian (ext.getYaw tracker_quat))).toRat
      ∧ (Double.fabs (m' - ext.normalizeRadian (ext.getYaw tracker_quat))).toRat
          ≤ (angleRange distinguish_front_or_back).toRat + (2 : ℚ) ^ (-50 : ℤ)
      ∧ |m'.toRat - ((ext.normalizeRadian (ext.getYaw measurement_quat)).toRat
            + k * (angleStep distinguish_front_or_back).toRat)| ≤ (2 : ℚ) ^ (-49 : ℤ) := by
  obtain ⟨m1, mf, K, hmf, -, -, hformed, herr, -, -, hfin, hval, hle, -⟩ :=
    formedYawAngle_bounds distinguish_front_or_back _ _ hm ht
  refine ⟨mf, K, hmf, ?_, hfin, ?_, hle, ?_⟩
  · intro fuel hfuel
    exact hformed fuel hfuel
  · rw [hval]
    exact abs_nonneg _
  · rw [angleStep_toRat]
    exact herr

/-- C27 (as amended): over binary64, for normalised yaws and both values of
`distinguish_front_or_back`, the two `while` loops of `getFormedYawAngle` end, each within
three tests of its condition; on exit the corrected heading `m'` satisfies
`m' - tracker_yaw < angle_range`, as the second loop tests it and in exact terms, and
`tracker_yaw - m' <= angle_range + 2^-50` (the bound `angle_range` itself can be exceeded:
the second loop can undo the first by rounding). -/
theorem fixYaw_loops_terminate_binary64 (distinguish_front_or_back : Bool)
    (measurement_yaw tracker_yaw : Double) (hm : IsNormalized measurement_yaw)
    (ht : IsNormalized tracker_yaw) :
    ∃ m1 m' : Double,
      (∀ fuel, 3 ≤ fuel →
        fixYawUp distinguish_front_or_back tracker_yaw fuel measurement_yaw = some m1)
      ∧ (∀ fuel, 3 ≤ fuel → fixYawDown distinguish_front_or_back tracker_yaw fuel m1 = some m')
      ∧ m'.isFinite = true
      ∧ ¬ (angleRange distinguish_front_or_back ≤ m' - tracker_yaw)
      ∧ m'.toRat - tracker_yaw.toRat < (angleRange distinguish_front_or_back).toRat
      ∧ tracker_yaw.toRat - m'.toRat
          ≤ (angleRange distinguish_front_or_back).toRat + (2 : ℚ) ^ (-50 : ℤ) := by
  obtain ⟨m1, mf, K, hmf, hup, hdown, -, -, hlt, hge, -, -, -, hexit⟩ :=
    formedYawAngle_bounds distinguish_front_or_back _ _ hm ht
  have he50 : (2 : ℚ) ^ (-50 : ℤ) = 1 / 1125899906842624 := by norm_num
  rw [he50] at hge ⊢
  exact ⟨m1, mf, hup, hdown, hmf, hexit, hlt, by linarith⟩

end Binary64

namespace Binary64

open Double

section YawInstances

theorem isNormalized_fin (q : ℚ) (h1 : -(884279719003555 / 281474976710656) ≤ q)
    (h2 : q ≤ 884279719003555 / 281474976710656) : IsNormalized (Double.fin q) := by
  refine ⟨rfl, ?_, ?_⟩
  · rw [M_PI_toRat]
    exact h1
  · rw [M_PI_toRat]
    exact h2

theorem fixYawUp_exit (dfb : Bool) (t m : Double) (fuel : Nat)
    (h : ¬ (angleRange dfb ≤ t - m)) : fixYawUp dfb t (fuel + 1) m = some m := by
  rw [fixYawUp_succ]
  exact if_neg h

theorem fixYawUp_pass (dfb : Bool) (t m : Double) (fuel : Nat)
    (h : angleRange dfb ≤ t - m) :
    fixYawUp dfb t (fuel + 1) m = fixYawUp dfb t fuel (m + angleStep dfb) := by
  rw [fixYawUp_succ]
  exact if_pos h

theorem fixYawDown_exit (dfb : Bool) (t m : Double) (fuel : Nat)
    (h : ¬ (angleRange dfb ≤ m - t)) : fixYawDown dfb t (fuel + 1) m = some m := by
  rw [fixYawDown_succ]
  exact if_neg h

theorem fixYawDown_pass (dfb : Bool) (t m : Double) (fuel : Nat)
    (h : angleRange dfb ≤ m - t) :
    fixYawDown dfb t (fuel + 1) m = fixYawDown dfb t fuel (m - angleStep dfb) := by
  rw [fixYawDown_succ]
  exact if_pos h

theorem formedYawAngle_eq (fuel : Nat) (m t m1 m2 : Double) (dfb : Bool)
    (h1 : fixYawUp dfb t fuel m = some m1) (h2 : fixYawDown dfb t fuel m1 = some m2) :
    formedYawAngle fuel m t dfb = some (Double.fabs (m2 - t)) := by
  simp only [formedYawAngle, h1, h2, Option.bind_eq_bind, Option.some_bind, Option.pure_def]

/-- The two loops on the yaws `yawA`, `yawB`: the first does not run, the second subtracts
the step once, and the corrected heading is `M_PI_2 + 2^-51` below the tracker yaw. -/
theorem fixYaw_yawA_yawB :
    fixYawUp false yawB 3 yawA = some yawA
    ∧ fixYawDown false yawB 3 yawA
        = some (Double.fin (-1164272526695927 / 281474976710656))
    ∧ Double.fin (-1164272526695927 / 281474976710656) - yawB
        = Double.fin (-3537118876014221 / 2251799813685248) := by
  have hr : angleRange false = Double.fin (884279719003555 / 562949953421312) := M_PI_2_eq
  have hs : angleStep false = Double.fin (884279719003555 / 281474976710656) := M_PI_eq
  have h1 : yawB - yawA = Double.fin (-884279719003555 / 562949953421312) := by
    have := fin_sub_fin (-5777061337553195 / 2251799813685248)
      (-2239942461538975 / 2251799813685248) 0 (-7074237752028440) (by norm_num) (by norm_num)
      (by norm_num [le_abs]) (by norm_num [abs_lt]) (by norm_num [abs_lt]) (by norm_num)
    rw [yawA, yawB, this]
    norm_num
  have h2 : yawA - yawB = Double.fin (884279719003555 / 562949953421312) := by
    have := fin_sub_fin (-2239942461538975 / 2251799813685248)
      (-5777061337553195 / 2251799813685248) 0 7074237752028440 (by norm_num) (by norm_num)
      (by norm_num [le_abs]) (by norm_num [abs_lt]) (by norm_num [abs_lt]) (by norm_num)
    rw [yawA, yawB, this]
    norm_num
  have h3 : yawA - angleStep false = Double.fin (-1164272526695927 / 281474976710656) := by
    have := fin_sub_fin_tie (-2239942461538975 / 2251799813685248)
      (884279719003555 / 281474976710656) 2 (-4657090106783708) (by norm_num) (by norm_num)
      (by norm_num [le_abs]) (by norm_num [abs_lt]) (by norm_num) (by norm_num)
    rw [yawA, hs, this]
    norm_num
  have h4 : Double.fin (-1164272526695927 / 281474976710656) - yawB
      = Double.fin (-3537118876014221 / 2251799813685248) := by
    have := fin_sub_fin (-1164272526695927 / 281474976710656)
      (-5777061337553195 / 2251799813685248) 0 (-7074237752028442) (by norm_num) (by norm_num)
      (by norm_num [le_abs]) (by norm_num [abs_lt]) (by norm_num [abs_lt]) (by norm_num)
    rw [yawB, this]
    norm_num
  refine ⟨?_, ?_, h4⟩
  · apply fixYawUp_exit
    rw [hr, h1, fin_le_fin]
    norm_num
  · rw [fixYawDown_pass false yawB yawA 2 (by rw [hr, h2, fin_le_fin]), h3]
    apply fixYawDown_exit
    rw [hr, h4, fin_le_fin]
    norm_num

theorem formedYawAngle_yawA_yawB :
    formedYawAngle 3 yawA yawB false = some (Double.fin (3537118876014221 / 2251799813685248)) := by
  obtain ⟨h1, h2, h3⟩ := fixYaw_yawA_yawB
  rw [formedYawAngle_eq 3 _ _ _ _ false h1 h2, h3]
  simp only [Double.fabs]
  norm_num [abs_of_neg]

end YawInstances

end Binary64

namespace Binary64

open Double

section YawInstancesMore

theorem fixYaw_yawC_yawD :
    fixYawUp false yawD 3 yawC = some (yawC)
    ∧ fixYawDown false yawD 3 (yawC) = some (Double.fin (-4693986026438849 / 1125899906842624))
    ∧ Double.fin (-4693986026438849 / 1125899906842624) - yawD = Double.fin (-884279719003555 / 562949953421312) := by
  have hr : angleRange false = Double.fin (884279719003555 / 562949953421312) := M_PI_2_eq
  have hs : angleStep false = Double.fin (884279719003555 / 281474976710656) := M_PI_eq
  have h1 : yawD - yawC = Double.fin (-7074237752028441 / 4503599627370496) := by
    have := fin_sub_fin (-2925426588431739 / 1125899906842624) (-4627468601698515 / 4503599627370496) 0 (-7074237752028441)
      (by norm_num) (by norm_num) (by norm_num [le_abs]) (by norm_num [abs_lt]) (by norm_num [abs_lt])
      (by norm_num)
    rw [yawD, yawC, this]
    norm_num
  have h2 : yawC - yawD = Double.fin (7074237752028441 / 4503599627370496) := by
    have := fin_sub_fin (-4627468601698515 / 4503599627370496) (-2925426588431739 / 1125899906842624) 0 7074237752028441
      (by norm_num) (by norm_num) (by norm_num [le_abs]) (by norm_num [abs_lt]) (by norm_num [abs_lt])
      (by norm_num)
    rw [yawC, yawD, this]
    norm_num
  have h3 : yawC - angleStep false = Double.fin (-4693986026438849 / 1125899906842624) := by
    have := fin_sub_fin (-4627468601698515 / 4503599627370496) (884279719003555 / 281474976710656) 2 (-4693986026438849)
      (by norm_num) (by norm_num) (by norm_num [le_abs]) (by norm_num [abs_lt]) (by norm_num [abs_lt])
      (by norm_num)
    rw [yawC, hs, this]
    norm_num
  have h4 : Double.fin (-4693986026438849 / 1125899906842624) - yawD = Double.fin (-884279719003555 / 562949953421312) := by
    have := fin_sub_fin (-4693986026438849 / 1125899906842624) (-2925426588431739 / 1125899906842624) 0 (-7074237752028440)
      (by norm_num) (by norm_num) (by norm_num [le_abs]) (by norm_num [abs_lt]) (by norm_num [abs_lt])
      (by norm_num)
    rw [yawD, this]
    norm_num
  refine ⟨?_, ?_, h4⟩
  · show fixYawUp false yawD (2 + 1) _ = _
    apply fixYawUp_exit
    rw [hr, h1, fin_le_fin]
    norm_num
  · show fixYawDown false yawD (2 + 1) _ = _
    rw [fixYawDown_pass false yawD (yawC) 2 (by rw [hr, h2, fin_le_fin]; norm_num), h3]
    apply fixYawDown_exit
    rw [hr, h4, fin_le_fin]
    norm_num

theorem formedYawAngle_yawC_yawD :
    formedYawAngle 3 yawC yawD false = some (Double.fin (884279719003555 / 562949953421312)) := by
  obtain ⟨h1, h2, h3⟩ := fixYaw_yawC_yawD
  rw [formedYawAngle_eq 3 _ _ _ _ false h1 h2, h3]
  simp only [Double.fabs]
  norm_num [abs_of_neg, abs_of_pos]

theorem fixYaw_yawD_yawC :
    fixYawUp false yawC 3 yawD = some (Double.fin (611692287582481 / 1125899906842624))
    ∧ fixYawDown false yawC 3 (Double.fin (611692287582481 / 1125899906842624)) = some (Double.fin (611692287582481 / 1125899906842624))
    ∧ Double.fin (611692287582481 / 1125899906842624) - yawC = Double.fin (7074237752028439 / 4503599627370496) := by
  have hr : angleRange false = Double.fin (884279719003555 / 562949953421312) := M_PI_2_eq
  have hs : angleStep false = Double.fin (884279719003555 / 281474976710656) := M_PI_eq
  have h1 : yawC - yawD = Double.fin (7074237752028441 / 4503599627370496) := by
    have := fin_sub_fin (-4627468601698515 / 4503599627370496) (-2925426588431739 / 1125899906842624) 0 7074237752028441
      (by norm_num) (by norm_num) (by norm_num [le_abs]) (by norm_num [abs_lt]) (by norm_num [abs_lt])
      (by norm_num)
    rw [yawC, yawD, this]
    norm_num
  have h2 : yawD + angleStep false = Double.fin (611692287582481 / 1125899906842624) := by
    have := fin_add_fin (-2925426588431739 / 1125899906842624) (884279719003555 / 281474976710656) (-1) 4893538300659848
      (by norm_num) (by norm_num) (by norm_num [le_abs]) (by norm_num [abs_lt]) (by norm_num [abs_lt])
      (by norm_num)
    rw [yawD, hs, this]
    norm_num
  have h3 : yawC - Double.fin (611692287582481 / 1125899906842624) = Double.fin (-7074237752028439 / 4503599627370496) := by
    have := fin_sub_fin (-4627468601698515 / 4503599627370496) (611692287582481 / 1125899906842624) 0 (-7074237752028439)
      (by norm_num) (by norm_num) (by norm_num [le_abs]) (by norm_num [abs_lt]) (by norm_num [abs_lt])
      (by norm_num)
    rw [yawC, this]
    norm_num
  have h4 : Double.fin (611692287582481 / 1125899906842624) - yawC = Double.fin (7074237752028439 / 4503599627370496) := by
    have := fin_sub_fin (611692287582481 / 1125899906842624) (-4627468601698515 / 4503599627370496) 0 7074237752028439
      (by norm_num) (by norm_num) (by norm_num [le_abs]) (by norm_num [abs_lt]) (by norm_num [abs_lt])
      (by norm_num)
    rw [yawC, this]
    norm_num
  refine ⟨?_, ?_, h4⟩
  · show fixYawUp false yawC (2 + 1) _ = _
    rw [fixYawUp_pass false yawC (yawD) 2 (by rw [hr, h1, fin_le_fin]; norm_num), h2]
    apply fixYawUp_exit
    rw [hr, h3, fin_le_fin]
    norm_num
  · show fixYawDown false yawC (2 + 1) _ = _
    apply fixYawDown_exit
    rw [hr, h4, fin_le_fin]
    norm_num

theorem formedYawAngle_yawD_yawC :
    formedYawAngle 3 yawD yawC false = some (Double.fin (7074237752028439 / 4503599627370496)) := by
  obtain ⟨h1, h2, h3⟩ := fixYaw_yawD_yawC
  rw [formedYawAngle_eq 3 _ _ _ _ false h1 h2, h3]
  simp only [Double.fabs]
  norm_num [abs_of_neg, abs_of_pos]

theorem fixYaw_yawE_one :
    fixYawUp false yawOne 3 yawE = some (yawE)
    ∧ fixYawDown false yawOne 3 (yawE) = some (yawE)
    ∧ yawE - yawOne = Double.fin (-3152519739159347 / 4503599627370496) := by
  have hr : angleRange false = Double.fin (884279719003555 / 562949953421312) := M_PI_2_eq
  have hs : angleStep false = Double.fin (884279719003555 / 281474976710656) := M_PI_eq
  have h1 : yawOne - yawE = Double.fin (3152519739159347 / 4503599627370496) := by
    have := fin_sub_fin_tie (1) (5404319552844595 / 18014398509481984) (-1) 6305039478318694
      (by norm_num) (by norm_num) (by norm_num [le_abs]) (by norm_num [abs_lt]) (by norm_num)
      (by norm_num)
    rw [yawOne, yawE, this]
    norm_num
  have h2 : yawE - yawOne = Double.fin (-3152519739159347 / 4503599627370496) := by
    have := fin_sub_fin_tie (5404319552844595 / 18014398509481984) (1) (-1) (-6305039478318695)
      (by norm_num) (by norm_num) (by norm_num [le_abs]) (by norm_num [abs_lt]) (by norm_num)
      (by norm_num)
    rw [yawE, yawOne, this]
    norm_num
  refine ⟨?_, ?_, h2⟩
  · show fixYawUp false yawOne (2 + 1) _ = _
    apply fixYawUp_exit
    rw [hr, h1, fin_le_fin]
    norm_num
  · show fixYawDown false yawOne (2 + 1) _ = _
    apply fixYawDown_exit
    rw [hr, h2, fin_le_fin]
    norm_num

theorem formedYawAngle_yawE_one :
    formedYawAngle 3 yawE yawOne false = some (Double.fin (3152519739159347 / 4503599627370496)) := by
  obtain ⟨h1, h2, h3⟩ := fixYaw_yawE_one
  rw [formedYawAngle_eq 3 _ _ _ _ false h1 h2, h3]
  simp only [Double.fabs]
  norm_num [abs_of_neg, abs_of_pos]

theorem fixYaw_yawF_one :
    fixYawUp false yawOne 3 yawF = some (Double.fin (337769972052787 / 1125899906842624))
    ∧ fixYawDown false yawOne 3 (Double.fin (337769972052787 / 1125899906842624)) = some (Double.fin (337769972052787 / 1125899906842624))
    ∧ Double.fin (337769972052787 / 1125899906842624) - yawOne = Double.fin (-788129934789837 / 1125899906842624) := by
  have hr : angleRange false = Double.fin (884279719003555 / 562949953421312) := M_PI_2_eq
  have hs : angleStep false = Double.fin (884279719003555 / 281474976710656) := M_PI_eq
  have h1 : yawOne - yawF = Double.fin (4325248810804057 / 1125899906842624) := by
    have := fin_sub_fin (1) (-3199348903961433 / 1125899906842624) 1 8650497621608114
      (by norm_num) (by norm_num) (by norm_num [le_abs]) (by norm_num [abs_lt]) (by norm_num [abs_lt])
      (by norm_num)
    rw [yawOne, yawF, this]
    norm_num
  have h2 : yawF + angleStep false = Double.fin (337769972052787 / 1125899906842624) := by
    have := fin_add_fin (-3199348903961433 / 1125899906842624) (884279719003555 / 281474976710656) (-2) 5404319552844592
      (by norm_num) (by norm_num) (by norm_num [le_abs]) (by norm_num [abs_lt]) (by norm_num [abs_lt])
      (by norm_num)
    rw [yawF, hs, this]
    norm_num
  have h3 : yawOne - Double.fin (337769972052787 / 1125899906842624) = Double.fin (788129934789837 / 1125899906842624) := by
    have := fin_sub_fin (1) (337769972052787 / 1125899906842624) (-1) 6305039478318696
      (by norm_num) (by norm_num) (by norm_num [le_abs]) (by norm_num [abs_lt]) (by norm_num [abs_lt])
      (by norm_num)
    rw [yawOne, this]
    norm_num
  have h4 : Double.fin (337769972052787 / 1125899906842624) - yawOne = Double.fin (-788129934789837 / 1125899906842624) := by
    have := fin_sub_fin (337769972052787 / 1125899906842624) (1) (-1) (-6305039478318696)
      (by norm_num) (by norm_num) (by norm_num [le_abs]) (by norm_num [abs_lt]) (by norm_num [abs_lt])
      (by norm_num)
    rw [yawOne, this]
    norm_num
  refine ⟨?_, ?_, h4⟩
  · show fixYawUp false yawOne (2 + 1) _ = _
    rw [fixYawUp_pass false yawOne (yawF) 2 (by rw [hr, h1, fin_le_fin]; norm_num), h2]
    apply fixYawUp_exit
    rw [hr, h3, fin_le_fin]
    norm_num
  · show fixYawDown false yawOne (2 + 1) _ = _
    apply fixYawDown_exit
    rw [hr, h4, fin_le_fin]
    norm_num

theorem formedYawAngle_yawF_one :
    formedYawAngle 3 yawF yawOne false = some (Double.fin (788129934789837 / 1125899906842624)) := by
  obtain ⟨h1, h2, h3⟩ := fixYaw_yawF_one
  rw [formedYawAngle_eq 3 _ _ _ _ false h1 h2, h3]
  simp only [Double.fabs]
  norm_num [abs_of_neg, abs_of_pos]

end YawInstancesMore

end Binary64

namespace Double

section Comparison2

/-- The test `x <= y` fails exactly when `y < x` or one of the two is NaN. -/
theorem not_le_iff (x y : Double) :
    ¬ (x ≤ y) ↔ y < x ∨ x.isNaN = true ∨ y.isNaN = true := by
  rw [lt_def, le_def]
  cases x <;> cases y <;> simp [lt, le, isNaN, isFinite, signBit, toRat]

end Comparison2

end Double

namespace Binary64

open Double

section CoeffLemmas

theorem coeff_of_inRange_binary64 {α : Type} (m : MatrixX α) (i j : ℤ) (h : m.InRange i j) :
    coeff m i j = .ok (m.coeffs i.toNat j.toNat) := by
  unfold coeff
  rw [if_pos h]

theorem coeff_eq_ok_iff_binary64 {α : Type} (m : MatrixX α) (i j : ℤ) (v : α) :
    coeff m i j = .ok v ↔ m.InRange i j ∧ m.coeffs i.toNat j.toNat = v := by
  unfold coeff
  by_cases h : m.InRange i j
  · rw [if_pos h]
    constructor
    · intro hv
      exact ⟨h, by injection hv⟩
    · rintro ⟨-, hv⟩
      rw [hv]
  · rw [if_neg h]
    constructor
    · intro hv
      cases hv
    · rintro ⟨hr, -⟩
      exact absurd hr h

theorem assignCoeff_eq_ok_iff_binary64 {α : Type} (m m2 : MatrixX α) (i j : ℤ) (v : α) :
    assignCoeff m i j v = .ok m2 ↔ m.InRange i j ∧
      m2 = ⟨m.rows, m.cols, fun a b => if a = i.toNat ∧ b = j.toNat then v else m.coeffs a b⟩ := by
  unfold assignCoeff
  by_cases h : m.InRange i j
  · rw [if_pos h]
    constructor
    · intro hv
      exact ⟨h, by injection hv with hv; exact hv.symm⟩
    · rintro ⟨-, hv⟩
      rw [hv]
  · rw [if_neg h]
    constructor
    · intro hv
      cases hv
    · rintro ⟨hr, -⟩
      exact absurd hr h

end CoeffLemmas

section AssignLemmas

/-- With every entry within bounds, the first erase loop is the filter that keeps the
entries whose score is not below the threshold (a NaN score among them). -/
theorem eraseDirect_eq_filter_binary64 (src : MatrixXd) (thr : Double) (m : UnorderedMap)
    (h : ∀ p ∈ m, src.InRange p.1 p.2) :
    eraseDirect src thr m
      = .ok (m.filter fun p => !(decide (src.coeffs p.1.toNat p.2.toNat < thr))) := by
  induction m with
  | nil => rfl
  | cons e rest ih =>
    have he : src.InRange e.1 e.2 := h e (List.mem_cons_self _ _)
    have hrest : ∀ p ∈ rest, src.InRange p.1 p.2 :=
      fun p hp => h p (List.mem_cons_of_mem _ hp)
    unfold eraseDirect
    rw [coeff_of_inRange_binary64 src e.1 e.2 he, ih hrest]
    by_cases hlt : src.coeffs e.1.toNat e.2.toNat < thr
    · simp [List.filter_cons, hlt, bind, Except.bind, pure, Except.pure]
    · simp [List.filter_cons, hlt, bind, Except.bind, pure, Except.pure]

/-- With every entry within bounds, the second erase loop is the filter that keeps the
entries whose score is not below the threshold (a NaN score among them). -/
theorem eraseReverse_eq_filter_binary64 (src : MatrixXd) (thr : Double) (m : UnorderedMap)
    (h : ∀ p ∈ m, src.InRange p.2 p.1) :
    eraseReverse src thr m
      = .ok (m.filter fun p => !(decide (src.coeffs p.2.toNat p.1.toNat < thr))) := by
  induction m with
  | nil => rfl
  | cons e rest ih =>
    have he : src.InRange e.2 e.1 := h e (List.mem_cons_self _ _)
    have hrest : ∀ p ∈ rest, src.InRange p.2 p.1 :=
      fun p hp => h p (List.mem_cons_of_mem _ hp)
    unfold eraseReverse
    rw [coeff_of_inRange_binary64 src e.2 e.1 he, ih hrest]
    by_cases hlt : src.coeffs e.2.toNat e.1.toNat < thr
    · simp [List.filter_cons, hlt, bind, Except.bind, pure, Except.pure]
    · simp [List.filter_cons, hlt, bind, Except.bind, pure, Except.pure]

/-- With a solver that hands back entries within the bounds of `src`, `assign` returns the
two filtered maps. -/
theorem assign_eq_filter_binary64 (da : DataAssociation) (src : MatrixXd)
    (d0 r0 : UnorderedMap)
    (hd : ∀ p ∈ (da.gnn_solver_ptr_.maximizeLinearAssignment (scoreTable src) d0 r0).1,
      src.InRange p.1 p.2)
    (hr : ∀ p ∈ (da.gnn_solver_ptr_.maximizeLinearAssignment (scoreTable src) d0 r0).2,
      src.InRange p.2 p.1) :
    da.assign src d0 r0 = .ok
      ((da.gnn_solver_ptr_.maximizeLinearAssignment (scoreTable src) d0 r0).1.filter
          (fun p => !(decide (src.coeffs p.1.toNat p.2.toNat < da.score_threshold_))),
       (da.gnn_solver_ptr_.maximizeLinearAssignment (scoreTable src) d0 r0).2.filter
          (fun p => !(decide (src.coeffs p.2.toNat p.1.toNat < da.score_threshold_)))) := by
  unfold DataAssociation.assign
  simp only []
  rw [eraseDirect_eq_filter_binary64 src _ _ hd, eraseReverse_eq_filter_binary64 src _ _ hr]
  rfl

theorem threshold_eq :
    (0.01 : Double) = Double.fin (5764607523034235 / 576460752303423488) := by
  show Double.ofRat (0.01 : ℚ) = _
  refine ofRat_eq_fin _ _ 0 (by norm_num) (by norm_num) ?_ (by norm_num)
    (by norm_num [abs_le])
  have := rnd_eq_of_bounds (0.01 : ℚ) (-7) 5764607523034235 (by norm_num)
    (Or.inl (by norm_num [le_abs])) (by norm_num [abs_lt]) (by norm_num [abs_lt])
  rw [this]
  norm_num

theorem zero_lit_eq : (0.0 : Double) = Double.fin 0 := by
  show Double.ofRat (0.0 : ℚ) = _
  have h : (0.0 : ℚ) = 0 := by norm_num
  rw [h, ofRat_zero]

theorem zero_eq : (0 : Double) = Double.fin 0 := by
  show Double.ofRat ((0 : ℕ) : ℚ) = _
  rw [Nat.cast_zero, ofRat_zero]

theorem one_eq : (1 : Double) = Double.fin 1 := by
  show Double.ofRat ((1 : ℕ) : ℚ) = _
  have := ofRat_of_hasMantissa53 ((1 : ℤ) : ℚ) 0 (by norm_num) (by norm_num)
    (hasMantissa53_intCast 1 (by norm_num)) (by norm_num) (by norm_num [abs_le])
  rw [Nat.cast_one]
  rw [Int.cast_one] at this
  exact this

theorem mahalanobis_threshold_eq :
    (3.035 : Double) = Double.fin (854276554316841 / 281474976710656) := by
  show Double.ofRat (3.035 : ℚ) = _
  refine ofRat_eq_fin _ _ 2 (by norm_num) (by norm_num) ?_ (by norm_num)
    (by norm_num [abs_le])
  have := rnd_eq_of_bounds (3.035 : ℚ) 1 6834212434534728 (by norm_num)
    (Or.inl (by norm_num [le_abs])) (by norm_num [abs_lt]) (by norm_num [abs_lt])
  rw [this]
  norm_num

end AssignLemmas

section GateLemmas2

theorem distGate_eq_binary64 (max_dist dist : Double) (pg : Bool) :
    distGate max_dist dist pg = (pg && !(decide (max_dist < dist))) := by
  unfold distGate
  cases pg with
  | false => rfl
  | true =>
    by_cases hc : max_dist < dist
    · simp [hc]
    · simp [hc]

theorem areaGate_of_reads_binary64 (da : DataAssociation) (ext : Externals) (t m : ℤ)
    (mo : DetectedObject) (pg : Bool) (max_area min_area : Double)
    (h1 : coeff da.max_area_matrix_ t m = .ok max_area)
    (h2 : coeff da.min_area_matrix_ t m = .ok min_area) :
    da.areaGate ext t m mo pg
      = .ok (pg && !(decide (ext.getArea mo.shape < min_area ∨ max_area < ext.getArea mo.shape))) := by
  unfold DataAssociation.areaGate
  cases pg with
  | false => rfl
  | true =>
    rw [h1, h2]
    simp only [if_true, bind, Except.bind, pure, Except.pure, Bool.true_and]
    by_cases hc : ext.getArea mo.shape < min_area ∨ max_area < ext.getArea mo.shape
    · rw [if_pos hc, decide_eq_true hc]
      rfl
    · rw [if_neg hc, decide_eq_false hc]
      rfl

theorem angleGate_of_reads_gated_binary64 (da : DataAssociation) (ext : Externals) (fuel : Nat)
    (t m : ℤ) (mo : DetectedObject) (tobj : TrackedObject) (pg : Bool) (max_rad angle : Double)
    (h : coeff da.max_rad_matrix_ t m = .ok max_rad)
    (ha : getFormedYawAngle ext fuel mo.pose_with_covariance.pose.orientation
      tobj.pose_with_covariance.pose.orientation false = some angle) :
    da.angleGate ext fuel t m mo tobj pg
      = .ok (pg && !(decide (Double.fabs max_rad < M_PI
          ∧ Double.fabs max_rad < Double.fabs angle))) := by
  cases pg with
  | false => rfl
  | true =>
    rw [angleGate_of_reads_binary64 da ext fuel t m mo tobj max_rad angle h ha, Bool.true_and]

theorem mahalanobisGate_eq_binary64 (ext : Externals) (mo : DetectedObject)
    (tobj : TrackedObject) (pg : Bool) :
    mahalanobisGate ext mo tobj pg
      = (pg && !(decide ((3.035 : Double) ≤ getMahalanobisDistance ext
          mo.pose_with_covariance.pose.position tobj.pose_with_covariance.pose.position
          (getXYCovariance tobj.pose_with_covariance)))) := by
  unfold mahalanobisGate
  cases pg with
  | false => rfl
  | true =>
    simp only [if_true, Bool.true_and]
    by_cases hc : (3.035 : Double) ≤ getMahalanobisDistance ext
        mo.pose_with_covariance.pose.position tobj.pose_with_covariance.pose.position
        (getXYCovariance tobj.pose_with_covariance)
    · rw [if_pos hc, decide_eq_true hc]
      rfl
    · rw [if_neg hc, decide_eq_false hc]
      rfl

theorem iouGate_of_reads_binary64 (da : DataAssociation) (ext : Externals) (t m : ℤ)
    (mo : DetectedObject) (tobj : TrackedObject) (pg : Bool) (min_iou : Double)
    (h1 : coeff da.min_iou_matrix_ t m = .ok min_iou) :
    da.iouGate ext t m mo tobj pg
      = .ok (pg && !(decide (ext.get2dIoU mo tobj 1e-2 < min_iou))) := by
  unfold DataAssociation.iouGate
  cases pg with
  | false => rfl
  | true =>
    rw [h1]
    simp only [if_true, bind, Except.bind, pure, Except.pure, Bool.true_and]
    by_cases hc : ext.get2dIoU mo tobj 1e-2 < min_iou
    · rw [if_pos hc, decide_eq_true hc]
      rfl
    · rw [if_neg hc, decide_eq_false hc]
      rfl

/-- With all readings defined, the cell is the thresholded score when no test fails, and 0
otherwise. -/
theorem calcScore_of_reads_binary64 (da : DataAssociation) (ext : Externals) (fuel : Nat)
    (stamp : ℤ) (tracker : Tracker) (mo : DetectedObject) (r : PairReadings)
    (hr : da.Reads ext fuel stamp tracker mo r) :
    da.calcScore ext fuel stamp tracker mo
      = .ok (if r.noTestFails then
          (if r.claimedScore < da.score_threshold_ then 0.0 else r.claimedScore) else 0.0) := by
  obtain ⟨hca, hmd, hxa, hna, hmr, hmi, hdist, harea, hangle, hmah, hiou⟩ := hr
  unfold DataAssociation.calcScore
  simp only [bind, Except.bind, pure, Except.pure]
  rw [hca]
  simp only []
  by_cases hz : r.can_assign = 0
  · rw [if_neg (not_not.mpr hz), if_neg]
    intro h
    exact h.1 hz
  · rw [if_pos hz, hmd]
    simp only []
    rw [distGate_eq_binary64, areaGate_of_reads_binary64 da ext _ _ mo _ r.max_area r.min_area
      hxa hna]
    simp only []
    rw [angleGate_of_reads_gated_binary64 da ext fuel _ _ mo _ _ r.max_rad r.angle hmr hangle]
    simp only []
    rw [mahalanobisGate_eq_binary64, iouGate_of_reads_binary64 da ext _ _ mo _ _ r.min_iou hmi]
    simp only []
    rw [← hdist, ← harea, ← hmah, ← hiou]
    congr 1
    unfold DataAssociation.gatedScore PairReadings.noTestFails PairReadings.claimedScore
    by_cases hall : r.can_assign ≠ 0 ∧ ¬ (r.max_dist < r.dist)
        ∧ ¬ (r.area < r.min_area ∨ r.max_area < r.area)
        ∧ ¬ (Double.fabs r.max_rad < M_PI ∧ Double.fabs r.max_rad < Double.fabs r.angle)
        ∧ ¬ ((3.035 : Double) ≤ r.mahalanobis_dist) ∧ ¬ (r.iou < r.min_iou)
    · rw [if_pos hall]
      obtain ⟨-, h2, h3, h4, h5, h6⟩ := hall
      rw [if_pos]
      simp only [Bool.true_and, Bool.and_eq_true, Bool.not_eq_true', decide_eq_false_iff_not]
      exact ⟨⟨⟨⟨h2, h3⟩, h4⟩, h5⟩, h6⟩
    · rw [if_neg hall, if_neg]
      intro hb
      apply hall
      simp only [Bool.true_and, Bool.and_eq_true, Bool.not_eq_true',
        decide_eq_false_iff_not] at hb
      obtain ⟨⟨⟨⟨h2, h3⟩, h4⟩, h5⟩, h6⟩ := hb
      exact ⟨hz, h2, h3, h4, h5, h6⟩

end GateLemmas2

end Binary64

namespace Binary64

open Double

section LoopLemmas

/-- What a successful run of the inner loop leaves in the matrix. -/
theorem measurementLoop_spec_binary64 (da : DataAssociation) (ext : Externals) (fuel : Nat) (stamp : ℤ)
    (tracker : Tracker) (tracker_idx : Nat) (objs : List DetectedObject) :
    ∀ (measurement_idx : Nat) (sm out : MatrixXd),
      da.measurementLoop ext fuel stamp tracker tracker_idx objs measurement_idx sm = .ok out →
      out.rows = sm.rows ∧ out.cols = sm.cols
      ∧ (∀ k (hk : k < objs.length), da.calcScore ext fuel stamp tracker (objs.get ⟨k, hk⟩)
            = .ok (out.coeffs tracker_idx (measurement_idx + k)))
      ∧ (∀ a b, a ≠ tracker_idx ∨ b < measurement_idx → out.coeffs a b = sm.coeffs a b) := by
  induction objs with
  | nil =>
    intro mi sm out h
    unfold DataAssociation.measurementLoop at h
    injection h with h
    subst h
    exact ⟨rfl, rfl, fun k hk => absurd hk (Nat.not_lt_zero k), fun _ _ _ => rfl⟩
  | cons mo rest ih =>
    intro mi sm out h
    unfold DataAssociation.measurementLoop at h
    cases hcs : da.calcScore ext fuel stamp tracker mo with
    | error e => rw [hcs] at h; cases h
    | ok score =>
      rw [hcs] at h
      cases hset : assignCoeff sm (tracker_idx : ℤ) (mi : ℤ) score with
      | error e =>
        simp only [bind, Except.bind] at h
        rw [hset] at h
        cases h
      | ok sm1 =>
        simp only [bind, Except.bind] at h
        rw [hset] at h
        obtain ⟨hr, hc, hval, hframe⟩ := ih (mi + 1) sm1 out h
        obtain ⟨-, hsm1⟩ := (assignCoeff_eq_ok_iff_binary64 sm sm1 _ _ score).mp hset
        subst hsm1
        refine ⟨hr, hc, ?_, ?_⟩
        · intro k hk
          cases k with
          | zero =>
            have := hframe tracker_idx mi (Or.inr (Nat.lt_succ_self mi))
            simp only [List.get_eq_getElem, List.getElem_cons_zero, Nat.add_zero]
            rw [this, hcs]
            simp
          | succ k =>
            have hk2 : k < rest.length := Nat.lt_of_succ_lt_succ hk
            have := hval k hk2
            simp only [List.get_eq_getElem, List.getElem_cons_succ] at this ⊢
            rw [this]
            congr 2
            omega
        · intro a b hab
          rw [hframe a b (by omega)]
          show (if a = ((tracker_idx : ℤ)).toNat ∧ b = ((mi : ℤ)).toNat then score else sm.coeffs a b)
            = sm.coeffs a b
          rw [if_neg]
          simp only [Int.toNat_ofNat]
          omega

/-- The inner loop runs to its end when every score is defined and the cells lie in the
matrix. -/
theorem measurementLoop_ok_binary64 (da : DataAssociation) (ext : Externals) (fuel : Nat) (stamp : ℤ)
    (tracker : Tracker) (tracker_idx : Nat) (objs : List DetectedObject)
    (hscore : ∀ mo ∈ objs, ∃ s, da.calcScore ext fuel stamp tracker mo = .ok s) :
    ∀ (measurement_idx : Nat) (sm : MatrixXd), tracker_idx < sm.rows →
      measurement_idx + objs.length ≤ sm.cols →
      ∃ out, da.measurementLoop ext fuel stamp tracker tracker_idx objs measurement_idx sm
        = .ok out := by
  induction objs with
  | nil =>
    intro mi sm _ _
    exact ⟨sm, rfl⟩
  | cons mo rest ih =>
    intro mi sm hrow hcol
    obtain ⟨s, hs⟩ := hscore mo (List.mem_cons_self _ _)
    have hin : sm.InRange (tracker_idx : ℤ) (mi : ℤ) := by
      simp only [List.length_cons] at hcol
      refine ⟨by omega, by omega, by omega, by omega⟩
    have hset := (assignCoeff_eq_ok_iff_binary64 sm _ (tracker_idx : ℤ) (mi : ℤ) s).mpr ⟨hin, rfl⟩
    obtain ⟨out, hout⟩ := ih (fun m hm => hscore m (List.mem_cons_of_mem _ hm)) (mi + 1)
      ⟨sm.rows, sm.cols, fun a b =>
        if a = ((tracker_idx : ℤ)).toNat ∧ b = ((mi : ℤ)).toNat then s else sm.coeffs a b⟩
      hrow (by simp only [List.length_cons] at hcol; show mi + 1 + rest.length ≤ sm.cols; omega)
    refine ⟨out, ?_⟩
    unfold DataAssociation.measurementLoop
    rw [hs]
    simp only [bind, Except.bind]
    rw [hset]
    exact hout

/-- What a successful run of the outer loop leaves in the matrix. -/
theorem trackerLoop_spec_binary64 (da : DataAssociation) (ext : Externals) (fuel : Nat)
    (measurements : DetectedObjects) (trackers : List Tracker) :
    ∀ (tracker_idx : Nat) (sm out : MatrixXd),
      da.trackerLoop ext fuel measurements trackers tracker_idx sm = .ok out →
      out.rows = sm.rows ∧ out.cols = sm.cols
      ∧ (∀ i (hi : i < trackers.length) j (hj : j < measurements.objects.length),
          da.calcScore ext fuel measurements.stamp (trackers.get ⟨i, hi⟩)
            (measurements.objects.get ⟨j, hj⟩) = .ok (out.coeffs (tracker_idx + i) j))
      ∧ (∀ a b, a < tracker_idx → out.coeffs a b = sm.coeffs a b) := by
  induction trackers with
  | nil =>
    intro ti sm out h
    unfold DataAssociation.trackerLoop at h
    injection h with h
    subst h
    exact ⟨rfl, rfl, fun i hi => absurd hi (Nat.not_lt_zero i), fun _ _ _ => rfl⟩
  | cons tr rest ih =>
    intro ti sm out h
    unfold DataAssociation.trackerLoop at h
    cases hin : da.measurementLoop ext fuel measurements.stamp tr ti measurements.objects 0 sm with
    | error e =>
      simp only [bind, Except.bind] at h
      rw [hin] at h
      cases h
    | ok sm1 =>
      simp only [bind, Except.bind] at h
      rw [hin] at h
      obtain ⟨hr1, hc1, hval1, hframe1⟩ :=
        measurementLoop_spec_binary64 da ext fuel measurements.stamp tr ti measurements.objects 0 sm sm1 hin
      obtain ⟨hr, hc, hval, hframe⟩ := ih (ti + 1) sm1 out h
      refine ⟨hr.trans hr1, hc.trans hc1, ?_, ?_⟩
      · intro i hi j hj
        cases i with
        | zero =>
          have h1 := hval1 j hj
          rw [Nat.zero_add] at h1
          simp only [List.get_eq_getElem, List.getElem_cons_zero, Nat.add_zero] at h1 ⊢
          rw [hframe ti j (Nat.lt_succ_self ti)]
          exact h1
        | succ i =>
          have hi2 : i < rest.length := Nat.lt_of_succ_lt_succ hi
          have h2 := hval i hi2 j hj
          simp only [List.get_eq_getElem, List.getElem_cons_succ] at h2 ⊢
          rw [h2]
          congr 2
          omega
      · intro a b hab
        rw [hframe a b (by omega), hframe1 a b (Or.inl (by omega))]

/-- The outer loop runs to its end when every score is defined and the rows lie in the
matrix. -/
theorem trackerLoop_ok_binary64 (da : DataAssociation) (ext : Externals) (fuel : Nat)
    (measurements : DetectedObjects) (trackers : List Tracker)
    (hscore : ∀ tr ∈ trackers, ∀ mo ∈ measurements.objects,
      ∃ s, da.calcScore ext fuel measurements.stamp tr mo = .ok s) :
    ∀ (tracker_idx : Nat) (sm : MatrixXd), tracker_idx + trackers.length ≤ sm.rows →
      measurements.objects.length ≤ sm.cols →
      ∃ out, da.trackerLoop ext fuel measurements trackers tracker_idx sm = .ok out := by
  induction trackers with
  | nil =>
    intro ti sm _ _
    exact ⟨sm, rfl⟩
  | cons tr rest ih =>
    intro ti sm hrow hcol
    simp only [List.length_cons] at hrow
    obtain ⟨sm1, hsm1⟩ := measurementLoop_ok_binary64 da ext fuel measurements.stamp tr ti
      measurements.objects (hscore tr (List.mem_cons_self _ _)) 0 sm (by omega) (by omega)
    obtain ⟨hr1, hc1, -, -⟩ :=
      measurementLoop_spec_binary64 da ext fuel measurements.stamp tr ti measurements.objects 0 sm sm1 hsm1
    obtain ⟨out, hout⟩ := ih (fun t ht => hscore t (List.mem_cons_of_mem _ ht)) (ti + 1) sm1
      (by rw [hr1]; omega) (by rw [hc1]; exact hcol)
    refine ⟨out, ?_⟩
    unfold DataAssociation.trackerLoop
    simp only [bind, Except.bind]
    rw [hsm1]
    exact hout

end LoopLemmas

end Binary64

namespace Double

section Literals

/-- A natural number of at most 53 bits is delivered as it is. -/
theorem ofRat_natCast (n : ℕ) (h : n < 2 ^ 53) : ofRat (n : ℚ) = fin n := by
  rcases Nat.eq_zero_or_pos n with h0 | hpos
  · rw [h0, Nat.cast_zero, ofRat_zero]
  · have hm : HasMantissa53 ((n : ℤ) : ℚ) :=
      hasMantissa53_intCast n (by rw [abs_of_nonneg (by positivity)]; exact_mod_cast h)
    have hb : |((n : ℤ) : ℚ)| ≤ (2 : ℚ) ^ (53 : ℤ) := by
      rw [abs_of_nonneg (by positivity)]
      have : ((n : ℤ) : ℚ) ≤ ((2 ^ 53 : ℕ) : ℚ) := by exact_mod_cast h.le
      calc ((n : ℤ) : ℚ) ≤ ((2 ^ 53 : ℕ) : ℚ) := this
        _ = (2 : ℚ) ^ (53 : ℤ) := by norm_num
    have := ofRat_of_hasMantissa53 ((n : ℤ) : ℚ) 53 (by norm_num) (by norm_num) hm
      (by exact_mod_cast hpos.ne') hb
    exact_mod_cast this

theorem ofRat_one : ofRat 1 = fin 1 := by
  simpa using ofRat_natCast 1 (by norm_num)

theorem ofRat_two : ofRat 2 = fin 2 := by
  simpa using ofRat_natCast 2 (by norm_num)

theorem ofRat_four : ofRat 4 = fin 4 := by
  simpa using ofRat_natCast 4 (by norm_num)

theorem ofRat_eight : ofRat 8 = fin 8 := by
  simpa using ofRat_natCast 8 (by norm_num)

theorem ofRat_neg_four : ofRat (-4) = fin (-4) := by
  have hm : HasMantissa53 (-4 : ℚ) := by
    have := hasMantissa53_neg (hasMantissa53_intCast 4 (by norm_num))
    simpa using this
  exact ofRat_of_hasMantissa53 (-4) 2 (by norm_num) (by norm_num) hm (by norm_num)
    (by norm_num [abs_le])

end Literals

end Double

namespace Binary64

open Double

section SampleEvaluation

theorem fin_zero_sub_fin_zero : Double.fin 0 - Double.fin 0 = Double.fin 0 := by
  simp [sub_def, Double.add, Double.neg, isNaN, isFinite, toRat, signBit, zero]

/-- The formed angle of two headings 0 is 0. -/
theorem formedYawAngle_zero (fuel : Nat) (dfb : Bool) :
    formedYawAngle (fuel + 1) (Double.fin 0) (Double.fin 0) dfb = some (Double.fin 0) := by
  have hc : ¬ (angleRange dfb ≤ Double.fin 0 - Double.fin 0) := by
    rw [fin_zero_sub_fin_zero, angleRange_eq, fin_le_fin]
    cases dfb <;> norm_num
  rw [formedYawAngle_eq (fuel + 1) _ _ (Double.fin 0) (Double.fin 0) dfb
    (fixYawUp_exit dfb _ _ fuel hc) (fixYawDown_exit dfb _ _ fuel hc), fin_zero_sub_fin_zero]
  simp [Double.fabs]

theorem getFormedYawAngle_sampleExternals (fuel : Nat) (q1 q2 : Quaternion) (dfb : Bool) :
    getFormedYawAngle sampleExternals (fuel + 1) q1 q2 dfb = some (Double.fin 0) := by
  unfold getFormedYawAngle
  simp only [sampleExternals, zero_eq]
  exact formedYawAngle_zero fuel dfb

/-- The Mahalanobis distance for the zero covariance is NaN. -/
theorem getMahalanobisDistance_zero_covariance (x : ℚ) :
    getMahalanobisDistance sampleExternals ⟨.fin x, .fin 0, .fin 0⟩ ⟨.fin 0, .fin 0, .fin 0⟩
      ⟨.fin 0, .fin 0, .fin 0, .fin 0⟩ = Double.nan := by
  simp [getMahalanobisDistance, Matrix2d.inverse, Matrix2d.determinant, sampleExternals,
    sampleSqrt, one_eq, mul_def, sub_def, add_def, div_def, neg_def, Double.mul, Double.add,
    Double.neg, Double.div, isNaN, isFinite, toRat, signBit, zero, inf]

end SampleEvaluation

end Binary64

namespace Double

section Literals2

theorem ofRat_neg_one : ofRat (-1) = fin (-1) := by
  have hm : HasMantissa53 (-1 : ℚ) := by
    have := hasMantissa53_neg (hasMantissa53_intCast 1 (by norm_num))
    simpa using this
  exact ofRat_of_hasMantissa53 (-1) 0 (by norm_num) (by norm_num) hm (by norm_num)
    (by norm_num [abs_le])

theorem ofRat_neg_two : ofRat (-2) = fin (-2) := by
  have hm : HasMantissa53 (-2 : ℚ) := by
    have := hasMantissa53_neg (hasMantissa53_intCast 2 (by norm_num))
    simpa using this
  exact ofRat_of_hasMantissa53 (-2) 1 (by norm_num) (by norm_num) hm (by norm_num)
    (by norm_num [abs_le])

end Literals2

end Double

namespace Binary64

open Double

section SampleEvaluation2

theorem ratSqrt_zero_binary64 : ratSqrt 0 = 0 := by
  simp [ratSqrt]

theorem ratSqrt_four_binary64 : ratSqrt 4 = 2 := by
  have h : Nat.sqrt 4 = 2 := by norm_num [Nat.sqrt, Nat.sqrt.iter]
  have hn : (4 : ℚ).num = 4 := rfl
  have hd : (4 : ℚ).den = 1 := rfl
  simp [ratSqrt, hn, hd, h]

theorem score_lit_eq :
    Double.ofRat (4 / 5) = Double.fin (3602879701896397 / 4503599627370496) := by
  refine ofRat_eq_fin _ _ 0 (by norm_num) (by norm_num) ?_ (by norm_num)
    (by norm_num [abs_le])
  have := rnd_eq_of_bounds (4 / 5 : ℚ) (-1) 7205759403792794 (by norm_num)
    (Or.inl (by norm_num [le_abs])) (by norm_num [abs_lt]) (by norm_num [abs_lt])
  rw [this]
  norm_num

theorem score_lit_eq_literal : (0.8 : Double) = Double.ofRat (4 / 5) := by
  show Double.ofRat (0.8 : ℚ) = _
  congr 1
  norm_num

/-- The raw score for `max_dist = 10` and `dist = 2` is the `double` 0.8. -/
theorem rawScore_ten_two : rawScore (Double.fin 10) (Double.fin 2) = (0.8 : Double) := by
  rw [score_lit_eq_literal]
  have h8 : ofRat 8 = Double.fin 8 := ofRat_eight
  simp [rawScore, stdMin, lt_def, sub_def, div_def, Double.lt, Double.add, Double.neg,
    Double.div, isNaN, isFinite, toRat, signBit]
  norm_num [h8, toRat]

/-- The raw score for `max_dist = 0` and `dist = 0` is NaN. -/
theorem rawScore_zero_zero : rawScore (Double.fin 0) (Double.fin 0) = Double.nan := by
  simp [rawScore, stdMin, lt_def, sub_def, div_def, Double.lt, Double.add, Double.neg,
    Double.div, isNaN, isFinite, toRat, signBit, zero]

/-- The Mahalanobis distance for the singular covariance `[[1, 1], [1, 1]]` at the offset
`(2, 0)` is NaN: the determinant is 0, its reciprocal an infinity, and the quadratic form
`inf - inf`. -/
theorem getMahalanobisDistance_singular_covariance :
    getMahalanobisDistance sampleExternals ⟨.fin 2, .fin 0, .fin 0⟩ ⟨.fin 0, .fin 0, .fin 0⟩
      ⟨Double.fin 1, Double.fin 1, Double.fin 1, Double.fin 1⟩ = Double.nan := by
  have hd0 : Double.fin 2 - Double.fin 0 = Double.fin 2 := by
    norm_num [mul_def, sub_def, add_def, div_def, neg_def, Double.mul, Double.add,
      Double.neg, Double.div, isNaN, isFinite, toRat, signBit, zero, inf, ofRat_one, ofRat_two,
      ofRat_four, ofRat_neg_one, ofRat_neg_two, ofRat_neg_four]
  have hd1 : Double.fin 0 - Double.fin 0 = Double.fin 0 := by
    norm_num [mul_def, sub_def, add_def, div_def, neg_def, Double.mul, Double.add,
      Double.neg, Double.div, isNaN, isFinite, toRat, signBit, zero, inf, ofRat_one, ofRat_two,
      ofRat_four, ofRat_neg_one, ofRat_neg_two, ofRat_neg_four]
  have hdet : Matrix2d.determinant ⟨Double.fin 1, Double.fin 1, Double.fin 1, Double.fin 1⟩ = Double.fin 0 := by
    norm_num [mul_def, sub_def, add_def, div_def, neg_def, Double.mul, Double.add,
      Double.neg, Double.div, isNaN, isFinite, toRat, signBit, zero, inf, ofRat_one, ofRat_two,
      ofRat_four, ofRat_neg_one, ofRat_neg_two, ofRat_neg_four, Matrix2d.determinant]
  have hinvdet : (1 : Double) / Double.fin 0 = Double.posInf := by
    rw [one_eq]
    norm_num [mul_def, sub_def, add_def, div_def, neg_def, Double.mul, Double.add,
      Double.neg, Double.div, isNaN, isFinite, toRat, signBit, zero, inf, ofRat_one, ofRat_two,
      ofRat_four, ofRat_neg_one, ofRat_neg_two, ofRat_neg_four, one_eq]
  have h00 : Double.fin 1 * Double.posInf = Double.posInf := by
    norm_num [mul_def, sub_def, add_def, div_def, neg_def, Double.mul, Double.add,
      Double.neg, Double.div, isNaN, isFinite, toRat, signBit, zero, inf, ofRat_one, ofRat_two,
      ofRat_four, ofRat_neg_one, ofRat_neg_two, ofRat_neg_four]
  have h01 : -Double.fin 1 * Double.posInf = Double.negInf := by
    norm_num [mul_def, sub_def, add_def, div_def, neg_def, Double.mul, Double.add,
      Double.neg, Double.div, isNaN, isFinite, toRat, signBit, zero, inf, ofRat_one, ofRat_two,
      ofRat_four, ofRat_neg_one, ofRat_neg_two, ofRat_neg_four]
  have h10 : -Double.fin 1 * Double.posInf = Double.negInf := by
    norm_num [mul_def, sub_def, add_def, div_def, neg_def, Double.mul, Double.add,
      Double.neg, Double.div, isNaN, isFinite, toRat, signBit, zero, inf, ofRat_one, ofRat_two,
      ofRat_four, ofRat_neg_one, ofRat_neg_two, ofRat_neg_four]
  have h11 : Double.fin 1 * Double.posInf = Double.posInf := by
    norm_num [mul_def, sub_def, add_def, div_def, neg_def, Double.mul, Double.add,
      Double.neg, Double.div, isNaN, isFinite, toRat, signBit, zero, inf, ofRat_one, ofRat_two,
      ofRat_four, ofRat_neg_one, ofRat_neg_two, ofRat_neg_four]
  have hr0 : Double.fin 2 * Double.posInf + Double.fin 0 * Double.negInf = Double.nan := by
    norm_num [mul_def, sub_def, add_def, div_def, neg_def, Double.mul, Double.add,
      Double.neg, Double.div, isNaN, isFinite, toRat, signBit, zero, inf, ofRat_one, ofRat_two,
      ofRat_four, ofRat_neg_one, ofRat_neg_two, ofRat_neg_four]
  have hq0 : Double.nan * Double.fin 2 = Double.nan := by
    norm_num [mul_def, sub_def, add_def, div_def, neg_def, Double.mul, Double.add,
      Double.neg, Double.div, isNaN, isFinite, toRat, signBit, zero, inf, ofRat_one, ofRat_two,
      ofRat_four, ofRat_neg_one, ofRat_neg_two, ofRat_neg_four]
  have hr1 : Double.fin 2 * Double.negInf + Double.fin 0 * Double.posInf = Double.nan := by
    norm_num [mul_def, sub_def, add_def, div_def, neg_def, Double.mul, Double.add,
      Double.neg, Double.div, isNaN, isFinite, toRat, signBit, zero, inf, ofRat_one, ofRat_two,
      ofRat_four, ofRat_neg_one, ofRat_neg_two, ofRat_neg_four]
  have hq1 : Double.nan * Double.fin 0 = Double.nan := by
    norm_num [mul_def, sub_def, add_def, div_def, neg_def, Double.mul, Double.add,
      Double.neg, Double.div, isNaN, isFinite, toRat, signBit, zero, inf, ofRat_one, ofRat_two,
      ofRat_four, ofRat_neg_one, ofRat_neg_two, ofRat_neg_four]
  have hquad : Double.nan + Double.nan = Double.nan := by
    norm_num [mul_def, sub_def, add_def, div_def, neg_def, Double.mul, Double.add,
      Double.neg, Double.div, isNaN, isFinite, toRat, signBit, zero, inf, ofRat_one, ofRat_two,
      ofRat_four, ofRat_neg_one, ofRat_neg_two, ofRat_neg_four]
  have hsqrt : sampleSqrt (Double.nan) = Double.nan := by
    norm_num [sampleSqrt]
  simp only [getMahalanobisDistance, Matrix2d.inverse, sampleExternals, hd0, hd1, hdet, hinvdet,
    h00, h01, h10, h11, hr0, hq0, hr1, hq1, hquad, hsqrt]

/-- The Mahalanobis distance for the covariance `[[-1, 0], [0, -1]]`, which is not positive
definite, at the offset `(2, 0)` is NaN: the square root of -4. -/
theorem getMahalanobisDistance_negative_covariance :
    getMahalanobisDistance sampleExternals ⟨.fin 2, .fin 0, .fin 0⟩ ⟨.fin 0, .fin 0, .fin 0⟩
      ⟨Double.fin (-1), Double.fin 0, Double.fin 0, Double.fin (-1)⟩ = Double.nan := by
  have hd0 : Double.fin 2 - Double.fin 0 = Double.fin 2 := by
    norm_num [mul_def, sub_def, add_def, div_def, neg_def, Double.mul, Double.add,
      Double.neg, Double.div, isNaN, isFinite, toRat, signBit, zero, inf, ofRat_one, ofRat_two,
      ofRat_four, ofRat_neg_one, ofRat_neg_two, ofRat_neg_four]
  have hd1 : Double.fin 0 - Double.fin 0 = Double.fin 0 := by
    norm_num [mul_def, sub_def, add_def, div_def, neg_def, Double.mul, Double.add,
      Double.neg, Double.div, isNaN, isFinite, toRat, signBit, zero, inf, ofRat_one, ofRat_two,
      ofRat_four, ofRat_neg_one, ofRat_neg_two, ofRat_neg_four]
  have hdet : Matrix2d.determinant ⟨Double.fin (-1), Double.fin 0, Double.fin 0, Double.fin (-1)⟩ = Double.fin 1 := by
    norm_num [mul_def, sub_def, add_def, div_def, neg_def, Double.mul, Double.add,
      Double.neg, Double.div, isNaN, isFinite, toRat, signBit, zero, inf, ofRat_one, ofRat_two,
      ofRat_four, ofRat_neg_one, ofRat_neg_two, ofRat_neg_four, Matrix2d.determinant]
  have hinvdet : (1 : Double) / Double.fin 1 = Double.fin 1 := by
    rw [one_eq]
    norm_num [mul_def, sub_def, add_def, div_def, neg_def, Double.mul, Double.add,
      Double.neg, Double.div, isNaN, isFinite, toRat, signBit, zero, inf, ofRat_one, ofRat_two,
      ofRat_four, ofRat_neg_one, ofRat_neg_two, ofRat_neg_four, one_eq]
  have h00 : Double.fin (-1) * Double.fin 1 = Double.fin (-1) := by
    norm_num [mul_def, sub_def, add_def, div_def, neg_def, Double.mul, Double.add,
      Double.neg, Double.div, isNaN, isFinite, toRat, signBit, zero, inf, ofRat_one, ofRat_two,
      ofRat_four, ofRat_neg_one, ofRat_neg_two, ofRat_neg_four]
  have h01 : -Double.fin 0 * Double.fin 1 = Double.negZero := by
    norm_num [mul_def, sub_def, add_def, div_def, neg_def, Double.mul, Double.add,
      Double.neg, Double.div, isNaN, isFinite, toRat, signBit, zero, inf, ofRat_one, ofRat_two,
      ofRat_four, ofRat_neg_one, ofRat_neg_two, ofRat_neg_four]
  have h10 : -Double.fin 0 * Double.fin 1 = Double.negZero := by
    norm_num [mul_def, sub_def, add_def, div_def, neg_def, Double.mul, Double.add,
      Double.neg, Double.div, isNaN, isFinite, toRat, signBit, zero, inf, ofRat_one, ofRat_two,
      ofRat_four, ofRat_neg_one, ofRat_neg_two, ofRat_neg_four]
  have h11 : Double.fin (-1) * Double.fin 1 = Double.fin (-1) := by
    norm_num [mul_def, sub_def, add_def, div_def, neg_def, Double.mul, Double.add,
      Double.neg, Double.div, isNaN, isFinite, toRat, signBit, zero, inf, ofRat_one, ofRat_two,
      ofRat_four, ofRat_neg_one, ofRat_neg_two, ofRat_neg_four]
  have hr0 : Double.fin 2 * Double.fin (-1) + Double.fin 0 * Double.negZero = Double.fin (-2) := by
    norm_num [mul_def, sub_def, add_def, div_def, neg_def, Double.mul, Double.add,
      Double.neg, Double.div, isNaN, isFinite, toRat, signBit, zero, inf, ofRat_one, ofRat_two,
      ofRat_four, ofRat_neg_one, ofRat_neg_two, ofRat_neg_four]
  have hq0 : Double.fin (-2) * Double.fin 2 = Double.fin (-4) := by
    norm_num [mul_def, sub_def, add_def, div_def, neg_def, Double.mul, Double.add,
      Double.neg, Double.div, isNaN, isFinite, toRat, signBit, zero, inf, ofRat_one, ofRat_two,
      ofRat_four, ofRat_neg_one, ofRat_neg_two, ofRat_neg_four]
  have hr1 : Double.fin 2 * Double.negZero + Double.fin 0 * Double.fin (-1) = Double.negZero := by
    norm_num [mul_def, sub_def, add_def, div_def, neg_def, Double.mul, Double.add,
      Double.neg, Double.div, isNaN, isFinite, toRat, signBit, zero, inf, ofRat_one, ofRat_two,
      ofRat_four, ofRat_neg_one, ofRat_neg_two, ofRat_neg_four]
  have hq1 : Double.negZero * Double.fin 0 = Double.negZero := by
    norm_num [mul_def, sub_def, add_def, div_def, neg_def, Double.mul, Double.add,
      Double.neg, Double.div, isNaN, isFinite, toRat, signBit, zero, inf, ofRat_one, ofRat_two,
      ofRat_four, ofRat_neg_one, ofRat_neg_two, ofRat_neg_four]
  have hquad : Double.fin (-4) + Double.negZero = Double.fin (-4) := by
    norm_num [mul_def, sub_def, add_def, div_def, neg_def, Double.mul, Double.add,
      Double.neg, Double.div, isNaN, isFinite, toRat, signBit, zero, inf, ofRat_one, ofRat_two,
      ofRat_four, ofRat_neg_one, ofRat_neg_two, ofRat_neg_four]
  have hsqrt : sampleSqrt (Double.fin (-4)) = Double.nan := by
    norm_num [sampleSqrt]
  simp only [getMahalanobisDistance, Matrix2d.inverse, sampleExternals, hd0, hd1, hdet, hinvdet,
    h00, h01, h10, h11, hr0, hq0, hr1, hq1, hquad, hsqrt]

/-- The Mahalanobis distance for the identity covariance at the offset `(2, 0)` is 2. -/
theorem getMahalanobisDistance_identity_two :
    getMahalanobisDistance sampleExternals ⟨.fin 2, .fin 0, .fin 0⟩ ⟨.fin 0, .fin 0, .fin 0⟩
      ⟨Double.fin 1, Double.fin 0, Double.fin 0, Double.fin 1⟩ = Double.fin 2 := by
  have hd0 : Double.fin 2 - Double.fin 0 = Double.fin 2 := by
    norm_num [mul_def, sub_def, add_def, div_def, neg_def, Double.mul, Double.add,
      Double.neg, Double.div, isNaN, isFinite, toRat, signBit, zero, inf, ofRat_one, ofRat_two,
      ofRat_four, ofRat_neg_one, ofRat_neg_two, ofRat_neg_four]
  have hd1 : Double.fin 0 - Double.fin 0 = Double.fin 0 := by
    norm_num [mul_def, sub_def, add_def, div_def, neg_def, Double.mul, Double.add,
      Double.neg, Double.div, isNaN, isFinite, toRat, signBit, zero, inf, ofRat_one, ofRat_two,
      ofRat_four, ofRat_neg_one, ofRat_neg_two, ofRat_neg_four]
  have hdet : Matrix2d.determinant ⟨Double.fin 1, Double.fin 0, Double.fin 0, Double.fin 1⟩ = Double.fin 1 := by
    norm_num [mul_def, sub_def, add_def, div_def, neg_def, Double.mul, Double.add,
      Double.neg, Double.div, isNaN, isFinite, toRat, signBit, zero, inf, ofRat_one, ofRat_two,
      ofRat_four, ofRat_neg_one, ofRat_neg_two, ofRat_neg_four, Matrix2d.determinant]
  have hinvdet : (1 : Double) / Double.fin 1 = Double.fin 1 := by
    rw [one_eq]
    norm_num [mul_def, sub_def, add_def, div_def, neg_def, Double.mul, Double.add,
      Double.neg, Double.div, isNaN, isFinite, toRat, signBit, zero, inf, ofRat_one, ofRat_two,
      ofRat_four, ofRat_neg_one, ofRat_neg_two, ofRat_neg_four, one_eq]
  have h00 : Double.fin 1 * Double.fin 1 = Double.fin 1 := by
    norm_num [mul_def, sub_def, add_def, div_def, neg_def, Double.mul, Double.add,
      Double.neg, Double.div, isNaN, isFinite, toRat, signBit, zero, inf, ofRat_one, ofRat_two,
      ofRat_four, ofRat_neg_one, ofRat_neg_two, ofRat_neg_four]
  have h01 : -Double.fin 0 * Double.fin 1 = Double.negZero := by
    norm_num [mul_def, sub_def, add_def, div_def, neg_def, Double.mul, Double.add,
      Double.neg, Double.div, isNaN, isFinite, toRat, signBit, zero, inf, ofRat_one, ofRat_two,
      ofRat_four, ofRat_neg_one, ofRat_neg_two, ofRat_neg_four]
  have h10 : -Double.fin 0 * Double.fin 1 = Double.negZero := by
    norm_num [mul_def, sub_def, add_def, div_def, neg_def, Double.mul, Double.add,
      Double.neg, Double.div, isNaN, isFinite, toRat, signBit, zero, inf, ofRat_one, ofRat_two,
      ofRat_four, ofRat_neg_one, ofRat_neg_two, ofRat_neg_four]
  have h11 : Double.fin 1 * Double.fin 1 = Double.fin 1 := by
    norm_num [mul_def, sub_def, add_def, div_def, neg_def, Double.mul, Double.add,
      Double.neg, Double.div, isNaN, isFinite, toRat, signBit, zero, inf, ofRat_one, ofRat_two,
      ofRat_four, ofRat_neg_one, ofRat_neg_two, ofRat_neg_four]
  have hr0 : Double.fin 2 * Double.fin 1 + Double.fin 0 * Double.negZero = Double.fin 2 := by
    norm_num [mul_def, sub_def, add_def, div_def, neg_def, Double.mul, Double.add,
      Double.neg, Double.div, isNaN, isFinite, toRat, signBit, zero, inf, ofRat_one, ofRat_two,
      ofRat_four, ofRat_neg_one, ofRat_neg_two, ofRat_neg_four]
  have hq0 : Double.fin 2 * Double.fin 2 = Double.fin 4 := by
    norm_num [mul_def, sub_def, add_def, div_def, neg_def, Double.mul, Double.add,
      Double.neg, Double.div, isNaN, isFinite, toRat, signBit, zero, inf, ofRat_one, ofRat_two,
      ofRat_four, ofRat_neg_one, ofRat_neg_two, ofRat_neg_four]
  have hr1 : Double.fin 2 * Double.negZero + Double.fin 0 * Double.fin 1 = Double.fin 0 := by
    norm_num [mul_def, sub_def, add_def, div_def, neg_def, Double.mul, Double.add,
      Double.neg, Double.div, isNaN, isFinite, toRat, signBit, zero, inf, ofRat_one, ofRat_two,
      ofRat_four, ofRat_neg_one, ofRat_neg_two, ofRat_neg_four]
  have hq1 : Double.fin 0 * Double.fin 0 = Double.fin 0 := by
    norm_num [mul_def, sub_def, add_def, div_def, neg_def, Double.mul, Double.add,
      Double.neg, Double.div, isNaN, isFinite, toRat, signBit, zero, inf, ofRat_one, ofRat_two,
      ofRat_four, ofRat_neg_one, ofRat_neg_two, ofRat_neg_four]
  have hquad : Double.fin 4 + Double.fin 0 = Double.fin 4 := by
    norm_num [mul_def, sub_def, add_def, div_def, neg_def, Double.mul, Double.add,
      Double.neg, Double.div, isNaN, isFinite, toRat, signBit, zero, inf, ofRat_one, ofRat_two,
      ofRat_four, ofRat_neg_one, ofRat_neg_two, ofRat_neg_four]
  have hsqrt : sampleSqrt (Double.fin 4) = Double.fin 2 := by
    norm_num [sampleSqrt, ratSqrt_four_binary64]
  simp only [getMahalanobisDistance, Matrix2d.inverse, sampleExternals, hd0, hd1, hdet, hinvdet,
    h00, h01, h10, h11, hr0, hq0, hr1, hq1, hquad, hsqrt]

/-- The Mahalanobis distance for the identity covariance at the offset `(0, 0)` is 0. -/
theorem getMahalanobisDistance_identity_zero :
    getMahalanobisDistance sampleExternals ⟨.fin 0, .fin 0, .fin 0⟩ ⟨.fin 0, .fin 0, .fin 0⟩
      ⟨Double.fin 1, Double.fin 0, Double.fin 0, Double.fin 1⟩ = Double.fin 0 := by
  have hd0 : Double.fin 0 - Double.fin 0 = Double.fin 0 := by
    norm_num [mul_def, sub_def, add_def, div_def, neg_def, Double.mul, Double.add,
      Double.neg, Double.div, isNaN, isFinite, toRat, signBit, zero, inf, ofRat_one, ofRat_two,
      ofRat_four, ofRat_neg_one, ofRat_neg_two, ofRat_neg_four]
  have hd1 : Double.fin 0 - Double.fin 0 = Double.fin 0 := by
    norm_num [mul_def, sub_def, add_def, div_def, neg_def, Double.mul, Double.add,
      Double.neg, Double.div, isNaN, isFinite, toRat, signBit, zero, inf, ofRat_one, ofRat_two,
      ofRat_four, ofRat_neg_one, ofRat_neg_two, ofRat_neg_four]
  have hdet : Matrix2d.determinant ⟨Double.fin 1, Double.fin 0, Double.fin 0, Double.fin 1⟩ = Double.fin 1 := by
    norm_num [mul_def, sub_def, add_def, div_def, neg_def, Double.mul, Double.add,
      Double.neg, Double.div, isNaN, isFinite, toRat, signBit, zero, inf, ofRat_one, ofRat_two,
      ofRat_four, ofRat_neg_one, ofRat_neg_two, ofRat_neg_four, Matrix2d.determinant]
  have hinvdet : (1 : Double) / Double.fin 1 = Double.fin 1 := by
    rw [one_eq]
    norm_num [mul_def, sub_def, add_def, div_def, neg_def, Double.mul, Double.add,
      Double.neg, Double.div, isNaN, isFinite, toRat, signBit, zero, inf, ofRat_one, ofRat_two,
      ofRat_four, ofRat_neg_one, ofRat_neg_two, ofRat_neg_four, one_eq]
  have h00 : Double.fin 1 * Double.fin 1 = Double.fin 1 := by
    norm_num [mul_def, sub_def, add_def, div_def, neg_def, Double.mul, Double.add,
      Double.neg, Double.div, isNaN, isFinite, toRat, signBit, zero, inf, ofRat_one, ofRat_two,
      ofRat_four, ofRat_neg_one, ofRat_neg_two, ofRat_neg_four]
  have h01 : -Double.fin 0 * Double.fin 1 = Double.negZero := by
    norm_num [mul_def, sub_def, add_def, div_def, neg_def, Double.mul, Double.add,
      Double.neg, Double.div, isNaN, isFinite, toRat, signBit, zero, inf, ofRat_one, ofRat_two,
      ofRat_four, ofRat_neg_one, ofRat_neg_two, ofRat_neg_four]
  have h10 : -Double.fin 0 * Double.fin 1 = Double.negZero := by
    norm_num [mul_def, sub_def, add_def, div_def, neg_def, Double.mul, Double.add,
      Double.neg, Double.div, isNaN, isFinite, toRat, signBit, zero, inf, ofRat_one, ofRat_two,
      ofRat_four, ofRat_neg_one, ofRat_neg_two, ofRat_neg_four]
  have h11 : Double.fin 1 * Double.fin 1 = Double.fin 1 := by
    norm_num [mul_def, sub_def, add_def, div_def, neg_def, Double.mul, Double.add,
      Double.neg, Double.div, isNaN, isFinite, toRat, signBit, zero, inf, ofRat_one, ofRat_two,
      ofRat_four, ofRat_neg_one, ofRat_neg_two, ofRat_neg_four]
  have hr0 : Double.fin 0 * Double.fin 1 + Double.fin 0 * Double.negZero = Double.fin 0 := by
    norm_num [mul_def, sub_def, add_def, div_def, neg_def, Double.mul, Double.add,
      Double.neg, Double.div, isNaN, isFinite, toRat, signBit, zero, inf, ofRat_one, ofRat_two,
      ofRat_four, ofRat_neg_one, ofRat_neg_two, ofRat_neg_four]
  have hq0 : Double.fin 0 * Double.fin 0 = Double.fin 0 := by
    norm_num [mul_def, sub_def, add_def, div_def, neg_def, Double.mul, Double.add,
      Double.neg, Double.div, isNaN, isFinite, toRat, signBit, zero, inf, ofRat_one, ofRat_two,
      ofRat_four, ofRat_neg_one, ofRat_neg_two, ofRat_neg_four]
  have hr1 : Double.fin 0 * Double.negZero + Double.fin 0 * Double.fin 1 = Double.fin 0 := by
    norm_num [mul_def, sub_def, add_def, div_def, neg_def, Double.mul, Double.add,
      Double.neg, Double.div, isNaN, isFinite, toRat, signBit, zero, inf, ofRat_one, ofRat_two,
      ofRat_four, ofRat_neg_one, ofRat_neg_two, ofRat_neg_four]
  have hq1 : Double.fin 0 * Double.fin 0 = Double.fin 0 := by
    norm_num [mul_def, sub_def, add_def, div_def, neg_def, Double.mul, Double.add,
      Double.neg, Double.div, isNaN, isFinite, toRat, signBit, zero, inf, ofRat_one, ofRat_two,
      ofRat_four, ofRat_neg_one, ofRat_neg_two, ofRat_neg_four]
  have hquad : Double.fin 0 + Double.fin 0 = Double.fin 0 := by
    norm_num [mul_def, sub_def, add_def, div_def, neg_def, Double.mul, Double.add,
      Double.neg, Double.div, isNaN, isFinite, toRat, signBit, zero, inf, ofRat_one, ofRat_two,
      ofRat_four, ofRat_neg_one, ofRat_neg_two, ofRat_neg_four]
  have hsqrt : sampleSqrt (Double.fin 0) = Double.fin 0 := by
    norm_num [sampleSqrt, ratSqrt_zero_binary64]
  simp only [getMahalanobisDistance, Matrix2d.inverse, sampleExternals, hd0, hd1, hdet, hinvdet,
    h00, h01, h10, h11, hr0, hq0, hr1, hq1, hquad, hsqrt]

/-- The Mahalanobis distance for the zero covariance at the offset `(2, 0)` is NaN: the
determinant is 0, its reciprocal an infinity, and the entries of the inverse are `0 * inf`. -/
theorem getMahalanobisDistance_zero_covariance_two :
    getMahalanobisDistance sampleExternals ⟨.fin 2, .fin 0, .fin 0⟩ ⟨.fin 0, .fin 0, .fin 0⟩
      ⟨Double.fin 0, Double.fin 0, Double.fin 0, Double.fin 0⟩ = Double.nan := by
  have hd0 : Double.fin 2 - Double.fin 0 = Double.fin 2 := by
    norm_num [mul_def, sub_def, add_def, div_def, neg_def, Double.mul, Double.add,
      Double.neg, Double.div, isNaN, isFinite, toRat, signBit, zero, inf, ofRat_one, ofRat_two,
      ofRat_four, ofRat_neg_one, ofRat_neg_two, ofRat_neg_four]
  have hd1 : Double.fin 0 - Double.fin 0 = Double.fin 0 := by
    norm_num [mul_def, sub_def, add_def, div_def, neg_def, Double.mul, Double.add,
      Double.neg, Double.div, isNaN, isFinite, toRat, signBit, zero, inf, ofRat_one, ofRat_two,
      ofRat_four, ofRat_neg_one, ofRat_neg_two, ofRat_neg_four]
  have hdet : Matrix2d.determinant ⟨Double.fin 0, Double.fin 0, Double.fin 0, Double.fin 0⟩ = Double.fin 0 := by
    norm_num [mul_def, sub_def, add_def, div_def, neg_def, Double.mul, Double.add,
      Double.neg, Double.div, isNaN, isFinite, toRat, signBit, zero, inf, ofRat_one, ofRat_two,
      ofRat_four, ofRat_neg_one, ofRat_neg_two, ofRat_neg_four, Matrix2d.determinant]
  have hinvdet : (1 : Double) / Double.fin 0 = Double.posInf := by
    rw [one_eq]
    norm_num [mul_def, sub_def, add_def, div_def, neg_def, Double.mul, Double.add,
      Double.neg, Double.div, isNaN, isFinite, toRat, signBit, zero, inf, ofRat_one, ofRat_two,
      ofRat_four, ofRat_neg_one, ofRat_neg_two, ofRat_neg_four, one_eq]
  have h00 : Double.fin 0 * Double.posInf = Double.nan := by
    norm_num [mul_def, sub_def, add_def, div_def, neg_def, Double.mul, Double.add,
      Double.neg, Double.div, isNaN, isFinite, toRat, signBit, zero, inf, ofRat_one, ofRat_two,
      ofRat_four, ofRat_neg_one, ofRat_neg_two, ofRat_neg_four]
  have h01 : -Double.fin 0 * Double.posInf = Double.nan := by
    norm_num [mul_def, sub_def, add_def, div_def, neg_def, Double.mul, Double.add,
      Double.neg, Double.div, isNaN, isFinite, toRat, signBit, zero, inf, ofRat_one, ofRat_two,
      ofRat_four, ofRat_neg_one, ofRat_neg_two, ofRat_neg_four]
  have h10 : -Double.fin 0 * Double.posInf = Double.nan := by
    norm_num [mul_def, sub_def, add_def, div_def, neg_def, Double.mul, Double.add,
      Double.neg, Double.div, isNaN, isFinite, toRat, signBit, zero, inf, ofRat_one, ofRat_two,
      ofRat_four, ofRat_neg_one, ofRat_neg_two, ofRat_neg_four]
  have h11 : Double.fin 0 * Double.posInf = Double.nan := by
    norm_num [mul_def, sub_def, add_def, div_def, neg_def, Double.mul, Double.add,
      Double.neg, Double.div, isNaN, isFinite, toRat, signBit, zero, inf, ofRat_one, ofRat_two,
      ofRat_four, ofRat_neg_one, ofRat_neg_two, ofRat_neg_four]
  have hr0 : Double.fin 2 * Double.nan + Double.fin 0 * Double.nan = Double.nan := by
    norm_num [mul_def, sub_def, add_def, div_def, neg_def, Double.mul, Double.add,
      Double.neg, Double.div, isNaN, isFinite, toRat, signBit, zero, inf, ofRat_one, ofRat_two,
      ofRat_four, ofRat_neg_one, ofRat_neg_two, ofRat_neg_four]
  have hq0 : Double.nan * Double.fin 2 = Double.nan := by
    norm_num [mul_def, sub_def, add_def, div_def, neg_def, Double.mul, Double.add,
      Double.neg, Double.div, isNaN, isFinite, toRat, signBit, zero, inf, ofRat_one, ofRat_two,
      ofRat_four, ofRat_neg_one, ofRat_neg_two, ofRat_neg_four]
  have hr1 : Double.fin 2 * Double.nan + Double.fin 0 * Double.nan = Double.nan := by
    norm_num [mul_def, sub_def, add_def, div_def, neg_def, Double.mul, Double.add,
      Double.neg, Double.div, isNaN, isFinite, toRat, signBit, zero, inf, ofRat_one, ofRat_two,
      ofRat_four, ofRat_neg_one, ofRat_neg_two, ofRat_neg_four]
  have hq1 : Double.nan * Double.fin 0 = Double.nan := by
    norm_num [mul_def, sub_def, add_def, div_def, neg_def, Double.mul, Double.add,
      Double.neg, Double.div, isNaN, isFinite, toRat, signBit, zero, inf, ofRat_one, ofRat_two,
      ofRat_four, ofRat_neg_one, ofRat_neg_two, ofRat_neg_four]
  have hquad : Double.nan + Double.nan = Double.nan := by
    norm_num [mul_def, sub_def, add_def, div_def, neg_def, Double.mul, Double.add,
      Double.neg, Double.div, isNaN, isFinite, toRat, signBit, zero, inf, ofRat_one, ofRat_two,
      ofRat_four, ofRat_neg_one, ofRat_neg_two, ofRat_neg_four]
  have hsqrt : sampleSqrt (Double.nan) = Double.nan := by
    norm_num [sampleSqrt]
  simp only [getMahalanobisDistance, Matrix2d.inverse, sampleExternals, hd0, hd1, hdet, hinvdet,
    h00, h01, h10, h11, hr0, hq0, hr1, hq1, hquad, hsqrt]

end SampleEvaluation2

end Binary64

namespace Binary64

open Double

section ReadsLemmas

theorem sub_nan_left (y : Double) : Double.nan - y = Double.nan := by
  rw [sub_def]
  simp [Double.add, isNaN]

theorem sub_nan_right (x : Double) : x - Double.nan = Double.nan := by
  rw [sub_def]
  cases x <;> simp [Double.add, Double.neg, isNaN]

theorem add_nan_left (y : Double) : Double.nan + y = Double.nan := by
  rw [add_def]
  simp [Double.add, isNaN]

/-- With a NaN among the two yaws no loop of `getFormedYawAngle` takes a step (a comparison
with NaN is false), and the formed angle is NaN. -/
theorem formedYawAngle_of_isNaN (fuel : Nat) (m t : Double) (dfb : Bool)
    (h : m.isNaN = true ∨ t.isNaN = true) :
    formedYawAngle (fuel + 1) m t dfb = some Double.nan := by
  have h1 : t - m = Double.nan := by
    rcases h with h | h
    · cases m <;> simp [isNaN] at h
      exact sub_nan_right t
    · cases t <;> simp [isNaN] at h
      exact sub_nan_left m
  have h2 : m - t = Double.nan := by
    rcases h with h | h
    · cases m <;> simp [isNaN] at h
      exact sub_nan_left t
    · cases t <;> simp [isNaN] at h
      exact sub_nan_right m
  have hle : ∀ x : Double, ¬ (Double.le x Double.nan = true) := by
    intro x
    exact not_le_nan_right x
  simp only [formedYawAngle, fixYawUp_succ, fixYawDown_succ, h1, h2, if_neg (hle _),
    Option.bind_eq_bind, Option.some_bind, Option.pure_def]
  rfl

/-- The loops of `getFormedYawAngle` end within three tests on the yaws that
`normalizeRadian` returns. -/
theorem formedYawAngle_returns (fuel : Nat) (hfuel : 3 ≤ fuel) (m t : Double) (dfb : Bool)
    (hm : IsNormalizedOrNaN m) (ht : IsNormalizedOrNaN t) :
    ∃ angle, formedYawAngle fuel m t dfb = some angle := by
  obtain ⟨f, rfl⟩ : ∃ f, fuel = f + 1 := ⟨fuel - 1, by omega⟩
  rcases hm with hm | hm
  · rcases ht with ht | ht
    · obtain ⟨m1, mf, K, -, -, -, hformed, -⟩ := formedYawAngle_bounds dfb _ _ hm ht
      exact ⟨_, hformed _ hfuel⟩
    · exact ⟨_, formedYawAngle_of_isNaN f m t dfb (Or.inr ht)⟩
  · exact ⟨_, formedYawAngle_of_isNaN f m t dfb (Or.inl hm)⟩

/-- With the labels within bounds and yaws as `normalizeRadian` returns them, the readings of
a pair are defined: the loops of `getFormedYawAngle` end within three tests. -/
theorem reads_exists_binary64 (da : DataAssociation) (ext : Externals) (fuel : Nat) (stamp : ℤ)
    (tracker : Tracker) (mo : DetectedObject) (hfuel : 3 ≤ fuel)
    (hin : da.LabelsInRange tracker.getHighestProbLabel
      (ext.getHighestProbLabel mo.classification))
    (hm : IsNormalizedOrNaN (ext.normalizeRadian
      (ext.getYaw mo.pose_with_covariance.pose.orientation)))
    (ht : IsNormalizedOrNaN (ext.normalizeRadian
      (ext.getYaw (tracker.getTrackedObject stamp).pose_with_covariance.pose.orientation))) :
    ∃ r, da.Reads ext fuel stamp tracker mo r := by
  obtain ⟨h1, h2, h3, h4, h5, h6⟩ := hin
  obtain ⟨angle, hformed⟩ := formedYawAngle_returns fuel hfuel _ _ false hm ht
  exact ⟨⟨_, _, _, _, _, _, _, _, _, _, _⟩,
    coeff_of_inRange_binary64 _ _ _ h1, coeff_of_inRange_binary64 _ _ _ h2,
    coeff_of_inRange_binary64 _ _ _ h3, coeff_of_inRange_binary64 _ _ _ h4,
    coeff_of_inRange_binary64 _ _ _ h5, coeff_of_inRange_binary64 _ _ _ h6, rfl, rfl,
    hformed, rfl, rfl⟩

/-- The readings of a pair are unique. -/
theorem reads_unique_binary64 (da : DataAssociation) (ext : Externals) (fuel : Nat) (stamp : ℤ)
    (tracker : Tracker) (mo : DetectedObject) (r1 r2 : PairReadings)
    (h1 : da.Reads ext fuel stamp tracker mo r1) (h2 : da.Reads ext fuel stamp tracker mo r2) :
    r1 = r2 := by
  obtain ⟨a1, a2, a3, a4, a5, a6, a7, a8, a9, a10, a11⟩ := h1
  obtain ⟨b1, b2, b3, b4, b5, b6, b7, b8, b9, b10, b11⟩ := h2
  rw [a1] at b1
  rw [a2] at b2
  rw [a3] at b3
  rw [a4] at b4
  rw [a5] at b5
  rw [a6] at b6
  rw [a9] at b9
  injection b1 with b1
  injection b2 with b2
  injection b3 with b3
  injection b4 with b4
  injection b5 with b5
  injection b6 with b6
  injection b9 with b9
  cases r1
  cases r2
  simp only [PairReadings.mk.injEq]
  simp only [] at a7 a8 a10 a11 b1 b2 b3 b4 b5 b6 b7 b8 b9 b10 b11
  exact ⟨b1, b2, b3, b4, b5, b6, a7.trans b7.symm, a8.trans b8.symm, b9,
    a10.trans b10.symm, a11.trans b11.symm⟩

/-- With the labels within bounds and normalised yaws, `calcScoreMatrix` returns the matrix of
the cells `calcScore`. -/
theorem calcScoreMatrix_ok_binary64 (da : DataAssociation) (ext : Externals) (fuel : Nat)
    (measurements : DetectedObjects) (trackers : List Tracker)
    (hreads : ∀ tr ∈ trackers, ∀ mo ∈ measurements.objects,
      ∃ r, da.Reads ext fuel measurements.stamp tr mo r) :
    ∃ m, da.calcScoreMatrix ext fuel measurements trackers = .ok m
      ∧ m.rows = trackers.length ∧ m.cols = measurements.objects.length
      ∧ ∀ i (hi : i < trackers.length) j (hj : j < measurements.objects.length),
          da.calcScore ext fuel measurements.stamp (trackers.get ⟨i, hi⟩)
            (measurements.objects.get ⟨j, hj⟩) = .ok (m.coeffs i j) := by
  have hscore : ∀ tr ∈ trackers, ∀ mo ∈ measurements.objects,
      ∃ s, da.calcScore ext fuel measurements.stamp tr mo = .ok s := by
    intro tr htr mo hmo
    obtain ⟨r, hr⟩ := hreads tr htr mo hmo
    exact ⟨_, calcScore_of_reads_binary64 da ext fuel _ tr mo r hr⟩
  obtain ⟨m, hm⟩ := trackerLoop_ok_binary64 da ext fuel measurements trackers hscore 0
    ⟨trackers.length, measurements.objects.length, fun _ _ => 0.0⟩
    (by simp) (le_refl _)
  obtain ⟨hrows, hcols, hval, -⟩ :=
    trackerLoop_spec_binary64 da ext fuel measurements trackers 0 _ m hm
  refine ⟨m, hm, hrows, hcols, ?_⟩
  intro i hi j hj
  have := hval i hi j hj
  rw [Nat.zero_add] at this
  exact this

end ReadsLemmas

end Binary64

namespace Binary64

open Double



/-- C24 (as amended): over binary64, `calcScoreMatrix` calls `getFormedYawAngle` with
`distinguish_front_or_back = false`, so on normalised yaws the formed angle is at most
`M_PI_2 + 2^-50` (and NaN when a yaw is NaN); hence for every entry `max_rad` with
`|max_rad| >= M_PI_2 + 2^-50` (an infinite or NaN entry included) the angle gate rejects no
pair, whatever the two headings are. -/
theorem angleGate_wide_max_rad_binary64 (da : DataAssociation) (ext : Externals)
    (tracker_label measurement_label : ℤ) (measurement_object : DetectedObject)
    (tracked_object : TrackedObject) (max_rad : Double)
    (h : coeff da.max_rad_matrix_ tracker_label measurement_label = .ok max_rad)
    (hm : IsNormalizedOrNaN (ext.normalizeRadian
      (ext.getYaw measurement_object.pose_with_covariance.pose.orientation)))
    (ht : IsNormalizedOrNaN (ext.normalizeRadian
      (ext.getYaw tracked_object.pose_with_covariance.pose.orientation)))
    (hwide : max_rad.isFinite = true → M_PI_2.toRat + (2 : ℚ) ^ (-50 : ℤ) ≤ |max_rad.toRat|) :
    (∀ fuel, 3 ≤ fuel →
      da.angleGate ext fuel tracker_label measurement_label measurement_object
        tracked_object true = .ok true)
    ∧ (IsNormalized (ext.normalizeRadian
          (ext.getYaw measurement_object.pose_with_covariance.pose.orientation)) →
        IsNormalized (ext.normalizeRadian
          (ext.getYaw tracked_object.pose_with_covariance.pose.orientation)) →
        ∃ angle : Double, angle.isFinite = true
          ∧ angle.toRat ≤ M_PI_2.toRat + (2 : ℚ) ^ (-50 : ℤ)
          ∧ ∀ fuel, 3 ≤ fuel →
            getFormedYawAngle ext fuel measurement_object.pose_with_covariance.pose.orientation
              tracked_object.pose_with_covariance.pose.orientation false = some angle) := by
  have hfinite : ∀ (hm1 : IsNormalized (ext.normalizeRadian
        (ext.getYaw measurement_object.pose_with_covariance.pose.orientation)))
      (ht1 : IsNormalized (ext.normalizeRadian
        (ext.getYaw tracked_object.pose_with_covariance.pose.orientation))),
      ∃ angle : Double, angle.isFinite = true
        ∧ angle.toRat ≤ M_PI_2.toRat + (2 : ℚ) ^ (-50 : ℤ)
        ∧ ∀ fuel, 3 ≤ fuel →
          getFormedYawAngle ext fuel measurement_object.pose_with_covariance.pose.orientation
            tracked_object.pose_with_covariance.pose.orientation false = some angle := by
    intro hm1 ht1
    obtain ⟨m1, mf, K, hmf, -, -, hformed, -, -, -, hfin, hval, hle, -⟩ :=
      formedYawAngle_bounds false _ _ hm1 ht1
    exact ⟨_, hfin, hle, fun fuel hfuel => hformed fuel hfuel⟩
  have hnan : ∀ fuel, 3 ≤ fuel →
      getFormedYawAngle ext fuel measurement_object.pose_with_covariance.pose.orientation
        tracked_object.pose_with_covariance.pose.orientation false = some Double.nan →
      da.angleGate ext fuel tracker_label measurement_label measurement_object
        tracked_object true = .ok true := by
    intro fuel _ ha
    rw [angleGate_of_reads_binary64 da ext fuel _ _ _ _ max_rad _ h ha]
    congr 1
    rw [Bool.not_eq_true', decide_eq_false_iff_not]
    rintro ⟨-, hc2⟩
    exact not_lt_nan_right _ hc2
  refine ⟨?_, hfinite⟩
  intro fuel hfuel
  obtain ⟨f, rfl⟩ : ∃ f, fuel = f + 1 := ⟨fuel - 1, by omega⟩
  rcases hm with hm | hm
  swap
  · exact hnan _ hfuel (formedYawAngle_of_isNaN f _ _ false (Or.inl hm))
  rcases ht with ht | ht
  swap
  · exact hnan _ hfuel (formedYawAngle_of_isNaN f _ _ false (Or.inr ht))
  obtain ⟨m1, mf, K, hmf, -, -, hformed, -, -, -, hfin, hval, hle, -⟩ :=
    formedYawAngle_bounds false _ _ hm ht
  have ha := hformed _ hfuel
  rw [angleGate_of_reads_binary64 da ext _ _ _ _ _ max_rad _ h ha]
  congr 1
  rw [Bool.not_eq_true', decide_eq_false_iff_not]
  rintro ⟨hc1, hc2⟩
  cases hfm : max_rad.isFinite
  · cases max_rad with
    | fin q => simp [isFinite] at hfm
    | negZero => simp [isFinite] at hfm
    | posInf =>
      rw [M_PI_eq, lt_def] at hc1
      simp [Double.fabs, Double.lt, isNaN, isFinite, signBit] at hc1
    | negInf =>
      rw [M_PI_eq, lt_def] at hc1
      simp [Double.fabs, Double.lt, isNaN, isFinite, signBit] at hc1
    | nan => exact not_lt_nan_left _ hc1
  · have hw := hwide hfm
    have hc2' := (lt_iff_of_finite (isFinite_fabs _ hfm) (isFinite_fabs _ hfin)).mp hc2
    simp only [toRat_fabs, abs_abs] at hc2' hle
    have hrange : (angleRange false).toRat = M_PI_2.toRat := rfl
    rw [hrange] at hle
    generalize (2 : ℚ) ^ (-50 : ℤ) = e at hw hle
    linarith

/-- C28 (as amended): over binary64, `getFormedYawAngle` is symmetric in its two headings and,
with `distinguish_front_or_back = false`, blind to a half turn, both up to rounding: for all
normalised yaws `a` and `b` the two formed angles differ by at most `2^-46`, and the formed
angle of `a'` and `b` differs from that of `a` and `b` by at most `2^-46` whenever `a'` is
`a + M_PI` or `a - M_PI` up to `2^-50` (the half turn, taken back into the range of the
normalised yaws). Equality can fail in the last places. -/
theorem formedYawAngle_symmetric_binary64 (a b : Double) (distinguish_front_or_back : Bool)
    (ha : IsNormalized a) (hb : IsNormalized b) :
    (∃ x y : Double, x.isFinite = true ∧ y.isFinite = true
      ∧ (∀ fuel, 3 ≤ fuel → formedYawAngle fuel a b distinguish_front_or_back = some x
          ∧ formedYawAngle fuel b a distinguish_front_or_back = some y)
      ∧ |x.toRat - y.toRat| ≤ (2 : ℚ) ^ (-46 : ℤ))
    ∧ ∀ a' : Double, IsNormalized a' →
        (|a'.toRat - (a.toRat + M_PI.toRat)| ≤ (2 : ℚ) ^ (-50 : ℤ)
          ∨ |a'.toRat - (a.toRat - M_PI.toRat)| ≤ (2 : ℚ) ^ (-50 : ℤ)) →
        ∃ u v : Double, u.isFinite = true ∧ v.isFinite = true
          ∧ (∀ fuel, 3 ≤ fuel → formedYawAngle fuel a b false = some u
              ∧ formedYawAngle fuel a' b false = some v)
          ∧ |u.toRat - v.toRat| ≤ (2 : ℚ) ^ (-46 : ℤ) := by
  have he46 : (2 : ℚ) ^ (-46 : ℤ) = 1 / 70368744177664 := by norm_num
  have he50 : (2 : ℚ) ^ (-50 : ℤ) = 1 / 1125899906842624 := by norm_num
  simp only [he46, he50]
  clear he46 he50
  constructor
  · obtain ⟨x, hx, hxf, hxe⟩ := formedYawAngle_approx distinguish_front_or_back a b ha hb
    obtain ⟨y, hy, hyf, hye⟩ := formedYawAngle_approx distinguish_front_or_back b a hb ha
    refine ⟨x, y, hxf, hyf, fun fuel hfuel => ⟨hx fuel hfuel, hy fuel hfuel⟩, ?_⟩
    have hsym : foldedAngle (angleRange distinguish_front_or_back).toRat (b.toRat - a.toRat)
        = foldedAngle (angleRange distinguish_front_or_back).toRat (a.toRat - b.toRat) := by
      rw [← foldedAngle_neg, neg_sub]
    rw [hsym] at hye
    rw [abs_le] at hxe hye ⊢
    constructor <;> linarith [hxe.1, hxe.2, hye.1, hye.2]
  · intro a' ha' hturn
    obtain ⟨u, hu, huf, hue⟩ := formedYawAngle_approx false a b ha hb
    obtain ⟨v, hv, hvf, hve⟩ := formedYawAngle_approx false a' b ha' hb
    refine ⟨u, v, huf, hvf, fun fuel hfuel => ⟨hu fuel hfuel, hv fuel hfuel⟩, ?_⟩
    have hstep : 2 * (angleRange false).toRat = M_PI.toRat := by
      rw [angleRange_toRat, M_PI_toRat]
      norm_num
    have hfold : |foldedAngle (angleRange false).toRat (a'.toRat - b.toRat)
        - foldedAngle (angleRange false).toRat (a.toRat - b.toRat)| ≤ 1 / 1125899906842624 := by
      rcases hturn with h | h
      · have h1 := abs_foldedAngle_sub_le (angleRange false).toRat (a'.toRat - b.toRat)
          (a.toRat - b.toRat + ((1 : ℤ) : ℚ) * (2 * (angleRange false).toRat))
        rw [foldedAngle_add_int_mul] at h1
        refine h1.trans ?_
        rw [hstep]
        have : a'.toRat - b.toRat - (a.toRat - b.toRat + ((1 : ℤ) : ℚ) * M_PI.toRat)
            = a'.toRat - (a.toRat + M_PI.toRat) := by
          push_cast
          ring
        rw [this]
        exact h
      · have h1 := abs_foldedAngle_sub_le (angleRange false).toRat (a'.toRat - b.toRat)
          (a.toRat - b.toRat + ((-1 : ℤ) : ℚ) * (2 * (angleRange false).toRat))
        rw [foldedAngle_add_int_mul] at h1
        refine h1.trans ?_
        rw [hstep]
        have : a'.toRat - b.toRat - (a.toRat - b.toRat + ((-1 : ℤ) : ℚ) * M_PI.toRat)
            = a'.toRat - (a.toRat - M_PI.toRat) := by
          push_cast
          ring
        rw [this]
        exact h
    rw [abs_le] at hue hve hfold ⊢
    constructor <;> linarith [hue.1, hue.2, hve.1, hve.2, hfold.1, hfold.2]

end Binary64

namespace Binary64

open Double

section YawSamples

theorem isNormalized_yawA : IsNormalized yawA :=
  isNormalized_fin _ (by norm_num) (by norm_num)

theorem isNormalized_yawB : IsNormalized yawB :=
  isNormalized_fin _ (by norm_num) (by norm_num)

theorem isNormalized_yawC : IsNormalized yawC :=
  isNormalized_fin _ (by norm_num) (by norm_num)

theorem isNormalized_yawD : IsNormalized yawD :=
  isNormalized_fin _ (by norm_num) (by norm_num)

theorem isNormalized_yawE : IsNormalized yawE :=
  isNormalized_fin _ (by norm_num) (by norm_num)

theorem isNormalized_yawF : IsNormalized yawF :=
  isNormalized_fin _ (by norm_num) (by norm_num)

theorem isNormalized_yawOne : IsNormalized yawOne :=
  isNormalized_fin _ (by norm_num) (by norm_num)

theorem yawExternals_first (first second : Double) :
    (yawExternals first second).normalizeRadian
      ((yawExternals first second).getYaw ⟨.fin 0, .fin 0, .fin 1, .fin 0⟩) = first := by
  simp [yawExternals, sampleExternals]

theorem yawExternals_second (first second : Double) :
    (yawExternals first second).normalizeRadian
      ((yawExternals first second).getYaw ⟨.fin 0, .fin 0, .fin 0, .fin 1⟩) = second := by
  simp [yawExternals, sampleExternals]

theorem getFormedYawAngle_yawExternals (first second : Double) (fuel : Nat) (dfb : Bool) :
    getFormedYawAngle (yawExternals first second) fuel ⟨.fin 0, .fin 0, .fin 1, .fin 0⟩
      ⟨.fin 0, .fin 0, .fin 0, .fin 1⟩ dfb = formedYawAngle fuel first second dfb := by
  unfold getFormedYawAngle
  simp only [yawExternals_first, yawExternals_second]

end YawSamples

/-- C20 (as amended), worked instance: the yaws -0.9947342778544477 and -2.5655306046493442. -/
theorem getFormedYawAngle_range_binary64_witness :
    ∃ (m' : Double) (k : ℤ), m'.isFinite = true
      ∧ (∀ fuel, 3 ≤ fuel →
          getFormedYawAngle (yawExternals yawA yawB) fuel ⟨.fin 0, .fin 0, .fin 1, .fin 0⟩
            ⟨.fin 0, .fin 0, .fin 0, .fin 1⟩ false
            = some (Double.fabs (m' - (yawExternals yawA yawB).normalizeRadian
                ((yawExternals yawA yawB).getYaw ⟨.fin 0, .fin 0, .fin 0, .fin 1⟩))))
      ∧ (Double.fabs (m' - (yawExternals yawA yawB).normalizeRadian
            ((yawExternals yawA yawB).getYaw ⟨.fin 0, .fin 0, .fin 0, .fin 1⟩))).isFinite = true
      ∧ 0 ≤ (Double.fabs (m' - (yawExternals yawA yawB).normalizeRadian
            ((yawExternals yawA yawB).getYaw ⟨.fin 0, .fin 0, .fin 0, .fin 1⟩))).toRat
      ∧ (Double.fabs (m' - (yawExternals yawA yawB).normalizeRadian
            ((yawExternals yawA yawB).getYaw ⟨.fin 0, .fin 0, .fin 0, .fin 1⟩))).toRat
          ≤ (angleRange false).toRat + (2 : ℚ) ^ (-50 : ℤ)
      ∧ |m'.toRat - (((yawExternals yawA yawB).normalizeRadian
            ((yawExternals yawA yawB).getYaw ⟨.fin 0, .fin 0, .fin 1, .fin 0⟩)).toRat
            + k * (angleStep false).toRat)| ≤ (2 : ℚ) ^ (-49 : ℤ) :=
  getFormedYawAngle_range_binary64 (yawExternals yawA yawB) ⟨.fin 0, .fin 0, .fin 1, .fin 0⟩
    ⟨.fin 0, .fin 0, .fin 0, .fin 1⟩ false
    (by rw [yawExternals_first]; exact isNormalized_yawA)
    (by rw [yawExternals_second]; exact isNormalized_yawB)

/-- C20 as stated fails: for the normalised yaws -0.9947342778544477 (measurement) and
-2.5655306046493442 (tracker), without distinction of front and back, `getFormedYawAngle`
returns 1.570796326794897, which is above `M_PI_2`; the corrected heading, which the
second loop reaches by one rounded subtraction of the step, differs from the measurement yaw
by no integer multiple of the step. And for a measurement yaw that is NaN the function
returns NaN, which is not at most the range. -/
theorem getFormedYawAngle_exceeds_range_counterexample :
    IsNormalized yawA ∧ IsNormalized yawB
    ∧ getFormedYawAngle (yawExternals yawA yawB) 3 ⟨.fin 0, .fin 0, .fin 1, .fin 0⟩
        ⟨.fin 0, .fin 0, .fin 0, .fin 1⟩ false
        = some (Double.fin (3537118876014221 / 2251799813685248))
    ∧ angleRange false < Double.fin (3537118876014221 / 2251799813685248)
    ∧ ¬ (Double.fin (3537118876014221 / 2251799813685248) ≤ angleRange false)
    ∧ fixYawUp false yawB 3 yawA = some yawA
    ∧ fixYawDown false yawB 3 yawA = some (Double.fin (-1164272526695927 / 281474976710656))
    ∧ (∀ k : ℤ, (Double.fin (-1164272526695927 / 281474976710656)).toRat
        ≠ yawA.toRat + k * (angleStep false).toRat)
    ∧ getFormedYawAngle (yawExternals Double.nan yawB) 3 ⟨.fin 0, .fin 0, .fin 1, .fin 0⟩
        ⟨.fin 0, .fin 0, .fin 0, .fin 1⟩ false = some Double.nan
    ∧ ¬ (Double.nan ≤ angleRange false) := by
  refine ⟨isNormalized_yawA, isNormalized_yawB, ?_, ?_, ?_, fixYaw_yawA_yawB.1,
    fixYaw_yawA_yawB.2.1, ?_, ?_, not_le_nan_left _⟩
  · rw [getFormedYawAngle_yawExternals]
    exact formedYawAngle_yawA_yawB
  · rw [angleRange_eq, fin_lt_fin]
    norm_num
  · rw [angleRange_eq, fin_le_fin]
    norm_num
  · intro k hk
    rw [angleStep_toRat, angleRange_toRat] at hk
    have h1 : (k : ℚ) * 7074237752028440 = -7074237752028441 := by
      norm_num [yawA, toRat, M_PI_2_eq] at hk
      linarith
    have h2 : k * 7074237752028440 = -7074237752028441 := by exact_mod_cast h1
    omega
  · rw [getFormedYawAngle_yawExternals]
    exact formedYawAngle_of_isNaN 2 _ _ false (Or.inl rfl)

/-- C27 (as amended), worked instance: the yaws -0.9947342778544477 and -2.5655306046493442. -/
theorem fixYaw_loops_terminate_binary64_witness :
    ∃ m1 m' : Double,
      (∀ fuel, 3 ≤ fuel → fixYawUp false yawB fuel yawA = some m1)
      ∧ (∀ fuel, 3 ≤ fuel → fixYawDown false yawB fuel m1 = some m')
      ∧ m'.isFinite = true
      ∧ ¬ (angleRange false ≤ m' - yawB)
      ∧ m'.toRat - yawB.toRat < (angleRange false).toRat
      ∧ yawB.toRat - m'.toRat ≤ (angleRange false).toRat + (2 : ℚ) ^ (-50 : ℤ) :=
  fixYaw_loops_terminate_binary64 false yawA yawB isNormalized_yawA isNormalized_yawB

/-- C27 as stated fails: for the normalised yaws -0.9947342778544477 (measurement) and
-2.5655306046493442 (tracker), without distinction of front and back, the first loop does
not run, the second subtracts the step once, and on exit `tracker_yaw - m'` is above
`angle_range`, in exact terms and as the first loop would compute it: the condition of the
first loop holds again. -/
theorem fixYaw_second_loop_undoes_first_counterexample :
    IsNormalized yawA ∧ IsNormalized yawB
    ∧ fixYawUp false yawB 3 yawA = some yawA
    ∧ fixYawDown false yawB 3 yawA = some (Double.fin (-1164272526695927 / 281474976710656))
    ∧ ¬ (yawB.toRat - (Double.fin (-1164272526695927 / 281474976710656)).toRat
          ≤ (angleRange false).toRat)
    ∧ angleRange false ≤ yawB - Double.fin (-1164272526695927 / 281474976710656) := by
  obtain ⟨h1, h2, -⟩ := fixYaw_yawA_yawB
  refine ⟨isNormalized_yawA, isNormalized_yawB, h1, h2, ?_, ?_⟩
  · rw [angleRange_toRat]
    norm_num [yawB, toRat]
  · have := fin_sub_fin (-5777061337553195 / 2251799813685248)
      (-1164272526695927 / 281474976710656) 0 7074237752028442 (by norm_num) (by norm_num)
      (by norm_num [le_abs]) (by norm_num [abs_lt]) (by norm_num [abs_lt]) (by norm_num)
    rw [yawB, this, angleRange_eq, fin_le_fin]
    norm_num

/-- C28 (as amended), worked instance: the yaws -1.0275044374671338 and -2.5983007642620306. -/
theorem formedYawAngle_symmetric_binary64_witness :
    ∃ x y : Double, x.isFinite = true ∧ y.isFinite = true
      ∧ (∀ fuel, 3 ≤ fuel → formedYawAngle fuel yawC yawD false = some x
          ∧ formedYawAngle fuel yawD yawC false = some y)
      ∧ |x.toRat - y.toRat| ≤ (2 : ℚ) ^ (-46 : ℤ) :=
  (formedYawAngle_symmetric_binary64 yawC yawD false isNormalized_yawC isNormalized_yawD).1

/-- C28 as stated fails: for the normalised yaws -1.0275044374671338 and -2.5983007642620306
the formed angle is 1.5707963267948966 in one order and 1.5707963267948963 in the other; and
for the yaw 0.3, which a half turn takes to -2.8415926535897933, the formed angles against
the yaw 1.0 are 0.7 and 0.7000000000000002. -/
theorem formedYawAngle_not_symmetric_counterexample :
    IsNormalized yawC ∧ IsNormalized yawD
    ∧ formedYawAngle 3 yawC yawD false = some (Double.fin (884279719003555 / 562949953421312))
    ∧ formedYawAngle 3 yawD yawC false = some (Double.fin (7074237752028439 / 4503599627370496))
    ∧ Double.fin (884279719003555 / 562949953421312)
        ≠ Double.fin (7074237752028439 / 4503599627370496)
    ∧ IsNormalized yawE ∧ IsNormalized yawF ∧ IsNormalized yawOne
    ∧ |yawF.toRat - (yawE.toRat + M_PI.toRat - 2 * M_PI.toRat)| ≤ (2 : ℚ) ^ (-51 : ℤ)
    ∧ formedYawAngle 3 yawE yawOne false = some (Double.fin (3152519739159347 / 4503599627370496))
    ∧ formedYawAngle 3 yawF yawOne false = some (Double.fin (788129934789837 / 1125899906842624))
    ∧ Double.fin (3152519739159347 / 4503599627370496)
        ≠ Double.fin (788129934789837 / 1125899906842624) := by
  refine ⟨isNormalized_yawC, isNormalized_yawD, formedYawAngle_yawC_yawD,
    formedYawAngle_yawD_yawC, ?_, isNormalized_yawE, isNormalized_yawF, isNormalized_yawOne, ?_,
    formedYawAngle_yawE_one, formedYawAngle_yawF_one, ?_⟩
  · intro h
    injection h with h
    norm_num at h
  · rw [M_PI_toRat]
    norm_num [yawE, yawF, toRat, abs_le]
  · intro h
    injection h with h
    norm_num at h

end Binary64

namespace Binary64

open Double

section SampleReads

theorem sampleEngine_labelsInRange (s : GnnSolverInterface) (max_dist max_rad : Double) :
    (sampleEngine s max_dist max_rad).LabelsInRange 0 0 := by
  simp [DataAssociation.LabelsInRange, sampleEngine, DataAssociation.create, reshapeConfig,
    MatrixX.InRange, MatrixX.Map, MatrixX.transpose]

theorem fin_two_mul_fin_one : Double.fin 2 * Double.fin 1 = Double.fin 2 := by
  norm_num [mul_def, Double.mul, isNaN, isFinite, toRat, signBit, zero, inf, ofRat_two]

/-- The readings of the sample pair: a tracker at the origin with the planar covariance
`[[c00, c01], [c10, c11]]` and a measurement at `(x, 0)`, for an engine of one class. -/
theorem sample_reads_binary64 (s : GnnSolverInterface) (max_dist max_rad : Double) (x : ℚ)
    (q : Quaternion) (c00 c01 c10 c11 : Double) (fuel : Nat) (stamp : ℤ) :
    (sampleEngine s max_dist max_rad).Reads sampleExternals (fuel + 1) stamp
      (sampleTracker c00 c01 c10 c11) (sampleMeasurement (.fin x) q)
      (sampleReadings max_dist max_rad x c00 c01 c10 c11) := by
  unfold sampleReadings
  refine ⟨?_, ?_, ?_, ?_, ?_, ?_, ?_, ?_, ?_, ?_, ?_⟩
  · simp [coeff, sampleEngine, DataAssociation.create, reshapeConfig, MatrixX.InRange, MatrixX.Map,
      MatrixX.transpose, sampleTracker, sampleMeasurement, sampleExternals]
  · simp [coeff, sampleEngine, DataAssociation.create, reshapeConfig, MatrixX.InRange, MatrixX.Map,
      MatrixX.transpose, sampleTracker, sampleMeasurement, sampleExternals]
  · simp [coeff, sampleEngine, DataAssociation.create, reshapeConfig, MatrixX.InRange, MatrixX.Map,
      MatrixX.transpose, sampleTracker, sampleMeasurement, sampleExternals]
  · simp [coeff, sampleEngine, DataAssociation.create, reshapeConfig, MatrixX.InRange, MatrixX.Map,
      MatrixX.transpose, sampleTracker, sampleMeasurement, sampleExternals]
  · simp [coeff, sampleEngine, DataAssociation.create, reshapeConfig, MatrixX.InRange, MatrixX.Map,
      MatrixX.transpose, sampleTracker, sampleMeasurement, sampleExternals]
  · simp [coeff, sampleEngine, DataAssociation.create, reshapeConfig, MatrixX.InRange, MatrixX.Map,
      MatrixX.transpose, sampleTracker, sampleMeasurement, sampleExternals]
  · simp [sampleExternals, sampleTracker, sampleMeasurement, samplePose, toRat]
  · simp only [sampleExternals, sampleMeasurement, sampleShape]
    exact fin_two_mul_fin_one.symm
  · exact getFormedYawAngle_sampleExternals fuel _ _ false
  · simp [sampleTracker, sampleMeasurement, samplePose, getXYCovariance]
  · simp only [sampleExternals, sampleTracker, sampleMeasurement, samplePose, sampleShape,
      one_eq, zero_eq]
    by_cases hx : x = 0
    · subst hx
      simp
    · simp [hx]

end SampleReads

end Binary64

namespace Binary64

open Double

section SampleCells

theorem mahalanobis_threshold_isNaN : (3.035 : Double).isNaN = false := by
  rw [mahalanobis_threshold_eq]
  rfl

theorem threshold_isNaN : (0.01 : Double).isNaN = false := by
  rw [threshold_eq]
  rfl

/-- No test fires on the sample pair under an engine of one class with `max_rad = 4`, when
the distance test and the Mahalanobis test do not fire. -/
theorem sample_noTestFails (max_dist : Double) (x : ℚ) (c00 c01 c10 c11 d : Double)
    (hd : getMahalanobisDistance sampleExternals ⟨.fin x, .fin 0, .fin 0⟩
      ⟨.fin 0, .fin 0, .fin 0⟩ ⟨c00, c01, c10, c11⟩ = d)
    (hgate : ¬ ((3.035 : Double) ≤ d))
    (hdist : ¬ (max_dist < Double.fin (ratSqrt (x ^ 2)))) :
    (sampleReadings max_dist (.fin 4) x c00 c01 c10 c11).noTestFails := by
  unfold sampleReadings
  refine ⟨one_ne_zero, hdist, ?_, ?_, ?_, ?_⟩
  · norm_num [lt_def, Double.lt, isNaN, isFinite, toRat]
  · simp [lt_def, Double.lt, Double.fabs, isNaN, isFinite, toRat]
  · rw [hd]
    exact hgate
  · by_cases hx : x = 0
    · simp [hx, lt_def, Double.lt, isNaN, isFinite, toRat]
    · simp [hx, lt_def, Double.lt, isNaN, isFinite, toRat]

/-- The cell of the sample pair under an engine of one class with `max_rad = 4`, when the
distance test and the Mahalanobis test do not fire: the thresholded score. -/
theorem sample_cell (s : GnnSolverInterface) (max_dist : Double) (x : ℚ) (q : Quaternion)
    (c00 c01 c10 c11 d : Double) (fuel : Nat) (stamp : ℤ)
    (hd : getMahalanobisDistance sampleExternals ⟨.fin x, .fin 0, .fin 0⟩
      ⟨.fin 0, .fin 0, .fin 0⟩ ⟨c00, c01, c10, c11⟩ = d)
    (hgate : ¬ ((3.035 : Double) ≤ d))
    (hdist : ¬ (max_dist < Double.fin (ratSqrt (x ^ 2)))) :
    (sampleEngine s max_dist (.fin 4)).calcScore sampleExternals (fuel + 1) stamp
        (sampleTracker c00 c01 c10 c11) (sampleMeasurement (.fin x) q)
      = .ok (if rawScore max_dist (.fin (ratSqrt (x ^ 2))) < (0.01 : Double) then 0.0
          else rawScore max_dist (.fin (ratSqrt (x ^ 2)))) := by
  rw [calcScore_of_reads_binary64 _ _ _ _ _ _ _
    (sample_reads_binary64 s max_dist (.fin 4) x q c00 c01 c10 c11 fuel stamp),
    if_pos (sample_noTestFails max_dist x c00 c01 c10 c11 d hd hgate hdist)]
  rfl

theorem ratSqrt_two_sq : ratSqrt ((2 : ℚ) ^ 2) = 2 := by
  norm_num
  exact ratSqrt_four_binary64

theorem ratSqrt_zero_sq : ratSqrt ((0 : ℚ) ^ 2) = 0 := by
  norm_num
  exact ratSqrt_zero_binary64

theorem score_not_below_threshold : ¬ ((0.8 : Double) < (0.01 : Double)) := by
  rw [threshold_eq, score_lit_eq_literal, score_lit_eq, lt_def]
  norm_num [Double.lt, isNaN, isFinite, toRat]

theorem score_ne_zero : (0.8 : Double) ≠ 0.0 := by
  rw [score_lit_eq_literal, score_lit_eq, zero_lit_eq]
  intro h
  injection h with h
  norm_num at h

/-- The cell of the sample pair at distance 2 with `max_dist = 10`, for a covariance whose
Mahalanobis distance `d` does not reach 3.035 or is NaN: the score 0.8. -/
theorem sample_cell_two (s : GnnSolverInterface) (q : Quaternion)
    (c00 c01 c10 c11 d : Double) (fuel : Nat) (stamp : ℤ)
    (hd : getMahalanobisDistance sampleExternals ⟨.fin 2, .fin 0, .fin 0⟩
      ⟨.fin 0, .fin 0, .fin 0⟩ ⟨c00, c01, c10, c11⟩ = d)
    (hgate : ¬ ((3.035 : Double) ≤ d)) :
    (sampleEngine s (.fin 10) (.fin 4)).calcScore sampleExternals (fuel + 1) stamp
        (sampleTracker c00 c01 c10 c11) (sampleMeasurement (.fin 2) q)
      = .ok (0.8 : Double) := by
  rw [sample_cell s (.fin 10) 2 q c00 c01 c10 c11 d fuel stamp hd hgate
    (by rw [ratSqrt_two_sq]; norm_num [lt_def, Double.lt, isNaN, isFinite, toRat]),
    ratSqrt_two_sq, rawScore_ten_two, if_neg score_not_below_threshold]

theorem not_threshold_le_two : ¬ ((3.035 : Double) ≤ Double.fin 2) := by
  rw [mahalanobis_threshold_eq, le_def]
  norm_num [Double.le, isNaN, isFinite, toRat]

theorem not_threshold_le_zero : ¬ ((3.035 : Double) ≤ Double.fin 0) := by
  rw [mahalanobis_threshold_eq, le_def]
  norm_num [Double.le, isNaN, isFinite, toRat]

/-- The cell of the sample pair at distance 0 with `max_dist = 0` and the identity
covariance: every test passes (`0 < 0` is false) and the score `0 / 0` is NaN, which is not
below the threshold. -/
theorem sample_cell_nan (s : GnnSolverInterface) (q : Quaternion) (fuel : Nat) (stamp : ℤ) :
    (sampleEngine s (.fin 0) (.fin 4)).calcScore sampleExternals (fuel + 1) stamp
        (sampleTracker (.fin 1) (.fin 0) (.fin 0) (.fin 1)) (sampleMeasurement (.fin 0) q)
      = .ok Double.nan := by
  rw [sample_cell s (.fin 0) 0 q _ _ _ _ _ fuel stamp getMahalanobisDistance_identity_zero
    not_threshold_le_zero
    (by rw [ratSqrt_zero_sq]; simp [lt_def, Double.lt, isNaN, isFinite, toRat]),
    ratSqrt_zero_sq, rawScore_zero_zero, if_neg (not_lt_nan_left _)]

theorem isNormalized_sampleExternals (q : Quaternion) :
    IsNormalizedOrNaN (sampleExternals.normalizeRadian (sampleExternals.getYaw q)) := by
  simp only [sampleExternals, zero_eq]
  exact Or.inl (isNormalized_fin 0 (by norm_num [M_PI_toRat]) (by norm_num [M_PI_toRat]))

/-- The score matrix of one tracker and one measurement is the 1 x 1 matrix of their cell. -/
theorem calcScoreMatrix_single (da : DataAssociation) (ext : Externals) (fuel : Nat)
    (stamp : ℤ) (tracker : Tracker) (mo : DetectedObject) (v : Double)
    (h : da.calcScore ext fuel stamp tracker mo = .ok v) :
    ∃ m, da.calcScoreMatrix ext fuel ⟨stamp, [mo]⟩ [tracker] = .ok m
      ∧ m.rows = 1 ∧ m.cols = 1 ∧ m.coeffs 0 0 = v := by
  obtain ⟨m, hm⟩ := trackerLoop_ok_binary64 da ext fuel ⟨stamp, [mo]⟩ [tracker]
    (by
      intro tr htr mo2 hmo
      simp only [List.mem_singleton] at htr hmo
      subst htr
      subst hmo
      exact ⟨v, h⟩) 0
    ⟨1, 1, fun _ _ => 0.0⟩ (by simp) (le_refl _)
  obtain ⟨hrows, hcols, hval, -⟩ :=
    trackerLoop_spec_binary64 da ext fuel ⟨stamp, [mo]⟩ [tracker] 0 _ m hm
  refine ⟨m, hm, hrows, hcols, ?_⟩
  have := hval 0 (by simp) 0 (by simp)
  simp only [Nat.zero_add, List.get_eq_getElem, List.getElem_cons_zero] at this
  rw [h] at this
  injection this with this
  exact this.symm

end SampleCells

end Binary64

namespace Binary64

open Double

/-! ### Claims on the cells, over binary64 -/

/-- C9 (as amended): the cell that `calcScoreMatrix` computes for one tracker and one
measurement, in binary64. With labels within the bounds of the configuration matrices and
yaws as `normalizeRadian` returns them, the readings `r` of the pair are defined and the cell
is 0 as soon as one test of the six blocks fires: the class is closed, `max_dist < dist`,
`area < min_area || max_area < area`, the angle test, `3.035 <= mahalanobis_dist`,
`iou < min_iou`. When none fires the cell is `s = (max_dist - min(dist, max_dist)) / max_dist`,
unless `s < score_threshold_`, and then 0. A test with a NaN operand does not fire: the
distance, area and overlap conditions of the claim hold or an operand is NaN, the Mahalanobis
distance is under 3.035 or NaN, and the score stays when it is at least the threshold or
NaN. -/
theorem calcScore_cell_value_binary64 (da : DataAssociation) (ext : Externals) (fuel : Nat)
    (stamp : ℤ) (tracker : Tracker) (measurement_object : DetectedObject) (hfuel : 3 ≤ fuel)
    (hlabels : da.LabelsInRange tracker.getHighestProbLabel
      (ext.getHighestProbLabel measurement_object.classification))
    (hm : IsNormalizedOrNaN (ext.normalizeRadian
      (ext.getYaw measurement_object.pose_with_covariance.pose.orientation)))
    (ht : IsNormalizedOrNaN (ext.normalizeRadian
      (ext.getYaw (tracker.getTrackedObject stamp).pose_with_covariance.pose.orientation))) :
    ∃ r, da.Reads ext fuel stamp tracker measurement_object r
      ∧ da.calcScore ext fuel stamp tracker measurement_object
          = .ok (if r.noTestFails then
              (if r.claimedScore < da.score_threshold_ then 0.0 else r.claimedScore)
            else 0.0)
      ∧ (r.noTestFails ↔
          r.can_assign ≠ 0
          ∧ (r.dist ≤ r.max_dist ∨ r.max_dist.isNaN = true ∨ r.dist.isNaN = true)
          ∧ ((r.min_area ≤ r.area ∨ r.area.isNaN = true ∨ r.min_area.isNaN = true)
            ∧ (r.area ≤ r.max_area ∨ r.max_area.isNaN = true ∨ r.area.isNaN = true))
          ∧ ¬ (Double.fabs r.max_rad < M_PI ∧ Double.fabs r.max_rad < Double.fabs r.angle)
          ∧ (r.mahalanobis_dist < (3.035 : Double) ∨ r.mahalanobis_dist.isNaN = true)
          ∧ (r.min_iou ≤ r.iou ∨ r.iou.isNaN = true ∨ r.min_iou.isNaN = true))
      ∧ (¬ (r.claimedScore < da.score_threshold_) ↔
          da.score_threshold_ ≤ r.claimedScore ∨ r.claimedScore.isNaN = true
            ∨ da.score_threshold_.isNaN = true) := by
  obtain ⟨r, hr⟩ := reads_exists_binary64 da ext fuel stamp tracker measurement_object hfuel
    hlabels hm ht
  refine ⟨r, hr, calcScore_of_reads_binary64 da ext fuel stamp tracker measurement_object r hr,
    ?_, not_lt_iff _ _⟩
  unfold PairReadings.noTestFails
  rw [not_lt_iff r.max_dist r.dist, not_or, not_lt_iff r.area r.min_area,
    not_lt_iff r.max_area r.area, not_le_iff (3.035 : Double) r.mahalanobis_dist,
    not_lt_iff r.iou r.min_iou, mahalanobis_threshold_isNaN]
  simp only [Bool.false_eq_true, false_or]

/-- C9 (as amended), worked instance: a tracker at (0, 0) with the identity covariance and a
measurement at (2, 0) with `max_dist = 10`: no test fires and the cell is 0.8. -/
theorem calcScore_cell_value_binary64_witness :
    ∃ r, (sampleEngine (fixedSolver [] []) (.fin 10) (.fin 4)).Reads sampleExternals 3 0
        (sampleTracker (.fin 1) (.fin 0) (.fin 0) (.fin 1))
        (sampleMeasurement (.fin 2) ⟨.fin 0, .fin 0, .fin 0, .fin 1⟩) r
      ∧ (sampleEngine (fixedSolver [] []) (.fin 10) (.fin 4)).calcScore sampleExternals 3 0
          (sampleTracker (.fin 1) (.fin 0) (.fin 0) (.fin 1))
          (sampleMeasurement (.fin 2) ⟨.fin 0, .fin 0, .fin 0, .fin 1⟩)
          = .ok (if r.noTestFails then
              (if r.claimedScore
                  < (sampleEngine (fixedSolver [] []) (.fin 10) (.fin 4)).score_threshold_
                then 0.0 else r.claimedScore)
            else 0.0) := by
  obtain ⟨r, hr, hcell, -⟩ := calcScore_cell_value_binary64
    (sampleEngine (fixedSolver [] []) (.fin 10) (.fin 4)) sampleExternals 3 0
    (sampleTracker (.fin 1) (.fin 0) (.fin 0) (.fin 1))
    (sampleMeasurement (.fin 2) ⟨.fin 0, .fin 0, .fin 0, .fin 1⟩) (le_refl 3)
    (sampleEngine_labelsInRange _ _ _)
    (isNormalized_sampleExternals _) (isNormalized_sampleExternals _)
  exact ⟨r, hr, hcell⟩

/-- C9 as stated fails for a covariance without an inverse: for the tracker at (0, 0) with
the zero covariance and the measurement at (2, 0), `max_dist = 10`, the Mahalanobis distance
that the pair reads is NaN, which is not under 3.035, and yet the cell is the score 0.8 and
not 0. -/
theorem calcScore_nan_distance_counterexample :
    (sampleEngine (fixedSolver [] []) (.fin 10) (.fin 4)).Reads sampleExternals 3 0
        (sampleTracker (.fin 0) (.fin 0) (.fin 0) (.fin 0))
        (sampleMeasurement (.fin 2) ⟨.fin 0, .fin 0, .fin 0, .fin 1⟩)
        (sampleReadings (.fin 10) (.fin 4) 2 (.fin 0) (.fin 0) (.fin 0) (.fin 0))
    ∧ (sampleReadings (.fin 10) (.fin 4) 2 (.fin 0) (.fin 0) (.fin 0) (.fin 0)).mahalanobis_dist
        = Double.nan
    ∧ ¬ (Double.nan < (3.035 : Double))
    ∧ (sampleEngine (fixedSolver [] []) (.fin 10) (.fin 4)).calcScore sampleExternals 3 0
        (sampleTracker (.fin 0) (.fin 0) (.fin 0) (.fin 0))
        (sampleMeasurement (.fin 2) ⟨.fin 0, .fin 0, .fin 0, .fin 1⟩) = .ok (0.8 : Double)
    ∧ (0.8 : Double) ≠ 0.0 :=
  ⟨sample_reads_binary64 _ _ _ _ _ _ _ _ _ 2 0, getMahalanobisDistance_zero_covariance_two,
    not_lt_nan_left _,
    sample_cell_two _ _ _ _ _ _ _ 2 0 getMahalanobisDistance_zero_covariance_two
      (not_le_nan_right _),
    score_ne_zero⟩

/-- C14 (as amended): in binary64 the Mahalanobis gate fails (turns a `passed_gate` that is
true into false) exactly when `3.035 <= mahalanobis_dist`, the test of the source: so at a
distance equal to 3.035 it fails. It lets the pair pass exactly when the distance is below
3.035 or is NaN, and it never turns a `passed_gate` that is false into true. -/
theorem mahalanobisGate_fails_iff_binary64 (ext : Externals)
    (measurement_object : DetectedObject) (tracked_object : TrackedObject) :
    (mahalanobisGate ext measurement_object tracked_object true = false
      ↔ (3.035 : Double) ≤ getMahalanobisDistance ext
          measurement_object.pose_with_covariance.pose.position
          tracked_object.pose_with_covariance.pose.position
          (getXYCovariance tracked_object.pose_with_covariance))
    ∧ (mahalanobisGate ext measurement_object tracked_object true = true
      ↔ getMahalanobisDistance ext
            measurement_object.pose_with_covariance.pose.position
            tracked_object.pose_with_covariance.pose.position
            (getXYCovariance tracked_object.pose_with_covariance) < (3.035 : Double)
          ∨ (getMahalanobisDistance ext
            measurement_object.pose_with_covariance.pose.position
            tracked_object.pose_with_covariance.pose.position
            (getXYCovariance tracked_object.pose_with_covariance)).isNaN = true)
    ∧ mahalanobisGate ext measurement_object tracked_object false = false := by
  rw [mahalanobisGate_eq_binary64, mahalanobisGate_eq_binary64, Bool.true_and]
  refine ⟨?_, ?_, rfl⟩
  · simp only [Bool.not_eq_false', decide_eq_true_eq]
  · simp only [Bool.not_eq_true', decide_eq_false_iff_not]
    rw [not_le_iff, mahalanobis_threshold_isNaN]
    simp only [Bool.false_eq_true, false_or]

end Binary64

namespace Binary64

open Double

/-- C16 (as amended): `calcScoreMatrix` over binary64 has no test of the covariance and no
way to abort on it. With labels within the bounds of the configuration matrices and yaws as
`normalizeRadian` returns them, it returns a complete matrix, whatever the covariances of
the trackers are: one row per tracker, one column per measurement, and each cell is the value
`calcScore` of its own pair, so that the covariance of one tracker has no effect on the
cells of the others. A pair whose Mahalanobis distance is NaN, as for a singular covariance,
is not excluded by the Mahalanobis test (`3.035 <= NaN` is false): its cell is 0 when another
test fires, and the thresholded distance score otherwise. -/
theorem calcScoreMatrix_singular_covariance (da : DataAssociation) (ext : Externals)
    (fuel : Nat) (measurements : DetectedObjects) (trackers : List Tracker) (hfuel : 3 ≤ fuel)
    (hlabels : ∀ tr ∈ trackers, ∀ mo ∈ measurements.objects,
      da.LabelsInRange tr.getHighestProbLabel (ext.getHighestProbLabel mo.classification))
    (hm : ∀ mo ∈ measurements.objects, IsNormalizedOrNaN (ext.normalizeRadian
      (ext.getYaw mo.pose_with_covariance.pose.orientation)))
    (ht : ∀ tr ∈ trackers, IsNormalizedOrNaN (ext.normalizeRadian (ext.getYaw
      (tr.getTrackedObject measurements.stamp).pose_with_covariance.pose.orientation))) :
    ∃ m, da.calcScoreMatrix ext fuel measurements trackers = .ok m
      ∧ m.rows = trackers.length ∧ m.cols = measurements.objects.length
      ∧ (∀ i (hi : i < trackers.length) j (hj : j < measurements.objects.length),
          da.calcScore ext fuel measurements.stamp (trackers.get ⟨i, hi⟩)
            (measurements.objects.get ⟨j, hj⟩) = .ok (m.coeffs i j))
      ∧ (∀ i (hi : i < trackers.length) j (hj : j < measurements.objects.length),
          ∃ r, da.Reads ext fuel measurements.stamp (trackers.get ⟨i, hi⟩)
              (measurements.objects.get ⟨j, hj⟩) r
            ∧ (r.mahalanobis_dist.isNaN = true →
                m.coeffs i j =
                  if r.can_assign ≠ 0 ∧ ¬ (r.max_dist < r.dist)
                      ∧ ¬ (r.area < r.min_area ∨ r.max_area < r.area)
                      ∧ ¬ (Double.fabs r.max_rad < M_PI
                        ∧ Double.fabs r.max_rad < Double.fabs r.angle)
                      ∧ ¬ (r.iou < r.min_iou) then
                    (if r.claimedScore < da.score_threshold_ then 0.0 else r.claimedScore)
                  else 0.0)) := by
  have hreads : ∀ tr ∈ trackers, ∀ mo ∈ measurements.objects,
      ∃ r, da.Reads ext fuel measurements.stamp tr mo r := by
    intro tr htr mo hmo
    exact reads_exists_binary64 da ext fuel _ tr mo hfuel (hlabels tr htr mo hmo) (hm mo hmo)
      (ht tr htr)
  obtain ⟨m, hok, hrows, hcols, hcell⟩ :=
    calcScoreMatrix_ok_binary64 da ext fuel measurements trackers hreads
  refine ⟨m, hok, hrows, hcols, hcell, ?_⟩
  intro i hi j hj
  obtain ⟨r, hr⟩ := hreads (trackers.get ⟨i, hi⟩) (List.get_mem _ _ _)
    (measurements.objects.get ⟨j, hj⟩) (List.get_mem _ _ _)
  refine ⟨r, hr, ?_⟩
  intro hnan
  have h1 := hcell i hi j hj
  rw [calcScore_of_reads_binary64 da ext fuel _ _ _ r hr] at h1
  injection h1 with h1
  rw [← h1]
  have hgate : ¬ ((3.035 : Double) ≤ r.mahalanobis_dist) := le_of_isNaN_right hnan _
  unfold PairReadings.noTestFails
  simp only [hgate, not_false_eq_true, true_and]

/-- C16 (as amended), worked instance: two trackers, the first with the singular covariance
`[[1, 1], [1, 1]]` and the second with the identity, and one measurement at (2, 0). -/
theorem calcScoreMatrix_singular_covariance_witness :
    ∃ m, (sampleEngine (fixedSolver [] []) (.fin 10) (.fin 4)).calcScoreMatrix sampleExternals 3
        ⟨0, [sampleMeasurement (.fin 2) ⟨.fin 0, .fin 0, .fin 0, .fin 1⟩]⟩
        [sampleTracker (.fin 1) (.fin 1) (.fin 1) (.fin 1),
          sampleTracker (.fin 1) (.fin 0) (.fin 0) (.fin 1)] = .ok m
      ∧ m.rows = 2 ∧ m.cols = 1 := by
  obtain ⟨m, hok, hrows, hcols, -⟩ := calcScoreMatrix_singular_covariance
    (sampleEngine (fixedSolver [] []) (.fin 10) (.fin 4)) sampleExternals 3
    ⟨0, [sampleMeasurement (.fin 2) ⟨.fin 0, .fin 0, .fin 0, .fin 1⟩]⟩
    [sampleTracker (.fin 1) (.fin 1) (.fin 1) (.fin 1),
      sampleTracker (.fin 1) (.fin 0) (.fin 0) (.fin 1)] (le_refl 3)
    (by
      intro tr htr mo hmo
      simp only [List.mem_cons, List.mem_singleton, List.not_mem_nil, or_false] at htr hmo
      subst hmo
      rcases htr with htr | htr <;> subst htr <;> exact sampleEngine_labelsInRange _ _ _)
    (fun _ _ => isNormalized_sampleExternals _) (fun _ _ => isNormalized_sampleExternals _)
  exact ⟨m, hok, hrows, hcols⟩

/-- C16 as stated fails: for the tracker at (0, 0) with the singular covariance
`[[1, 1], [1, 1]]` (determinant 0) and the measurement at (2, 0), `max_dist = 10`, the
Mahalanobis distance is NaN and the matrix that `calcScoreMatrix` returns holds the score 0.8
for the pair, not 0. -/
theorem calcScoreMatrix_singular_covariance_counterexample :
    Matrix2d.determinant ⟨.fin 1, .fin 1, .fin 1, .fin 1⟩ = Double.fin 0
    ∧ getMahalanobisDistance sampleExternals ⟨.fin 2, .fin 0, .fin 0⟩ ⟨.fin 0, .fin 0, .fin 0⟩
        ⟨.fin 1, .fin 1, .fin 1, .fin 1⟩ = Double.nan
    ∧ ∃ m, (sampleEngine (fixedSolver [] []) (.fin 10) (.fin 4)).calcScoreMatrix
          sampleExternals 3 ⟨0, [sampleMeasurement (.fin 2) ⟨.fin 0, .fin 0, .fin 0, .fin 1⟩]⟩
          [sampleTracker (.fin 1) (.fin 1) (.fin 1) (.fin 1)] = .ok m
        ∧ m.rows = 1 ∧ m.cols = 1 ∧ m.coeffs 0 0 = (0.8 : Double)
        ∧ (0.8 : Double) ≠ 0.0 := by
  refine ⟨?_, getMahalanobisDistance_singular_covariance, ?_⟩
  · norm_num [Matrix2d.determinant, mul_def, sub_def, Double.mul, Double.add, Double.neg,
      isNaN, isFinite, toRat, signBit, zero, inf, ofRat_one, ofRat_neg_one, ofRat_zero]
  · obtain ⟨m, hok, hrows, hcols, hval⟩ := calcScoreMatrix_single
      (sampleEngine (fixedSolver [] []) (.fin 10) (.fin 4)) sampleExternals 3 0
      (sampleTracker (.fin 1) (.fin 1) (.fin 1) (.fin 1))
      (sampleMeasurement (.fin 2) ⟨.fin 0, .fin 0, .fin 0, .fin 1⟩) (0.8 : Double)
      (sample_cell_two _ _ _ _ _ _ _ 2 0 getMahalanobisDistance_singular_covariance
        (not_le_nan_right _))
    exact ⟨m, hok, hrows, hcols, hval, score_ne_zero⟩

/-! ### Claims on `assign`, over binary64 -/

/-- C1 (as amended): every pair `(i, j)` left in `direct_assignment` when `assign` returns
has a score `src(i, j)` that is not below `score_threshold_`, the 0.01 that the constructor
sets: the score is at least 0.01, or it is NaN (the erase test `src(i, j) < score_threshold_`
is false on NaN). The solver is taken to hand back only pairs within the bounds of `src`, and
then `assign` does return. -/
theorem assign_direct_score_not_below_threshold (mussp : GnnSolverInterface)
    (can_assign_vector : List ℤ)
    (max_dist_vector max_area_vector min_area_vector max_rad_vector min_iou_vector :
      List Double)
    (src : MatrixXd) (d0 r0 : UnorderedMap)
    (hd : ∀ p ∈ (mussp.maximizeLinearAssignment (scoreTable src) d0 r0).1, src.InRange p.1 p.2)
    (hr : ∀ p ∈ (mussp.maximizeLinearAssignment (scoreTable src) d0 r0).2,
      src.InRange p.2 p.1) :
    ∃ direct reverse,
      (DataAssociation.create mussp can_assign_vector max_dist_vector max_area_vector
        min_area_vector max_rad_vector min_iou_vector).assign src d0 r0 = .ok (direct, reverse)
      ∧ ∀ p ∈ direct, ∃ s, coeff src p.1 p.2 = .ok s ∧ ¬ (s < (0.01 : Double))
          ∧ ((0.01 : Double) ≤ s ∨ s.isNaN = true) := by
  refine ⟨_, _, assign_eq_filter_binary64 _ src d0 r0 hd hr, ?_⟩
  intro p hp
  rw [List.mem_filter] at hp
  refine ⟨src.coeffs p.1.toNat p.2.toNat, coeff_of_inRange_binary64 src _ _ (hd p hp.1), ?_⟩
  have hnot : ¬ (src.coeffs p.1.toNat p.2.toNat < (0.01 : Double)) := by
    have := hp.2
    simp only [Bool.not_eq_true', decide_eq_false_iff_not] at this
    exact this
  refine ⟨hnot, ?_⟩
  have := (not_lt_iff _ _).mp hnot
  rw [threshold_isNaN] at this
  simpa using this

/-- C1 (as amended), worked instance: on the 2 x 2 matrix `[[0.5, 0], [0, NaN]]` with a
solver that proposes both diagonal pairs. -/
theorem assign_direct_score_not_below_threshold_witness :
    ∃ direct reverse,
      (DataAssociation.create (fixedSolver [(0, 0), (1, 1)] [(0, 0), (1, 1)])
        [] [] [] [] [] []).assign
          (matrixOfRows [[Double.fin (1 / 2), Double.fin 0], [Double.fin 0, Double.nan]] 2)
          [] [] = .ok (direct, reverse)
      ∧ ∀ p ∈ direct, ∃ s,
          coeff (matrixOfRows [[Double.fin (1 / 2), Double.fin 0], [Double.fin 0, Double.nan]] 2)
            p.1 p.2 = .ok s
          ∧ ¬ (s < (0.01 : Double)) ∧ ((0.01 : Double) ≤ s ∨ s.isNaN = true) :=
  assign_direct_score_not_below_threshold (fixedSolver [(0, 0), (1, 1)] [(0, 0), (1, 1)])
    [] [] [] [] [] []
    (matrixOfRows [[Double.fin (1 / 2), Double.fin 0], [Double.fin 0, Double.nan]] 2) [] []
    (by simp [fixedSolver, matrixOfRows, MatrixX.InRange])
    (by simp [fixedSolver, matrixOfRows, MatrixX.InRange])

end Binary64

namespace Binary64

open Double

section NanCellLemmas

/-- A score matrix with a NaN cell, computed by `calcScoreMatrix`: an engine of one class with
`max_dist = 0`, a tracker at (0, 0) with the identity covariance and a measurement at
(0, 0). -/
theorem calcScoreMatrix_nan_cell (s : GnnSolverInterface) :
    ∃ src, (sampleEngine s (.fin 0) (.fin 4)).calcScoreMatrix sampleExternals 3
        ⟨0, [sampleMeasurement (.fin 0) ⟨.fin 0, .fin 0, .fin 0, .fin 1⟩]⟩
        [sampleTracker (.fin 1) (.fin 0) (.fin 0) (.fin 1)] = .ok src
      ∧ src.rows = 1 ∧ src.cols = 1 ∧ src.coeffs 0 0 = Double.nan :=
  calcScoreMatrix_single _ _ _ _ _ _ _ (sample_cell_nan s _ 2 0)

/-- On a 1 x 1 matrix whose cell is NaN, `assign` keeps the pair (0, 0) that the solver
proposes, in both maps. -/
theorem assign_nan_cell (src : MatrixXd) (hrows : src.rows = 1) (hcols : src.cols = 1)
    (hnan : src.coeffs 0 0 = Double.nan) (max_dist max_rad : Double) :
    (sampleEngine (fixedSolver [(0, 0)] [(0, 0)]) max_dist max_rad).assign src [] []
      = .ok ([(0, 0)], [(0, 0)]) := by
  rw [assign_eq_filter_binary64]
  · simp only [sampleEngine, DataAssociation.create, fixedSolver, List.filter, Int.toNat_zero,
      hnan]
    rw [decide_eq_false (not_lt_nan_left _)]
    rfl
  · intro p hp
    simp only [sampleEngine, DataAssociation.create, fixedSolver, List.mem_singleton] at hp
    subst hp
    simp [MatrixX.InRange, hrows, hcols]
  · intro p hp
    simp only [sampleEngine, DataAssociation.create, fixedSolver, List.mem_singleton] at hp
    subst hp
    simp [MatrixX.InRange, hrows, hcols]

end NanCellLemmas

/-- C1 as stated fails on a NaN score, which `calcScoreMatrix` itself can write: with
`max_dist = 0` and a measurement on top of the tracker the cell is `0 / 0`, the matrix is
`[[NaN]]`, and `assign` leaves the pair (0, 0) that the solver proposes in
`direct_assignment`, while `0.01 <= NaN` is false. -/
theorem assign_keeps_nan_pair_counterexample :
    ∃ src, (sampleEngine (fixedSolver [(0, 0)] [(0, 0)]) (.fin 0) (.fin 4)).calcScoreMatrix
          sampleExternals 3
          ⟨0, [sampleMeasurement (.fin 0) ⟨.fin 0, .fin 0, .fin 0, .fin 1⟩]⟩
          [sampleTracker (.fin 1) (.fin 0) (.fin 0) (.fin 1)] = .ok src
      ∧ coeff src 0 0 = .ok Double.nan
      ∧ (sampleEngine (fixedSolver [(0, 0)] [(0, 0)]) (.fin 0) (.fin 4)).assign src [] []
          = .ok ([(0, 0)], [(0, 0)])
      ∧ ¬ ((0.01 : Double) ≤ Double.nan) := by
  obtain ⟨src, hok, hrows, hcols, hnan⟩ :=
    calcScoreMatrix_nan_cell (fixedSolver [(0, 0)] [(0, 0)])
  refine ⟨src, hok, ?_, assign_nan_cell src hrows hcols hnan _ _, not_le_nan_right _⟩
  rw [coeff_of_inRange_binary64 src 0 0 (by simp [MatrixX.InRange, hrows, hcols])]
  exact congrArg _ hnan

/-- C7 (as amended): with a solver that hands back pairs within the bounds of `src`, the
`direct` map that `assign` returns is the solver's direct map with exactly the entries
`(i, j)` of score `src(i, j) < score_threshold_` removed, and the `reverse` map is the
solver's reverse map with exactly the entries `(j, i)` of score `src(i, j) < score_threshold_`
removed: the entries that stay are unchanged and in their order, and nothing is added. An
entry stays exactly when its score is at least the threshold (also when it equals the
threshold) or is NaN. -/
theorem assign_is_threshold_restriction_binary64 (da : DataAssociation) (src : MatrixXd)
    (d0 r0 : UnorderedMap)
    (hd : ∀ p ∈ (da.gnn_solver_ptr_.maximizeLinearAssignment (scoreTable src) d0 r0).1,
      src.InRange p.1 p.2)
    (hr : ∀ p ∈ (da.gnn_solver_ptr_.maximizeLinearAssignment (scoreTable src) d0 r0).2,
      src.InRange p.2 p.1) :
    ∃ direct reverse, da.assign src d0 r0 = .ok (direct, reverse)
      ∧ direct = (da.gnn_solver_ptr_.maximizeLinearAssignment (scoreTable src) d0 r0).1.filter
          (fun p => !(decide (src.coeffs p.1.toNat p.2.toNat < da.score_threshold_)))
      ∧ reverse = (da.gnn_solver_ptr_.maximizeLinearAssignment (scoreTable src) d0 r0).2.filter
          (fun p => !(decide (src.coeffs p.2.toNat p.1.toNat < da.score_threshold_)))
      ∧ (∀ i j : ℤ, (i, j) ∈ direct ↔
          (i, j) ∈ (da.gnn_solver_ptr_.maximizeLinearAssignment (scoreTable src) d0 r0).1
            ∧ ∃ s, coeff src i j = .ok s
              ∧ (da.score_threshold_ ≤ s ∨ s.isNaN = true
                ∨ da.score_threshold_.isNaN = true))
      ∧ (∀ i j : ℤ, (j, i) ∈ reverse ↔
          (j, i) ∈ (da.gnn_solver_ptr_.maximizeLinearAssignment (scoreTable src) d0 r0).2
            ∧ ∃ s, coeff src i j = .ok s
              ∧ (da.score_threshold_ ≤ s ∨ s.isNaN = true
                ∨ da.score_threshold_.isNaN = true)) := by
  refine ⟨_, _, assign_eq_filter_binary64 da src d0 r0 hd hr, rfl, rfl, ?_, ?_⟩
  · intro i j
    rw [List.mem_filter]
    simp only [Bool.not_eq_true', decide_eq_false_iff_not]
    constructor
    · rintro ⟨hmem, hnot⟩
      exact ⟨hmem, _, coeff_of_inRange_binary64 src i j (hd _ hmem), (not_lt_iff _ _).mp hnot⟩
    · rintro ⟨hmem, s, hs, hkeep⟩
      refine ⟨hmem, ?_⟩
      rw [coeff_of_inRange_binary64 src i j (hd _ hmem)] at hs
      have hs2 : src.coeffs i.toNat j.toNat = s := by injection hs
      rw [hs2]
      exact (not_lt_iff _ _).mpr hkeep
  · intro i j
    rw [List.mem_filter]
    simp only [Bool.not_eq_true', decide_eq_false_iff_not]
    constructor
    · rintro ⟨hmem, hnot⟩
      exact ⟨hmem, _, coeff_of_inRange_binary64 src i j (hr _ hmem), (not_lt_iff _ _).mp hnot⟩
    · rintro ⟨hmem, s, hs, hkeep⟩
      refine ⟨hmem, ?_⟩
      rw [coeff_of_inRange_binary64 src i j (hr _ hmem)] at hs
      have hs2 : src.coeffs i.toNat j.toNat = s := by injection hs
      rw [hs2]
      exact (not_lt_iff _ _).mpr hkeep

/-- C7 (as amended), worked instance: on `[[0.5, 0.01], [0.0078125, NaN]]` with a solver that
proposes (0,1) and (1,0), the pair (0,1) of score 0.01 stays and the pair (1,0) of score
0.0078125 goes. -/
theorem assign_is_threshold_restriction_binary64_witness :
    (DataAssociation.create (fixedSolver [(0, 1), (1, 0)] [(1, 0), (0, 1)])
        [] [] [] [] [] []).assign
          (matrixOfRows [[Double.fin (1 / 2), (0.01 : Double)],
            [Double.fin (1 / 128), Double.nan]] 2) [] []
      = .ok ([(0, 1)], [(1, 0)]) := by
  obtain ⟨direct, reverse, hok, hdir, hrev, -, -⟩ := assign_is_threshold_restriction_binary64
    (DataAssociation.create (fixedSolver [(0, 1), (1, 0)] [(1, 0), (0, 1)]) [] [] [] [] [] [])
    (matrixOfRows [[Double.fin (1 / 2), (0.01 : Double)],
      [Double.fin (1 / 128), Double.nan]] 2) [] []
    (by simp [DataAssociation.create, fixedSolver, matrixOfRows, MatrixX.InRange])
    (by simp [DataAssociation.create, fixedSolver, matrixOfRows, MatrixX.InRange])
  rw [hok, hdir, hrev]
  have h1 : ¬ ((0.01 : Double) < (0.01 : Double)) := by
    rw [threshold_eq, lt_def]
    norm_num [Double.lt, isNaN, isFinite, toRat]
  have h2 : Double.fin 128⁻¹ < (0.01 : Double) := by
    rw [threshold_eq, lt_def]
    norm_num [Double.lt, isNaN, isFinite, toRat]
  simp [DataAssociation.create, fixedSolver, matrixOfRows, List.filter, h1, h2]

/-- C7 as stated fails on a NaN score, which `calcScoreMatrix` itself can write (`0 / 0` for
`max_dist = 0` and a measurement on top of the tracker): on the matrix `[[NaN]]` the maps
that `assign` returns keep the pair (0, 0) of the solver, while the restriction of the
solver's maps to the pairs with `src(i, j) >= score_threshold_` is empty. -/
theorem assign_restriction_nan_counterexample :
    ∃ src, (sampleEngine (fixedSolver [(0, 0)] [(0, 0)]) (.fin 0) (.fin 4)).calcScoreMatrix
          sampleExternals 3
          ⟨0, [sampleMeasurement (.fin 0) ⟨.fin 0, .fin 0, .fin 0, .fin 1⟩]⟩
          [sampleTracker (.fin 1) (.fin 0) (.fin 0) (.fin 1)] = .ok src
      ∧ (sampleEngine (fixedSolver [(0, 0)] [(0, 0)]) (.fin 0) (.fin 4)).assign src [] []
          = .ok ([(0, 0)], [(0, 0)])
      ∧ ([(0, 0)] : UnorderedMap).filter
          (fun p => decide ((0.01 : Double) ≤ src.coeffs p.1.toNat p.2.toNat)) = []
      ∧ ([(0, 0)] : UnorderedMap).filter
          (fun p => decide ((0.01 : Double) ≤ src.coeffs p.2.toNat p.1.toNat)) = [] := by
  obtain ⟨src, hok, hrows, hcols, hnan⟩ :=
    calcScoreMatrix_nan_cell (fixedSolver [(0, 0)] [(0, 0)])
  refine ⟨src, hok, assign_nan_cell src hrows hcols hnan _ _, ?_, ?_⟩
  · simp only [List.filter, Int.toNat_zero, hnan]
    rw [decide_eq_false (not_le_nan_right _)]
  · simp only [List.filter, Int.toNat_zero, hnan]
    rw [decide_eq_false (not_le_nan_right _)]

end Binary64

namespace Binary64

open Double

section AngleGateSamples

theorem sampleEngine_max_rad (s : GnnSolverInterface) (max_dist max_rad : Double) :
    coeff (sampleEngine s max_dist max_rad).max_rad_matrix_ 0 0 = .ok max_rad := by
  simp [coeff, sampleEngine, DataAssociation.create, reshapeConfig, MatrixX.InRange,
    MatrixX.Map, MatrixX.transpose]

theorem yawExternals_measurement (first second : Double) (x : Double) :
    (yawExternals first second).normalizeRadian ((yawExternals first second).getYaw
      (sampleMeasurement x ⟨.fin 0, .fin 0, .fin 1, .fin 0⟩).pose_with_covariance.pose.orientation)
      = first := by
  simp [yawExternals, sampleExternals, sampleMeasurement, samplePose]

theorem yawExternals_tracker (first second : Double) (c00 c01 c10 c11 : Double) (stamp : ℤ) :
    (yawExternals first second).normalizeRadian ((yawExternals first second).getYaw
      ((sampleTracker c00 c01 c10 c11).getTrackedObject stamp).pose_with_covariance.pose.orientation)
      = second := by
  simp [yawExternals, sampleExternals, sampleTracker, samplePose]

theorem getFormedYawAngle_yawExternals_sample (first second : Double) (fuel : Nat)
    (x c00 c01 c10 c11 : Double) (stamp : ℤ) (dfb : Bool) :
    getFormedYawAngle (yawExternals first second) fuel
      (sampleMeasurement x ⟨.fin 0, .fin 0, .fin 1, .fin 0⟩).pose_with_covariance.pose.orientation
      ((sampleTracker c00 c01 c10 c11).getTrackedObject stamp).pose_with_covariance.pose.orientation
      dfb = formedYawAngle fuel first second dfb := by
  unfold getFormedYawAngle
  simp only [yawExternals_measurement, yawExternals_tracker]

end AngleGateSamples

/-- C24 (as amended), worked instance: `max_rad = 4` and the yaws -0.9947342778544477 and
-2.5655306046493442. -/
theorem angleGate_wide_max_rad_binary64_witness :
    (sampleEngine (fixedSolver [] []) (.fin 10) (.fin 4)).angleGate
      (yawExternals yawA yawB) 3 0 0
      (sampleMeasurement (.fin 2) ⟨.fin 0, .fin 0, .fin 1, .fin 0⟩)
      ((sampleTracker (.fin 1) (.fin 0) (.fin 0) (.fin 1)).getTrackedObject 0) true
      = .ok true :=
  (angleGate_wide_max_rad_binary64 (sampleEngine (fixedSolver [] []) (.fin 10) (.fin 4))
    (yawExternals yawA yawB) 0 0
    (sampleMeasurement (.fin 2) ⟨.fin 0, .fin 0, .fin 1, .fin 0⟩)
    ((sampleTracker (.fin 1) (.fin 0) (.fin 0) (.fin 1)).getTrackedObject 0) (.fin 4)
    (sampleEngine_max_rad _ _ _)
    (by rw [yawExternals_measurement]; exact Or.inl isNormalized_yawA)
    (by rw [yawExternals_tracker]; exact Or.inl isNormalized_yawB)
    (by
      intro _
      rw [M_PI_2_eq]
      norm_num [toRat, le_abs])).1 3 (le_refl 3)

/-- C24 as stated fails: with `max_rad = 1.5707963267948968`, the `double` next above
`M_PI_2`, and the normalised yaws -0.9947342778544477 (measurement) and -2.5655306046493442
(tracker), the formed angle is 1.570796326794897 and the angle gate rejects the pair. -/
theorem angleGate_rejects_wide_max_rad_counterexample :
    coeff (sampleEngine (fixedSolver [] []) (.fin 10)
        (.fin (7074237752028441 / 4503599627370496))).max_rad_matrix_ 0 0
      = .ok (Double.fin (7074237752028441 / 4503599627370496))
    ∧ M_PI_2 < Double.fabs (Double.fin (7074237752028441 / 4503599627370496))
    ∧ IsNormalized yawA ∧ IsNormalized yawB
    ∧ getFormedYawAngle (yawExternals yawA yawB) 3
        (sampleMeasurement (.fin 2)
          ⟨.fin 0, .fin 0, .fin 1, .fin 0⟩).pose_with_covariance.pose.orientation
        ((sampleTracker (.fin 1) (.fin 0) (.fin 0) (.fin 1)).getTrackedObject
          0).pose_with_covariance.pose.orientation false
        = some (Double.fin (3537118876014221 / 2251799813685248))
    ∧ (sampleEngine (fixedSolver [] []) (.fin 10)
        (.fin (7074237752028441 / 4503599627370496))).angleGate (yawExternals yawA yawB) 3 0 0
        (sampleMeasurement (.fin 2) ⟨.fin 0, .fin 0, .fin 1, .fin 0⟩)
        ((sampleTracker (.fin 1) (.fin 0) (.fin 0) (.fin 1)).getTrackedObject 0) true
        = .ok false := by
  have hangle : getFormedYawAngle (yawExternals yawA yawB) 3
      (sampleMeasurement (.fin 2)
        ⟨.fin 0, .fin 0, .fin 1, .fin 0⟩).pose_with_covariance.pose.orientation
      ((sampleTracker (.fin 1) (.fin 0) (.fin 0) (.fin 1)).getTrackedObject
        0).pose_with_covariance.pose.orientation false
      = some (Double.fin (3537118876014221 / 2251799813685248)) := by
    rw [getFormedYawAngle_yawExternals_sample]
    exact formedYawAngle_yawA_yawB
  refine ⟨sampleEngine_max_rad _ _ _, ?_, isNormalized_yawA, isNormalized_yawB, hangle, ?_⟩
  · rw [M_PI_2_eq, lt_def]
    norm_num [Double.lt, Double.fabs, isNaN, isFinite, toRat, abs_of_pos]
  · rw [angleGate_of_reads_binary64 _ _ 3 0 0 _ _ _ _ (sampleEngine_max_rad _ _ _) hangle]
    congr 1
    rw [Bool.not_eq_false', decide_eq_true_eq, M_PI_eq, lt_def, lt_def]
    norm_num [Double.lt, Double.fabs, isNaN, isFinite, toRat, abs_of_pos]

end Binary64

namespace Double

section ExactDifference

/-- A number with a 53-bit mantissa is an integer multiple of the `ulp` of its binade, the
multiplier being below `2^53`. -/
theorem exists_int_mul_ulp {f : ℚ} (hf : HasMantissa53 f) :
    ∃ N : ℤ, f = N * ulp f ∧ |N| < 2 ^ 53 := by
  obtain ⟨k, n, hk, hn, hfe⟩ := hf
  have hp : (0 : ℚ) < (2 : ℚ) ^ (k - 52) := zpow_pos (by norm_num) _
  have hnq : |(n : ℚ)| < 2 ^ 53 := by exact_mod_cast hn
  have hlt : |f| < (2 : ℚ) ^ (k + 1) := by
    rw [hfe, abs_mul, abs_of_pos hp]
    calc |(n : ℚ)| * (2 : ℚ) ^ (k - 52) < 2 ^ 53 * (2 : ℚ) ^ (k - 52) :=
          mul_lt_mul_of_pos_right hnq hp
      _ = (2 : ℚ) ^ (k + 1) := by
          rw [show k + 1 = (53 : ℤ) + (k - 52) by omega,
            zpow_add₀ (by norm_num : (2 : ℚ) ≠ 0)]
          norm_num
  have hb := binade_le_of_abs_lt f k hk hlt
  obtain ⟨N, hN⟩ := grid_of_le f k n hb
  rw [← hfe] at hN
  refine ⟨N, hN, ?_⟩
  have h1 := abs_lt_two_zpow_binade_succ f
  have h2 : |f| = |(N : ℚ)| * ulp f := by
    conv_lhs => rw [hN]
    rw [abs_mul, abs_of_pos (ulp_pos f)]
  have h3 : (2 : ℚ) ^ (binade f + 1) = 2 ^ 53 * ulp f := by
    unfold ulp
    rw [show binade f + 1 = (53 : ℤ) + (binade f - 52) by omega,
      zpow_add₀ (by norm_num : (2 : ℚ) ≠ 0)]
    norm_num
  rw [h2, h3] at h1
  have h4 : |(N : ℚ)| < 2 ^ 53 := lt_of_mul_lt_mul_right h1 (ulp_pos f).le
  exact_mod_cast h4

/-- Halving a number lowers its binade by at most one. -/
theorem binade_half_ge (m : ℚ) : binade m - 1 ≤ binade (m / 2) := by
  by_contra hcon
  push_neg at hcon
  have hge := binade_ge (m / 2)
  have hne : binade m ≠ -1022 := by omega
  have h1 := two_zpow_binade_le m hne
  have h2 := abs_lt_two_zpow_binade_succ (m / 2)
  have h3 : (2 : ℚ) ^ (binade (m / 2) + 1) ≤ (2 : ℚ) ^ (binade m - 1) :=
    zpow_le_zpow_right₀ (by norm_num) (by omega)
  have h4 : (2 : ℚ) ^ (binade m - 1) = (2 : ℚ) ^ binade m / 2 := by
    rw [zpow_sub₀ (by norm_num : (2 : ℚ) ≠ 0)]
    norm_num
  rw [abs_div, abs_of_pos (by norm_num : (0 : ℚ) < 2)] at h2
  rw [h4] at h3
  linarith

/-- A distance above 99 % of a positive `max_dist`, both binary64 numbers: the difference
`max_dist - dist` is a binary64 number (the subtraction is exact), and the exact quotient
`(max_dist - dist) / max_dist` is below `1/100` by at least `1 / (100 * 2^53)`. -/
theorem score_gap {m d : ℚ} (hm : HasMantissa53 m) (hd : HasMantissa53 d) (hpos : 0 < m)
    (hle : d ≤ m) (hfar : 99 / 100 * m < d) :
    HasMantissa53 (m - d) ∧ (m - d) / m ≤ 1 / 100 - 1 / (100 * 2 ^ 53) := by
  obtain ⟨M, hM, hMb⟩ := exists_int_mul_ulp hm
  obtain ⟨D, hD, hDb⟩ := exists_int_mul_ulp hd
  have hdpos : 0 < d := by linarith
  have hb1 : binade d ≤ binade m := by
    apply binade_mono
    rw [abs_of_pos hdpos, abs_of_pos hpos]
    exact hle
  have hb2 : binade m - 1 ≤ binade d := by
    refine le_trans (binade_half_ge m) (binade_mono ?_)
    rw [abs_of_pos hdpos, abs_of_pos (by linarith : (0 : ℚ) < m / 2)]
    linarith
  have hum : ulp m = (2 : ℚ) ^ (binade m - 52) := rfl
  have hud : ulp d = (2 : ℚ) ^ (binade d - 52) := rfl
  have hu : 0 < ulp m := ulp_pos m
  have hMq : |(M : ℚ)| < 2 ^ 53 := by exact_mod_cast hMb
  have hMlt : (M : ℚ) < 2 ^ 53 := lt_of_le_of_lt (le_abs_self _) hMq
  have hMpos : (0 : ℚ) < M := by
    by_contra hcon
    push_neg at hcon
    have : (M : ℚ) * ulp m ≤ 0 := mul_nonpos_of_nonpos_of_nonneg hcon hu.le
    linarith
  have hmu : m ≤ 2 ^ 53 * ulp m := by
    conv_lhs => rw [hM]
    exact mul_le_mul_of_nonneg_right hMlt.le hu.le
  have hfinal : ∀ (hstep : 100 * (m - d) ≤ m - ulp m),
      (m - d) / m ≤ 1 / 100 - 1 / (100 * 2 ^ 53) := by
    intro hstep
    rw [div_le_iff₀ hpos]
    have : (1 / 100 - 1 / (100 * 2 ^ 53) : ℚ) * m = m / 100 - m / 2 ^ 53 / 100 := by
      ring
    rw [this]
    have h5 : m / 2 ^ 53 ≤ ulp m := by
      rw [div_le_iff₀ (by norm_num : (0 : ℚ) < 2 ^ 53)]
      linarith
    linarith
  rcases (by omega : binade d = binade m ∨ binade d = binade m - 1) with hcase | hcase
  · have hud2 : ulp d = ulp m := by rw [hud, hum, hcase]
    rw [hud2] at hD
    have hdiff : m - d = ((M - D : ℤ) : ℚ) * ulp m := by
      push_cast
      conv_lhs => rw [hM, hD]
      ring
    have hK0 : (0 : ℤ) ≤ M - D := by
      by_contra hcon
      push_neg at hcon
      have hq : ((M - D : ℤ) : ℚ) < 0 := by exact_mod_cast hcon
      have : ((M - D : ℤ) : ℚ) * ulp m < 0 := mul_neg_of_neg_of_pos hq hu
      linarith
    have hKlt : ((M - D : ℤ) : ℚ) < 2 ^ 53 := by
      have h6 : ((M - D : ℤ) : ℚ) * ulp m < (M : ℚ) * ulp m := by
        rw [← hdiff, ← hM]
        linarith
      have := lt_of_mul_lt_mul_right h6 hu.le
      linarith
    refine ⟨⟨binade m, M - D, binade_ge m, ?_, ?_⟩, hfinal ?_⟩
    · rw [abs_of_nonneg hK0]
      exact_mod_cast hKlt
    · rw [hdiff, hum]
    · have hint : ((M - 100 * (M - D) : ℤ) : ℚ) * ulp m = m - 100 * (m - d) := by
        push_cast
        conv_rhs => rw [hM, hD]
        ring
      have hposq : (0 : ℚ) < ((M - 100 * (M - D) : ℤ) : ℚ) := by
        by_contra hcon
        push_neg at hcon
        have : ((M - 100 * (M - D) : ℤ) : ℚ) * ulp m ≤ 0 :=
          mul_nonpos_of_nonpos_of_nonneg hcon hu.le
        linarith
      have hposz : (1 : ℤ) ≤ M - 100 * (M - D) := by
        have : (0 : ℤ) < M - 100 * (M - D) := by exact_mod_cast hposq
        omega
      have hge : (1 : ℚ) ≤ ((M - 100 * (M - D) : ℤ) : ℚ) := by exact_mod_cast hposz
      have : 1 * ulp m ≤ ((M - 100 * (M - D) : ℤ) : ℚ) * ulp m :=
        mul_le_mul_of_nonneg_right hge hu.le
      linarith
  · have hud2 : ulp d = ulp m / 2 := by
      rw [hud, hum, hcase, show binade m - 1 - 52 = (binade m - 52) - 1 by omega,
        zpow_sub₀ (by norm_num : (2 : ℚ) ≠ 0)]
      norm_num
    rw [hud2] at hD
    have hdiff : m - d = ((2 * M - D : ℤ) : ℚ) * (ulp m / 2) := by
      push_cast
      conv_lhs => rw [hM, hD]
      ring
    have hh : 0 < ulp m / 2 := by linarith
    have hK0 : (0 : ℤ) ≤ 2 * M - D := by
      by_contra hcon
      push_neg at hcon
      have hq : ((2 * M - D : ℤ) : ℚ) < 0 := by exact_mod_cast hcon
      have : ((2 * M - D : ℤ) : ℚ) * (ulp m / 2) < 0 := mul_neg_of_neg_of_pos hq hh
      linarith
    have hKlt : ((2 * M - D : ℤ) : ℚ) < 2 ^ 53 := by
      have h6 : ((2 * M - D : ℤ) : ℚ) * (ulp m / 2) < (M : ℚ) * (ulp m / 2) := by
        rw [← hdiff]
        have : (M : ℚ) * (ulp m / 2) = m / 2 := by
          conv_rhs => rw [hM]
          ring
        rw [this]
        linarith
      have := lt_of_mul_lt_mul_right h6 hh.le
      linarith
    have hge := binade_ge d
    refine ⟨⟨binade m - 1, 2 * M - D, by omega, ?_, ?_⟩, hfinal ?_⟩
    · rw [abs_of_nonneg hK0]
      exact_mod_cast hKlt
    · rw [hdiff, ← hud2, hud, hcase]
    · have hint : ((2 * M - 100 * (2 * M - D) : ℤ) : ℚ) * (ulp m / 2)
          = m - 100 * (m - d) := by
        push_cast
        conv_rhs => rw [hM, hD]
        ring
      have hposq : (0 : ℚ) < ((2 * M - 100 * (2 * M - D) : ℤ) : ℚ) := by
        by_contra hcon
        push_neg at hcon
        have : ((2 * M - 100 * (2 * M - D) : ℤ) : ℚ) * (ulp m / 2) ≤ 0 :=
          mul_nonpos_of_nonpos_of_nonneg hcon hh.le
        linarith
      have hposz : (2 : ℤ) ≤ 2 * M - 100 * (2 * M - D) := by
        have : (0 : ℤ) < 2 * M - 100 * (2 * M - D) := by exact_mod_cast hposq
        omega
      have hge2 : (2 : ℚ) ≤ ((2 * M - 100 * (2 * M - D) : ℤ) : ℚ) := by exact_mod_cast hposz
      have : 2 * (ulp m / 2) ≤ ((2 * M - 100 * (2 * M - D) : ℤ) : ℚ) * (ulp m / 2) :=
        mul_le_mul_of_nonneg_right hge2 hh.le
      linarith

/-- The binary64 number nearest to a quotient that is below `1/100` by at least
`1 / (100 * 2^53)` is below the `double` 0.01: it is at most the `double` next below it. -/
theorem rnd_le_below_threshold {x : ℚ} (h : x ≤ 1 / 100 - 1 / (100 * 2 ^ 53)) :
    rnd x ≤ 5764607523034234 / 576460752303423488 := by
  have h0 := rnd_eq_of_bounds (1 / 100 - 1 / (100 * 2 ^ 53) : ℚ) (-7) 5764607523034234
    (by norm_num) (Or.inl (by norm_num [le_abs])) (by norm_num [abs_lt])
    (by norm_num [abs_lt])
  have h1 := rnd_mono h
  rw [h0] at h1
  refine le_trans h1 (le_of_eq ?_)
  norm_num

end ExactDifference

end Double

namespace Binary64

open Double

section ScoreLemmas

theorem isBinary64_of_isValid {x : Double} (hv : x.IsValid) :
    HasMantissa53 x.toRat ∧ |x.toRat| < (2 : ℚ) ^ 1024 := by
  cases x with
  | fin q => exact hv
  | negZero => exact ⟨hasMantissa53_zero, by norm_num [toRat]⟩
  | posInf => exact ⟨hasMantissa53_zero, by norm_num [toRat]⟩
  | negInf => exact ⟨hasMantissa53_zero, by norm_num [toRat]⟩
  | nan => exact ⟨hasMantissa53_zero, by norm_num [toRat]⟩

/-- A distance that is not negative and passes the distance gate of a finite `max_dist` is
finite and between 0 and `max_dist`. -/
theorem dist_of_gate (max_dist dist : Double) (hfin : max_dist.isFinite = true)
    (hdist : (0 : Double) ≤ dist) (hgate : ¬ (max_dist < dist)) :
    dist.isFinite = true ∧ 0 ≤ dist.toRat ∧ dist.toRat ≤ max_dist.toRat := by
  rw [zero_eq, le_def] at hdist
  rw [lt_def] at hgate
  cases dist <;> cases max_dist <;>
    simp [Double.le, Double.lt, isNaN, isFinite, toRat, signBit] at hfin hdist hgate ⊢
  all_goals first
    | exact ⟨hdist, hgate⟩
    | exact hgate

theorem pos_of_lt (max_dist : Double) (hfin : max_dist.isFinite = true)
    (hpos : (0 : Double) < max_dist) : 0 < max_dist.toRat := by
  rw [zero_eq, lt_def] at hpos
  cases max_dist <;> simp [Double.lt, isNaN, isFinite, toRat, signBit] at hfin hpos ⊢
  exact hpos

theorem eq_fin_of_toRat {x : Double} {q : ℚ} (hf : x.isFinite = true) (hq : x.toRat = q)
    (hne : q ≠ 0) : x = Double.fin q := by
  cases x <;> simp [isFinite, toRat] at hf hq ⊢
  · exact hq
  · exact hne hq.symm

/-- The raw score of a pair that passes the distance gate, for a finite `max_dist > 0`: a
finite value, the exact quotient after two roundings, between 0 and 1. -/
theorem rawScore_toRat (max_dist dist : Double) (hvalid : max_dist.IsValid)
    (hfin : max_dist.isFinite = true) (hpos : 0 < max_dist.toRat)
    (hdf : dist.isFinite = true) (hd0 : 0 ≤ dist.toRat) (hle : dist.toRat ≤ max_dist.toRat) :
    (rawScore max_dist dist).isFinite = true
    ∧ (rawScore max_dist dist).toRat
        = rnd (rnd (max_dist.toRat - dist.toRat) / max_dist.toRat)
    ∧ 0 ≤ rnd (rnd (max_dist.toRat - dist.toRat) / max_dist.toRat)
    ∧ rnd (rnd (max_dist.toRat - dist.toRat) / max_dist.toRat) ≤ 1 := by
  obtain ⟨hm, hmb⟩ := isBinary64_of_isValid hvalid
  have hy0 : 0 ≤ rnd (max_dist.toRat - dist.toRat) :=
    le_rnd_of_le hasMantissa53_zero (by linarith)
  have hy1 : rnd (max_dist.toRat - dist.toRat) ≤ max_dist.toRat :=
    rnd_le_of_le hm (by linarith)
  have hmabs : |max_dist.toRat| = max_dist.toRat := abs_of_pos hpos
  rw [hmabs] at hmb
  obtain ⟨hsf, hsv⟩ := sub_finite hfin hdf
    (by rw [abs_of_nonneg hy0]; exact lt_of_le_of_lt hy1 hmb)
  have hq0 : 0 ≤ rnd (max_dist.toRat - dist.toRat) / max_dist.toRat := div_nonneg hy0 hpos.le
  have hq1 : rnd (max_dist.toRat - dist.toRat) / max_dist.toRat ≤ 1 := by
    rw [div_le_one hpos]
    exact hy1
  have hone : HasMantissa53 (1 : ℚ) := by
    have := hasMantissa53_intCast 1 (by norm_num)
    rwa [Int.cast_one] at this
  have hs0 : 0 ≤ rnd (rnd (max_dist.toRat - dist.toRat) / max_dist.toRat) :=
    le_rnd_of_le hasMantissa53_zero hq0
  have hs1 : rnd (rnd (max_dist.toRat - dist.toRat) / max_dist.toRat) ≤ 1 :=
    rnd_le_of_le hone hq1
  have hdiv := div_finite hsf hfin hpos.ne.symm
    (by
      rw [hsv, abs_of_nonneg hs0]
      exact lt_of_le_of_lt hs1 (by norm_num))
  have hgate : ¬ (max_dist < dist) := by
    rw [lt_iff_of_finite hfin hdf]
    exact not_lt.mpr hle
  unfold rawScore stdMin
  rw [if_neg hgate]
  rw [hsv] at hdiv
  exact ⟨hdiv.1, hdiv.2, hs0, hs1⟩

/-- The raw score at distance 0 is 1. -/
theorem rawScore_eq_one (max_dist dist : Double) (hvalid : max_dist.IsValid)
    (hfin : max_dist.isFinite = true) (hpos : 0 < max_dist.toRat)
    (hdf : dist.isFinite = true) (hd0 : dist.toRat = 0) :
    rawScore max_dist dist = (1 : Double) := by
  obtain ⟨hm, -⟩ := isBinary64_of_isValid hvalid
  obtain ⟨hf, hv, -, -⟩ := rawScore_toRat max_dist dist hvalid hfin hpos hdf (by rw [hd0])
    (by rw [hd0]; exact hpos.le)
  have hone : HasMantissa53 (1 : ℚ) := by
    have := hasMantissa53_intCast 1 (by norm_num)
    rwa [Int.cast_one] at this
  rw [hd0, sub_zero, rnd_eq_self hm, div_self hpos.ne.symm, rnd_eq_self hone] at hv
  rw [one_eq]
  exact eq_fin_of_toRat hf hv one_ne_zero

end ScoreLemmas

end Binary64

namespace Binary64

open Double

section ScoreSamples

theorem isValid_fin_ten : (Double.fin 10).IsValid := by
  refine ⟨?_, by norm_num⟩
  have := hasMantissa53_intCast 10 (by norm_num)
  rwa [show ((10 : ℤ) : ℚ) = 10 by norm_num] at this

theorem zero_lt_fin_ten : (0 : Double) < Double.fin 10 := by
  rw [zero_eq, lt_def]
  norm_num [Double.lt, isNaN, isFinite, toRat]

theorem zero_le_fin (q : ℚ) (h : 0 ≤ q) : (0 : Double) ≤ Double.fin q := by
  rw [zero_eq, le_def]
  simp [Double.le, isNaN, isFinite, toRat, h]

theorem distGate_fin (m d : ℚ) (h : d ≤ m) :
    distGate (Double.fin m) (Double.fin d) true = true := by
  rw [distGate_eq_binary64, Bool.true_and, Bool.not_eq_true', decide_eq_false_iff_not, lt_def]
  simp [Double.lt, isNaN, isFinite, toRat, h]

/-- For an infinite `max_dist` the raw score of a finite distance is NaN: `inf / inf`. -/
theorem rawScore_posInf (d : ℚ) : rawScore Double.posInf (Double.fin d) = Double.nan := by
  simp [rawScore, stdMin, lt_def, sub_def, div_def, Double.lt, Double.add, Double.neg,
    Double.div, isNaN, isFinite, toRat, signBit]
  split_ifs <;> simp [Double.add, Double.div, isNaN, isFinite, toRat, signBit]

/-- For a NaN distance the raw score is NaN. -/
theorem rawScore_nan (max_dist : Double) : rawScore max_dist Double.nan = Double.nan := by
  have h : stdMin Double.nan max_dist = Double.nan := by
    unfold stdMin
    rw [if_neg (not_lt_nan_right _)]
  unfold rawScore
  rw [h, sub_nan_right, div_def]
  simp [Double.div, isNaN]

end ScoreSamples

/-- C10 (as amended): over binary64, for a pair that passes the distance gate, with a finite
`max_dist > 0` and a distance that is a number and not negative, the raw score
`(max_dist - min(dist, max_dist)) / max_dist` lies in the closed interval [0, 1]; at the
distance 0 it is 1. -/
theorem rawScore_mem_unit_interval_binary64 (max_dist dist : Double)
    (hvalid : max_dist.IsValid) (hfin : max_dist.isFinite = true)
    (hpos : (0 : Double) < max_dist) (hdist : (0 : Double) ≤ dist)
    (hgate : distGate max_dist dist true = true) :
    (0 : Double) ≤ rawScore max_dist dist ∧ rawScore max_dist dist ≤ (1 : Double)
      ∧ (dist.toRat = 0 → rawScore max_dist dist = (1 : Double)) := by
  rw [distGate_eq_binary64, Bool.true_and, Bool.not_eq_true', decide_eq_false_iff_not]
    at hgate
  obtain ⟨hdf, hd0, hle⟩ := dist_of_gate max_dist dist hfin hdist hgate
  have hp := pos_of_lt max_dist hfin hpos
  obtain ⟨hf, hv, hs0, hs1⟩ := rawScore_toRat max_dist dist hvalid hfin hp hdf hd0 hle
  refine ⟨?_, ?_, fun hz => rawScore_eq_one max_dist dist hvalid hfin hp hdf hz⟩
  · rw [zero_eq, le_iff_of_finite (isFinite_of_fin 0) hf, hv]
    exact hs0
  · rw [one_eq, le_iff_of_finite hf (isFinite_of_fin 1), hv]
    exact hs1

/-- C10 (as amended), worked instance: `max_dist = 10` and the distance 2. -/
theorem rawScore_mem_unit_interval_binary64_witness :
    (0 : Double) ≤ rawScore (Double.fin 10) (Double.fin 2)
      ∧ rawScore (Double.fin 10) (Double.fin 2) ≤ (1 : Double)
      ∧ ((Double.fin 2).toRat = 0 → rawScore (Double.fin 10) (Double.fin 2) = (1 : Double)) :=
  rawScore_mem_unit_interval_binary64 (Double.fin 10) (Double.fin 2) isValid_fin_ten rfl
    zero_lt_fin_ten (zero_le_fin 2 (by norm_num)) (distGate_fin 10 2 (by norm_num))

/-- C10 as stated fails: a tracker and a measurement at the same position (with
`max_dist = 10`) pass all tests and their raw score is 1, which is not below 1. And the
score is not a number of [0, 1) at all when `max_dist` is infinite or the distance is NaN:
such a pair passes the distance gate and its raw score is NaN. -/
theorem rawScore_not_below_one_counterexample :
    (sampleEngine (fixedSolver [] []) (.fin 10) (.fin 4)).Reads sampleExternals 3 0
        (sampleTracker (.fin 1) (.fin 0) (.fin 0) (.fin 1))
        (sampleMeasurement (.fin 0) ⟨.fin 0, .fin 0, .fin 0, .fin 1⟩)
        (sampleReadings (.fin 10) (.fin 4) 0 (.fin 1) (.fin 0) (.fin 0) (.fin 1))
    ∧ (sampleReadings (.fin 10) (.fin 4) 0 (.fin 1) (.fin 0) (.fin 0) (.fin 1)).noTestFails
    ∧ (sampleReadings (.fin 10) (.fin 4) 0 (.fin 1) (.fin 0) (.fin 0) (.fin 1)).claimedScore
        = (1 : Double)
    ∧ ¬ ((1 : Double) < (1 : Double))
    ∧ (0 : Double) < Double.posInf
    ∧ distGate Double.posInf (Double.fin 2) true = true
    ∧ rawScore Double.posInf (Double.fin 2) = Double.nan
    ∧ distGate (Double.fin 10) Double.nan true = true
    ∧ rawScore (Double.fin 10) Double.nan = Double.nan := by
  refine ⟨sample_reads_binary64 _ _ _ _ _ _ _ _ _ 2 0,
    sample_noTestFails _ _ _ _ _ _ _ getMahalanobisDistance_identity_zero
      not_threshold_le_zero ?_, ?_, ?_, ?_, ?_, rawScore_posInf 2, ?_, rawScore_nan _⟩
  · rw [ratSqrt_zero_sq, lt_def]
    norm_num [Double.lt, isNaN, isFinite, toRat]
  · show rawScore (Double.fin 10) (Double.fin (ratSqrt (0 ^ 2))) = 1
    rw [ratSqrt_zero_sq]
    exact rawScore_eq_one _ _ isValid_fin_ten rfl (by norm_num [toRat]) rfl rfl
  · rw [one_eq, lt_def]
    norm_num [Double.lt, isNaN, isFinite, toRat]
  · rw [zero_eq, lt_def]
    simp [Double.lt, isNaN, isFinite, toRat, signBit]
  · rw [distGate_eq_binary64, Bool.true_and, Bool.not_eq_true', decide_eq_false_iff_not,
      lt_def]
    simp [Double.lt, isNaN, isFinite, toRat, signBit]
  · rw [distGate_eq_binary64, Bool.true_and, Bool.not_eq_true', decide_eq_false_iff_not]
    exact not_lt_nan_right _

end Binary64

namespace Binary64

open Double

section MonotoneLemmas

/-- The thresholded score of a finite raw score. -/
theorem thresholded_cases (s : Double) (hf : s.isFinite = true) :
    (s.toRat < 5764607523034235 / 576460752303423488
        ∧ (if s < (0.01 : Double) then (0.0 : Double) else s) = Double.fin 0)
    ∨ (5764607523034235 / 576460752303423488 ≤ s.toRat
        ∧ (if s < (0.01 : Double) then (0.0 : Double) else s) = s) := by
  have hlt : s < (0.01 : Double) ↔ s.toRat < 5764607523034235 / 576460752303423488 := by
    rw [threshold_eq, lt_iff_of_finite hf (isFinite_of_fin _)]
    rfl
  by_cases h : s.toRat < 5764607523034235 / 576460752303423488
  · left
    refine ⟨h, ?_⟩
    rw [if_pos (hlt.mpr h), zero_lit_eq]
  · right
    refine ⟨not_lt.mp h, ?_⟩
    rw [if_neg (fun hc => h (hlt.mp hc))]

/-- The raw score of a finite `max_dist > 0` does not increase with the distance. -/
theorem rawScore_antitone (max_dist dist1 dist2 : Double) (hvalid : max_dist.IsValid)
    (hfin : max_dist.isFinite = true) (hpos : 0 < max_dist.toRat)
    (hdf1 : dist1.isFinite = true) (hd1 : 0 ≤ dist1.toRat)
    (hdf2 : dist2.isFinite = true) (hle2 : dist2.toRat ≤ max_dist.toRat)
    (h12 : dist1.toRat ≤ dist2.toRat) :
    (rawScore max_dist dist2).toRat ≤ (rawScore max_dist dist1).toRat := by
  obtain ⟨-, hv1, -, -⟩ := rawScore_toRat max_dist dist1 hvalid hfin hpos hdf1 hd1
    (le_trans h12 hle2)
  obtain ⟨-, hv2, -, -⟩ := rawScore_toRat max_dist dist2 hvalid hfin hpos hdf2
    (le_trans hd1 h12) hle2
  rw [hv1, hv2]
  apply rnd_mono
  apply div_le_div_of_nonneg_right _ hpos.le
  apply rnd_mono
  linarith

/-- The raw score of a distance above 99 % of a finite `max_dist > 0` is below the `double`
0.01. -/
theorem rawScore_far (max_dist dist : Double) (hvalid : max_dist.IsValid)
    (hfin : max_dist.isFinite = true) (hpos : 0 < max_dist.toRat)
    (hdv : dist.IsValid) (hdf : dist.isFinite = true) (hle : dist.toRat ≤ max_dist.toRat)
    (hfar : (1 - 1 / 100) * max_dist.toRat < dist.toRat) :
    (rawScore max_dist dist).toRat < 5764607523034235 / 576460752303423488 := by
  obtain ⟨hm, -⟩ := isBinary64_of_isValid hvalid
  obtain ⟨hd, -⟩ := isBinary64_of_isValid hdv
  have hd0 : 0 ≤ dist.toRat := by
    have : 0 ≤ (1 - 1 / 100) * max_dist.toRat := mul_nonneg (by norm_num) hpos.le
    linarith
  obtain ⟨-, hv, -, -⟩ := rawScore_toRat max_dist dist hvalid hfin hpos hdf hd0 hle
  obtain ⟨hexact, hgap⟩ := score_gap hm hd hpos hle (by
    have : (99 / 100 : ℚ) * max_dist.toRat = (1 - 1 / 100) * max_dist.toRat := by ring
    rw [this]
    exact hfar)
  rw [hv, rnd_eq_self hexact]
  refine lt_of_le_of_lt (rnd_le_below_threshold hgap) ?_
  norm_num

end MonotoneLemmas

/-- C26 (as amended): over binary64, for two pairs on which no test fires, under the same
finite `max_dist > 0` and with distances that are numbers and not negative, the cell score
does not increase with the centre distance: `dist1 <= dist2` gives `score1 >= score2`. The
score is 1 when the distance is 0, and it is 0 for every distance above
`(1 - 0.01) * max_dist`, the product taken exactly. -/
theorem calcScore_monotone_in_dist_binary64 (da : DataAssociation) (ext : Externals)
    (fuel : Nat) (stamp : ℤ) (tracker1 tracker2 : Tracker)
    (measurement1 measurement2 : DetectedObject) (r1 r2 : PairReadings)
    (hthr : da.score_threshold_ = (0.01 : Double))
    (hr1 : da.Reads ext fuel stamp tracker1 measurement1 r1)
    (hr2 : da.Reads ext fuel stamp tracker2 measurement2 r2)
    (hall1 : r1.noTestFails) (hall2 : r2.noTestFails)
    (hsame : r1.max_dist = r2.max_dist)
    (hvalid : r1.max_dist.IsValid) (hfin : r1.max_dist.isFinite = true)
    (hpos : (0 : Double) < r1.max_dist)
    (hdv1 : r1.dist.IsValid) (hd1 : (0 : Double) ≤ r1.dist) (hd2 : (0 : Double) ≤ r2.dist) :
    ∃ score1 score2,
      da.calcScore ext fuel stamp tracker1 measurement1 = .ok score1
      ∧ da.calcScore ext fuel stamp tracker2 measurement2 = .ok score2
      ∧ (r1.dist ≤ r2.dist → score2 ≤ score1)
      ∧ (r1.dist.toRat = 0 → score1 = (1 : Double))
      ∧ ((1 - 1 / 100) * r1.max_dist.toRat < r1.dist.toRat → score1 = (0.0 : Double)) := by
  have hp := pos_of_lt _ hfin hpos
  obtain ⟨hdf1, hq1, hle1⟩ := dist_of_gate _ _ hfin hd1 hall1.2.1
  obtain ⟨hdf2, hq2, hle2⟩ := dist_of_gate _ _ (hsame ▸ hfin) hd2 hall2.2.1
  rw [← hsame] at hle2
  obtain ⟨hf1, hv1, hs10, hs11⟩ := rawScore_toRat _ _ hvalid hfin hp hdf1 hq1 hle1
  obtain ⟨hf2, hv2, hs20, hs21⟩ := rawScore_toRat _ _ hvalid hfin hp hdf2 hq2 hle2
  refine ⟨_, _,
    (calcScore_of_reads_binary64 da ext fuel stamp tracker1 measurement1 r1 hr1).trans
      (by rw [if_pos hall1]),
    (calcScore_of_reads_binary64 da ext fuel stamp tracker2 measurement2 r2 hr2).trans
      (by rw [if_pos hall2]), ?_, ?_, ?_⟩
  · intro h12
    have h12q : r1.dist.toRat ≤ r2.dist.toRat := (le_iff_of_finite hdf1 hdf2).mp h12
    have hmono := rawScore_antitone _ _ _ hvalid hfin hp hdf1 hq1 hdf2 hle2 h12q
    rw [hthr]
    unfold PairReadings.claimedScore
    rw [← hsame]
    rcases thresholded_cases _ hf1 with ⟨hlt1, he1⟩ | ⟨hge1, he1⟩
    · rcases thresholded_cases _ hf2 with ⟨hlt2, he2⟩ | ⟨hge2, he2⟩
      · rw [he1, he2]
        exact (fin_le_fin 0 0).mpr (le_refl 0)
      · exfalso
        linarith
    · rcases thresholded_cases _ hf2 with ⟨hlt2, he2⟩ | ⟨hge2, he2⟩
      · rw [he1, he2, le_iff_of_finite (isFinite_of_fin 0) hf1, hv1]
        exact hs10
      · rw [he1, he2, le_iff_of_finite hf2 hf1]
        exact hmono
  · intro hz
    rw [hthr]
    unfold PairReadings.claimedScore
    rw [rawScore_eq_one _ _ hvalid hfin hp hdf1 hz, if_neg]
    rw [one_eq, threshold_eq, fin_lt_fin]
    norm_num
  · intro hfar
    have hlt := rawScore_far _ _ hvalid hfin hp hdv1 hdf1 hle1 hfar
    rw [hthr]
    unfold PairReadings.claimedScore
    rw [if_pos]
    rw [threshold_eq, lt_iff_of_finite hf1 (isFinite_of_fin _)]
    exact hlt

end Binary64

namespace Binary64

open Double

section MonotoneSamples

theorem isValid_fin_zero : (Double.fin 0).IsValid := ⟨hasMantissa53_zero, by norm_num⟩

/-- The raw score for `max_dist = 10` and the distance `2^-60`: the difference
`10 - 2^-60` rounds to 10, and the score is 1. -/
theorem rawScore_ten_tiny :
    rawScore (Double.fin 10) (Double.fin (1 / 1152921504606846976)) = (1 : Double) := by
  have hmin : stdMin (Double.fin (1 / 1152921504606846976)) (Double.fin 10)
      = Double.fin (1 / 1152921504606846976) := by
    unfold stdMin
    rw [if_neg]
    rw [fin_lt_fin]
    norm_num
  have hsub : Double.fin 10 - Double.fin (1 / 1152921504606846976) = Double.fin 10 := by
    rw [fin_sub_fin 10 (1 / 1152921504606846976) 3 5629499534213120 (by norm_num)
      (by norm_num) (by norm_num [le_abs]) (by norm_num [abs_lt]) (by norm_num [abs_lt])
      (by norm_num)]
    congr 1
    norm_num
  have hdiv : Double.fin 10 / Double.fin 10 = Double.fin 1 := by
    rw [@div_eq_ofRat (Double.fin 10) (Double.fin 10) rfl rfl (by norm_num [toRat])
      (by norm_num [toRat])]
    have : (Double.fin 10).toRat / (Double.fin 10).toRat = 1 := by norm_num [toRat]
    rw [this, ofRat_one]
  unfold rawScore
  rw [hmin, hsub, hdiv, one_eq]

theorem one_not_below_threshold : ¬ ((1 : Double) < (0.01 : Double)) := by
  rw [one_eq, threshold_eq, fin_lt_fin]
  norm_num

end MonotoneSamples

/-- C26 (as amended), worked instance: the sample tracker with a measurement at distance 0
and one at distance 2, `max_dist = 10`. -/
theorem calcScore_monotone_in_dist_binary64_witness :
    ∃ score1 score2,
      (sampleEngine (fixedSolver [] []) (.fin 10) (.fin 4)).calcScore sampleExternals 3 0
          (sampleTracker (.fin 1) (.fin 0) (.fin 0) (.fin 1))
          (sampleMeasurement (.fin 0) ⟨.fin 0, .fin 0, .fin 0, .fin 1⟩) = .ok score1
      ∧ (sampleEngine (fixedSolver [] []) (.fin 10) (.fin 4)).calcScore sampleExternals 3 0
          (sampleTracker (.fin 1) (.fin 0) (.fin 0) (.fin 1))
          (sampleMeasurement (.fin 2) ⟨.fin 0, .fin 0, .fin 0, .fin 1⟩) = .ok score2
      ∧ ((sampleReadings (.fin 10) (.fin 4) 0 (.fin 1) (.fin 0) (.fin 0) (.fin 1)).dist
          ≤ (sampleReadings (.fin 10) (.fin 4) 2 (.fin 1) (.fin 0) (.fin 0) (.fin 1)).dist
            → score2 ≤ score1)
      ∧ ((sampleReadings (.fin 10) (.fin 4) 0 (.fin 1) (.fin 0) (.fin 0) (.fin 1)).dist.toRat
          = 0 → score1 = (1 : Double))
      ∧ ((1 - 1 / 100)
          * (sampleReadings (.fin 10) (.fin 4) 0 (.fin 1) (.fin 0) (.fin 0)
              (.fin 1)).max_dist.toRat
          < (sampleReadings (.fin 10) (.fin 4) 0 (.fin 1) (.fin 0) (.fin 0)
              (.fin 1)).dist.toRat
            → score1 = (0.0 : Double)) :=
  calcScore_monotone_in_dist_binary64 (sampleEngine (fixedSolver [] []) (.fin 10) (.fin 4))
    sampleExternals 3 0 (sampleTracker (.fin 1) (.fin 0) (.fin 0) (.fin 1))
    (sampleTracker (.fin 1) (.fin 0) (.fin 0) (.fin 1))
    (sampleMeasurement (.fin 0) ⟨.fin 0, .fin 0, .fin 0, .fin 1⟩)
    (sampleMeasurement (.fin 2) ⟨.fin 0, .fin 0, .fin 0, .fin 1⟩)
    (sampleReadings (.fin 10) (.fin 4) 0 (.fin 1) (.fin 0) (.fin 0) (.fin 1))
    (sampleReadings (.fin 10) (.fin 4) 2 (.fin 1) (.fin 0) (.fin 0) (.fin 1))
    rfl (sample_reads_binary64 _ _ _ _ _ _ _ _ _ 2 0) (sample_reads_binary64 _ _ _ _ _ _ _ _ _ 2 0)
    (sample_noTestFails _ _ _ _ _ _ _ getMahalanobisDistance_identity_zero
      not_threshold_le_zero (by rw [ratSqrt_zero_sq, fin_lt_fin]; norm_num))
    (sample_noTestFails _ _ _ _ _ _ _ getMahalanobisDistance_identity_two
      not_threshold_le_two (by rw [ratSqrt_two_sq, fin_lt_fin]; norm_num))
    rfl isValid_fin_ten rfl zero_lt_fin_ten
    (by
      show (Double.fin (ratSqrt (0 ^ 2))).IsValid
      rw [ratSqrt_zero_sq]
      exact isValid_fin_zero)
    (by
      show (0 : Double) ≤ Double.fin (ratSqrt (0 ^ 2))
      rw [ratSqrt_zero_sq]
      exact zero_le_fin 0 (le_refl 0))
    (by
      show (0 : Double) ≤ Double.fin (ratSqrt (2 ^ 2))
      rw [ratSqrt_two_sq]
      exact zero_le_fin 2 (by norm_num))

/-- C26 as stated fails: with `max_dist = 10` a pair at the distance `2^-60`, which is not
0, passes the distance gate and has the score 1, as `10 - 2^-60` rounds to 10. And with an
infinite `max_dist`, or with a distance that is NaN, the pair passes the distance gate and
its score is NaN, which is not at least any score. -/
theorem calcScore_one_at_positive_dist_counterexample :
    (0 : Double) < Double.fin (1 / 1152921504606846976)
    ∧ distGate (Double.fin 10) (Double.fin (1 / 1152921504606846976)) true = true
    ∧ rawScore (Double.fin 10) (Double.fin (1 / 1152921504606846976)) = (1 : Double)
    ∧ (sampleEngine (fixedSolver [] []) (.fin 10) (.fin 4)).gatedScore (Double.fin 10)
        (Double.fin (1 / 1152921504606846976)) true = (1 : Double)
    ∧ (0 : Double) < Double.posInf
    ∧ distGate Double.posInf (Double.fin 2) true = true
    ∧ (sampleEngine (fixedSolver [] []) (.fin 10) (.fin 4)).gatedScore Double.posInf
        (Double.fin 2) true = Double.nan
    ∧ distGate (Double.fin 10) Double.nan true = true
    ∧ (sampleEngine (fixedSolver [] []) (.fin 10) (.fin 4)).gatedScore (Double.fin 10)
        Double.nan true = Double.nan
    ∧ ¬ (Double.nan ≤ Double.nan) := by
  refine ⟨?_, distGate_fin _ _ (by norm_num), rawScore_ten_tiny, ?_, ?_, ?_, ?_, ?_, ?_,
    not_le_nan_right _⟩
  · rw [zero_eq, fin_lt_fin]
    norm_num
  · unfold DataAssociation.gatedScore
    simp only [if_true]
    rw [rawScore_ten_tiny]
    exact if_neg one_not_below_threshold
  · rw [zero_eq, lt_def]
    simp [Double.lt, isNaN, isFinite, toRat, signBit]
  · rw [distGate_eq_binary64, Bool.true_and, Bool.not_eq_true', decide_eq_false_iff_not,
      lt_def]
    simp [Double.lt, isNaN, isFinite, toRat, signBit]
  · unfold DataAssociation.gatedScore
    simp only [if_true]
    rw [rawScore_posInf]
    exact if_neg (not_lt_nan_left _)
  · rw [distGate_eq_binary64, Bool.true_and, Bool.not_eq_true', decide_eq_false_iff_not]
    exact not_lt_nan_right _
  · unfold DataAssociation.gatedScore
    simp only [if_true]
    rw [rawScore_nan]
    exact if_neg (not_lt_nan_left _)

end Binary64

namespace Double

section SquareRoot

theorem int_log_eq_of_bounds (q : ℚ) (e : ℤ) (hq : 0 < q) (h1 : (2 : ℚ) ^ e ≤ q)
    (h2 : q < (2 : ℚ) ^ (e + 1)) : Int.log 2 q = e := by
  have hlt : Int.log 2 q < e + 1 := by
    rw [← Int.lt_zpow_iff_log_lt (by norm_num) hq]
    exact_mod_cast h2
  have hle : e ≤ Int.log 2 q := by
    rw [← Int.zpow_le_iff_le_log (by norm_num) hq]
    exact_mod_cast h1
  omega

/-- The square root of the `double` nearest to the square of the `double` 3.035 is the
`double` 3.035. -/
theorem rndSqrt_threshold_sq :
    rndSqrt (5185458684703225 / 562949953421312) = 854276554316841 / 281474976710656 := by
  have hlog : Int.log 2 (5185458684703225 / 562949953421312 : ℚ) = 3 :=
    int_log_eq_of_bounds _ 3 (by norm_num) (by norm_num) (by norm_num)
  have hr : (5185458684703225 / 562949953421312 : ℚ)
      / ((2 : ℚ) ^ ((1 : ℤ) - 52) * (2 : ℚ) ^ ((1 : ℤ) - 52))
      = ((46706459600349092833089762099200 : ℤ) : ℚ) := by
    norm_num
  have hsqrt : Nat.sqrt 46706459600349092833089762099200 = 6834212434534727 := by
    symm
    rw [Nat.eq_sqrt]
    constructor <;> norm_num
  unfold rndSqrt
  simp only []
  rw [hlog, show (3 : ℤ) / 2 = 1 by norm_num, hr, Int.floor_intCast]
  rw [show (46706459600349092833089762099200 : ℤ).toNat = 46706459600349092833089762099200
    by rfl, hsqrt]
  norm_num

end SquareRoot

end Double

namespace Binary64

open Double

section BoundaryEvaluation

theorem ofRat_threshold : Double.ofRat (854276554316841 / 281474976710656)
    = Double.fin (854276554316841 / 281474976710656) := by
  refine ofRat_eq_fin _ _ 2 (by norm_num) (by norm_num) ?_ (by norm_num)
    (by norm_num [abs_le])
  have := rnd_eq_of_bounds (854276554316841 / 281474976710656 : ℚ) 1 6834212434534728
    (by norm_num) (Or.inl (by norm_num [le_abs])) (by norm_num [abs_lt])
    (by norm_num [abs_lt])
  rw [this]
  norm_num

theorem ofRat_threshold_sq :
    Double.ofRat (854276554316841 / 281474976710656 * (854276554316841 / 281474976710656))
      = Double.fin (5185458684703225 / 562949953421312) := by
  refine ofRat_eq_fin _ _ 4 (by norm_num) (by norm_num) ?_ (by norm_num)
    (by norm_num [abs_le])
  have := rnd_eq_of_bounds
    (854276554316841 / 281474976710656 * (854276554316841 / 281474976710656) : ℚ) 3
    5185458684703225 (by norm_num) (Or.inl (by norm_num [le_abs])) (by norm_num [abs_lt])
    (by norm_num [abs_lt])
  rw [this]
  norm_num

theorem ofRat_threshold_sq_self : Double.ofRat (5185458684703225 / 562949953421312)
    = Double.fin (5185458684703225 / 562949953421312) := by
  refine ofRat_eq_fin _ _ 4 (by norm_num) (by norm_num) ?_ (by norm_num)
    (by norm_num [abs_le])
  have := rnd_eq_of_bounds (5185458684703225 / 562949953421312 : ℚ) 3 5185458684703225
    (by norm_num) (Or.inl (by norm_num [le_abs])) (by norm_num [abs_lt])
    (by norm_num [abs_lt])
  rw [this]
  norm_num

/-- The Mahalanobis distance for the identity covariance at the offset `(3.035, 0)`, with
the correctly rounded square root, is the `double` 3.035. -/
theorem getMahalanobisDistance_identity_threshold :
    getMahalanobisDistance sqrtExternals
      ⟨.fin (854276554316841 / 281474976710656), .fin 0, .fin 0⟩ ⟨.fin 0, .fin 0, .fin 0⟩
      ⟨Double.fin 1, Double.fin 0, Double.fin 0, Double.fin 1⟩
      = Double.fin (854276554316841 / 281474976710656) := by
  have hd0 : Double.fin (854276554316841 / 281474976710656) - Double.fin 0
      = Double.fin (854276554316841 / 281474976710656) := by
    rw [@sub_eq_ofRat (Double.fin (854276554316841 / 281474976710656)) (Double.fin 0) rfl rfl
      (by norm_num [toRat])]
    have : (Double.fin (854276554316841 / 281474976710656)).toRat - (Double.fin 0).toRat
        = 854276554316841 / 281474976710656 := by norm_num [toRat]
    rw [this, ofRat_threshold]
  have hd1 : Double.fin 0 - Double.fin 0 = Double.fin 0 := fin_zero_sub_fin_zero
  have hdet : Matrix2d.determinant ⟨Double.fin 1, Double.fin 0, Double.fin 0, Double.fin 1⟩
      = Double.fin 1 := by
    norm_num [mul_def, sub_def, add_def, div_def, neg_def, Double.mul, Double.add,
      Double.neg, Double.div, isNaN, isFinite, toRat, signBit, zero, inf, ofRat_one,
      Matrix2d.determinant]
  have hinvdet : (1 : Double) / Double.fin 1 = Double.fin 1 := by
    rw [one_eq]
    norm_num [div_def, Double.div, isNaN, isFinite, toRat, signBit, zero, inf, ofRat_one]
  have h00 : Double.fin 1 * Double.fin 1 = Double.fin 1 := by
    norm_num [mul_def, Double.mul, isNaN, isFinite, toRat, signBit, zero, inf, ofRat_one]
  have h01 : -Double.fin 0 * Double.fin 1 = Double.negZero := by
    norm_num [mul_def, neg_def, Double.mul, Double.neg, isNaN, isFinite, toRat, signBit, zero,
      inf, ofRat_one]
  have hr0 : Double.fin (854276554316841 / 281474976710656) * Double.fin 1
      + Double.fin 0 * Double.negZero = Double.fin (854276554316841 / 281474976710656) := by
    have ha : Double.fin (854276554316841 / 281474976710656) * Double.fin 1
        = Double.fin (854276554316841 / 281474976710656) := by
      rw [@mul_eq_ofRat (Double.fin (854276554316841 / 281474976710656)) (Double.fin 1) rfl
        rfl (by norm_num [toRat])]
      have : (Double.fin (854276554316841 / 281474976710656)).toRat * (Double.fin 1).toRat
          = 854276554316841 / 281474976710656 := by norm_num [toRat]
      rw [this, ofRat_threshold]
    have hb : Double.fin 0 * Double.negZero = Double.negZero := by
      norm_num [mul_def, Double.mul, isNaN, isFinite, toRat, signBit, zero, inf]
    rw [ha, hb, @add_eq_ofRat (Double.fin (854276554316841 / 281474976710656)) Double.negZero
      rfl rfl (by norm_num [toRat])]
    have : (Double.fin (854276554316841 / 281474976710656)).toRat + Double.negZero.toRat
        = 854276554316841 / 281474976710656 := by norm_num [toRat]
    rw [this, ofRat_threshold]
  have hq0 : Double.fin (854276554316841 / 281474976710656)
      * Double.fin (854276554316841 / 281474976710656)
      = Double.fin (5185458684703225 / 562949953421312) := by
    rw [@mul_eq_ofRat (Double.fin (854276554316841 / 281474976710656))
      (Double.fin (854276554316841 / 281474976710656)) rfl rfl (by norm_num [toRat])]
    exact ofRat_threshold_sq
  have hr1 : Double.fin (854276554316841 / 281474976710656) * Double.negZero
      + Double.fin 0 * Double.fin 1 = Double.fin 0 := by
    norm_num [mul_def, add_def, Double.mul, Double.add, isNaN, isFinite, toRat, signBit,
      zero, inf]
  have hq1 : Double.fin 0 * Double.fin 0 = Double.fin 0 := by
    norm_num [mul_def, Double.mul, isNaN, isFinite, toRat, signBit, zero, inf]
  have hquad : Double.fin (5185458684703225 / 562949953421312) + Double.fin 0
      = Double.fin (5185458684703225 / 562949953421312) := by
    rw [@add_eq_ofRat (Double.fin (5185458684703225 / 562949953421312)) (Double.fin 0) rfl rfl
      (by norm_num [toRat])]
    have : (Double.fin (5185458684703225 / 562949953421312)).toRat + (Double.fin 0).toRat
        = 5185458684703225 / 562949953421312 := by norm_num [toRat]
    rw [this, ofRat_threshold_sq_self]
  have hsqrt : Double.sqrt (Double.fin (5185458684703225 / 562949953421312))
      = Double.fin (854276554316841 / 281474976710656) := by
    show (if (5185458684703225 / 562949953421312 : ℚ) < 0 then Double.nan
      else if (5185458684703225 / 562949953421312 : ℚ) = 0 then Double.fin 0
      else Double.fin (rndSqrt (5185458684703225 / 562949953421312))) = _
    rw [if_neg (by norm_num), if_neg (by norm_num), rndSqrt_threshold_sq]
  simp only [getMahalanobisDistance, Matrix2d.inverse, sqrtExternals, hd0, hd1, hdet, hinvdet,
    h00, h01, hr0, hq0, hr1, hq1, hquad, hsqrt]

end BoundaryEvaluation

/-- C14 as stated fails at the boundary: for a tracker at (0, 0) with the identity covariance
and a measurement at (3.035, 0), the Mahalanobis distance is the `double` 3.035, equal to
the threshold, and the pair does not pass the gate. -/
theorem mahalanobisGate_boundary_binary64_counterexample :
    getMahalanobisDistance sqrtExternals
        (sampleMeasurement (3.035 : Double)
          ⟨.fin 0, .fin 0, .fin 0, .fin 1⟩).pose_with_covariance.pose.position
        ((sampleTracker (.fin 1) (.fin 0) (.fin 0) (.fin 1)).getTrackedObject
          0).pose_with_covariance.pose.position
        (getXYCovariance ((sampleTracker (.fin 1) (.fin 0) (.fin 0) (.fin 1)).getTrackedObject
          0).pose_with_covariance)
      = (3.035 : Double)
    ∧ ¬ ((3.035 : Double) < (3.035 : Double))
    ∧ mahalanobisGate sqrtExternals
        (sampleMeasurement (3.035 : Double) ⟨.fin 0, .fin 0, .fin 0, .fin 1⟩)
        ((sampleTracker (.fin 1) (.fin 0) (.fin 0) (.fin 1)).getTrackedObject 0) true
      = false := by
  have hm : getMahalanobisDistance sqrtExternals
        (sampleMeasurement (3.035 : Double)
          ⟨.fin 0, .fin 0, .fin 0, .fin 1⟩).pose_with_covariance.pose.position
        ((sampleTracker (.fin 1) (.fin 0) (.fin 0) (.fin 1)).getTrackedObject
          0).pose_with_covariance.pose.position
        (getXYCovariance ((sampleTracker (.fin 1) (.fin 0) (.fin 0) (.fin 1)).getTrackedObject
          0).pose_with_covariance)
      = (3.035 : Double) := by
    rw [mahalanobis_threshold_eq]
    have := getMahalanobisDistance_identity_threshold
    simpa [sampleMeasurement, sampleTracker, samplePose, getXYCovariance] using this
  refine ⟨hm, ?_, ?_⟩
  · rw [mahalanobis_threshold_eq, fin_lt_fin]
    norm_num
  · rw [mahalanobisGate_eq_binary64, hm, Bool.true_and, Bool.not_eq_false', decide_eq_true_eq,
      mahalanobis_threshold_eq, fin_le_fin]

end Binary64

end Autoware
